import Mathlib

/-! tinyXML serialisation engine: a shallow embedding

The development follows `includes/type_mtr.h`, `includes/type_info.h`,
`includes/bin_srl.h` and `includes/xml_srl.h`.

* A C++ static type is a term of `Ty`; the templates, which are instantiated per
  static type, become functions by recursion on `Ty`.
* A C++ object is a term of `Val`.
* The closures stored in `type_info::type_writer_bin` and its three siblings are
  lambdas of `RegisterWriter_<T>` / `RegisterReader_<T>`; such a closure is
  determined by `T`, so a table is the list of its keys and invoking
  `table[typenm]` is `type_info.writer_bin` (and siblings) at that key.  The closures call
  each other through the tables, following the registered member lists, so they
  take a recursion budget.
* Table keys are demangled type names in the source.  Demangling is one-to-one
  on types, so tables are keyed by `Ty`; `type_info.demangle` is kept for the places where
  a type name meets a user string.
* The platform is x86-64 / LP64 / little-endian / libstdc++ (`char` is signed).
* An exception or undefined behaviour ends the run: `main` has no handler.
-/

/-- One octet of a binary stream, a number in `0..255`. -/
abbrev Byte := Nat

/-- Ways in which a call does not return normally. -/
inductive Err where
  /-- Thrown `std::runtime_error("type not registered")`. -/
  | type_not_registered
  /-- Thrown `std::runtime_error("Unsupported type")`. -/
  | unsupported_type
  /-- Thrown `std::runtime_error("Unsupported or unregistered type")`. -/
  | unsupported_or_unregistered_type
  /-- Thrown `std::bad_function_call`: a table entry created by `operator[]` is an empty `std::function`. -/
  | bad_function_call
  /-- Thrown `std::invalid_argument` of `std::stoi` / `std::stod`. -/
  | invalid_argument
  /-- Thrown `std::out_of_range` of `std::stoi` / `std::stod`. -/
  | out_of_range
  /-- Thrown `std::logic_error`: a `std::string` built from a null `const char*`. -/
  | logic_error
  /-- Undefined behaviour: a null pointer is dereferenced. -/
  | null_dereference
  /-- Undefined behaviour: an array is indexed at or beyond its extent. -/
  | out_of_bounds
  /-- Undefined behaviour: a registered offset and type name designate no data member. -/
  | bad_member_access
  /-- Undefined behaviour: a pointer into a destroyed temporary is read. -/
  | dangling_pointer
  /-- The template instantiation is ill-formed, the program does not compile. -/
  | does_not_compile
  /-- The object handed to a template does not have the template's static type (impossible in C++). -/
  | ill_typed
  /-- The recursion budget of the embedding ran out. -/
  | out_of_fuel
  deriving DecidableEq, Repr

/-- The arithmetic types (`std::is_arithmetic`). -/
inductive Prim where
  | bool | char | schar | uchar | short | ushort | int | uint
  | long | ulong | llong | ullong | float | double | ldouble
  deriving DecidableEq, Repr

/-- Value of `sizeof` for an arithmetic type. -/
def Prim.size : Prim → Nat
  | .bool | .char | .schar | .uchar => 1
  | .short | .ushort => 2
  | .int | .uint | .float => 4
  | .long | .ulong | .llong | .ullong | .double => 8
  | .ldouble => 16

/-- Trait `std::is_floating_point`. -/
def Prim.is_floating_point : Prim → Bool
  | .float | .double | .ldouble => true
  | _ => false

/-- Whether the object representation is read as a two's complement signed number.
Floating-point objects are carried by their bit pattern, an unsigned number. -/
def Prim.is_signed : Prim → Bool
  | .char | .schar | .short | .int | .long | .llong => true
  | _ => false

/-- The numbers an object of the arithmetic type can hold. -/
def Prim.inRange (p : Prim) (n : Int) : Bool :=
  match p with
  | .bool => decide (0 ≤ n ∧ n ≤ 1)
  | _ =>
    if p.is_signed then decide (-(2 ^ (8 * p.size - 1) : Int) ≤ n ∧ n < 2 ^ (8 * p.size - 1))
    else decide (0 ≤ n ∧ n < 2 ^ (8 * p.size))

/-- Container templates matched by `is_sequence_container`. -/
inductive SeqK where
  | vector | deque | list
  deriving DecidableEq, Repr

/-- Container templates matched by `is_set`. -/
inductive SetK where
  | set | multiset | unordered_set
  deriving DecidableEq, Repr

/-- Container templates matched by `is_map`. -/
inductive MapK where
  | map | multimap | unordered_map
  deriving DecidableEq, Repr

/-- Templates matched by `is_container_adaptor`. -/
inductive AdaptorK where
  | queue | stack | priority_queue
  deriving DecidableEq, Repr

/-- Static C++ types, after `remove_cv` and `remove_reference`. -/
inductive Ty where
  | arith (p : Prim)
  | pointer (t : Ty)
  | unique_ptr (t : Ty)
  | array (n : Nat) (t : Ty)
  | string
  | pair (a b : Ty)
  | seq (k : SeqK) (t : Ty)
  | setc (k : SetK) (t : Ty)
  | mapc (k : MapK) (key val : Ty)
  | adaptor (k : AdaptorK) (t : Ty)
  /-- A class or struct declared by the program. -/
  | cls (name : String)
  /-- An enumeration: neither arithmetic nor a class. -/
  | enum (name : String)
  deriving DecidableEq, Repr

/-- C++ objects.  `seq` lists array slots in index order or container elements in
iteration order (for a map, its `pair`s); `obj` lists the data members of a class
instance in declaration order. -/
inductive Val where
  /-- An arithmetic object: an integer by value, a floating-point number by bit pattern. -/
  | num (n : Int)
  | str (s : String)
  /-- A null raw pointer or an empty `unique_ptr`. -/
  | null
  /-- A raw pointer or `unique_ptr` to a live object. -/
  | ptr (pointee : Val)
  | pair (first second : Val)
  | seq (xs : List Val)
  | obj (fields : List Val)
  deriving Repr

namespace my_type_traits

/-- Trait `is_pair`, type_mtr.h lines 25-30. -/
def is_pair : Ty → Bool
  | .pair _ _ => true
  | _ => false

/-- Trait `is_container`, type_mtr.h lines 33-58: `priority_queue` has no specialisation. -/
def is_container : Ty → Bool
  | .seq _ _ => true
  | .adaptor .queue _ => true
  | .adaptor .stack _ => true
  | .setc _ _ => true
  | .mapc _ _ _ => true
  | _ => false

/-- Trait `is_container_adaptor`, type_mtr.h lines 61-70. -/
def is_container_adaptor : Ty → Bool
  | .adaptor _ _ => true
  | _ => false

/-- Trait `is_sequence_container`, type_mtr.h lines 73-82. -/
def is_sequence_container : Ty → Bool
  | .seq _ _ => true
  | _ => false

/-- Trait `is_set`, type_mtr.h lines 85-94. -/
def is_set : Ty → Bool
  | .setc _ _ => true
  | _ => false

/-- Trait `is_map`, type_mtr.h lines 97-106. -/
def is_map : Ty → Bool
  | .mapc _ _ _ => true
  | _ => false

/-- Trait `is_unique_ptr`, type_mtr.h lines 109-114. -/
def is_unique_ptr : Ty → Bool
  | .unique_ptr _ => true
  | _ => false

end my_type_traits

/-- Trait `std::is_arithmetic`. -/
def Ty.is_arithmetic : Ty → Bool
  | .arith _ => true
  | _ => false

/-- Trait `std::is_floating_point`. -/
def Ty.is_floating_point : Ty → Bool
  | .arith p => p.is_floating_point
  | _ => false

/-- Trait `std::is_pointer`. -/
def Ty.is_pointer : Ty → Bool
  | .pointer _ => true
  | _ => false

/-- Trait `std::is_array`. -/
def Ty.is_array : Ty → Bool
  | .array _ _ => true
  | _ => false

/-- Test `std::is_same<T, std::string>`. -/
def Ty.is_string : Ty → Bool
  | .string => true
  | _ => false

/-- Trait `std::is_class`: the library templates are classes as well. -/
def Ty.is_class : Ty → Bool
  | .arith _ | .pointer _ | .array _ _ | .enum _ => false
  | _ => true

/-! ## Program and platform -/

/-- What the embedding takes from the program under test and from the platform:
the class declarations, the constructors, the library's floating-point text
conversions, and the values of uninitialised scalars. -/
structure Env where
  /-- Data members of a class type: byte offset and type, in declaration order. -/
  layout : Ty → List (Nat × Ty)
  /-- Value of `sizeof` for a class type. -/
  sizeof_cls : Ty → Nat
  /-- Value of `alignof` for a class type. -/
  alignof_cls : Ty → Nat
  /-- Object left by default-initialisation `T x;` of a class type. -/
  default_ctor : Ty → Val
  /-- Object made by value-initialisation `T()` of a class type. -/
  value_ctor : Ty → Val
  /-- Indeterminate content of an uninitialised local of arithmetic type. -/
  indet : Prim → Int
  /-- Library `std::to_string` on a floating-point object (given by bit pattern). -/
  to_string_fp : Prim → Int → String
  /-- Library `std::stod` followed by the conversion to the destination type (bit pattern). -/
  stod : Prim → String → Except Err Int
  /-- Comparison `operator<` where the embedding has no definition of its own:
  floating-point numbers, pointers, classes. -/
  less : Ty → Val → Val → Bool
  /-- Insertion into an unordered container (placement depends on the hash table). -/
  unordered_insert : Ty → Val → List Val → List Val

/-- Value of `alignof`. -/
def Ty.alignof (E : Env) : Ty → Nat
  | .arith p => p.size
  | .array _ t => t.alignof E
  | .pair a b => max (a.alignof E) (b.alignof E)
  | .cls n => E.alignof_cls (.cls n)
  | .enum _ => 4
  | _ => 8

/-- Round `n` up to a multiple of `a`. -/
def align_up (n a : Nat) : Nat := (n + a - 1) / a * a

/-- Value of `sizeof` (libstdc++, LP64). -/
def Ty.sizeof (E : Env) : Ty → Nat
  | .arith p => p.size
  | .pointer _ => 8
  | .unique_ptr _ => 8
  | .array n t => n * t.sizeof E
  | .string => 32
  | .pair a b =>
    align_up (align_up (a.sizeof E) (b.alignof E) + b.sizeof E) (max (a.alignof E) (b.alignof E))
  | .seq .vector _ => 24
  | .seq .deque _ => 80
  | .seq .list _ => 24
  | .setc .unordered_set _ => 56
  | .setc _ _ => 48
  | .mapc .unordered_map _ _ => 56
  | .mapc _ _ _ => 48
  | .adaptor .priority_queue _ => 32
  | .adaptor _ _ => 80
  | .cls n => E.sizeof_cls (.cls n)
  | .enum _ => 4

/-- Index, among the data members of `T`, of the member that lives at byte `offset`
and has type `typenm`: the object reached by `(char*)obj + offset` read as `typenm`. -/
def Env.member_index (E : Env) (T : Ty) (offset : Nat) (typenm : Ty) : Option Nat :=
  (E.layout T).indexOf? (offset, typenm)

/-- Object made by `T()` or `new T()` (value-initialisation). -/
def Ty.value_init (E : Env) : Ty → Val
  | .arith _ => .num 0
  | .pointer _ => .null
  | .unique_ptr _ => .null
  | .array n t => .seq (List.replicate n (t.value_init E))
  | .string => .str ""
  | .pair a b => .pair (a.value_init E) (b.value_init E)
  | .seq _ _ => .seq []
  | .setc _ _ => .seq []
  | .mapc _ _ _ => .seq []
  | .adaptor _ _ => .seq []
  | .cls n => E.value_ctor (.cls n)
  | .enum _ => .num 0

/-- Object left by `T x;` (default-initialisation).  The default constructor of
`std::pair` value-initialises both members; an uninitialised raw pointer is taken to be null. -/
def Ty.default_init (E : Env) : Ty → Val
  | .arith p => .num (E.indet p)
  | .pointer _ => .null
  | .unique_ptr _ => .null
  | .array n t => .seq (List.replicate n (t.default_init E))
  | .string => .str ""
  | .pair a b => .pair (a.value_init E) (b.value_init E)
  | .seq _ _ => .seq []
  | .setc _ _ => .seq []
  | .mapc _ _ _ => .seq []
  | .adaptor _ _ => .seq []
  | .cls n => E.default_ctor (.cls n)
  | .enum _ => .num (E.indet .int)

/-! ## Object representation of arithmetic types -/

/-- The `w` low bytes of `n`, least significant first. -/
def le_bytes : Nat → Nat → List Byte
  | 0, _ => []
  | w + 1, n => n % 256 :: le_bytes w (n / 256)

/-- The number whose little-endian bytes are given. -/
def of_le_bytes : List Byte → Nat
  | [] => 0
  | b :: bs => b + 256 * of_le_bytes bs

/-- Object representation of an arithmetic object. -/
def Prim.encode (p : Prim) (n : Int) : List Byte :=
  le_bytes p.size (n % (2 ^ (8 * p.size) : Int)).toNat

/-- Number held by an arithmetic object with the given representation. -/
def Prim.decode (p : Prim) (bs : List Byte) : Int :=
  if p.is_signed && decide (2 ^ (8 * p.size - 1) ≤ of_le_bytes bs) then
    (of_le_bytes bs : Int) - 2 ^ (8 * p.size)
  else (of_le_bytes bs : Int)

/-- Conversion of a `size_t` to `unsigned int`. -/
def to_u32 (n : Nat) : Nat := n % 2 ^ 32

/-- Conversion `(int)x` of an `unsigned int`, two's complement. -/
def u32_to_int (n : Nat) : Int :=
  if n % 2 ^ 32 < 2 ^ 31 then ((n % 2 ^ 32 : Nat) : Int) else ((n % 2 ^ 32 : Nat) : Int) - 2 ^ 32

/-- Number of rounds of `for (int i = 0; i < (int)cnt; ++i)` for an `unsigned int cnt`. -/
def int_loop_count (cnt : Nat) : Nat := (u32_to_int cnt).toNat

/-! ## Binary sink and source -/

/-- Effect of a binary writer: the bytes the call appended to the sink (also when it
threw part-way), and its outcome, the returned `unsigned int` or the failure. -/
abbrev WBin := List Byte × Except Err Nat

/-- Run `a`, then `f` on the number `a` returned; a failure of `a` ends the run. -/
def WBin.bind (a : WBin) (f : Nat → WBin) : WBin :=
  match a with
  | (bs, .ok n) => (bs ++ (f n).1, (f n).2)
  | (bs, .error e) => (bs, .error e)

/-- Loop `for (x : xs) size += w(x);` over an `unsigned int size`. -/
def write_each {α : Type} (w : α → WBin) : List α → Nat → WBin
  | [], size => ([], .ok size)
  | x :: xs, size => (w x).bind (fun n => write_each w xs (to_u32 (size + n)))

/-- A `std::ifstream`: the bytes not yet consumed, and whether no read has failed yet. -/
structure ifstream where
  data : List Byte
  good : Bool
  deriving DecidableEq, Repr

/-- Member `istream::read(buf, n)`: nothing happens on a failed stream; otherwise the
available bytes, at most `n`, are stored at the front of the buffer, and the
stream fails when fewer than `n` were available. -/
def ifstream.read (file : ifstream) (n : Nat) (buf : List Byte) : List Byte × ifstream :=
  if file.good = false then (buf, file)
  else if n ≤ file.data.length then (file.data.take n, ⟨file.data.drop n, true⟩)
  else (file.data ++ buf.drop file.data.length, ⟨[], false⟩)

/-- Read `file.read(reinterpret_cast<char*>(&obj), sizeof(T))` into an arithmetic object. -/
def ifstream.read_prim (file : ifstream) (p : Prim) (old : Int) : Int × ifstream :=
  ((p.decode (file.read p.size (p.encode old)).1), (file.read p.size (p.encode old)).2)

/-- Outcome of a binary reader: the destination after the call, the returned
`unsigned int`, and the source after the call. -/
abbrev RBin := Except Err (Val × Nat × ifstream)

/-- Loop `for (i < N) size += rd(obj[i]);` over the slots of an array. -/
def read_slots (rd : Val → ifstream → RBin) : List Val → ifstream → Nat → Except Err (List Val × Nat × ifstream)
  | [], file, size => .ok ([], size, file)
  | d :: ds, file, size =>
    match rd d file with
    | .error e => .error e
    | .ok (v, n, file1) =>
      match read_slots rd ds file1 (to_u32 (size + n)) with
      | .error e => .error e
      | .ok (vs, size1, file2) => .ok (v :: vs, size1, file2)

/-- Loop run `cnt` times: `{ T it; size += rd(it); obj.insert(it); }`, where `fresh` is the
default-initialised `it` and `ins` the container's insertion. -/
def read_count (rd : Val → ifstream → RBin) (fresh : Val) (ins : Val → List Val → List Val) :
    Nat → List Val → ifstream → Nat → Except Err (List Val × Nat × ifstream)
  | 0, obj, file, size => .ok (obj, size, file)
  | cnt + 1, obj, file, size =>
    match rd fresh file with
    | .error e => .error e
    | .ok (v, n, file1) => read_count rd fresh ins cnt (ins v obj) file1 (to_u32 (size + n))

/-! ## Containers -/

/-- Member `push_back` of a sequence container, `push` of an adaptor. -/
def push_back (x : Val) (xs : List Val) : List Val := xs ++ [x]

/-- Member `std::set::insert`: the element goes before the first element that is not
less than it, unless that element is equivalent to it. -/
def set_insert (lt : Val → Val → Bool) (x : Val) : List Val → List Val
  | [] => [x]
  | y :: ys =>
    if lt y x then y :: set_insert lt x ys
    else if lt x y then x :: y :: ys
    else y :: ys

/-- Member `std::multiset::insert`: the element goes before the first element greater than it. -/
def multiset_insert (lt : Val → Val → Bool) (x : Val) : List Val → List Val
  | [] => [x]
  | y :: ys => if lt x y then x :: y :: ys else y :: multiset_insert lt x ys

/-- Key of a map element. -/
def Val.key : Val → Val
  | .pair k _ => k
  | v => v

/-- Comparison `std::string::operator<`: lexicographic on the characters. -/
def str_less : List Char → List Char → Bool
  | _, [] => false
  | [], _ :: _ => true
  | a :: as, b :: bs => decide (a.toNat < b.toNat) || (decide (a.toNat = b.toNat) && str_less as bs)

/-- Algorithm `std::lexicographical_compare` with the element comparison `lt`. -/
def lex_less (lt : Val → Val → Bool) : List Val → List Val → Bool
  | _, [] => false
  | [], _ :: _ => true
  | a :: as, b :: bs => lt a b || (!lt b a && lex_less lt as bs)

/-- Comparison `operator<` of two objects of a type. -/
def Ty.less (E : Env) : Ty → Val → Val → Bool
  | .arith p, .num a, .num b => if p.is_floating_point then E.less (.arith p) (.num a) (.num b) else decide (a < b)
  | .enum _, .num a, .num b => decide (a < b)
  | .string, .str a, .str b => str_less a.data b.data
  | .pair s t, .pair a b, .pair c d => s.less E a c || (!s.less E c a && t.less E b d)
  | .seq _ t, .seq xs, .seq ys => lex_less (t.less E) xs ys
  | .setc _ t, .seq xs, .seq ys => lex_less (t.less E) xs ys
  | .mapc _ k v, .seq xs, .seq ys =>
    lex_less (fun x y =>
      match x, y with
      | .pair a b, .pair c d => k.less E a c || (!k.less E c a && v.less E b d)
      | x, y => E.less (.pair k v) x y) xs ys
  | T, a, b => E.less T a b

/-- Insertion `obj.insert(it)` for the templates matched by `is_set`. -/
def set_kind_insert (E : Env) (k : SetK) (t : Ty) (x : Val) (xs : List Val) : List Val :=
  match k with
  | .set => set_insert (t.less E) x xs
  | .multiset => multiset_insert (t.less E) x xs
  | .unordered_set => E.unordered_insert (.setc k t) x xs

/-- Insertion `obj.insert(pair)` for the templates matched by `is_map`: elements are
ordered by key. -/
def map_kind_insert (E : Env) (k : MapK) (key val : Ty) (x : Val) (xs : List Val) : List Val :=
  match k with
  | .map => set_insert (fun a b => key.less E a.key b.key) x xs
  | .multimap => multiset_insert (fun a b => key.less E a.key b.key) x xs
  | .unordered_map => E.unordered_insert (.mapc k key val) x xs

/-- Byte that holds a character of a `std::string`. -/
def char_byte (c : Char) : Byte := c.toNat % 256

/-- Read `file.read(&c, 1)` into a `char` that held `old`. -/
def ifstream.read_char (file : ifstream) (old : Char) : Char × ifstream :=
  (Char.ofNat ((file.read 1 [char_byte old]).1.headD 0), (file.read 1 [char_byte old]).2)

/-- Read `file.read(reinterpret_cast<char*>(&n), sizeof(unsigned int))` into an
`unsigned int` that held `old`. -/
def ifstream.read_u32 (file : ifstream) (old : Nat) : Nat × ifstream :=
  ((file.read_prim .uint old).1.toNat, (file.read_prim .uint old).2)

/-- Content of an uninitialised `char c;`. -/
def indet_char (E : Env) : Char := Char.ofNat (E.indet .char % 256).toNat

/-- Loop run `cnt` times: `{ char ch = init; file.read(&ch, 1); obj += ch; }`. -/
def read_chars (init : Char) : Nat → List Char → ifstream → List Char × ifstream
  | 0, acc, file => (acc, file)
  | cnt + 1, acc, file =>
    read_chars init cnt (acc ++ [(file.read_char init).1]) (file.read_char init).2

/-- Object with data member `i` replaced. -/
def Val.set_field : Val → Nat → Val → Val
  | .obj fs, i, v => .obj (fs.set i v)
  | o, _, _ => o

/-! ## The registry (type_info.h lines 28-56) -/

namespace type_info

/-- Struct `memberPair`: a registered member, its type name and its offset. -/
structure memberPair where
  name : String
  typenm : Ty
  offset : Nat
  deriving DecidableEq, Repr

/-- Struct `typeInfo`: the descriptor of a registered struct. -/
structure typeInfo where
  name : String
  typenm : Ty
  members : List memberPair
  deriving DecidableEq, Repr

/-- The six global tables.  An association list stands for an `unordered_map`, the
first entry of a key being the live one; a closure table is the list of its keys. -/
structure Registry where
  typeInfo_map : List (Ty × typeInfo)
  type_name_map : List (Ty × String)
  type_writer_bin : List Ty
  type_reader_bin : List Ty
  type_writer_xml : List Ty
  type_reader_xml : List Ty
  deriving DecidableEq, Repr

/-- The tables at process start. -/
def Registry.empty : Registry := ⟨[], [], [], [], [], []⟩

/-- Member list of `typeInfo_map[typenm]`; `operator[]` yields an empty descriptor for an
absent key. -/
def Registry.members (R : Registry) (T : Ty) : List memberPair :=
  match R.typeInfo_map.lookup T with
  | some i => i.members
  | none => []

/-- The object `(char*)obj + m.offset`, read with the member's registered type, and its
index among the data members of `T`. -/
def member (E : Env) (T : Ty) (obj : Val) (m : memberPair) : Except Err (Nat × Val) :=
  match E.member_index T m.offset m.typenm, obj with
  | none, _ => .error .bad_member_access
  | some i, .obj fs =>
    match fs[i]? with
    | some f => .ok (i, f)
    | none => .error .ill_typed
  | some _, _ => .error .ill_typed

/-- Body of the member loop of the binary writer lambda of a class, type_info.h lines
234-237: the member at its offset is written by the writer stored for its type. -/
def write_member (E : Env) (T : Ty) (w : Ty → Val → WBin) (o : Val) (m : memberPair) : WBin :=
  match member E T o m with
  | .error e => ([], .error e)
  | .ok (_, f) => w m.typenm f

/-- Container branches of the binary writer lambdas, type_info.h lines 189-197 and
209-218: the count, then the elements; `size` starts at `init`. -/
def write_container (w : Val → WBin) (xs : List Val) (init : Nat) : WBin :=
  WBin.bind (le_bytes 4 (to_u32 xs.length), .ok init) (fun size => write_each w xs size)

/-- Call `type_writer_bin[T](&obj, file)`: the lambdas of `RegisterWriter_`,
type_info.h lines 99-251, in the order of its `if constexpr` chain. -/
def writer_bin (E : Env) (R : Registry) : Nat → Ty → Val → WBin
  | 0, _, _ => ([], .error .out_of_fuel)
  | fuel + 1, T, obj =>
    if T ∉ R.type_writer_bin then ([], .error .bad_function_call)
    else
      match T, obj with
      | .arith p, .num n => (p.encode n, .ok p.size)
      | .unique_ptr _, .null => ([], .error .null_dereference)
      | .unique_ptr t, .ptr v => writer_bin E R fuel t v
      | .pointer _, .null => ([], .error .null_dereference)
      | .pointer t, .ptr v => writer_bin E R fuel t v
      | .array n t, .seq xs =>
        if xs.length = n then
          (write_each (writer_bin E R fuel t) xs 0).bind
            (fun _ => ([], .ok (to_u32 ((Ty.array n t).sizeof E))))
        else ([], .error .ill_typed)
      | .string, .str s =>
        (le_bytes 4 (to_u32 s.length) ++ s.data.map char_byte, .ok (to_u32 (s.length + 4)))
      | .pair a b, .pair x y =>
        (writer_bin E R fuel a x).bind (fun _ => (writer_bin E R fuel b y).bind
          (fun _ => ([], .ok (to_u32 ((Ty.pair a b).sizeof E)))))
      | .seq _ t, .seq xs =>
        write_container (writer_bin E R fuel t) xs 1
      | .setc _ t, .seq xs =>
        write_container (writer_bin E R fuel t) xs 1
      | .adaptor .queue _, _ => ([], .error .does_not_compile)
      | .adaptor .stack _, _ => ([], .error .does_not_compile)
      | .mapc _ k v, .seq xs =>
        write_container (writer_bin E R fuel (.pair k v)) xs 4
      | .enum _, _ => ([], .error .unsupported_type)
      | .cls n, o =>
        write_each (write_member E (.cls n) (writer_bin E R fuel) o) (R.members (.cls n)) 0
      | .adaptor .priority_queue t, o =>
        write_each (write_member E (.adaptor .priority_queue t) (writer_bin E R fuel) o)
          (R.members (.adaptor .priority_queue t)) 0
      | _, _ => ([], .error .ill_typed)

/-- Loop over `info.members` of a reader lambda: each member is read in place. -/
def read_members (E : Env) (T : Ty) (rd : Ty → Val → ifstream → RBin) :
    List memberPair → Val → ifstream → Nat → RBin
  | [], obj, file, size => .ok (obj, size, file)
  | m :: ms, obj, file, size =>
    match member E T obj m with
    | .error e => .error e
    | .ok (i, f) =>
      match rd m.typenm f file with
      | .error e => .error e
      | .ok (v, n, file1) => read_members E T rd ms (obj.set_field i v) file1 (to_u32 (size + n))

/-- Container branches of the binary reader lambdas, type_info.h lines 383-482: the count
is read, then `for (int i = 0; i < (int)cnt; ++i)` reads an element into a fresh local and
inserts it. -/
def read_container (rd : Val → ifstream → RBin) (fresh : Val) (ins : Val → List Val → List Val)
    (xs : List Val) (file : ifstream) : RBin :=
  match read_count rd fresh ins (int_loop_count (file.read_u32 0).1) xs (file.read_u32 0).2 4 with
  | .error e => .error e
  | .ok (ys, size, file1) => .ok (.seq ys, size, file1)

/-- Call `type_reader_bin[T](&obj, file)`: the lambdas of `RegisterReader_`,
type_info.h lines 266-509, in the order of its `if constexpr` chain. -/
def reader_bin (E : Env) (R : Registry) : Nat → Ty → Val → ifstream → RBin
  | 0, _, _, _ => .error .out_of_fuel
  | fuel + 1, T, obj, file =>
    if T ∉ R.type_reader_bin then .error .bad_function_call
    else
      match T, obj with
      | .arith p, .num old => .ok (.num (file.read_prim p old).1, p.size, (file.read_prim p old).2)
      | .unique_ptr t, _ =>
        match reader_bin E R fuel t (t.value_init E) file with
        | .error e => .error e
        | .ok (v, n, file1) => .ok (.ptr v, n, file1)
      | .pointer t, o =>
        match reader_bin E R fuel t (t.value_init E) file with
        | .error e => .error e
        | .ok (_, n, file1) => .ok (o, n, file1)
      | .array n t, .seq ds =>
        if ds.length = n then
          match read_slots (reader_bin E R fuel t) ds file 0 with
          | .error e => .error e
          | .ok (vs, _, file1) => .ok (.seq vs, to_u32 ((Ty.array n t).sizeof E), file1)
        else .error .ill_typed
      | .string, .str old =>
        .ok (.str ⟨(read_chars (indet_char E)
                (int_loop_count (file.read_u32 (to_u32 old.length)).1) []
                (file.read_u32 (to_u32 old.length)).2).1⟩,
             to_u32 ((file.read_u32 (to_u32 old.length)).1 + 4),
             (read_chars (indet_char E)
                (int_loop_count (file.read_u32 (to_u32 old.length)).1) []
                (file.read_u32 (to_u32 old.length)).2).2)
      | .pair a b, .pair x y =>
        match reader_bin E R fuel a x file with
        | .error e => .error e
        | .ok (x1, _, file1) =>
          match reader_bin E R fuel b y file1 with
          | .error e => .error e
          | .ok (y1, _, file2) => .ok (.pair x1 y1, to_u32 ((Ty.pair a b).sizeof E), file2)
      | .seq _ t, .seq xs =>
        read_container (reader_bin E R fuel t) (t.default_init E) push_back xs file
      | .adaptor _ t, .seq xs =>
        read_container (reader_bin E R fuel t) (t.default_init E) push_back xs file
      | .setc k t, .seq xs =>
        read_container (reader_bin E R fuel t) (t.default_init E) (set_kind_insert E k t) xs file
      | .mapc k key val, .seq xs =>
        read_container (reader_bin E R fuel (.pair key val)) ((Ty.pair key val).default_init E)
          (map_kind_insert E k key val) xs file
      | .enum _, _ => .error .unsupported_type
      | .cls n, o => read_members E (.cls n) (reader_bin E R fuel) (R.members (.cls n)) o file 0
      | _, _ => .error .ill_typed

end type_info

/-! ## Binary codec (bin_srl.h) -/

namespace bin_srl

/-- Pair branch of `write_bin`, bin_srl.h lines 53-57, given the writers of the two members. -/
def write_pair (wa wb : Val → WBin) : Val → WBin
  | .pair x y => (wa x).bind (fun n1 => (wb y).bind (fun n2 => ([], .ok (to_u32 (to_u32 n1 + n2)))))
  | _ => ([], .error .ill_typed)

/-- Container branch of `write_bin`, bin_srl.h lines 58-64, given the writer of an element. -/
def write_container (w : Val → WBin) (xs : List Val) : WBin :=
  WBin.bind (Prim.uint.encode (to_u32 xs.length), .ok 4) (fun size => write_each w xs (to_u32 size))

/-- Template `bin_srl::write_bin`, bin_srl.h lines 33-76. -/
def write_bin (E : Env) (R : type_info.Registry) (fuel : Nat) : Ty → Val → WBin
  | .arith p, .num n => (p.encode n, .ok p.size)
  | .pointer _, .null => ([], .error .null_dereference)
  | .pointer t, .ptr v => write_bin E R fuel t v
  | .unique_ptr _, .null => ([], .error .null_dereference)
  | .unique_ptr t, .ptr v => write_bin E R fuel t v
  | .array n t, .seq xs =>
    if xs.length = n then write_each (write_bin E R fuel t) xs 0 else ([], .error .ill_typed)
  | .string, .str s =>
    WBin.bind (Prim.uint.encode (to_u32 s.length), .ok 4) (fun size =>
      write_each (fun c => ([char_byte c], .ok 1))
        (s.data.take (int_loop_count (to_u32 s.length))) (to_u32 size))
  | .pair a b, o => write_pair (write_bin E R fuel a) (write_bin E R fuel b) o
  | .seq _ t, .seq xs => write_container (write_bin E R fuel t) xs
  | .setc _ t, .seq xs => write_container (write_bin E R fuel t) xs
  | .mapc _ k v, .seq xs =>
    write_container (write_pair (write_bin E R fuel k) (write_bin E R fuel v)) xs
  | .adaptor .queue _, _ => ([], .error .does_not_compile)
  | .adaptor .stack _, _ => ([], .error .does_not_compile)
  | .adaptor .priority_queue t, o =>
    if .adaptor .priority_queue t ∉ R.type_writer_bin then ([], .error .type_not_registered)
    else type_info.writer_bin E R fuel (.adaptor .priority_queue t) o
  | .cls n, o =>
    if .cls n ∉ R.type_writer_bin then ([], .error .type_not_registered)
    else type_info.writer_bin E R fuel (.cls n) o
  | .enum _, _ => ([], .error .unsupported_type)
  | _, _ => ([], .error .ill_typed)

/-- Pair branch of `read_bin`, bin_srl.h lines 113-117, given the readers of the two members. -/
def read_pair (ra rb : Val → ifstream → RBin) : Val → ifstream → RBin
  | .pair x y, file =>
    match ra x file with
    | .error e => .error e
    | .ok (x1, n1, file1) =>
      match rb y file1 with
      | .error e => .error e
      | .ok (y1, n2, file2) => .ok (.pair x1 y1, to_u32 (to_u32 n1 + n2), file2)
  | _, _ => .error .ill_typed

/-- Container branches of `read_bin`, bin_srl.h lines 118-155: the count is read, then
that many elements are read into a fresh local and inserted. -/
def read_container (rd : Val → ifstream → RBin) (fresh : Val) (ins : Val → List Val → List Val)
    (xs : List Val) (file : ifstream) : RBin :=
  match read_count rd fresh ins (file.read_u32 0).1 xs (file.read_u32 0).2 4 with
  | .error e => .error e
  | .ok (ys, size, file1) => .ok (.seq ys, size, file1)

/-- Template `bin_srl::read_bin`, bin_srl.h lines 85-167.  In the map branch the key and
the value are read into two locals `k`, `v`, here the two halves of one pair. -/
def read_bin (E : Env) (R : type_info.Registry) (fuel : Nat) : Ty → Val → ifstream → RBin
  | .arith p, .num old, file =>
    .ok (.num (file.read_prim p old).1, p.size, (file.read_prim p old).2)
  | .unique_ptr t, _, file =>
    match read_bin E R fuel t (t.value_init E) file with
    | .error e => .error e
    | .ok (v, n, file1) => .ok (.ptr v, n, file1)
  | .pointer t, _, file =>
    match read_bin E R fuel t (t.value_init E) file with
    | .error e => .error e
    | .ok (v, n, file1) => .ok (.ptr v, n, file1)
  | .array n t, .seq ds, file =>
    if ds.length = n then
      match read_slots (read_bin E R fuel t) ds file 0 with
      | .error e => .error e
      | .ok (vs, size, file1) => .ok (.seq vs, size, file1)
    else .error .ill_typed
  | .string, _, file =>
    .ok (.str ⟨(read_chars (Char.ofNat 0) (file.read_u32 0).1 [] (file.read_u32 0).2).1⟩,
         to_u32 (4 + (file.read_u32 0).1),
         (read_chars (Char.ofNat 0) (file.read_u32 0).1 [] (file.read_u32 0).2).2)
  | .pair a b, o, file => read_pair (read_bin E R fuel a) (read_bin E R fuel b) o file
  | .seq _ t, .seq xs, file =>
    read_container (read_bin E R fuel t) (t.default_init E) push_back xs file
  | .setc k t, .seq xs, file =>
    read_container (read_bin E R fuel t) (t.default_init E) (set_kind_insert E k t) xs file
  | .mapc k key val, .seq xs, file =>
    read_container (read_pair (read_bin E R fuel key) (read_bin E R fuel val))
      (.pair (key.default_init E) (val.default_init E)) (map_kind_insert E k key val) xs file
  | .adaptor _ t, .seq xs, file =>
    read_container (read_bin E R fuel t) (t.default_init E) push_back xs file
  | .cls n, o, file =>
    if .cls n ∉ R.type_reader_bin then .error .type_not_registered
    else type_info.reader_bin E R fuel (.cls n) o file
  | .enum _, _, _ => .error .unsupported_type
  | _, _, _ => .error .ill_typed

end bin_srl

/-! ## Text conversions of the standard library -/

/-- The decimal digit character of a number below ten. -/
def digit_char (d : Nat) : Char := Char.ofNat (48 + d)

/-- Decimal digits of `n`, most significant first; the first argument bounds the recursion. -/
def nat_digits : Nat → Nat → List Char
  | 0, _ => []
  | f + 1, n => if n < 10 then [digit_char n] else nat_digits f (n / 10) ++ [digit_char (n % 10)]

/-- Library `std::to_string` on an integer: decimal digits, with a leading minus sign
for a negative number. -/
def int_to_string (n : Int) : String :=
  if n < 0 then ⟨Char.ofNat 45 :: nat_digits (n.natAbs + 1) n.natAbs⟩
  else ⟨nat_digits (n.natAbs + 1) n.natAbs⟩

/-- Expression `std::to_string(obj)` for an arithmetic object: the integer overloads
print the value in decimal (`bool`, `char` and `short` are promoted to `int`). -/
def std_to_string (E : Env) (p : Prim) (n : Int) : String :=
  if p.is_floating_point then E.to_string_fp p n else int_to_string n

/-- Function `isspace` in the C locale. -/
def is_space (c : Char) : Bool := c.toNat = 32 || (decide (9 ≤ c.toNat) && decide (c.toNat ≤ 13))

/-- Function `isdigit`. -/
def is_digit (c : Char) : Bool := decide (48 ≤ c.toNat) && decide (c.toNat ≤ 57)

/-- Number written by a list of decimal digits. -/
def digits_value (ds : List Char) : Nat := ds.foldl (fun a c => 10 * a + (c.toNat - 48)) 0

/-- Sign and digits of the number that `strtol` finds after leading white space. -/
def split_sign : List Char → Bool × List Char
  | c :: cs => if c.toNat = 45 then (true, cs) else if c.toNat = 43 then (false, cs) else (false, c :: cs)
  | [] => (false, [])

/-- Library `std::stoi(str)`: white space is skipped, an optional sign and the longest run
of digits are converted; `invalid_argument` without a digit, `out_of_range` outside `int`. -/
def stoi (s : String) : Except Err Int :=
  if ((split_sign (s.data.dropWhile is_space)).2.takeWhile is_digit) = [] then .error .invalid_argument
  else
    if (split_sign (s.data.dropWhile is_space)).1 then
      (if (digits_value ((split_sign (s.data.dropWhile is_space)).2.takeWhile is_digit)) ≤ 2 ^ 31
       then .ok (-(digits_value ((split_sign (s.data.dropWhile is_space)).2.takeWhile is_digit) : Int))
       else .error .out_of_range)
    else
      (if (digits_value ((split_sign (s.data.dropWhile is_space)).2.takeWhile is_digit)) < 2 ^ 31
       then .ok (digits_value ((split_sign (s.data.dropWhile is_space)).2.takeWhile is_digit) : Int)
       else .error .out_of_range)

/-- Conversion of an `int` to an integer type on assignment `obj = std::stoi(...)`. -/
def Prim.of_int (p : Prim) (n : Int) : Int :=
  match p with
  | .bool => if n = 0 then 0 else 1
  | _ => p.decode (p.encode n)

/-- Member `std::string::c_str()` as the callee sees it: the characters before the first NUL. -/
def c_str (s : String) : String := ⟨s.data.takeWhile (fun c => decide (c.toNat ≠ 0))⟩

/-! ## The document tree -/

/-- A node of a tinyxml2 document: an element with attributes and children, or text. -/
inductive XMLNode where
  | element (name : String) (attrs : List (String × String)) (children : List XMLNode)
  | text (value : String)
  deriving Repr

namespace tinyxml2

/-- Modelled from the spec: the tree library's "create element" (`XMLDocument::NewElement`,
tinyxml2 is not under src/): an element with no attribute and no child. -/
def NewElement (name : String) : XMLNode := .element name [] []

/-- Modelled from the spec: the tree library's "set text" node (`XMLDocument::NewText`). -/
def NewText (text : String) : XMLNode := .text text

/-- Value of an association list with the entry of `k` replaced, or added at the end. -/
def set_attr (k v : String) : List (String × String) → List (String × String)
  | [] => [(k, v)]
  | (k1, v1) :: rest => if k1 = k then (k, v) :: rest else (k1, v1) :: set_attr k v rest

/-- Modelled from the spec: the tree library's "set attribute" (`XMLElement::SetAttribute`). -/
def SetAttribute (e : XMLNode) (name value : String) : XMLNode :=
  match e with
  | .element n attrs children => .element n (set_attr name value attrs) children
  | .text v => .text v

/-- Modelled from the spec: the tree library's "insert child" (`XMLNode::InsertEndChild`):
the child becomes the last child. -/
def InsertEndChild (parent child : XMLNode) : XMLNode :=
  match parent with
  | .element n attrs children => .element n attrs (children ++ [child])
  | .text v => .text v

/-- Children of a node. -/
def children : XMLNode → List XMLNode
  | .element _ _ cs => cs
  | .text _ => []

/-- Whether the node is an element. -/
def is_element : XMLNode → Bool
  | .element _ _ _ => true
  | .text _ => false

/-- Whether the node is an element with the given tag. -/
def has_tag (name : String) : XMLNode → Bool
  | .element n _ _ => n = name
  | .text _ => false

/-- Modelled from the spec: the tree library's child lookup by tag
(`XMLNode::FirstChildElement(name)`): the first child element with that tag, if any. -/
def FirstChildElement (e : XMLNode) (name : String) : Option XMLNode :=
  (children e).find? (has_tag name)

/-- Modelled from the spec: the tree library's "iterate siblings": the elements visited by
`for (elit = e->FirstChildElement(name); elit; elit = elit->NextSiblingElement())`, that is
the first child tagged `name` and every element after it, whatever its tag. -/
def element_run (e : XMLNode) (name : String) : List XMLNode :=
  match (children e).dropWhile (fun c => !has_tag name c) with
  | [] => []
  | c :: rest => c :: rest.filter is_element

/-- Modelled from the spec: the tree library's "get attribute" (`XMLElement::Attribute`). -/
def Attribute (e : XMLNode) (name : String) : Option String :=
  match e with
  | .element _ attrs _ => attrs.lookup name
  | .text _ => none

/-- Modelled from the spec: the tree library's "get text" (`XMLElement::GetText`): the value
of the first child when that child is a text node. -/
def GetText (e : XMLNode) : Option String :=
  match children e with
  | .text v :: _ => some v
  | _ => none

end tinyxml2

/-- Effect of a text writer: the parent element after the call (also when it threw
part-way), and its outcome. -/
abbrev WXml := XMLNode × Except Err Nat

/-- Outcome of a text reader: the destination after the call and the returned count. -/
abbrev RXml := Except Err (Val × Nat)

/-- Loop `for (x : xs) size += w(x, elem);` that adds children to `elem`. -/
def write_children {α : Type} (w : α → XMLNode → WXml) : List α → XMLNode → Nat → WXml
  | [], elem, size => (elem, .ok size)
  | x :: xs, elem, size =>
    match w x elem with
    | (elem1, .error e) => (elem1, .error e)
    | (elem1, .ok n) => write_children w xs elem1 (to_u32 (size + n))

/-- Loop of the array readers of xml_srl.h: slot `i` is read from the `i`-th visited
element while `i < N` and an element is left. -/
def read_xml_slots (rd : Val → XMLNode → RXml) : List Val → List XMLNode → Nat → Except Err (List Val × Nat)
  | [], _, size => .ok ([], size)
  | d :: ds, [], size => .ok (d :: ds, size)
  | d :: ds, c :: cs, size =>
    match rd d c with
    | .error e => .error e
    | .ok (v, n) =>
      match read_xml_slots rd ds cs (to_u32 (size + n)) with
      | .error e => .error e
      | .ok (vs, size1) => .ok (v :: vs, size1)

/-- Loop of the registered array reader, type_info.h line 335: the condition
`i < N, elit != nullptr` is a comma expression, only the element test counts, and a slot
at or beyond the extent is out of bounds. -/
def read_xml_slots_comma (rd : Val → XMLNode → RXml) : List Val → List XMLNode → Nat → Except Err (List Val × Nat)
  | ds, [], size => .ok (ds, size)
  | [], _ :: _, _ => .error .out_of_bounds
  | d :: ds, c :: cs, size =>
    match rd d c with
    | .error e => .error e
    | .ok (v, n) =>
      match read_xml_slots_comma rd ds cs (to_u32 (size + n)) with
      | .error e => .error e
      | .ok (vs, size1) => .ok (v :: vs, size1)

/-- Loop `while (elit) { T it; size += rd(it, elit); obj.insert(it); }` over the visited elements. -/
def read_xml_each (rd : Val → XMLNode → RXml) (fresh : Val) (ins : Val → List Val → List Val) :
    List XMLNode → List Val → Nat → Except Err (List Val × Nat)
  | [], obj, size => .ok (obj, size)
  | c :: cs, obj, size =>
    match rd fresh c with
    | .error e => .error e
    | .ok (v, n) => read_xml_each rd fresh ins cs (ins v obj) (to_u32 (size + n))

/-- Statement `elem = root; if (!itself) elem = root->FirstChildElement(name.c_str());`
that opens every text reader. -/
def locate (name : String) (root : Option XMLNode) (itself : Bool) : Except Err (Option XMLNode) :=
  if itself then .ok root
  else
    match root with
    | none => .error .null_dereference
    | some r => .ok (tinyxml2.FirstChildElement r (c_str name))

/-- Expression `std::stoi(elem->Attribute("val"))` converted to the integer type `p`. -/
def read_val_int (p : Prim) (elem : Option XMLNode) : RXml :=
  match elem with
  | none => .error .null_dereference
  | some e =>
    match tinyxml2.Attribute e "val" with
    | none => .error .logic_error
    | some s =>
      match stoi s with
      | .error err => .error err
      | .ok n => .ok (.num (p.of_int n), 1)

/-- Expression `std::stod(elem->Attribute("val"))` converted to the floating-point type `p`. -/
def read_val_fp (E : Env) (p : Prim) (elem : Option XMLNode) : RXml :=
  match elem with
  | none => .error .null_dereference
  | some e =>
    match tinyxml2.Attribute e "val" with
    | none => .error .logic_error
    | some s =>
      match E.stod p s with
      | .error err => .error err
      | .ok n => .ok (.num n, 1)

/-- Statement `obj = elem->GetText();`: assigning a null `const char*` to a `std::string`
is undefined. -/
def read_text (elem : Option XMLNode) : RXml :=
  match elem with
  | none => .error .null_dereference
  | some e =>
    match tinyxml2.GetText e with
    | none => .error .null_dereference
    | some s => .ok (.str s, 1)

/-- Children visited from a possibly null element. -/
def element_run_of (elem : Option XMLNode) (name : String) : Except Err (List XMLNode) :=
  match elem with
  | none => .error .null_dereference
  | some e => .ok (tinyxml2.element_run e name)

/-- Pair branch of the text writers (xml_srl.h lines 60-66, type_info.h lines 179-187),
given the writers of the two members: a node with a `first` and a `second` child. -/
def write_xml_pair (wa wb : Val → String → XMLNode → WXml) (obj : Val) (name : String)
    (root : XMLNode) : WXml :=
  match obj with
  | .pair x y =>
    match wa x "first" (tinyxml2.NewElement (c_str name)) with
    | (elem1, .error e) => (tinyxml2.InsertEndChild root elem1, .error e)
    | (elem1, .ok n1) =>
      match wb y "second" elem1 with
      | (elem2, .error e) => (tinyxml2.InsertEndChild root elem2, .error e)
      | (elem2, .ok n2) => (tinyxml2.InsertEndChild root elem2, .ok (to_u32 (to_u32 (1 + n1) + n2)))
  | _ => (root, .error .ill_typed)

/-- Array and container branches of the text writers (xml_srl.h lines 46-53 and 67-74,
type_info.h lines 146-155 and 198-229): a wrapper element and one child tagged `tag` per
element. -/
def write_wrapper (w : Val → String → XMLNode → WXml) (tag : String) (xs : List Val)
    (name : String) (root : XMLNode) : WXml :=
  (tinyxml2.InsertEndChild root
    (write_children (fun x e => w x tag e) xs (tinyxml2.NewElement (c_str name)) 1).1,
   (write_children (fun x e => w x tag e) xs (tinyxml2.NewElement (c_str name)) 1).2)

/-- Pair branch of the text readers (xml_srl.h lines 126-130, type_info.h lines 372-380),
given the readers of the two members and the located element. -/
def read_xml_pair (ra rb : Val → String → Option XMLNode → Bool → RXml) (obj : Val)
    (elem : Option XMLNode) : RXml :=
  match obj with
  | .pair x y =>
    match ra x "first" elem false with
    | .error e => .error e
    | .ok (x1, n1) =>
      match rb y "second" elem false with
      | .error e => .error e
      | .ok (y1, n2) => .ok (.pair x1 y1, to_u32 (to_u32 (1 + n1) + n2))
  | _ => .error .ill_typed

/-- Container branches of the text readers (xml_srl.h lines 131-171, type_info.h lines
396-498): the children from the first one tagged `tag` on are each read into a fresh local
and inserted. -/
def read_wrapper (rd : Val → XMLNode → RXml) (tag : String) (fresh : Val)
    (ins : Val → List Val → List Val) (xs : List Val) (elem : Option XMLNode) : RXml :=
  match element_run_of elem tag with
  | .error e => .error e
  | .ok cs =>
    match read_xml_each rd fresh ins cs xs 1 with
    | .error e => .error e
    | .ok (ys, size) => .ok (.seq ys, size)

namespace type_info

/-- Function `GetName`, type_info.h lines 81-88: the registered display name; without an
entry the function returns a pointer into a destroyed temporary. -/
def GetName (R : Registry) (T : Ty) : Except Err String :=
  match R.type_name_map.lookup T with
  | some nm => .ok (c_str nm)
  | none => .error .dangling_pointer

/-- Body of the member loop of the text writer lambda of a class, type_info.h lines
246-249: the member at its offset is written under `elem`, tagged with its name. -/
def write_xml_member (E : Env) (T : Ty) (w : Ty → Val → String → XMLNode → WXml) (o : Val)
    (m : memberPair) (elem : XMLNode) : WXml :=
  match member E T o m with
  | .error err => (elem, .error err)
  | .ok (_, f) => w m.typenm f m.name elem

/-- Call `type_writer_xml[T](&obj, name, root)`: the text lambdas of `RegisterWriter_`,
type_info.h lines 104-251. -/
def writer_xml (E : Env) (R : Registry) : Nat → Ty → Val → String → XMLNode → WXml
  | 0, _, _, _, root => (root, .error .out_of_fuel)
  | fuel + 1, T, obj, name, root =>
    if T ∉ R.type_writer_xml then (root, .error .bad_function_call)
    else
      match T, obj with
      | .arith p, .num n =>
        (tinyxml2.InsertEndChild root
          (tinyxml2.SetAttribute (tinyxml2.NewElement (c_str name)) "val" (c_str (std_to_string E p n))),
         .ok 1)
      | .unique_ptr _, .null =>
        (tinyxml2.InsertEndChild root
          (tinyxml2.SetAttribute (tinyxml2.NewElement (c_str name)) "type" "unique_ptr"),
         .error .null_dereference)
      | .unique_ptr t, .ptr v =>
        (tinyxml2.InsertEndChild root
          (writer_xml E R fuel t v "object"
            (tinyxml2.SetAttribute (tinyxml2.NewElement (c_str name)) "type" "unique_ptr")).1,
         (writer_xml E R fuel t v "object"
            (tinyxml2.SetAttribute (tinyxml2.NewElement (c_str name)) "type" "unique_ptr")).2)
      | .pointer _, .null =>
        (tinyxml2.InsertEndChild root
          (tinyxml2.SetAttribute (tinyxml2.NewElement (c_str name)) "type" "pointer"),
         .error .null_dereference)
      | .pointer t, .ptr v =>
        (tinyxml2.InsertEndChild root
          (writer_xml E R fuel t v "object"
            (tinyxml2.SetAttribute (tinyxml2.NewElement (c_str name)) "type" "pointer")).1,
         (writer_xml E R fuel t v "object"
            (tinyxml2.SetAttribute (tinyxml2.NewElement (c_str name)) "type" "pointer")).2)
      | .array n t, .seq xs =>
        if xs.length = n then
          write_wrapper (writer_xml E R fuel t) "element" xs name root
        else (root, .error .ill_typed)
      | .string, .str s =>
        (tinyxml2.InsertEndChild root
          (tinyxml2.InsertEndChild (tinyxml2.NewElement (c_str name)) (tinyxml2.NewText (c_str s))),
         .ok 1)
      | .pair a b, .pair x y =>
        write_xml_pair (writer_xml E R fuel a) (writer_xml E R fuel b) (.pair x y) name root
      | .seq _ t, .seq xs =>
        write_wrapper (writer_xml E R fuel t) "element" xs name root
      | .setc _ t, .seq xs =>
        write_wrapper (writer_xml E R fuel t) "element" xs name root
      | .adaptor .queue _, _ => (root, .error .does_not_compile)
      | .adaptor .stack _, _ => (root, .error .does_not_compile)
      | .mapc _ k v, .seq xs =>
        write_wrapper (writer_xml E R fuel (.pair k v)) "element_pair" xs name root
      | .enum _, _ => (root, .error .unsupported_type)
      | .cls n, o =>
        match GetName R (.cls n) with
        | .error e => (root, .error e)
        | .ok display =>
          (tinyxml2.InsertEndChild root
            (write_children (write_xml_member E (.cls n) (writer_xml E R fuel) o)
              (R.members (.cls n))
              (tinyxml2.SetAttribute (tinyxml2.NewElement (c_str name)) "type" display) 1).1,
           (write_children (write_xml_member E (.cls n) (writer_xml E R fuel) o)
              (R.members (.cls n))
              (tinyxml2.SetAttribute (tinyxml2.NewElement (c_str name)) "type" display) 1).2)
      | .adaptor .priority_queue t, o =>
        match GetName R (.adaptor .priority_queue t) with
        | .error e => (root, .error e)
        | .ok display =>
          (tinyxml2.InsertEndChild root
            (write_children (write_xml_member E (.adaptor .priority_queue t) (writer_xml E R fuel) o)
              (R.members (.adaptor .priority_queue t))
              (tinyxml2.SetAttribute (tinyxml2.NewElement (c_str name)) "type" display) 1).1,
           (write_children (write_xml_member E (.adaptor .priority_queue t) (writer_xml E R fuel) o)
              (R.members (.adaptor .priority_queue t))
              (tinyxml2.SetAttribute (tinyxml2.NewElement (c_str name)) "type" display) 1).2)
      | _, _ => (root, .error .ill_typed)

/-- Loop over `info.members` of the text reader lambda of a class: each member is looked
up by its name under `elem` and read in place. -/
def read_xml_members (E : Env) (T : Ty) (rd : Ty → Val → String → Option XMLNode → Bool → RXml)
    (elem : Option XMLNode) : List memberPair → Val → Nat → RXml
  | [], obj, size => .ok (obj, size)
  | m :: ms, obj, size =>
    match member E T obj m with
    | .error e => .error e
    | .ok (i, f) =>
      match rd m.typenm f m.name elem false with
      | .error e => .error e
      | .ok (v, n) => read_xml_members E T rd elem ms (obj.set_field i v) (to_u32 (size + n))

/-- Call `type_reader_xml[T](&obj, name, root, itself)`: the text lambdas of
`RegisterReader_`, type_info.h lines 272-521. -/
def reader_xml (E : Env) (R : Registry) : Nat → Ty → Val → String → Option XMLNode → Bool → RXml
  | 0, _, _, _, _, _ => .error .out_of_fuel
  | fuel + 1, T, obj, name, root, itself =>
    if T ∉ R.type_reader_xml then .error .bad_function_call
    else
      match T, obj with
      | .arith p, .num _ =>
        match locate name root itself with
        | .error e => .error e
        | .ok elem => if p.is_floating_point then read_val_fp E p elem else read_val_int p elem
      | .unique_ptr t, _ =>
        match locate name root itself with
        | .error e => .error e
        | .ok elem =>
          match reader_xml E R fuel t (t.value_init E) "object" elem false with
          | .error e => .error e
          | .ok (v, n) => .ok (.ptr v, n)
      | .pointer t, o =>
        match locate name root itself with
        | .error e => .error e
        | .ok elem =>
          match reader_xml E R fuel t (t.value_init E) "object" elem false with
          | .error e => .error e
          | .ok (_, n) => .ok (o, n)
      | .array n t, .seq ds =>
        if ds.length = n then
          match locate name root itself with
          | .error e => .error e
          | .ok elem =>
            match element_run_of elem "element" with
            | .error e => .error e
            | .ok cs =>
              match read_xml_slots_comma (fun d c => reader_xml E R fuel t d "element" (some c) true) ds cs 1 with
              | .error e => .error e
              | .ok (vs, size) => .ok (.seq vs, size)
        else .error .ill_typed
      | .string, .str _ =>
        match locate name root itself with
        | .error e => .error e
        | .ok elem => read_text elem
      | .pair a b, .pair x y =>
        match locate name root itself with
        | .error e => .error e
        | .ok elem => read_xml_pair (reader_xml E R fuel a) (reader_xml E R fuel b) (.pair x y) elem
      | .seq _ t, .seq xs =>
        match locate name root itself with
        | .error e => .error e
        | .ok elem =>
          read_wrapper (fun d c => reader_xml E R fuel t d "element" (some c) true) "element"
            (t.default_init E) push_back xs elem
      | .adaptor _ t, .seq xs =>
        match locate name root itself with
        | .error e => .error e
        | .ok elem =>
          read_wrapper (fun d c => reader_xml E R fuel t d "element" (some c) true) "element"
            (t.default_init E) push_back xs elem
      | .setc k t, .seq xs =>
        match locate name root itself with
        | .error e => .error e
        | .ok elem =>
          read_wrapper (fun d c => reader_xml E R fuel t d "element" (some c) true) "element"
            (t.default_init E) (set_kind_insert E k t) xs elem
      | .mapc k key val, .seq xs =>
        match locate name root itself with
        | .error e => .error e
        | .ok elem =>
          read_wrapper (fun d c => reader_xml E R fuel (.pair key val) d "element_pair" (some c) true) "element_pair"
            ((Ty.pair key val).default_init E) (map_kind_insert E k key val) xs elem
      | .enum _, _ => .error .unsupported_type
      | .cls n, o =>
        match locate name root itself with
        | .error e => .error e
        | .ok elem => read_xml_members E (.cls n) (reader_xml E R fuel) elem (R.members (.cls n)) o 1
      | _, _ => .error .ill_typed

end type_info

/-! ## Text codec (xml_srl.h) -/

namespace xml_srl

/-- Template `xml_srl::write_xml`, xml_srl.h lines 34-86. -/
def write_xml (E : Env) (R : type_info.Registry) (fuel : Nat) : Ty → Val → String → XMLNode → WXml
  | .arith p, .num n, name, root =>
    (tinyxml2.InsertEndChild root
      (tinyxml2.SetAttribute (tinyxml2.NewElement (c_str name)) "val" (c_str (std_to_string E p n))),
     .ok 1)
  | .pointer _, .null, name, root =>
    (tinyxml2.InsertEndChild root
      (tinyxml2.SetAttribute (tinyxml2.NewElement (c_str name)) "type" "pointer"),
     .error .null_dereference)
  | .pointer t, .ptr v, name, root =>
    (tinyxml2.InsertEndChild root
      (write_xml E R fuel t v "object"
        (tinyxml2.SetAttribute (tinyxml2.NewElement (c_str name)) "type" "pointer")).1,
     (write_xml E R fuel t v "object"
        (tinyxml2.SetAttribute (tinyxml2.NewElement (c_str name)) "type" "pointer")).2)
  | .unique_ptr _, .null, name, root =>
    (tinyxml2.InsertEndChild root
      (tinyxml2.SetAttribute (tinyxml2.NewElement (c_str name)) "type" "unique_ptr"),
     .error .null_dereference)
  | .unique_ptr t, .ptr v, name, root =>
    (tinyxml2.InsertEndChild root
      (write_xml E R fuel t v "object"
        (tinyxml2.SetAttribute (tinyxml2.NewElement (c_str name)) "type" "unique_ptr")).1,
     (write_xml E R fuel t v "object"
        (tinyxml2.SetAttribute (tinyxml2.NewElement (c_str name)) "type" "unique_ptr")).2)
  | .array n t, .seq xs, name, root =>
    if xs.length = n then write_wrapper (write_xml E R fuel t) "element" xs name root
    else (root, .error .ill_typed)
  | .string, .str s, name, root =>
    (tinyxml2.InsertEndChild root
      (tinyxml2.InsertEndChild (tinyxml2.NewElement (c_str name)) (tinyxml2.NewText (c_str s))),
     .ok 1)
  | .pair a b, o, name, root => write_xml_pair (write_xml E R fuel a) (write_xml E R fuel b) o name root
  | .seq _ t, .seq xs, name, root => write_wrapper (write_xml E R fuel t) "element" xs name root
  | .setc _ t, .seq xs, name, root => write_wrapper (write_xml E R fuel t) "element" xs name root
  | .mapc _ k v, .seq xs, name, root =>
    write_wrapper (write_xml_pair (write_xml E R fuel k) (write_xml E R fuel v)) "element" xs name root
  | .adaptor .queue _, _, _, root => (root, .error .does_not_compile)
  | .adaptor .stack _, _, _, root => (root, .error .does_not_compile)
  | .adaptor .priority_queue t, o, name, root =>
    if .adaptor .priority_queue t ∉ R.type_writer_xml then (root, .error .type_not_registered)
    else type_info.writer_xml E R fuel (.adaptor .priority_queue t) o name root
  | .cls n, o, name, root =>
    if .cls n ∉ R.type_writer_xml then (root, .error .type_not_registered)
    else type_info.writer_xml E R fuel (.cls n) o name root
  | .enum _, _, _, root => (root, .error .unsupported_type)
  | _, _, _, root => (root, .error .ill_typed)

/-- Template `xml_srl::read_xml`, xml_srl.h lines 96-183.  The element is located before
the `if constexpr` chain; the class branch hands `root` and `itself = 0` to the registered
reader. -/
def read_xml (E : Env) (R : type_info.Registry) (fuel : Nat) :
    Ty → Val → String → Option XMLNode → Bool → RXml
  | .arith p, .num _, name, root, itself =>
    match locate name root itself with
    | .error e => .error e
    | .ok elem => if p.is_floating_point then read_val_fp E p elem else read_val_int p elem
  | .unique_ptr t, _, name, root, itself =>
    match locate name root itself with
    | .error e => .error e
    | .ok elem =>
      match read_xml E R fuel t (t.value_init E) "object" elem false with
      | .error e => .error e
      | .ok (v, n) => .ok (.ptr v, n)
  | .pointer t, _, name, root, itself =>
    match locate name root itself with
    | .error e => .error e
    | .ok elem =>
      match read_xml E R fuel t (t.value_init E) "object" elem false with
      | .error e => .error e
      | .ok (v, n) => .ok (.ptr v, n)
  | .array n t, .seq ds, name, root, itself =>
    if ds.length = n then
      match locate name root itself with
      | .error e => .error e
      | .ok elem =>
        match element_run_of elem "element" with
        | .error e => .error e
        | .ok cs =>
          match read_xml_slots (fun d c => read_xml E R fuel t d "element" (some c) true) ds cs 1 with
          | .error e => .error e
          | .ok (vs, size) => .ok (.seq vs, size)
    else .error .ill_typed
  | .string, _, name, root, itself =>
    match locate name root itself with
    | .error e => .error e
    | .ok elem => read_text elem
  | .pair a b, o, name, root, itself =>
    match locate name root itself with
    | .error e => .error e
    | .ok elem => read_xml_pair (read_xml E R fuel a) (read_xml E R fuel b) o elem
  | .seq _ t, .seq xs, name, root, itself =>
    match locate name root itself with
    | .error e => .error e
    | .ok elem =>
      read_wrapper (fun d c => read_xml E R fuel t d "element" (some c) true) "element"
        (t.default_init E) push_back xs elem
  | .setc k t, .seq xs, name, root, itself =>
    match locate name root itself with
    | .error e => .error e
    | .ok elem =>
      read_wrapper (fun d c => read_xml E R fuel t d "element" (some c) true) "element"
        (t.default_init E) (set_kind_insert E k t) xs elem
  | .mapc k key val, .seq xs, name, root, itself =>
    match locate name root itself with
    | .error e => .error e
    | .ok elem =>
      read_wrapper
        (fun d c => read_xml_pair (read_xml E R fuel key) (read_xml E R fuel val) d (some c))
        "element" ((Ty.pair key val).default_init E) (map_kind_insert E k key val) xs elem
  | .adaptor _ t, .seq xs, name, root, itself =>
    match locate name root itself with
    | .error e => .error e
    | .ok elem =>
      read_wrapper (fun d c => read_xml E R fuel t d "element" (some c) true) "element"
        (t.default_init E) push_back xs elem
  | .cls n, o, name, root, itself =>
    match locate name root itself with
    | .error e => .error e
    | .ok _ =>
      if .cls n ∉ R.type_reader_xml then .error .type_not_registered
      else type_info.reader_xml E R fuel (.cls n) o name root false
  | .enum _, _, name, root, itself =>
    match locate name root itself with
    | .error e => .error e
    | .ok _ => .error .unsupported_type
  | _, _, _, _, _ => .error .ill_typed

end xml_srl

/-! ## Registration (type_info.h lines 58-604) -/

namespace type_info

/-- Name of an arithmetic type as `abi::__cxa_demangle` prints it. -/
def demangle_prim : Prim → String
  | .bool => "bool" | .char => "char" | .schar => "signed char" | .uchar => "unsigned char"
  | .short => "short" | .ushort => "unsigned short" | .int => "int" | .uint => "unsigned int"
  | .long => "long" | .ulong => "unsigned long" | .llong => "long long"
  | .ullong => "unsigned long long" | .float => "float" | .double => "double"
  | .ldouble => "long double"

/-- A pending part of a declarator while a type name is spelled: a pointer, an array
extent, or a `const` qualifier. -/
inductive Declarator where
  | pointer
  | array (n : Nat)
  | const
  deriving DecidableEq, Repr

/-- The pending declarator parts behind the spelled name, innermost first: `int* [3]`,
`int (*) [3]`, `int [2][3]`, `int* const`. -/
def declarators : List Declarator → String
  | [] => ""
  | .pointer :: ms => "*" ++ declarators ms
  | .const :: ms => " const" ++ declarators ms
  | .array n :: ms =>
    match ms with
    | [] => " [" ++ int_to_string n ++ "]"
    | .array _ :: _ => declarators ms ++ "[" ++ int_to_string n ++ "]"
    | _ :: _ => " (" ++ declarators ms ++ ") [" ++ int_to_string n ++ "]"

/-- A template-id: the arguments between angle brackets, with a blank before the closing
bracket when the last argument ends in one. -/
def template_id (name : String) (args : List String) : String :=
  name ++ "<" ++ ", ".intercalate args ++
    (if (args.getLast?.getD "").back = '>' then " >" else ">")

/-- The name of a type with pending declarator parts, as `abi::__cxa_demangle` prints it:
library templates are spelled with their default template arguments. -/
def spell : Ty → List Declarator → String
  | .arith p, ms => demangle_prim p ++ declarators ms
  | .pointer t, ms => spell t (.pointer :: ms)
  | .array n t, ms =>
    match ms with
    | .const :: rest => spell t (.const :: .array n :: rest)
    | _ => spell t (.array n :: ms)
  | .unique_ptr t, ms =>
    template_id "std::unique_ptr" [spell t [], template_id "std::default_delete" [spell t []]]
      ++ declarators ms
  | .string, ms =>
    "std::__cxx11::basic_string<char, std::char_traits<char>, std::allocator<char> >"
      ++ declarators ms
  | .pair a b, ms => template_id "std::pair" [spell a [], spell b []] ++ declarators ms
  | .seq .vector t, ms =>
    template_id "std::vector" [spell t [], template_id "std::allocator" [spell t []]]
      ++ declarators ms
  | .seq .deque t, ms =>
    template_id "std::deque" [spell t [], template_id "std::allocator" [spell t []]]
      ++ declarators ms
  | .seq .list t, ms =>
    template_id "std::__cxx11::list" [spell t [], template_id "std::allocator" [spell t []]]
      ++ declarators ms
  | .setc .set t, ms =>
    template_id "std::set"
      [spell t [], template_id "std::less" [spell t []], template_id "std::allocator" [spell t []]]
      ++ declarators ms
  | .setc .multiset t, ms =>
    template_id "std::multiset"
      [spell t [], template_id "std::less" [spell t []], template_id "std::allocator" [spell t []]]
      ++ declarators ms
  | .setc .unordered_set t, ms =>
    template_id "std::unordered_set"
      [spell t [], template_id "std::hash" [spell t []], template_id "std::equal_to" [spell t []],
        template_id "std::allocator" [spell t []]]
      ++ declarators ms
  | .mapc .map k v, ms =>
    template_id "std::map"
      [spell k [], spell v [], template_id "std::less" [spell k []],
        template_id "std::allocator" [template_id "std::pair" [spell k [.const], spell v []]]]
      ++ declarators ms
  | .mapc .multimap k v, ms =>
    template_id "std::multimap"
      [spell k [], spell v [], template_id "std::less" [spell k []],
        template_id "std::allocator" [template_id "std::pair" [spell k [.const], spell v []]]]
      ++ declarators ms
  | .mapc .unordered_map k v, ms =>
    template_id "std::unordered_map"
      [spell k [], spell v [], template_id "std::hash" [spell k []],
        template_id "std::equal_to" [spell k []],
        template_id "std::allocator" [template_id "std::pair" [spell k [.const], spell v []]]]
      ++ declarators ms
  | .adaptor .queue t, ms =>
    template_id "std::queue"
      [spell t [], template_id "std::deque" [spell t [], template_id "std::allocator" [spell t []]]]
      ++ declarators ms
  | .adaptor .stack t, ms =>
    template_id "std::stack"
      [spell t [], template_id "std::deque" [spell t [], template_id "std::allocator" [spell t []]]]
      ++ declarators ms
  | .adaptor .priority_queue t, ms =>
    template_id "std::priority_queue"
      [spell t [], template_id "std::vector" [spell t [], template_id "std::allocator" [spell t []]],
        template_id "std::less" [spell t []]]
      ++ declarators ms
  | .cls n, ms => n ++ declarators ms
  | .enum n, ms => n ++ declarators ms

/-- Function `demangle`, type_info.h lines 59-78: the demangled name of a type. -/
def demangle (T : Ty) : String := spell T []

/-- Function `RegisterWriter_`, type_info.h lines 93-255: unless a binary writer is
already stored for the type, the two writer lambdas of its branch are stored. -/
def RegisterWriter_ (R : Registry) (T : Ty) : Except Err Registry :=
  if T ∈ R.type_writer_bin then .ok R
  else
    match T with
    | .enum _ => .error .unsupported_type
    | .adaptor .queue _ => .error .does_not_compile
    | .adaptor .stack _ => .error .does_not_compile
    | _ => .ok { R with type_writer_bin := T :: R.type_writer_bin, type_writer_xml := T :: R.type_writer_xml }

/-- Function `RegisterReader_`, type_info.h lines 260-525: unless a binary reader is
already stored for the type, the two reader lambdas of its branch are stored.  In the branch
of a raw pointer, lines 307 and 314 name the dependent type `std::remove_pointer<T>::type`
inside `typeid` without `typename`, so the instantiation for a pointer type is ill-formed. -/
def RegisterReader_ (R : Registry) (T : Ty) : Except Err Registry :=
  match T with
  | .pointer _ => .error .does_not_compile
  | _ =>
    if T ∈ R.type_reader_bin then .ok R
    else
      match T with
      | .enum _ => .error .unsupported_type
      | _ => .ok { R with type_reader_bin := T :: R.type_reader_bin, type_reader_xml := T :: R.type_reader_xml }

/-- Function `RegisterBaseType_`, type_info.h lines 528-535. -/
def RegisterBaseType_ (R : Registry) (T : Ty) : Except Err Registry :=
  match RegisterWriter_ R T with
  | .error e => .error e
  | .ok R1 =>
    match RegisterReader_ R1 T with
    | .error e => .error e
    | .ok R2 =>
      if (R2.type_name_map.lookup T).isNone then
        .ok { R2 with type_name_map := (T, demangle T) :: R2.type_name_map }
      else .ok R2

/-- Function `RegisterType_`, type_info.h lines 538-576: the component types are
registered first, then the type itself; a class must be registered beforehand. -/
def RegisterType_ (R : Registry) : Ty → Except Err Registry
  | .arith p => if .arith p ∈ R.type_writer_bin then .ok R else RegisterBaseType_ R (.arith p)
  | .string => if .string ∈ R.type_writer_bin then .ok R else RegisterBaseType_ R .string
  | .pointer t =>
    if .pointer t ∈ R.type_writer_bin then .ok R
    else
      match RegisterType_ R t with
      | .error e => .error e
      | .ok R1 => RegisterBaseType_ R1 (.pointer t)
  | .unique_ptr t =>
    if .unique_ptr t ∈ R.type_writer_bin then .ok R
    else
      match RegisterType_ R t with
      | .error e => .error e
      | .ok R1 => RegisterBaseType_ R1 (.unique_ptr t)
  | .array n t =>
    if .array n t ∈ R.type_writer_bin then .ok R
    else
      match RegisterType_ R t with
      | .error e => .error e
      | .ok R1 => RegisterBaseType_ R1 (.array n t)
  | .pair a b =>
    if .pair a b ∈ R.type_writer_bin then .ok R
    else
      match RegisterType_ R a with
      | .error e => .error e
      | .ok R1 =>
        match RegisterType_ R1 b with
        | .error e => .error e
        | .ok R2 => RegisterBaseType_ R2 (.pair a b)
  | .seq k t =>
    if .seq k t ∈ R.type_writer_bin then .ok R
    else
      match RegisterType_ R t with
      | .error e => .error e
      | .ok R1 => RegisterBaseType_ R1 (.seq k t)
  | .setc k t =>
    if .setc k t ∈ R.type_writer_bin then .ok R
    else
      match RegisterType_ R t with
      | .error e => .error e
      | .ok R1 => RegisterBaseType_ R1 (.setc k t)
  | .adaptor .priority_queue t =>
    if .adaptor .priority_queue t ∈ R.type_writer_bin then .ok R
    else .error .unsupported_or_unregistered_type
  | .adaptor k t =>
    if .adaptor k t ∈ R.type_writer_bin then .ok R
    else
      match RegisterType_ R t with
      | .error e => .error e
      | .ok R1 => RegisterBaseType_ R1 (.adaptor k t)
  | .mapc k key val =>
    if .mapc k key val ∈ R.type_writer_bin then .ok R
    else if .pair key val ∈ R.type_writer_bin then RegisterBaseType_ R (.mapc k key val)
    else
      match RegisterType_ R key with
      | .error e => .error e
      | .ok R1 =>
        match RegisterType_ R1 val with
        | .error e => .error e
        | .ok R2 =>
          match RegisterBaseType_ R2 (.pair key val) with
          | .error e => .error e
          | .ok R3 => RegisterBaseType_ R3 (.mapc k key val)
  | .cls n =>
    if .cls n ∈ R.type_writer_bin then .ok R else .error .unsupported_or_unregistered_type
  | .enum n =>
    if .enum n ∈ R.type_writer_bin then .ok R else .error .unsupported_or_unregistered_type

/-- Constructor `memberPair(name, t)`, type_info.h lines 579-583: the address of the
referenced object is stored, and its type is registered. -/
def memberPair.of_ref (R : Registry) (name : String) (T : Ty) (address : Nat) :
    Except Err (Registry × memberPair) :=
  match RegisterType_ R T with
  | .error e => .error e
  | .ok R1 => .ok (R1, ⟨name, T, address⟩)

/-- Construction of the braced list `{ {name, ref}, ... }`, left to right. -/
def member_list (R : Registry) : List (String × Ty × Nat) → Except Err (Registry × List memberPair)
  | [] => .ok (R, [])
  | (name, T, address) :: rest =>
    match memberPair.of_ref R name T address with
    | .error e => .error e
    | .ok (R1, m) =>
      match member_list R1 rest with
      | .error e => .error e
      | .ok (R2, ms) => .ok (R2, m :: ms)

/-- Subtraction of two `size_t`. -/
def size_t_sub (a b : Nat) : Nat := (a % 2 ^ 64 + 2 ^ 64 - b % 2 ^ 64) % 2 ^ 64

/-- Function `RegisterStruct`, type_info.h lines 589-604, for an object `x` of type `T`
at address `address`, the member list being constructed already. -/
def RegisterStruct (R : Registry) (name : String) (T : Ty) (address : Nat)
    (members : List memberPair) : Except Err Registry :=
  if R.typeInfo_map.any (fun e => demangle e.1 = name) then .ok R
  else
    RegisterBaseType_
      { R with
        typeInfo_map :=
          (T, ⟨name, T, members.map (fun m => ⟨m.name, m.typenm, size_t_sub m.offset address⟩)⟩)
            :: R.typeInfo_map,
        type_name_map :=
          if (R.type_name_map.lookup T).isNone then (T, name) :: R.type_name_map
          else R.type_name_map }
      T

/-- The call `RegisterStruct<T>(name, x, { {n0, x.f0}, ... })` as the user writes it: the
member list is constructed, which registers the member types, then the function runs. -/
def RegisterStruct_call (R : Registry) (name : String) (T : Ty) (address : Nat)
    (fields : List (String × Ty × Nat)) : Except Err Registry :=
  match member_list R fields with
  | .error e => .error e
  | .ok (R1, members) => RegisterStruct R1 name T address members

end type_info

/-! ## Branch selection of the writers -/

/-- The condition under which the `if constexpr` chain of `write_bin` (bin_srl.h lines
35-65) and of `write_xml` (xml_srl.h lines 36-75) reaches the user-defined class branch:
every earlier test fails and `std::is_class` holds. -/
def Ty.record_kind (T : Ty) : Bool :=
  !T.is_arithmetic && !(T.is_pointer || my_type_traits.is_unique_ptr T) && !T.is_array &&
  !T.is_string && !my_type_traits.is_pair T && !my_type_traits.is_container T && T.is_class

/-- The types that reach the sequence, set or map branch of the readers. -/
def Ty.sequence_set_or_map (T : Ty) : Bool :=
  my_type_traits.is_sequence_container T || my_type_traits.is_set T || my_type_traits.is_map T

/-- The branches of the `if constexpr` chains of `write_bin` (bin_srl.h lines 35-75) and
`write_xml` (xml_srl.h lines 36-85), in source order. -/
inductive WriteBranch where
  | arithmetic | reference | array | string | pair | container | user_class | unsupported
  deriving DecidableEq, Repr

/-- The branches of the `if constexpr` chains of `read_bin` (bin_srl.h lines 87-166) and
`read_xml` (xml_srl.h lines 102-182), in source order. -/
inductive ReadBranch where
  | arithmetic | floating_point | unique_ptr | pointer | array | string | pair
  | sequence | set | map | container_adaptor | user_class | unsupported
  deriving DecidableEq, Repr

/-- The writer branch whose output a reader branch consumes: the sequence, set, map and
adaptor branches all read a count followed by the elements, which is what the container
branch of the writers emits. -/
def ReadBranch.encoding : ReadBranch → WriteBranch
  | .arithmetic => .arithmetic
  | .floating_point => .arithmetic
  | .unique_ptr => .reference
  | .pointer => .reference
  | .array => .array
  | .string => .string
  | .pair => .pair
  | .sequence => .container
  | .set => .container
  | .map => .container
  | .container_adaptor => .container
  | .user_class => .user_class
  | .unsupported => .unsupported

namespace bin_srl

/-- Branch taken by `write_bin`, bin_srl.h lines 35-75. -/
def write_branch (T : Ty) : WriteBranch :=
  if T.is_arithmetic then .arithmetic
  else if T.is_pointer || my_type_traits.is_unique_ptr T then .reference
  else if T.is_array then .array
  else if T.is_string then .string
  else if my_type_traits.is_pair T then .pair
  else if my_type_traits.is_container T then .container
  else if T.is_class then .user_class
  else .unsupported

/-- Branch taken by `read_bin`, bin_srl.h lines 87-166. -/
def read_branch (T : Ty) : ReadBranch :=
  if T.is_arithmetic then .arithmetic
  else if my_type_traits.is_unique_ptr T then .unique_ptr
  else if T.is_pointer then .pointer
  else if T.is_array then .array
  else if T.is_string then .string
  else if my_type_traits.is_pair T then .pair
  else if my_type_traits.is_sequence_container T then .sequence
  else if my_type_traits.is_set T then .set
  else if my_type_traits.is_map T then .map
  else if my_type_traits.is_container_adaptor T then .container_adaptor
  else if T.is_class then .user_class
  else .unsupported

end bin_srl

namespace xml_srl

/-- Branch taken by `write_xml`, xml_srl.h lines 36-85. -/
def write_branch (T : Ty) : WriteBranch :=
  if T.is_arithmetic then .arithmetic
  else if T.is_pointer || my_type_traits.is_unique_ptr T then .reference
  else if T.is_array then .array
  else if T.is_string then .string
  else if my_type_traits.is_pair T then .pair
  else if my_type_traits.is_container T then .container
  else if T.is_class then .user_class
  else .unsupported

/-- Branch taken by `read_xml`, xml_srl.h lines 102-182. -/
def read_branch (T : Ty) : ReadBranch :=
  if T.is_arithmetic && !T.is_floating_point then .arithmetic
  else if T.is_floating_point then .floating_point
  else if my_type_traits.is_unique_ptr T then .unique_ptr
  else if T.is_pointer then .pointer
  else if T.is_array then .array
  else if T.is_string then .string
  else if my_type_traits.is_pair T then .pair
  else if my_type_traits.is_sequence_container T then .sequence
  else if my_type_traits.is_set T then .set
  else if my_type_traits.is_map T then .map
  else if my_type_traits.is_container_adaptor T then .container_adaptor
  else if T.is_class then .user_class
  else .unsupported

end xml_srl

/-- An element without a child tagged `name`, such as the fresh `serialization` root. -/
def no_child_tagged (name : String) : XMLNode → Bool
  | .element _ _ cs => (cs.find? (tinyxml2.has_tag (c_str name))).isNone
  | .text _ => false

/-! ## Well-formed objects -/

/-- Bounds on the objects a round trip is stated for. -/
structure Limits where
  /-- The numbers admitted for an arithmetic type. -/
  arith : Prim → Int → Bool
  /-- The strings admitted. -/
  text : String → Bool
  /-- The element counts admitted for a container. -/
  count : Nat → Bool
  /-- The member-name lists admitted for a registered struct. -/
  names : List String → Bool

/-- Every character fits a `char`. -/
def byte_string (s : String) : Bool := s.data.all (fun c => decide (c.toNat < 256))

/-- No character is NUL. -/
def nul_free (s : String) : Bool := s.data.all (fun c => decide (c.toNat ≠ 0))

/-- The number fits an `int`. -/
def in_int_range (n : Int) : Bool := decide (-(2 ^ 31 : Int) ≤ n ∧ n < 2 ^ 31)

/-- Limits of the binary templates: numbers of the type, strings shorter than `2^31`,
containers with fewer than `2^32` elements. -/
def Limits.bin : Limits :=
  ⟨fun p n => p.inRange n, fun s => byte_string s && decide (s.length < 2 ^ 31),
   fun c => decide (c < 2 ^ 32), fun _ => true⟩

/-- Limits of the registered binary lambdas: strings and containers below `2^31`. -/
def Limits.bin_registered : Limits :=
  ⟨fun p n => p.inRange n, fun s => byte_string s && decide (s.length < 2 ^ 31),
   fun c => decide (c < 2 ^ 31), fun _ => true⟩

/-- Limits of the text codec: integers that fit an `int`, strings without NUL, member
names that differ as C strings. -/
def Limits.xml : Limits :=
  ⟨fun p n => !p.is_floating_point && p.inRange n && in_int_range n,
   fun s => byte_string s && nul_free s, fun _ => true,
   fun ns => decide ((ns.map c_str).Nodup)⟩

/-- Each element is less than every later one: the iteration order of a `std::set`. -/
def sorted_by (lt : Val → Val → Bool) : List Val → Bool
  | [] => true
  | x :: xs => xs.all (fun y => lt x y) && sorted_by lt xs

/-- The object `v` is a well-formed object of the class-free type `T` within the limits,
of the kinds that a round trip reproduces identically whatever the library's hash tables
do: numbers in range, arrays of the right extent, references that refer to an object,
`std::set` and `std::map` in strictly increasing (key) order.  The other templates matched
by `is_set` and `is_map` are covered by `encodable`. -/
def typed (L : Limits) (E : Env) : Ty → Val → Bool
  | .arith p, .num n => L.arith p n
  | .string, .str s => L.text s
  | .pointer t, .ptr v => typed L E t v
  | .unique_ptr t, .ptr v => typed L E t v
  | .array n t, .seq xs => decide (xs.length = n) && xs.all (typed L E t)
  | .pair a b, .pair x y => typed L E a x && typed L E b y
  | .seq _ t, .seq xs => L.count xs.length && xs.all (typed L E t)
  | .setc .set t, .seq xs =>
    L.count xs.length && xs.all (typed L E t) && sorted_by (t.less E) xs
  | .mapc .map k v, .seq xs =>
    L.count xs.length &&
    xs.all (fun x => match x with
      | .pair a b => typed L E k a && typed L E v b
      | _ => false) &&
    sorted_by (fun a b => k.less E a.key b.key) xs
  | _, _ => false

/-- The object `d` is a destination of the class-free type `T` whose containers are empty. -/
def fresh : Ty → Val → Bool
  | .arith _, .num _ => true
  | .string, _ => true
  | .pointer _, _ => true
  | .unique_ptr _, _ => true
  | .array n t, .seq ds => decide (ds.length = n) && ds.all (fresh t)
  | .pair a b, .pair x y => fresh a x && fresh b y
  | .seq _ _, .seq ds => ds.isEmpty
  | .setc _ _, .seq ds => ds.isEmpty
  | .mapc _ _ _, .seq ds => ds.isEmpty
  | _, _ => false

/-- The object `d` is an object of the class-free type `T` that a reader can decode into,
whatever its containers hold: arrays have the right extent. -/
def destination : Ty → Val → Bool
  | .arith _, .num _ => true
  | .string, _ => true
  | .pointer _, _ => true
  | .unique_ptr _, _ => true
  | .array n t, .seq ds => decide (ds.length = n) && ds.all (destination t)
  | .pair a b, .pair x y => destination a x && destination b y
  | .seq _ _, .seq _ => true
  | .setc _ _, .seq _ => true
  | .mapc _ _ _, .seq _ => true
  | _, _ => false

/-- The object `v` is an object of the static type `T`: a number for an arithmetic type or
an enumeration, an array of the right extent, a pair of two such objects, and so on; the
members of a class instance are not inspected. -/
def shaped : Ty → Val → Bool
  | .arith _, .num _ => true
  | .enum _, .num _ => true
  | .string, .str _ => true
  | .pointer _, .null => true
  | .pointer t, .ptr v => shaped t v
  | .unique_ptr _, .null => true
  | .unique_ptr t, .ptr v => shaped t v
  | .array n t, .seq xs => decide (xs.length = n) && xs.all (shaped t)
  | .pair a b, .pair x y => shaped a x && shaped b y
  | .seq _ t, .seq xs => xs.all (shaped t)
  | .setc _ t, .seq xs => xs.all (shaped t)
  | .mapc _ k v, .seq xs =>
    xs.all (fun x => match x with
      | .pair a b => shaped k a && shaped v b
      | _ => false)
  | .adaptor _ t, .seq xs => xs.all (shaped t)
  | .cls _, .obj _ => true
  | _, _ => false

namespace type_info

/-- The four closures of the type are stored. -/
def Registry.has (R : Registry) (T : Ty) : Bool :=
  decide (T ∈ R.type_writer_bin) && decide (T ∈ R.type_reader_bin) &&
  decide (T ∈ R.type_writer_xml) && decide (T ∈ R.type_reader_xml)

/-- Indices of the data members that the registered members of `T` designate. -/
def Registry.member_indices (E : Env) (R : Registry) (T : Ty) : List (Option Nat) :=
  (R.members T).map (fun m => E.member_index T m.offset m.typenm)

/-- The object `v` is a well-formed instance of the registered type `T`, to nesting depth
`n`: the closures of `T` and of every type below it are stored, the registered members of
a struct designate its data members, each exactly once, and the parts of `v` are
well-formed within the limits.  Of the sets and maps only `std::set` and `std::map` are
admitted here; `reg_encodable` admits every kind. -/
def reg_typed (L : Limits) (E : Env) (R : Registry) : Nat → Ty → Val → Bool
  | 0, _, _ => false
  | n + 1, T, v =>
    R.has T &&
    match T, v with
    | .arith p, .num x => L.arith p x
    | .string, .str s => L.text s
    | .unique_ptr t, .ptr x => reg_typed L E R n t x
    | .array k t, .seq xs => decide (xs.length = k) && xs.all (reg_typed L E R n t)
    | .pair a b, .pair x y => reg_typed L E R n a x && reg_typed L E R n b y
    | .seq _ t, .seq xs => L.count xs.length && xs.all (reg_typed L E R n t)
    | .setc .set t, .seq xs =>
      L.count xs.length && xs.all (reg_typed L E R n t) && sorted_by (t.less E) xs
    | .mapc .map k val, .seq xs =>
      L.count xs.length && xs.all (reg_typed L E R n (.pair k val)) &&
      sorted_by (fun a b => k.less E a.key b.key) xs
    | .cls c, .obj fs =>
      decide (fs.length = (E.layout (.cls c)).length) &&
      (R.typeInfo_map.lookup (.cls c)).isSome &&
      (R.type_name_map.lookup (.cls c)).isSome &&
      L.names ((R.members (.cls c)).map (fun m => m.name)) &&
      decide ((R.member_indices E (.cls c)).Nodup) &&
      (List.range fs.length).all (fun i => decide (some i ∈ R.member_indices E (.cls c))) &&
      (R.members (.cls c)).all (fun m =>
        match E.member_index (.cls c) m.offset m.typenm with
        | none => false
        | some i =>
          match fs[i]? with
          | none => false
          | some f => reg_typed L E R n m.typenm f)
    | _, _ => false

/-- The object `d` is a destination of the registered type `T` whose containers are
empty, as a default-constructed instance is (to nesting depth `n`). -/
def reg_fresh (E : Env) (R : Registry) : Nat → Ty → Val → Bool
  | 0, _, _ => false
  | n + 1, T, d =>
    match T, d with
    | .arith _, .num _ => true
    | .string, .str _ => true
    | .unique_ptr _, _ => true
    | .array k t, .seq ds => decide (ds.length = k) && ds.all (reg_fresh E R n t)
    | .pair a b, .pair x y => reg_fresh E R n a x && reg_fresh E R n b y
    | .seq _ _, .seq ds => ds.isEmpty
    | .setc _ _, .seq ds => ds.isEmpty
    | .mapc _ _ _, .seq ds => ds.isEmpty
    | .cls c, .obj ds =>
      decide (ds.length = (E.layout (.cls c)).length) &&
      (R.members (.cls c)).all (fun m =>
        match E.member_index (.cls c) m.offset m.typenm with
        | none => false
        | some i =>
          match ds[i]? with
          | none => false
          | some f => reg_fresh E R n m.typenm f)
    | _, _ => false

/-- The object `d` is an object of the registered type `T` that a reader can decode into,
whatever its containers hold (to nesting depth `n`). -/
def reg_destination (E : Env) (R : Registry) : Nat → Ty → Val → Bool
  | 0, _, _ => false
  | n + 1, T, d =>
    match T, d with
    | .arith _, .num _ => true
    | .string, .str _ => true
    | .unique_ptr _, _ => true
    | .array k t, .seq ds => decide (ds.length = k) && ds.all (reg_destination E R n t)
    | .pair a b, .pair x y => reg_destination E R n a x && reg_destination E R n b y
    | .seq _ _, .seq _ => true
    | .setc _ _, .seq _ => true
    | .mapc _ _ _, .seq _ => true
    | .cls c, .obj ds =>
      decide (ds.length = (E.layout (.cls c)).length) &&
      (R.members (.cls c)).all (fun m =>
        match E.member_index (.cls c) m.offset m.typenm with
        | none => false
        | some i =>
          match ds[i]? with
          | none => false
          | some f => reg_destination E R n m.typenm f)
    | _, _ => false

/-- The constructors of the registered structs leave every container empty: the objects
made by `T x;` and by `T()` are destinations in the sense of `reg_fresh`. -/
def ctors_fresh (E : Env) (R : Registry) (k : Nat) : Bool :=
  R.typeInfo_map.all (fun e =>
    reg_fresh E R k e.1 (E.default_ctor e.1) && reg_fresh E R k e.1 (E.value_ctor e.1))

/-- The object `v` is an object of the built-in type `T` (to nesting depth `n`) that the
stored binary writers accept: a writer is stored for `T` and for every type below it,
references refer to an object, arrays have the right extent, and strings and containers are
shorter than `2^31`. -/
def writable (R : Registry) : Nat → Ty → Val → Bool
  | 0, _, _ => false
  | n + 1, T, v =>
    decide (T ∈ R.type_writer_bin) &&
    match T, v with
    | .arith _, .num _ => true
    | .string, .str s => decide (s.length < 2 ^ 31)
    | .pointer t, .ptr x => writable R n t x
    | .unique_ptr t, .ptr x => writable R n t x
    | .array k t, .seq xs => decide (xs.length = k) && xs.all (writable R n t)
    | .pair a b, .pair x y => writable R n a x && writable R n b y
    | .seq _ t, .seq xs => decide (xs.length < 2 ^ 31) && xs.all (writable R n t)
    | .setc _ t, .seq xs => decide (xs.length < 2 ^ 31) && xs.all (writable R n t)
    | .mapc _ k val, .seq xs =>
      decide (xs.length < 2 ^ 31) && xs.all (writable R n (.pair k val))
    | _, _ => false

/-- The type names under which the closures stored for `T` look up a closure, read off the
lambdas of `RegisterWriter_` and `RegisterReader_`: the pointee, the element type, the two
member types of a pair, the pair type of a map, the member types of the descriptor of a
class.  For `std::priority_queue` the writers are those of a class and the readers those
of an adaptor. -/
def Registry.lookups (R : Registry) : Ty → List Ty
  | .arith _ => []
  | .string => []
  | .pointer t => [t]
  | .unique_ptr t => [t]
  | .array _ t => [t]
  | .pair a b => [a, b]
  | .seq _ t => [t]
  | .setc _ t => [t]
  | .mapc _ k v => [.pair k v]
  | .adaptor .priority_queue t =>
    t :: (R.members (.adaptor .priority_queue t)).map (fun m => m.typenm)
  | .adaptor _ t => [t]
  | .cls c => (R.members (.cls c)).map (fun m => m.typenm)
  | .enum _ => []

/-- The tables are closed: a type with a closure in one of the four closure tables has one
in each of them and a display name, every type that its closures look up has the four
closures as well, and so has the type of every member of every descriptor. -/
def Registry.closed (R : Registry) : Bool :=
  (R.type_writer_bin ++ R.type_reader_bin ++ R.type_writer_xml ++ R.type_reader_xml).all
    (fun T => R.has T && (R.lookups T).all R.has && (R.type_name_map.lookup T).isSome) &&
  R.typeInfo_map.all (fun e => e.2.members.all (fun m => R.has m.typenm))

/-- One call `RegisterStruct<T>(name, x, { {n0, x.f0}, ... })` of a program: the display
name, the type and the address of the sample `x`, and for each entry of the braced list its
name and the type and address of the object it refers to. -/
structure Call where
  name : String
  T : Ty
  address : Nat
  fields : List (String × Ty × Nat)

/-- The tables after the program made the calls in order, each returning normally. -/
def register_all (R : Registry) : List Call → Except Err Registry
  | [] => .ok R
  | c :: cs =>
    match RegisterStruct_call R c.name c.T c.address c.fields with
    | .error e => .error e
    | .ok R1 => register_all R1 cs

/-- The call registers a class or struct declared by the program, not a library template
or a built-in type. -/
def Call.declared_class (c : Call) : Bool :=
  match c.T with
  | .cls _ => true
  | _ => false

end type_info

/-! ## Objects of every container kind -/

mutual
/-- Structural equality of two objects. -/
def Val.beq : Val → Val → Bool
  | .num a, .num b => decide (a = b)
  | .str a, .str b => decide (a = b)
  | .null, .null => true
  | .ptr a, .ptr b => Val.beq a b
  | .pair a b, .pair c d => Val.beq a c && Val.beq b d
  | .seq xs, .seq ys => Val.beq_list xs ys
  | .obj xs, .obj ys => Val.beq_list xs ys
  | _, _ => false
/-- Structural equality of two lists of objects. -/
def Val.beq_list : List Val → List Val → Bool
  | [], [] => true
  | x :: xs, y :: ys => Val.beq x y && Val.beq_list xs ys
  | _, _ => false
end

/-- No two objects of the list are equal: what an unordered container with unique keys holds. -/
def distinct : List Val → Bool
  | [] => true
  | x :: xs => xs.all (fun y => !Val.beq y x) && distinct xs

/-- No element is less than an earlier one: the iteration order of a `std::multiset`. -/
def sorted_multi (lt : Val → Val → Bool) : List Val → Bool
  | [] => true
  | x :: xs => xs.all (fun y => !lt y x) && sorted_multi lt xs

/-- The elements are in the order in which the container of kind `k` iterates over them:
strictly increasing for `std::set`, non-decreasing for `std::multiset`, any order without
a repeated element for `std::unordered_set`. -/
def set_order (E : Env) (k : SetK) (t : Ty) (xs : List Val) : Bool :=
  match k with
  | .set => sorted_by (t.less E) xs
  | .multiset => sorted_multi (t.less E) xs
  | .unordered_set => distinct xs

/-- The entries are in the order in which the map of kind `k` iterates over them: keys
strictly increasing for `std::map`, non-decreasing for `std::multimap`, any order without
a repeated key for `std::unordered_map`. -/
def map_order (E : Env) (k : MapK) (key : Ty) (xs : List Val) : Bool :=
  match k with
  | .map => sorted_by (fun a b => key.less E a.key b.key) xs
  | .multimap => sorted_multi (fun a b => key.less E a.key b.key) xs
  | .unordered_map => distinct (xs.map Val.key)

mutual
/-- The object `v` of type `T` holds no unordered container, at any depth: the order of
everything in it is fixed by the object. -/
def ordered_only (E : Env) : Ty → Val → Bool
  | T, .ptr x =>
    match T with
    | .pointer t => ordered_only E t x
    | .unique_ptr t => ordered_only E t x
    | _ => true
  | T, .pair x y =>
    match T with
    | .pair a b => ordered_only E a x && ordered_only E b y
    | _ => true
  | T, .seq xs =>
    match T with
    | .array _ t => ordered_only_all E t xs
    | .seq _ t => ordered_only_all E t xs
    | .setc .unordered_set _ => false
    | .setc _ t => ordered_only_all E t xs
    | .mapc .unordered_map _ _ => false
    | .mapc _ k v => ordered_only_all E (.pair k v) xs
    | .adaptor _ t => ordered_only_all E t xs
    | _ => true
  | T, .obj fs =>
    match T with
    | .cls c => ordered_only_fields E ((E.layout (.cls c)).map (fun e => e.2)) fs
    | _ => true
  | _, _ => true
/-- Each object of the list, of type `t`, holds no unordered container. -/
def ordered_only_all (E : Env) (t : Ty) : List Val → Bool
  | [] => true
  | x :: xs => ordered_only E t x && ordered_only_all E t xs
/-- Each data member, of the type at its position, holds no unordered container. -/
def ordered_only_fields (E : Env) : List Ty → List Val → Bool
  | _, [] => true
  | ts, x :: xs =>
    match ts with
    | t :: ts1 => ordered_only E t x && ordered_only_fields E ts1 xs
    | [] => false
end

mutual
/-- The objects `v` and `w` of type `T` are equal as `operator==` compares them: part by
part, the elements of a sequence, an array, a `std::set`, a `std::map` and their multi
forms in order, those of an unordered container in any order. -/
def same_object (E : Env) : Ty → Val → Val → Prop
  | T, .ptr x, w =>
    match T, w with
    | .pointer t, .ptr y => same_object E t x y
    | .unique_ptr t, .ptr y => same_object E t x y
    | _, _ => Val.ptr x = w
  | T, .pair x y, w =>
    match T, w with
    | .pair a b, .pair x1 y1 => same_object E a x x1 ∧ same_object E b y y1
    | _, _ => Val.pair x y = w
  | T, .seq xs, w =>
    match T, w with
    | .array _ t, .seq ys => same_objects E t xs ys
    | .seq _ t, .seq ys => same_objects E t xs ys
    | .setc .unordered_set t, .seq ys => ∃ zs, same_objects E t xs zs ∧ zs.Perm ys
    | .setc _ t, .seq ys => same_objects E t xs ys
    | .mapc .unordered_map k v, .seq ys => ∃ zs, same_objects E (.pair k v) xs zs ∧ zs.Perm ys
    | .mapc _ k v, .seq ys => same_objects E (.pair k v) xs ys
    | .adaptor _ t, .seq ys => same_objects E t xs ys
    | _, _ => Val.seq xs = w
  | T, .obj fs, w =>
    match T, w with
    | .cls c, .obj gs => same_fields E ((E.layout (.cls c)).map (fun e => e.2)) fs gs
    | _, _ => Val.obj fs = w
  | _, v, w => v = w
/-- The two lists hold equal objects of type `t`, position by position. -/
def same_objects (E : Env) (t : Ty) : List Val → List Val → Prop
  | [], ys => ys = []
  | x :: xs, ys =>
    match ys with
    | y :: ys1 => same_object E t x y ∧ same_objects E t xs ys1
    | [] => False
/-- The two lists of data members hold equal objects, each of the type at its position. -/
def same_fields (E : Env) : List Ty → List Val → List Val → Prop
  | _, [], gs => gs = []
  | ts, x :: xs, gs =>
    match ts, gs with
    | t :: ts1, y :: ys1 => same_object E t x y ∧ same_fields E ts1 xs ys1
    | _, _ => False
end

/-- Member `insert` of the unordered containers adds the element, at a place of its own
choosing, when the container holds no equal element (no entry with an equal key). -/
def Env.unordered_sound (E : Env) : Prop :=
  (∀ (t : Ty) (x : Val) (xs : List Val), (∀ y ∈ xs, y ≠ x) →
    (E.unordered_insert (.setc .unordered_set t) x xs).Perm (x :: xs)) ∧
  (∀ (a b : Ty) (x : Val) (xs : List Val), (∀ y ∈ xs, y.key ≠ x.key) →
    (E.unordered_insert (.mapc .unordered_map a b) x xs).Perm (x :: xs))

/-- The object `v` is a well-formed object of the class-free type `T` within the limits:
numbers in range, arrays of the right extent, references that refer to an object, and
sets and maps of every kind matched by `is_set` and `is_map`, their elements in iteration
order and their keys free of unordered containers. -/
def encodable (L : Limits) (E : Env) : Ty → Val → Bool
  | .arith p, .num n => L.arith p n
  | .string, .str s => L.text s
  | .pointer t, .ptr v => encodable L E t v
  | .unique_ptr t, .ptr v => encodable L E t v
  | .array n t, .seq xs => decide (xs.length = n) && xs.all (encodable L E t)
  | .pair a b, .pair x y => encodable L E a x && encodable L E b y
  | .seq _ t, .seq xs => L.count xs.length && xs.all (encodable L E t)
  | .setc k t, .seq xs =>
    L.count xs.length && xs.all (encodable L E t) && xs.all (ordered_only E t) &&
    set_order E k t xs
  | .mapc k a b, .seq xs =>
    L.count xs.length &&
    xs.all (fun x => match x with
      | .pair p q => encodable L E a p && encodable L E b q && ordered_only E a p
      | _ => false) &&
    map_order E k a xs
  | _, _ => false

/-- Limits of the node count of the text codec: integers that fit an `int`,
floating-point numbers whose printed form `std::stod` accepts, any string, member names
that differ as C strings. -/
def Limits.xml_count (E : Env) : Limits :=
  ⟨fun p n => p.inRange n &&
      (if p.is_floating_point then
        (match E.stod p (c_str (E.to_string_fp p n)) with
          | .ok _ => true
          | .error _ => false)
       else in_int_range n),
   fun _ => true, fun _ => true,
   fun ns => decide ((ns.map c_str).Nodup)⟩

namespace type_info

/-- The object `v` is a well-formed instance of the registered type `T`, to nesting depth
`n`, with sets and maps of every kind matched by `is_set` and `is_map`: the closures of
`T` and of every type below it are stored, the registered members of a struct designate
its data members, each exactly once, and the parts of `v` are well-formed within the
limits. -/
def reg_encodable (L : Limits) (E : Env) (R : Registry) : Nat → Ty → Val → Bool
  | 0, _, _ => false
  | n + 1, T, v =>
    R.has T &&
    match T, v with
    | .arith p, .num x => L.arith p x
    | .string, .str s => L.text s
    | .unique_ptr t, .ptr x => reg_encodable L E R n t x
    | .array k t, .seq xs => decide (xs.length = k) && xs.all (reg_encodable L E R n t)
    | .pair a b, .pair x y => reg_encodable L E R n a x && reg_encodable L E R n b y
    | .seq _ t, .seq xs => L.count xs.length && xs.all (reg_encodable L E R n t)
    | .setc k t, .seq xs =>
      L.count xs.length && xs.all (reg_encodable L E R n t) && xs.all (ordered_only E t) &&
      set_order E k t xs
    | .mapc k key val, .seq xs =>
      L.count xs.length && xs.all (reg_encodable L E R n (.pair key val)) &&
      xs.all (fun x => ordered_only E key x.key) && map_order E k key xs
    | .cls c, .obj fs =>
      decide (fs.length = (E.layout (.cls c)).length) &&
      (R.typeInfo_map.lookup (.cls c)).isSome &&
      (R.type_name_map.lookup (.cls c)).isSome &&
      L.names ((R.members (.cls c)).map (fun m => m.name)) &&
      decide ((R.member_indices E (.cls c)).Nodup) &&
      (List.range fs.length).all (fun i => decide (some i ∈ R.member_indices E (.cls c))) &&
      (R.members (.cls c)).all (fun m =>
        match E.member_index (.cls c) m.offset m.typenm with
        | none => false
        | some i =>
          match fs[i]? with
          | none => false
          | some f => reg_encodable L E R n m.typenm f)
    | _, _ => false

end type_info

/-! ## Round-trip statements -/

/-- The binary writer outcome `w` and the reader `rd` agree on the object `x`: the writer
returns normally, and on a good source that starts with the bytes it appended the reader
yields `x` and leaves exactly what follows those bytes. -/
def bin_round_trip (w : WBin) (rd : ifstream → RBin) (x : Val) : Prop :=
  ∃ bs n, w = (bs, .ok n) ∧
    ∀ rest, ∃ m, rd (ifstream.mk (bs ++ rest) true) = .ok (x, m, ifstream.mk rest true)

/-- The text writer `w` and the reader `rd` agree on the object `x`: under any parent and
for any tag the writer appends one element with that tag and returns normally, and the
reader, given that element itself, yields `x`. -/
def xml_round_trip (w : String → XMLNode → WXml) (rd : String → Option XMLNode → Bool → RXml)
    (x : Val) : Prop :=
  ∀ name, ∃ node n m, tinyxml2.has_tag (c_str name) node = true ∧
    (∀ root, w name root = (tinyxml2.InsertEndChild root node, .ok n)) ∧
    (∀ nm, rd nm (some node) true = .ok (x, m))

mutual
/-- Number of element nodes in the subtree of a node, the node itself included. -/
def XMLNode.element_count : XMLNode → Nat
  | .element _ _ cs => 1 + XMLNode.element_count_list cs
  | .text _ => 0
/-- Number of element nodes in the subtrees of a list of nodes. -/
def XMLNode.element_count_list : List XMLNode → Nat
  | [] => 0
  | c :: cs => c.element_count + XMLNode.element_count_list cs
end

mutual
/-- Number of raw and owning references that refer to an object, in an object and the
objects it holds: each is written as a wrapper element around its pointee. -/
def Val.reference_count : Val → Nat
  | .ptr v => 1 + v.reference_count
  | .pair a b => a.reference_count + b.reference_count
  | .seq xs => Val.reference_count_list xs
  | .obj fs => Val.reference_count_list fs
  | _ => 0
/-- Number of such references in a list of objects. -/
def Val.reference_count_list : List Val → Nat
  | [] => 0
  | x :: xs => x.reference_count + Val.reference_count_list xs
end

/-- The binary writer outcome `w` and the reader `rd` agree up to `P`: the writer returns
normally, and on a good source that starts with the bytes it appended the reader yields
an object that satisfies `P` and leaves exactly what follows those bytes. -/
def bin_decoded (w : WBin) (rd : ifstream → RBin) (P : Val → Prop) : Prop :=
  ∃ bs n, w = (bs, .ok n) ∧
    ∀ rest, ∃ y m, rd (ifstream.mk (bs ++ rest) true) = .ok (y, m, ifstream.mk rest true) ∧ P y

/-- The text writer `w` and the reader `rd` agree up to `P` and on the count: under any
parent and for any tag the writer appends one element with that tag and returns a number,
the reader, given that element itself, yields an object that satisfies `P` and returns the
same number, and unless the appended subtree has `2^32` element nodes or more that number
plus `refs` is the number of element nodes appended. -/
def xml_decoded (w : String → XMLNode → WXml) (rd : String → Option XMLNode → Bool → RXml)
    (P : Val → Prop) (refs : Nat) : Prop :=
  ∀ name, ∃ node n y, tinyxml2.has_tag (c_str name) node = true ∧
    (∀ root, w name root = (tinyxml2.InsertEndChild root node, .ok n)) ∧
    (∀ nm, rd nm (some node) true = .ok (y, n)) ∧ P y ∧
    (node.element_count < 2 ^ 32 → n + refs = node.element_count)

/-! ## The test program (main.cpp) -/

namespace main_cpp

/-- Struct `A` of main.cpp lines 18-27. -/
def A : Ty := .cls "A"

/-- Data members of `A` with their offsets (libstdc++, LP64). -/
def A_layout : List (Nat × Ty) :=
  [(0, .arith .int), (8, .arith .double), (16, .string), (48, .seq .vector (.arith .int)),
   (72, .mapc .map .string (.arith .int)), (120, .setc .set (.arith .int)),
   (168, .array 20 (.arith .char)), (192, .unique_ptr (.arith .int))]

/-- A struct with the members of `A` other than the `double`. -/
def B : Ty := .cls "B"

/-- Data members of `B` with their offsets. -/
def B_layout : List (Nat × Ty) :=
  [(0, .arith .int), (8, .string), (40, .seq .vector (.arith .int)),
   (64, .mapc .map .string (.arith .int)), (112, .setc .set (.arith .int)),
   (160, .array 20 (.arith .char)), (184, .unique_ptr (.arith .int))]

/-- A struct with one `std::string` member. -/
def S : Ty := .cls "S"

/-- Data members of `S`. -/
def S_layout : List (Nat × Ty) := [(0, .string)]

/-- The `double` 3.14159 by bit pattern. -/
def pi_bits : Int := 4614256650576692846

/-- The program and platform of the tests: the three structs with implicit constructors
(`T x;` leaves scalars indeterminate, here 7; `T()` zeroes them), `std::to_string` and
`std::stod` as they act on the `double` 3.14159 that `setStruct` stores (printed as
`3.141590`, which reads back as the same `double`) and on zero, and stand-ins for the
library parts that the claims do not depend on. -/
def E : Env :=
  { layout := fun T => if T = A then A_layout else if T = B then B_layout
      else if T = S then S_layout else [],
    sizeof_cls := fun T => if T = A then 200 else if T = B then 192 else 32,
    alignof_cls := fun _ => 8,
    default_ctor := fun T =>
      if T = A then
        .obj [.num 7, .num 7, .str "", .seq [], .seq [], .seq [], .seq (List.replicate 20 (.num 7)), .null]
      else if T = B then
        .obj [.num 7, .str "", .seq [], .seq [], .seq [], .seq (List.replicate 20 (.num 7)), .null]
      else .obj [.str ""],
    value_ctor := fun T =>
      if T = A then
        .obj [.num 0, .num 0, .str "", .seq [], .seq [], .seq [], .seq (List.replicate 20 (.num 0)), .null]
      else if T = B then
        .obj [.num 0, .str "", .seq [], .seq [], .seq [], .seq (List.replicate 20 (.num 0)), .null]
      else .obj [.str ""],
    indet := fun _ => 7,
    to_string_fp := fun p n => if p = .double ∧ n = pi_bits then "3.141590" else "0.000000",
    stod := fun p s => if p = .double ∧ s = "3.141590" then .ok pi_bits else .ok 0,
    less := fun _ _ _ => false,
    unordered_insert := fun _ x xs => x :: xs }

/-- The braced member list of a `RegisterStruct` call that names every data member, for an
object at address `address`. -/
def fields_of (names : List String) (layout : List (Nat × Ty)) (address : Nat) :
    List (String × Ty × Nat) :=
  (names.zip layout).map (fun nl => (nl.1, nl.2.2, address + nl.2.1))

/-- The tables after `RegisterStruct<A>("A", a, {{"a", a.a}, ..., {"h", a.h}})` of main.cpp
lines 217-226, and the like calls for `B` and `S`, from the empty tables. -/
def R : type_info.Registry :=
  match type_info.RegisterStruct_call type_info.Registry.empty "A" A 4096
      (fields_of ["a", "b", "c", "d", "e", "f", "g", "h"] A_layout 4096) with
  | .error _ => type_info.Registry.empty
  | .ok R1 =>
    match type_info.RegisterStruct_call R1 "B" B 8192
        (fields_of ["a", "c", "d", "e", "f", "g", "h"] B_layout 8192) with
    | .error _ => type_info.Registry.empty
    | .ok R2 =>
      match type_info.RegisterStruct_call R2 "S" S 12288 (fields_of ["s"] S_layout 12288) with
      | .error _ => type_info.Registry.empty
      | .ok R3 => R3

/-- The three `RegisterStruct` calls that lead to `R`, in order. -/
def calls : List type_info.Call :=
  [⟨"A", A, 4096, fields_of ["a", "b", "c", "d", "e", "f", "g", "h"] A_layout 4096⟩,
   ⟨"B", B, 8192, fields_of ["a", "c", "d", "e", "f", "g", "h"] B_layout 8192⟩,
   ⟨"S", S, 12288, fields_of ["s"] S_layout 12288⟩]

/-- An instance of `A` shaped as `setStruct` of main.cpp lines 34-51 fills it: the same
`a`, `b`, `c` and `h`, and shorter containers with fixed elements in place of the random
ones. -/
def a : Val :=
  .obj [.num 42, .num pi_bits, .str "Hello world!", .seq [.num 83, .num 86, .num 77],
    .seq [.pair (.str "100") (.num 0), .pair (.str "101") (.num 1)], .seq [.num 3, .num 25],
    .seq ((List.range 20).map (fun i => .num (97 + i))), .ptr (.num 10086)]

/-- The same instance without the `double`, of type `B`. -/
def b : Val :=
  .obj [.num 42, .str "Hello world!", .seq [.num 83, .num 86, .num 77],
    .seq [.pair (.str "100") (.num 0), .pair (.str "101") (.num 1)], .seq [.num 3, .num 25],
    .seq ((List.range 20).map (fun i => .num (97 + i))), .ptr (.num 10086)]

/-- The map of Scenario B (main.cpp lines 167-172), in iteration order. -/
def m : Val := .seq [.pair (.str "deux") (.num 2), .pair (.str "un") (.num 1)]

/-- The map type `std::map<std::string, int>`. -/
def map_string_int : Ty := .mapc .map .string (.arith .int)

/-- The fresh root element `serialization` that `xml_srl::serialize` creates. -/
def root : XMLNode := tinyxml2.NewElement "serialization"

/-- The string `a`, NUL, `b`. -/
def a_nul_b : String := ⟨[Char.ofNat 97, Char.ofNat 0, Char.ofNat 98]⟩

/-- The wrapper element of an array document that stores the four elements 1, 2, 3, 4. -/
def four_elements : XMLNode :=
  .element "array" []
    [.element "element" [("val", "1")] [], .element "element" [("val", "2")] [],
     .element "element" [("val", "3")] [], .element "element" [("val", "4")] []]

/-- A wrapper element whose children are tagged `other`, `element`, `other`, `element`, with
the values 9, 1, 2, 3. -/
def mixed_children : XMLNode :=
  .element "v" []
    [.element "other" [("val", "9")] [], .element "element" [("val", "1")] [],
     .element "other" [("val", "2")] [], .element "element" [("val", "3")] []]

/-- The bytes of the eight members of `a` in the order of the member list of `A`. -/
def a_member_bytes : List (List Byte) :=
  [[42, 0, 0, 0],
   [110, 134, 27, 240, 249, 33, 9, 64],
   [12, 0, 0, 0, 72, 101, 108, 108, 111, 32, 119, 111, 114, 108, 100, 33],
   [3, 0, 0, 0, 83, 0, 0, 0, 86, 0, 0, 0, 77, 0, 0, 0],
   [2, 0, 0, 0, 3, 0, 0, 0, 49, 48, 48, 0, 0, 0, 0, 3, 0, 0, 0, 49, 48, 49, 1, 0, 0, 0],
   [2, 0, 0, 0, 3, 0, 0, 0, 25, 0, 0, 0],
   [97, 98, 99, 100, 101, 102, 103, 104, 105, 106, 107, 108, 109, 110, 111, 112, 113, 114,
    115, 116],
   [102, 39, 0, 0]]

/-- The seven children that the text writer gives the wrapper of `b`, one per member. -/
def b_member_nodes : List XMLNode :=
  [.element "a" [("val", "42")] [],
   .element "c" [] [.text "Hello world!"],
   .element "d" []
     [.element "element" [("val", "83")] [], .element "element" [("val", "86")] [],
      .element "element" [("val", "77")] []],
   .element "e" []
     [.element "element_pair" []
        [.element "first" [] [.text "100"], .element "second" [("val", "0")] []],
      .element "element_pair" []
        [.element "first" [] [.text "101"], .element "second" [("val", "1")] []]],
   .element "f" [] [.element "element" [("val", "3")] [], .element "element" [("val", "25")] []],
   .element "g" []
     ((List.range 20).map (fun i => .element "element" [("val", int_to_string (97 + i))] [])),
   .element "h" [("type", "unique_ptr")] [.element "object" [("val", "10086")] []]]

/-- The key bytes and the value bytes of the two entries of `m`. -/
def m_entry_bytes : List (List Byte × List Byte) :=
  [([4, 0, 0, 0, 100, 101, 117, 120], [2, 0, 0, 0]), ([2, 0, 0, 0, 117, 110], [1, 0, 0, 0])]

end main_cpp

/-! ## Further records -/

namespace raw_pointer_record

/-- A struct `P` with the one data member `int *p`. -/
def P : Ty := .cls "P"

end raw_pointer_record

namespace empty_record

/-- A struct `Z` registered with an empty member list. -/
def Z : Ty := .cls "Z"

/-- The tables after `RegisterStruct<Z>("Z", z, {})` from the empty tables. -/
def R : type_info.Registry :=
  match type_info.RegisterStruct_call type_info.Registry.empty "Z" Z 4096 [] with
  | .error _ => type_info.Registry.empty
  | .ok R1 => R1

end empty_record

namespace array_record

/-- A struct `Q` with the one data member `int arr[2]`. -/
def Q : Ty := .cls "Q"

/-- The tables after `RegisterStruct<Q>("Q", x, { {"arr", x.arr} })` from the empty tables. -/
def R : type_info.Registry :=
  match type_info.RegisterStruct_call type_info.Registry.empty "Q" Q 4096
      [("arr", .array 2 (.arith .int), 4096)] with
  | .error _ => type_info.Registry.empty
  | .ok R1 => R1

end array_record


/-! ## Object representation: encoding and decoding agree -/

theorem le_bytes_length (w n : Nat) : (le_bytes w n).length = w := by
  induction w generalizing n with
  | zero => rfl
  | succ w ih => simp [le_bytes, ih]

theorem of_le_bytes_le_bytes (w n : Nat) : of_le_bytes (le_bytes w n) = n % 256 ^ w := by
  induction w generalizing n with
  | zero => simp [le_bytes, of_le_bytes, Nat.mod_one]
  | succ w ih =>
    simp only [le_bytes, of_le_bytes, ih]
    rw [pow_succ, Nat.mul_comm (256 ^ w) 256, Nat.mod_mul]

theorem Prim.encode_length (p : Prim) (n : Int) : (p.encode n).length = p.size := by
  simp [Prim.encode, le_bytes_length]

theorem Prim.decode_encode (p : Prim) (n : Int) (h : p.inRange n = true) :
    p.decode (p.encode n) = n := by
  cases p <;>
    simp [Prim.inRange, Prim.is_signed, Prim.size] at h <;>
    simp only [Prim.decode, Prim.encode, of_le_bytes_le_bytes, Prim.is_signed, Prim.size] <;>
    norm_num <;>
    omega

theorem ifstream.read_append (bs rest buf : List Byte) (n : Nat) (h : bs.length = n) :
    (ifstream.mk (bs ++ rest) true).read n buf = (bs, ifstream.mk rest true) := by
  subst h
  simp [ifstream.read]

theorem ifstream.read_prim_encode (p : Prim) (n old : Int) (rest : List Byte)
    (h : p.inRange n = true) :
    (ifstream.mk (p.encode n ++ rest) true).read_prim p old = (n, ifstream.mk rest true) := by
  simp [ifstream.read_prim, ifstream.read_append _ _ _ _ (Prim.encode_length p n),
    Prim.decode_encode p n h]

theorem uint_inRange (k : Nat) (h : k < 2 ^ 32) : Prim.uint.inRange (k : Int) = true := by
  simp [Prim.inRange, Prim.is_signed, Prim.size]
  omega

theorem ifstream.read_u32_encode (k old : Nat) (rest : List Byte) (h : k < 2 ^ 32) :
    (ifstream.mk (Prim.uint.encode (k : Int) ++ rest) true).read_u32 old
      = (k, ifstream.mk rest true) := by
  simp [ifstream.read_u32, ifstream.read_prim_encode _ _ _ _ (uint_inRange k h)]

theorem uint_encode_eq (k : Nat) : Prim.uint.encode (k : Int) = le_bytes 4 (k % 2 ^ 32) := by
  simp only [Prim.encode, Prim.size]
  congr 1

theorem to_u32_of_lt (k : Nat) (h : k < 2 ^ 32) : to_u32 k = k := by
  simp only [to_u32]; omega

theorem int_loop_count_of_lt (k : Nat) (h : k < 2 ^ 31) : int_loop_count k = k := by
  simp only [int_loop_count, u32_to_int]
  have h1 : k % 2 ^ 32 = k := by omega
  rw [h1, if_pos h]
  simp

theorem char_ofNat_byte (c : Char) (h : c.toNat < 256) : Char.ofNat (char_byte c) = c := by
  have h1 : char_byte c = c.toNat := Nat.mod_eq_of_lt h
  rw [h1]
  exact Char.ofNat_toNat c

theorem ifstream.read_char_cons (c old : Char) (rest : List Byte) (h : c.toNat < 256) :
    (ifstream.mk (char_byte c :: rest) true).read_char old = (c, ifstream.mk rest true) := by
  have := ifstream.read_append [char_byte c] rest [char_byte old] 1 rfl
  simp only [List.singleton_append] at this
  simp [ifstream.read_char, this, char_ofNat_byte c h]

theorem read_chars_map (init : Char) (cs acc : List Char) (rest : List Byte)
    (h : ∀ c ∈ cs, c.toNat < 256) :
    read_chars init cs.length acc (ifstream.mk (cs.map char_byte ++ rest) true)
      = (acc ++ cs, ifstream.mk rest true) := by
  induction cs generalizing acc with
  | nil => simp [read_chars]
  | cons c cs ih =>
    have hc : c.toNat < 256 := h c (List.mem_cons_self _ _)
    simp only [List.length_cons, read_chars, List.map_cons, List.cons_append,
      ifstream.read_char_cons c init _ hc]
    rw [ih _ (fun x hx => h x (List.mem_cons_of_mem _ hx))]
    simp


/-! ## Loops of the binary codec -/

theorem read_count_write_each (w : Val → WBin) (rd : Val → ifstream → RBin) (d : Val)
    (ins : Val → List Val → List Val) (xs : List Val)
    (h : ∀ x ∈ xs, bin_round_trip (w x) (rd d) x) (s : Nat) :
    ∃ bs n, write_each w xs s = (bs, .ok n) ∧
      ∀ rest acc s2, ∃ m, read_count rd d ins xs.length acc (ifstream.mk (bs ++ rest) true) s2
        = .ok (xs.foldl (fun a x => ins x a) acc, m, ifstream.mk rest true) := by
  induction xs generalizing s with
  | nil => exact ⟨[], s, rfl, fun rest acc s2 => ⟨s2, rfl⟩⟩
  | cons x xs ih =>
    obtain ⟨bs1, n1, hw, hr⟩ := h x (List.mem_cons_self _ _)
    obtain ⟨bs2, n2, hw2, hr2⟩ := ih (fun y hy => h y (List.mem_cons_of_mem _ hy)) (to_u32 (s + n1))
    refine ⟨bs1 ++ bs2, n2, ?_, ?_⟩
    · simp [write_each, WBin.bind, hw, hw2]
    · intro rest acc s2
      obtain ⟨m1, hm1⟩ := hr (bs2 ++ rest)
      obtain ⟨m2, hm2⟩ := hr2 rest (ins x acc) (to_u32 (s2 + m1))
      refine ⟨m2, ?_⟩
      simp only [List.length_cons, read_count, List.append_assoc, hm1, List.foldl_cons]
      exact hm2

theorem read_slots_write_each (w : Val → WBin) (rd : Val → ifstream → RBin) (xs ds : List Val)
    (h : List.Forall₂ (fun x d => bin_round_trip (w x) (rd d) x) xs ds) (s : Nat) :
    ∃ bs n, write_each w xs s = (bs, .ok n) ∧
      ∀ rest s2, ∃ m, read_slots rd ds (ifstream.mk (bs ++ rest) true) s2
        = .ok (xs, m, ifstream.mk rest true) := by
  induction h generalizing s with
  | nil => exact ⟨[], s, rfl, fun rest s2 => ⟨s2, rfl⟩⟩
  | cons hx _ ih =>
    obtain ⟨bs1, n1, hw, hr⟩ := hx
    obtain ⟨bs2, n2, hw2, hr2⟩ := ih (to_u32 (s + n1))
    refine ⟨bs1 ++ bs2, n2, ?_, ?_⟩
    · simp [write_each, WBin.bind, hw, hw2]
    · intro rest s2
      obtain ⟨m1, hm1⟩ := hr (bs2 ++ rest)
      obtain ⟨m2, hm2⟩ := hr2 rest (to_u32 (s2 + m1))
      refine ⟨m2, ?_⟩
      simp only [read_slots, List.append_assoc, hm1, hm2]

theorem forall2_of_all (P : Val → Val → Prop) (p q : Val → Bool) (xs ds : List Val)
    (hlen : xs.length = ds.length) (hx : xs.all p = true) (hd : ds.all q = true)
    (hP : ∀ x d, p x = true → q d = true → P x d) : List.Forall₂ P xs ds := by
  induction xs generalizing ds with
  | nil =>
    cases ds with
    | nil => exact List.Forall₂.nil
    | cons d ds => simp at hlen
  | cons x xs ih =>
    cases ds with
    | nil => simp at hlen
    | cons d ds =>
      simp only [List.all_cons, Bool.and_eq_true] at hx hd
      simp only [List.length_cons, Nat.add_right_cancel_iff] at hlen
      exact List.Forall₂.cons (hP x d hx.1 hd.1) (ih ds hlen hx.2 hd.2)

theorem foldl_push_back (xs acc : List Val) :
    xs.foldl (fun a x => push_back x a) acc = acc ++ xs := by
  induction xs generalizing acc with
  | nil => simp
  | cons x xs ih =>
    simp only [List.foldl_cons]
    rw [ih]
    simp [push_back]

theorem set_insert_last (lt : Val → Val → Bool) (x : Val) (acc : List Val)
    (h : ∀ a ∈ acc, lt a x = true) : set_insert lt x acc = acc ++ [x] := by
  induction acc with
  | nil => rfl
  | cons a acc ih =>
    simp only [set_insert, h a (List.mem_cons_self _ _), if_true, List.cons_append]
    rw [ih (fun b hb => h b (List.mem_cons_of_mem _ hb))]

theorem foldl_set_insert (lt : Val → Val → Bool) (xs acc : List Val)
    (hs : sorted_by lt xs = true) (ha : ∀ a ∈ acc, ∀ x ∈ xs, lt a x = true) :
    xs.foldl (fun a x => set_insert lt x a) acc = acc ++ xs := by
  induction xs generalizing acc with
  | nil => simp
  | cons x xs ih =>
    simp only [sorted_by, Bool.and_eq_true, List.all_eq_true] at hs
    simp only [List.foldl_cons]
    rw [set_insert_last lt x acc (fun a h => ha a h x (List.mem_cons_self _ _))]
    rw [ih (acc ++ [x]) hs.2]
    · simp
    · intro a h y hy
      rcases List.mem_append.mp h with h | h
      · exact ha a h y (List.mem_cons_of_mem _ hy)
      · simp only [List.mem_singleton] at h
        subst h
        exact hs.1 y hy


/-! ## Binary round trip of the built-in shapes -/

theorem fresh_init (L : Limits) (E : Env) : ∀ (T : Ty) (v : Val), typed L E T v = true →
    fresh T (T.default_init E) = true ∧ fresh T (T.value_init E) = true := by
  intro T
  induction T with
  | arith p => intro v _; simp [Ty.default_init, Ty.value_init, fresh]
  | pointer t _ => intro v _; simp [fresh]
  | unique_ptr t _ => intro v _; simp [fresh]
  | array n t ih =>
    intro v hv
    cases v <;> simp only [typed, Bool.false_eq_true] at hv
    rename_i xs
    simp only [Bool.and_eq_true, decide_eq_true_eq, List.all_eq_true] at hv
    cases xs with
    | nil =>
      simp only [List.length_nil] at hv
      simp [Ty.default_init, Ty.value_init, fresh, ← hv.1]
    | cons x xs =>
      have := ih x (hv.2 x (List.mem_cons_self _ _))
      simp [Ty.default_init, Ty.value_init, fresh, this.1, this.2]
  | string => intro v _; simp [fresh]
  | pair a b iha ihb =>
    intro v hv
    cases v <;> simp only [typed, Bool.false_eq_true] at hv
    rename_i x y
    simp only [Bool.and_eq_true] at hv
    simp [Ty.default_init, Ty.value_init, fresh, (iha x hv.1).2, (ihb y hv.2).2]
  | seq k t _ => intro v _; simp [Ty.default_init, Ty.value_init, fresh]
  | setc k t _ => intro v _; simp [Ty.default_init, Ty.value_init, fresh]
  | mapc k a b _ _ => intro v _; simp [Ty.default_init, Ty.value_init, fresh]
  | adaptor k t _ => intro v hv; cases v <;> simp [typed] at hv
  | cls n => intro v hv; cases v <;> simp [typed] at hv
  | enum n => intro v hv; cases v <;> simp [typed] at hv

theorem write_each_chars (cs : List Char) (s : Nat) :
    ∃ n, write_each (fun c => (([char_byte c], .ok 1) : WBin)) cs s = (cs.map char_byte, .ok n) := by
  induction cs generalizing s with
  | nil => exact ⟨s, rfl⟩
  | cons c cs ih =>
    obtain ⟨n, hn⟩ := ih (to_u32 (s + 1))
    exact ⟨n, by simp [write_each, WBin.bind, hn]⟩

theorem bin_round_trip_container (w : Val → WBin) (rd : Val → ifstream → RBin) (d : Val)
    (ins : Val → List Val → List Val) (xs : List Val) (hlen : xs.length < 2 ^ 32)
    (h : ∀ x ∈ xs, bin_round_trip (w x) (rd d) x)
    (hins : xs.foldl (fun a x => ins x a) [] = xs) :
    bin_round_trip (bin_srl.write_container w xs) (bin_srl.read_container rd d ins []) (.seq xs) := by
  obtain ⟨bs, n, hw, hr⟩ := read_count_write_each w rd d ins xs h (to_u32 4)
  refine ⟨Prim.uint.encode (to_u32 xs.length) ++ bs, n, ?_, ?_⟩
  · simp [bin_srl.write_container, WBin.bind, hw]
  · intro rest
    obtain ⟨m, hm⟩ := hr rest [] 4
    refine ⟨m, ?_⟩
    simp only [bin_srl.read_container, List.append_assoc, to_u32_of_lt _ hlen,
      ifstream.read_u32_encode _ _ _ hlen, hm, hins]

theorem bin_round_trip_pair (wa wb : Val → WBin) (ra rb : Val → ifstream → RBin)
    (x y dx dy : Val) (hx : bin_round_trip (wa x) (ra dx) x) (hy : bin_round_trip (wb y) (rb dy) y) :
    bin_round_trip (bin_srl.write_pair wa wb (.pair x y))
      (bin_srl.read_pair ra rb (.pair dx dy)) (.pair x y) := by
  obtain ⟨bs1, n1, hw1, hr1⟩ := hx
  obtain ⟨bs2, n2, hw2, hr2⟩ := hy
  refine ⟨bs1 ++ bs2, to_u32 (to_u32 n1 + n2), ?_, ?_⟩
  · simp only [bin_srl.write_pair, WBin.bind, hw1, hw2, List.append_nil]
  · intro rest
    obtain ⟨m1, hm1⟩ := hr1 (bs2 ++ rest)
    obtain ⟨m2, hm2⟩ := hr2 rest
    exact ⟨to_u32 (to_u32 m1 + m2), by simp only [bin_srl.read_pair, List.append_assoc, hm1, hm2]⟩

theorem bin_srl.bin_round_trip_direct (E : Env) (R : type_info.Registry) (fuel : Nat) :
    ∀ (T : Ty) (v d : Val), typed Limits.bin E T v = true → fresh T d = true →
      bin_round_trip (bin_srl.write_bin E R fuel T v) (bin_srl.read_bin E R fuel T d) v := by
  intro T
  induction T with
  | arith p =>
    intro v d hv hd
    cases v <;> simp only [typed, Bool.false_eq_true] at hv
    cases d <;> simp only [fresh, Bool.false_eq_true] at hd
    rename_i n old
    refine ⟨p.encode n, p.size, by simp only [bin_srl.write_bin], fun rest => ⟨p.size, ?_⟩⟩
    simp only [bin_srl.read_bin, ifstream.read_prim_encode p n old rest hv]
  | pointer t ih =>
    intro v d hv hd
    cases v <;> simp only [typed, Bool.false_eq_true] at hv
    rename_i x
    obtain ⟨bs, n, hw, hr⟩ := ih x (t.value_init E) hv (fresh_init _ E t x hv).2
    refine ⟨bs, n, by simp only [bin_srl.write_bin, hw], fun rest => ?_⟩
    obtain ⟨m, hm⟩ := hr rest
    exact ⟨m, by simp only [bin_srl.read_bin, hm]⟩
  | unique_ptr t ih =>
    intro v d hv hd
    cases v <;> simp only [typed, Bool.false_eq_true] at hv
    rename_i x
    obtain ⟨bs, n, hw, hr⟩ := ih x (t.value_init E) hv (fresh_init _ E t x hv).2
    refine ⟨bs, n, by simp only [bin_srl.write_bin, hw], fun rest => ?_⟩
    obtain ⟨m, hm⟩ := hr rest
    exact ⟨m, by simp only [bin_srl.read_bin, hm]⟩
  | array n t ih =>
    intro v d hv hd
    cases v <;> simp only [typed, Bool.false_eq_true] at hv
    cases d <;> simp only [fresh, Bool.false_eq_true] at hd
    rename_i xs ds
    simp only [Bool.and_eq_true, decide_eq_true_eq] at hv hd
    obtain ⟨bs, c, hw, hr⟩ := read_slots_write_each (bin_srl.write_bin E R fuel t)
      (bin_srl.read_bin E R fuel t) xs ds
      (forall2_of_all _ _ _ xs ds (by omega) hv.2 hd.2 (fun x d hx hd => ih x d hx hd)) 0
    refine ⟨bs, c, by simp only [bin_srl.write_bin, hv.1, if_true, hw], fun rest => ?_⟩
    obtain ⟨m, hm⟩ := hr rest 0
    exact ⟨m, by simp only [bin_srl.read_bin, hd.1, if_true, hm]⟩
  | string =>
    intro v d hv hd
    cases v <;> simp only [typed, Bool.false_eq_true] at hv
    rename_i s
    simp only [Limits.bin, byte_string, Bool.and_eq_true, List.all_eq_true, decide_eq_true_eq] at hv
    have hlen : s.length < 2 ^ 32 := by omega
    have hdata : s.data.length = s.length := rfl
    obtain ⟨n, hn⟩ := write_each_chars s.data (to_u32 4)
    refine ⟨Prim.uint.encode (s.length : Int) ++ s.data.map char_byte, n, ?_, fun rest => ?_⟩
    · simp only [bin_srl.write_bin, WBin.bind, to_u32_of_lt _ hlen, int_loop_count_of_lt _ hv.2]
      rw [← hdata, List.take_length, hn]
    · refine ⟨to_u32 (4 + s.length), ?_⟩
      simp only [bin_srl.read_bin, List.append_assoc, ifstream.read_u32_encode _ _ _ hlen]
      rw [← hdata, read_chars_map _ s.data [] rest hv.1]
      simp
  | pair a b iha ihb =>
    intro v d hv hd
    cases v <;> simp only [typed, Bool.false_eq_true] at hv
    cases d <;> simp only [fresh, Bool.false_eq_true] at hd
    rename_i x y dx dy
    simp only [Bool.and_eq_true] at hv hd
    simp only [bin_srl.write_bin, bin_srl.read_bin]
    exact bin_round_trip_pair _ _ _ _ x y dx dy (iha x dx hv.1 hd.1) (ihb y dy hv.2 hd.2)
  | seq k t ih =>
    intro v d hv hd
    cases v <;> simp only [typed, Bool.false_eq_true] at hv
    cases d <;> simp only [fresh, Bool.false_eq_true] at hd
    rename_i xs ds
    simp only [List.isEmpty_iff] at hd
    subst hd
    simp only [Limits.bin, Bool.and_eq_true, decide_eq_true_eq, List.all_eq_true] at hv
    simp only [bin_srl.write_bin, bin_srl.read_bin]
    exact bin_round_trip_container _ _ _ _ xs hv.1
      (fun x hx => ih x _ (hv.2 x hx) (fresh_init _ E t x (hv.2 x hx)).1)
      (by simp [foldl_push_back])
  | setc k t ih =>
    intro v d hv hd
    cases k <;> cases v <;> simp only [typed, Bool.false_eq_true] at hv
    cases d <;> simp only [fresh, Bool.false_eq_true] at hd
    rename_i xs ds
    simp only [List.isEmpty_iff] at hd
    subst hd
    simp only [Limits.bin, Bool.and_eq_true, decide_eq_true_eq, List.all_eq_true] at hv
    simp only [bin_srl.write_bin, bin_srl.read_bin]
    exact bin_round_trip_container _ _ _ _ xs hv.1.1
      (fun x hx => ih x _ (hv.1.2 x hx) (fresh_init _ E t x (hv.1.2 x hx)).1)
      (by simp [set_kind_insert, foldl_set_insert _ xs [] hv.2])
  | mapc k a b iha ihb =>
    intro v d hv hd
    cases k <;> cases v <;> simp only [typed, Bool.false_eq_true] at hv
    cases d <;> simp only [fresh, Bool.false_eq_true] at hd
    rename_i xs ds
    simp only [List.isEmpty_iff] at hd
    subst hd
    simp only [Limits.bin, Bool.and_eq_true, decide_eq_true_eq, List.all_eq_true] at hv
    simp only [bin_srl.write_bin, bin_srl.read_bin]
    refine bin_round_trip_container _ _ _ _ xs hv.1.1 (fun x hx => ?_)
      (by simp [map_kind_insert, foldl_set_insert _ xs [] hv.2])
    have hx' := hv.1.2 x hx
    cases x <;> simp only [Bool.false_eq_true] at hx'
    rename_i x y
    simp only [Bool.and_eq_true] at hx'
    exact bin_round_trip_pair _ _ _ _ x y _ _
      (iha x _ hx'.1 (fresh_init _ E a x hx'.1).1) (ihb y _ hx'.2 (fresh_init _ E b y hx'.2).1)
  | adaptor k t _ => intro v d hv; cases v <;> simp [typed] at hv
  | cls n => intro v d hv; cases v <;> simp [typed] at hv
  | enum n => intro v d hv; cases v <;> simp [typed] at hv


/-! ## Binary round trip through the registered lambdas -/

namespace type_info

theorem Registry.has_iff (R : Registry) (T : Ty) :
    R.has T = true ↔ T ∈ R.type_writer_bin ∧ T ∈ R.type_reader_bin ∧
      T ∈ R.type_writer_xml ∧ T ∈ R.type_reader_xml := by
  simp [Registry.has, and_assoc]

theorem reg_fresh_succ (E : Env) (R : Registry) :
    ∀ (k : Nat) (T : Ty) (d : Val), reg_fresh E R k T d = true → reg_fresh E R (k + 1) T d = true := by
  intro k
  induction k with
  | zero => intro T d h; simp [reg_fresh] at h
  | succ k ih =>
    intro T d h
    cases T <;> cases d <;> simp only [reg_fresh, Bool.false_eq_true] at h <;>
      simp only [reg_fresh]
    case array.seq n t ds =>
      simp only [Bool.and_eq_true, List.all_eq_true] at h ⊢
      exact ⟨h.1, fun x hx => ih t x (h.2 x hx)⟩
    case pair.pair a b x y =>
      simp only [Bool.and_eq_true] at h ⊢
      exact ⟨ih a x h.1, ih b y h.2⟩
    case seq.seq => exact h
    case setc.seq => exact h
    case mapc.seq => exact h
    case cls.obj c ds =>
      simp only [Bool.and_eq_true, List.all_eq_true] at h ⊢
      refine ⟨h.1, fun m hm => ?_⟩
      have := h.2 m hm
      revert this
      cases E.member_index (Ty.cls c) m.offset m.typenm with
      | none => simp
      | some i =>
        simp only
        cases ds[i]? with
        | none => simp
        | some f => exact ih m.typenm f

theorem reg_fresh_le (E : Env) (R : Registry) (k k1 : Nat) (h : k ≤ k1) (T : Ty) (d : Val)
    (hf : reg_fresh E R k T d = true) : reg_fresh E R k1 T d = true := by
  induction h with
  | refl => exact hf
  | step _ ih => exact reg_fresh_succ E R _ T d ih

theorem lookup_mem {β : Type} (l : List (Ty × β)) (k : Ty) (h : (l.lookup k).isSome = true) :
    ∃ e ∈ l, e.1 = k := by
  induction l with
  | nil => simp at h
  | cons e l ih =>
    obtain ⟨a, b⟩ := e
    by_cases hk : k = a
    · exact ⟨(a, b), List.mem_cons_self _ _, hk.symm⟩
    · have hne : (k == a) = false := by simpa using hk
      simp only [List.lookup, hne] at h
      obtain ⟨e, he, hke⟩ := ih h
      exact ⟨e, List.mem_cons_of_mem _ he, hke⟩

theorem reg_fresh_init (L : Limits) (E : Env) (R : Registry) (K : Nat)
    (hK : ctors_fresh E R K = true) :
    ∀ (n : Nat) (T : Ty) (v : Val), reg_typed L E R n T v = true →
      ∃ k, reg_fresh E R k T (T.default_init E) = true ∧ reg_fresh E R k T (T.value_init E) = true := by
  intro n
  induction n with
  | zero => intro T v h; simp [reg_typed] at h
  | succ n ih =>
    intro T v h
    simp only [reg_typed, Bool.and_eq_true] at h
    obtain ⟨hhas, h⟩ := h
    cases T <;> cases v <;> (try simp only [Bool.false_eq_true] at h)
    case arith.num p x => exact ⟨1, by simp [reg_fresh, Ty.default_init, Ty.value_init]⟩
    case string.str s => exact ⟨1, by simp [reg_fresh, Ty.default_init, Ty.value_init]⟩
    case unique_ptr.ptr t x => exact ⟨1, by simp [reg_fresh, Ty.default_init, Ty.value_init]⟩
    case array.seq m t xs =>
      simp only [Bool.and_eq_true, decide_eq_true_eq, List.all_eq_true] at h
      cases xs with
      | nil =>
        simp only [List.length_nil] at h
        exact ⟨1, by simp [reg_fresh, Ty.default_init, Ty.value_init, ← h.1]⟩
      | cons x xs =>
        obtain ⟨k, hk1, hk2⟩ := ih t x (h.2 x (List.mem_cons_self _ _))
        exact ⟨k + 1, by simp [reg_fresh, Ty.default_init, Ty.value_init, hk1, hk2]⟩
    case pair.pair a b x y =>
      simp only [Bool.and_eq_true] at h
      obtain ⟨ka, _, hka⟩ := ih a x h.1
      obtain ⟨kb, _, hkb⟩ := ih b y h.2
      refine ⟨max ka kb + 1, ?_⟩
      simp only [reg_fresh, Ty.default_init, Ty.value_init, Bool.and_eq_true, and_self]
      exact ⟨reg_fresh_le E R ka _ (le_max_left _ _) a _ hka,
        reg_fresh_le E R kb _ (le_max_right _ _) b _ hkb⟩
    case seq.seq => exact ⟨1, by simp [reg_fresh, Ty.default_init, Ty.value_init]⟩
    case setc.seq => exact ⟨1, by simp [reg_fresh, Ty.default_init, Ty.value_init]⟩
    case mapc.seq => exact ⟨1, by simp [reg_fresh, Ty.default_init, Ty.value_init]⟩
    case cls.obj c fs =>
      simp only [Bool.and_eq_true] at h
      obtain ⟨e, he, hec⟩ := lookup_mem R.typeInfo_map (.cls c) h.1.1.1.1.1.2
      simp only [ctors_fresh, List.all_eq_true, Bool.and_eq_true] at hK
      have := hK e he
      rw [hec] at this
      exact ⟨K, by simpa [Ty.default_init, Ty.value_init] using this⟩

/-- The data members after every registered member was stored back. -/
theorem set_members_length (idx : memberPair → Option Nat) (fs : List Val) :
    ∀ (ms : List memberPair) (cur : List Val),
      (ms.foldl (fun acc m => match idx m with
        | some i => acc.set i (fs.getD i .null)
        | none => acc) cur).length = cur.length := by
  intro ms
  induction ms with
  | nil => intro cur; rfl
  | cons m ms ih =>
    intro cur
    simp only [List.foldl_cons]
    rw [ih]
    cases idx m <;> simp

theorem set_members_not_mem (idx : memberPair → Option Nat) (fs : List Val) (j : Nat) :
    ∀ (ms : List memberPair) (cur : List Val), some j ∉ ms.map idx →
      (ms.foldl (fun acc m => match idx m with
        | some i => acc.set i (fs.getD i .null)
        | none => acc) cur)[j]? = cur[j]? := by
  intro ms
  induction ms with
  | nil => intro cur _; rfl
  | cons m ms ih =>
    intro cur hj
    simp only [List.map_cons, List.mem_cons, not_or] at hj
    simp only [List.foldl_cons]
    rw [ih _ hj.2]
    cases hi : idx m with
    | none => rfl
    | some i =>
      have : i ≠ j := fun h => hj.1 (by rw [hi, h])
      simp [List.getElem?_set, this]

theorem set_members_mem (idx : memberPair → Option Nat) (fs : List Val) (j : Nat) :
    ∀ (ms : List memberPair) (cur : List Val), some j ∈ ms.map idx → j < cur.length →
      (ms.foldl (fun acc m => match idx m with
        | some i => acc.set i (fs.getD i .null)
        | none => acc) cur)[j]? = some (fs.getD j .null) := by
  intro ms
  induction ms with
  | nil => intro cur h; simp at h
  | cons m ms ih =>
    intro cur hj hlt
    simp only [List.foldl_cons]
    by_cases hin : some j ∈ ms.map idx
    · refine ih _ hin ?_
      cases idx m <;> simp [hlt]
    · rw [set_members_not_mem idx fs j ms _ hin]
      simp only [List.map_cons, List.mem_cons] at hj
      rcases hj with hj | hj
      · rw [← hj]
        simp [List.getElem?_set, hlt]
      · exact absurd hj hin

theorem set_members_cover (idx : memberPair → Option Nat) (fs : List Val)
    (ms : List memberPair) (cur : List Val) (hlen : cur.length = fs.length)
    (hcov : ∀ i, i < fs.length → some i ∈ ms.map idx) :
    ms.foldl (fun acc m => match idx m with
      | some i => acc.set i (fs.getD i .null)
      | none => acc) cur = fs := by
  apply List.ext_getElem?
  intro j
  by_cases hj : j < fs.length
  · rw [set_members_mem idx fs j ms cur (hcov j hj) (by omega)]
    simp [List.getD, List.getElem?_eq_getElem hj]
  · have h1 : fs[j]? = none := List.getElem?_eq_none (by omega)
    rw [h1]
    apply List.getElem?_eq_none
    rw [set_members_length]
    omega

theorem read_members_write_each (E : Env) (T : Ty) (w : Ty → Val → WBin)
    (rd : Ty → Val → ifstream → RBin) (fs : List Val) :
    ∀ (ms : List memberPair) (cur : List Val),
      (ms.map (fun m => E.member_index T m.offset m.typenm)).Nodup →
      (∀ m ∈ ms, ∃ i x d, E.member_index T m.offset m.typenm = some i ∧ fs[i]? = some x ∧
        cur[i]? = some d ∧ bin_round_trip (w m.typenm x) (rd m.typenm d) x) →
      ∀ s, ∃ bs n, write_each (write_member E T w (.obj fs)) ms s = (bs, .ok n) ∧
        ∀ rest s2, ∃ c, read_members E T rd ms (.obj cur) (ifstream.mk (bs ++ rest) true) s2
          = .ok (.obj (ms.foldl (fun acc m => match E.member_index T m.offset m.typenm with
              | some i => acc.set i (fs.getD i .null)
              | none => acc) cur), c, ifstream.mk rest true) := by
  intro ms
  induction ms with
  | nil => intro cur _ _ s; exact ⟨[], s, rfl, fun rest s2 => ⟨s2, rfl⟩⟩
  | cons m ms ih =>
    intro cur hnd h s
    obtain ⟨i, x, d, hi, hx, hd, bs1, n1, hw, hr⟩ := h m (List.mem_cons_self _ _)
    simp only [List.map_cons, List.nodup_cons] at hnd
    have hrest : ∀ m1 ∈ ms, ∃ i1 x1 d1, E.member_index T m1.offset m1.typenm = some i1 ∧
        fs[i1]? = some x1 ∧ (cur.set i x)[i1]? = some d1 ∧
        bin_round_trip (w m1.typenm x1) (rd m1.typenm d1) x1 := by
      intro m1 hm1
      obtain ⟨i1, x1, d1, hi1, hx1, hd1, hrt⟩ := h m1 (List.mem_cons_of_mem _ hm1)
      have hne : i ≠ i1 := by
        intro heq
        apply hnd.1
        rw [hi, heq, ← hi1]
        exact List.mem_map_of_mem _ hm1
      exact ⟨i1, x1, d1, hi1, hx1, by simp [List.getElem?_set, hne, hd1], hrt⟩
    obtain ⟨bs2, n2, hw2, hr2⟩ := ih (cur.set i x) hnd.2 hrest (to_u32 (s + n1))
    refine ⟨bs1 ++ bs2, n2, ?_, ?_⟩
    · simp [write_each, write_member, member, hi, hx, WBin.bind, hw, hw2]
    · intro rest s2
      obtain ⟨c1, hc1⟩ := hr (bs2 ++ rest)
      obtain ⟨c2, hc2⟩ := hr2 rest (to_u32 (s2 + c1))
      refine ⟨c2, ?_⟩
      have hgd : fs.getD i .null = x := by simp [List.getD, hx]
      simp only [read_members, member, hi, hd, List.append_assoc, hc1, Val.set_field,
        List.foldl_cons, hgd]
      exact hc2

theorem bin_round_trip_container_int (w : Val → WBin) (rd : Val → ifstream → RBin) (d : Val)
    (ins : Val → List Val → List Val) (xs : List Val) (init : Nat) (hlen : xs.length < 2 ^ 31)
    (h : ∀ x ∈ xs, bin_round_trip (w x) (rd d) x)
    (hins : xs.foldl (fun a x => ins x a) [] = xs) :
    bin_round_trip (write_container w xs init) (read_container rd d ins []) (.seq xs) := by
  obtain ⟨bs, n, hw, hr⟩ := read_count_write_each w rd d ins xs h init
  have hlen2 : xs.length < 2 ^ 32 := by omega
  refine ⟨Prim.uint.encode (xs.length : Int) ++ bs, n, ?_, ?_⟩
  · simp only [write_container, WBin.bind, hw, to_u32_of_lt _ hlen2, uint_encode_eq]
    rw [Nat.mod_eq_of_lt hlen2]
  · intro rest
    obtain ⟨m, hm⟩ := hr rest [] 4
    refine ⟨m, ?_⟩
    simp only [read_container, List.append_assoc, ifstream.read_u32_encode _ _ _ hlen2,
      int_loop_count_of_lt _ hlen, hm, hins]

theorem bin_round_trip_registered (E : Env) (R : Registry) (K : Nat)
    (hK : ctors_fresh E R K = true) :
    ∀ (n : Nat) (T : Ty) (v : Val), reg_typed Limits.bin_registered E R n T v = true →
      ∀ (k : Nat) (d : Val), reg_fresh E R k T d = true → ∀ f, n ≤ f →
        bin_round_trip (writer_bin E R f T v) (reader_bin E R f T d) v := by
  intro n
  induction n with
  | zero => intro T v h; simp [reg_typed] at h
  | succ n ih =>
    intro T v hv k d hd f hf
    obtain ⟨f, rfl⟩ : ∃ f1, f = f1 + 1 := ⟨f - 1, by omega⟩
    have hf1 : n ≤ f := by omega
    cases k with
    | zero => simp [reg_fresh] at hd
    | succ k =>
    simp only [reg_typed, Bool.and_eq_true] at hv
    obtain ⟨hhas, hv⟩ := hv
    obtain ⟨hwb, hrb, -, -⟩ := (Registry.has_iff R T).mp hhas
    cases T <;> cases v <;> (try simp only [Bool.false_eq_true] at hv)
    case arith.num p x =>
      cases d <;> simp only [reg_fresh, Bool.false_eq_true] at hd
      rename_i old
      refine ⟨p.encode x, p.size, by simp [writer_bin, hwb], fun rest => ⟨p.size, ?_⟩⟩
      simp [reader_bin, hrb, ifstream.read_prim_encode p x old rest hv]
    case string.str s =>
      cases d <;> simp only [reg_fresh, Bool.false_eq_true] at hd
      rename_i old
      simp only [Limits.bin_registered, byte_string, Bool.and_eq_true, List.all_eq_true,
        decide_eq_true_eq] at hv
      have hlen : s.length < 2 ^ 32 := by omega
      have hdata : s.data.length = s.length := rfl
      refine ⟨Prim.uint.encode (s.length : Int) ++ s.data.map char_byte, to_u32 (s.length + 4),
        ?_, fun rest => ⟨to_u32 (s.length + 4), ?_⟩⟩
      · simp only [writer_bin, hwb, not_true_eq_false, if_false, to_u32_of_lt _ hlen,
          uint_encode_eq]
        rw [Nat.mod_eq_of_lt hlen]
      · simp only [reader_bin, hrb, not_true_eq_false, if_false, List.append_assoc,
          ifstream.read_u32_encode _ _ _ hlen, int_loop_count_of_lt _ hv.2]
        rw [← hdata, read_chars_map _ s.data [] rest hv.1]
        simp
    case unique_ptr.ptr t x =>
      obtain ⟨k1, -, hk1⟩ := reg_fresh_init _ E R K hK n t x hv
      obtain ⟨bs, c, hw, hr⟩ := ih t x hv k1 _ hk1 f hf1
      refine ⟨bs, c, by simp [writer_bin, hwb, hw], fun rest => ?_⟩
      obtain ⟨m, hm⟩ := hr rest
      exact ⟨m, by simp [reader_bin, hrb, hm]⟩
    case array.seq m t xs =>
      cases d <;> simp only [reg_fresh, Bool.false_eq_true] at hd
      rename_i ds
      simp only [Bool.and_eq_true, decide_eq_true_eq] at hv hd
      obtain ⟨bs, c, hw, hr⟩ := read_slots_write_each (writer_bin E R f t)
        (reader_bin E R f t) xs ds
        (forall2_of_all _ _ _ xs ds (by omega) hv.2 hd.2 (fun x d hx hd => ih t x hx k d hd f hf1)) 0
      refine ⟨bs, to_u32 ((Ty.array m t).sizeof E),
        by simp [writer_bin, hwb, hv.1, WBin.bind, hw], fun rest => ?_⟩
      obtain ⟨c1, hc1⟩ := hr rest 0
      exact ⟨to_u32 ((Ty.array m t).sizeof E), by simp [reader_bin, hrb, hd.1, hc1]⟩
    case pair.pair a b x y =>
      cases d <;> simp only [reg_fresh, Bool.false_eq_true] at hd
      rename_i dx dy
      simp only [Bool.and_eq_true] at hv hd
      obtain ⟨bs1, n1, hw1, hr1⟩ := ih a x hv.1 k dx hd.1 f hf1
      obtain ⟨bs2, n2, hw2, hr2⟩ := ih b y hv.2 k dy hd.2 f hf1
      refine ⟨bs1 ++ bs2, to_u32 ((Ty.pair a b).sizeof E),
        by simp [writer_bin, hwb, WBin.bind, hw1, hw2], fun rest => ?_⟩
      obtain ⟨m1, hm1⟩ := hr1 (bs2 ++ rest)
      obtain ⟨m2, hm2⟩ := hr2 rest
      exact ⟨to_u32 ((Ty.pair a b).sizeof E), by simp [reader_bin, hrb, hm1, hm2]⟩
    case seq.seq sk t xs =>
      cases d <;> simp only [reg_fresh, Bool.false_eq_true] at hd
      rename_i ds
      simp only [List.isEmpty_iff] at hd
      subst hd
      simp only [Limits.bin_registered, Bool.and_eq_true, decide_eq_true_eq, List.all_eq_true] at hv
      have hrt := bin_round_trip_container_int (writer_bin E R f t) (reader_bin E R f t)
        (t.default_init E) push_back xs 1 hv.1
        (fun x hx => by
          obtain ⟨k1, hk1, -⟩ := reg_fresh_init _ E R K hK n t x (hv.2 x hx)
          exact ih t x (hv.2 x hx) k1 _ hk1 f hf1)
        (by simp [foldl_push_back])
      obtain ⟨bs, c, hw, hr⟩ := hrt
      refine ⟨bs, c, by simp [writer_bin, hwb, hw], fun rest => ?_⟩
      obtain ⟨m, hm⟩ := hr rest
      exact ⟨m, by simp [reader_bin, hrb, hm]⟩
    case setc.seq sk t xs =>
      cases sk <;> simp only [Bool.false_eq_true] at hv
      cases d <;> simp only [reg_fresh, Bool.false_eq_true] at hd
      rename_i ds
      simp only [List.isEmpty_iff] at hd
      subst hd
      simp only [Limits.bin_registered, Bool.and_eq_true, decide_eq_true_eq, List.all_eq_true] at hv
      have hrt := bin_round_trip_container_int (writer_bin E R f t) (reader_bin E R f t)
        (t.default_init E) (set_kind_insert E .set t) xs 1 hv.1.1
        (fun x hx => by
          obtain ⟨k1, hk1, -⟩ := reg_fresh_init _ E R K hK n t x (hv.1.2 x hx)
          exact ih t x (hv.1.2 x hx) k1 _ hk1 f hf1)
        (by simp [set_kind_insert, foldl_set_insert _ xs [] hv.2])
      obtain ⟨bs, c, hw, hr⟩ := hrt
      refine ⟨bs, c, by simp [writer_bin, hwb, hw], fun rest => ?_⟩
      obtain ⟨m, hm⟩ := hr rest
      exact ⟨m, by simp [reader_bin, hrb, hm]⟩
    case mapc.seq mk a b xs =>
      cases mk <;> simp only [Bool.false_eq_true] at hv
      cases d <;> simp only [reg_fresh, Bool.false_eq_true] at hd
      rename_i ds
      simp only [List.isEmpty_iff] at hd
      subst hd
      simp only [Limits.bin_registered, Bool.and_eq_true, decide_eq_true_eq, List.all_eq_true] at hv
      have hrt := bin_round_trip_container_int (writer_bin E R f (.pair a b))
        (reader_bin E R f (.pair a b))
        ((Ty.pair a b).default_init E) (map_kind_insert E .map a b) xs 4 hv.1.1
        (fun x hx => by
          obtain ⟨k1, hk1, -⟩ := reg_fresh_init _ E R K hK n (.pair a b) x (hv.1.2 x hx)
          exact ih (.pair a b) x (hv.1.2 x hx) k1 _ hk1 f hf1)
        (by simp [map_kind_insert, foldl_set_insert _ xs [] hv.2])
      obtain ⟨bs, c, hw, hr⟩ := hrt
      refine ⟨bs, c, by simp [writer_bin, hwb, hw], fun rest => ?_⟩
      obtain ⟨m, hm⟩ := hr rest
      exact ⟨m, by simp [reader_bin, hrb, hm]⟩
    case cls.obj c fs =>
      cases d <;> simp only [reg_fresh, Bool.false_eq_true] at hd
      rename_i ds
      simp only [Bool.and_eq_true, decide_eq_true_eq, List.all_eq_true] at hv hd
      obtain ⟨⟨⟨⟨⟨⟨hlen, -⟩, -⟩, -⟩, hnd⟩, hcov⟩, hmem⟩ := hv
      have hms : ∀ m ∈ R.members (.cls c), ∃ i x d, E.member_index (.cls c) m.offset m.typenm = some i ∧
          fs[i]? = some x ∧ ds[i]? = some d ∧
          bin_round_trip (writer_bin E R f m.typenm x) (reader_bin E R f m.typenm d) x := by
        intro m hm
        have h1 := hmem m hm
        have h2 := hd.2 m hm
        revert h1 h2
        cases E.member_index (.cls c) m.offset m.typenm with
        | none => simp
        | some i =>
          simp only
          cases hfi : fs[i]? with
          | none => simp
          | some x =>
            cases hdi : ds[i]? with
            | none => simp
            | some d0 =>
              intro h1 h2
              exact ⟨i, x, d0, rfl, hfi, hdi, ih m.typenm x h1 k d0 h2 f hf1⟩
      obtain ⟨bs, c1, hw, hr⟩ := read_members_write_each E (.cls c) (writer_bin E R f)
        (reader_bin E R f) fs (R.members (.cls c)) ds hnd hms 0
      refine ⟨bs, c1, by simp [writer_bin, hwb, hw], fun rest => ?_⟩
      obtain ⟨c2, hc2⟩ := hr rest 0
      refine ⟨c2, ?_⟩
      simp only [reader_bin, hrb, not_true_eq_false, if_false, hc2]
      rw [set_members_cover _ fs (R.members (.cls c)) ds (by omega)
        (fun i hi => by
          have := hcov i (List.mem_range.mpr hi)
          simpa [Registry.member_indices] using this)]

end type_info


/-! ## Loops of the text codec -/

theorem has_tag_is_element (name : String) (c : XMLNode) (h : tinyxml2.has_tag name c = true) :
    tinyxml2.is_element c = true := by
  cases c <;> simp [tinyxml2.has_tag, tinyxml2.is_element] at h ⊢

theorem has_tag_unique (a b : String) (c : XMLNode) (ha : tinyxml2.has_tag a c = true)
    (hb : tinyxml2.has_tag b c = true) : a = b := by
  cases c <;> simp [tinyxml2.has_tag] at ha hb
  rw [← ha, ← hb]

theorem element_run_all (name nm : String) (attrs : List (String × String)) (nodes : List XMLNode)
    (h : ∀ c ∈ nodes, tinyxml2.has_tag name c = true) :
    tinyxml2.element_run (.element nm attrs nodes) name = nodes := by
  cases nodes with
  | nil => simp [tinyxml2.element_run, tinyxml2.children]
  | cons c cs =>
    have hc := h c (List.mem_cons_self _ _)
    simp only [tinyxml2.element_run, tinyxml2.children, List.dropWhile_cons, hc, Bool.not_true,
      Bool.false_eq_true, if_false, List.cons.injEq, true_and]
    apply List.filter_eq_self.mpr
    intro a ha
    exact has_tag_is_element name a (h a (List.mem_cons_of_mem _ ha))

theorem find_tag_append (name : String) (pre post : List XMLNode) (node : XMLNode)
    (hpre : ∀ c ∈ pre, tinyxml2.has_tag name c = false) (hn : tinyxml2.has_tag name node = true) :
    (pre ++ node :: post).find? (tinyxml2.has_tag name) = some node := by
  induction pre with
  | nil => simp [List.find?, hn]
  | cons c cs ih =>
    simp only [List.cons_append, List.find?, hpre c (List.mem_cons_self _ _)]
    exact ih (fun x hx => hpre x (List.mem_cons_of_mem _ hx))

theorem xml_children_each (w : Val → XMLNode → WXml) (rd : Val → XMLNode → RXml) (d : Val)
    (ins : Val → List Val → List Val) (tag : String) (xs : List Val)
    (h : ∀ x ∈ xs, ∃ node n m, tinyxml2.has_tag tag node = true ∧
      (∀ e, w x e = (tinyxml2.InsertEndChild e node, .ok n)) ∧ rd d node = .ok (x, m)) :
    ∃ nodes, (∀ c ∈ nodes, tinyxml2.has_tag tag c = true) ∧
      (∀ nm attrs cs s, ∃ n, write_children w xs (.element nm attrs cs) s
        = (.element nm attrs (cs ++ nodes), .ok n)) ∧
      ∀ acc s2, ∃ m, read_xml_each rd d ins nodes acc s2
        = .ok (xs.foldl (fun a x => ins x a) acc, m) := by
  induction xs with
  | nil =>
    exact ⟨[], by simp, fun nm attrs cs s => ⟨s, by simp [write_children]⟩,
      fun acc s2 => ⟨s2, rfl⟩⟩
  | cons x xs ih =>
    obtain ⟨node, n1, m1, htag, hw, hr⟩ := h x (List.mem_cons_self _ _)
    obtain ⟨nodes, htags, hws, hrs⟩ := ih (fun y hy => h y (List.mem_cons_of_mem _ hy))
    refine ⟨node :: nodes, ?_, ?_, ?_⟩
    · intro c hc
      rcases List.mem_cons.mp hc with hc | hc
      · rw [hc]; exact htag
      · exact htags c hc
    · intro nm attrs cs s
      obtain ⟨n2, hn2⟩ := hws nm attrs (cs ++ [node]) (to_u32 (s + n1))
      refine ⟨n2, ?_⟩
      simp only [write_children, hw, tinyxml2.InsertEndChild, hn2, List.append_assoc,
        List.singleton_append]
    · intro acc s2
      obtain ⟨m2, hm2⟩ := hrs (ins x acc) (to_u32 (s2 + m1))
      exact ⟨m2, by simp only [read_xml_each, hr, List.foldl_cons, hm2]⟩

theorem xml_children_slots (w : Val → XMLNode → WXml) (rd : Val → XMLNode → RXml)
    (tag : String) (xs ds : List Val)
    (h : List.Forall₂ (fun x d => ∃ node n m, tinyxml2.has_tag tag node = true ∧
      (∀ e, w x e = (tinyxml2.InsertEndChild e node, .ok n)) ∧ rd d node = .ok (x, m)) xs ds) :
    ∃ nodes, (∀ c ∈ nodes, tinyxml2.has_tag tag c = true) ∧
      (∀ nm attrs cs s, ∃ n, write_children w xs (.element nm attrs cs) s
        = (.element nm attrs (cs ++ nodes), .ok n)) ∧
      (∀ s2, ∃ m, read_xml_slots rd ds nodes s2 = .ok (xs, m)) ∧
      (∀ s2, ∃ m, read_xml_slots_comma rd ds nodes s2 = .ok (xs, m)) := by
  induction h with
  | nil =>
    exact ⟨[], by simp, fun nm attrs cs s => ⟨s, by simp [write_children]⟩,
      fun s2 => ⟨s2, rfl⟩, fun s2 => ⟨s2, rfl⟩⟩
  | cons hx _ ih =>
    obtain ⟨node, n1, m1, htag, hw, hr⟩ := hx
    obtain ⟨nodes, htags, hws, hrs, hrc⟩ := ih
    refine ⟨node :: nodes, ?_, ?_, ?_, ?_⟩
    · intro c hc
      rcases List.mem_cons.mp hc with hc | hc
      · rw [hc]; exact htag
      · exact htags c hc
    · intro nm attrs cs s
      obtain ⟨n2, hn2⟩ := hws nm attrs (cs ++ [node]) (to_u32 (s + n1))
      refine ⟨n2, ?_⟩
      simp only [write_children, hw, tinyxml2.InsertEndChild, hn2, List.append_assoc,
        List.singleton_append]
    · intro s2
      obtain ⟨m2, hm2⟩ := hrs (to_u32 (s2 + m1))
      exact ⟨m2, by simp only [read_xml_slots, hr, hm2]⟩
    · intro s2
      obtain ⟨m2, hm2⟩ := hrc (to_u32 (s2 + m1))
      exact ⟨m2, by simp only [read_xml_slots_comma, hr, hm2]⟩


/-! ## Decimal text of integers -/

theorem digit_char_facts (d : Nat) (h : d < 10) :
    is_digit (digit_char d) = true ∧ (digit_char d).toNat - 48 = d ∧
      is_space (digit_char d) = false ∧ (digit_char d).toNat ≠ 45 ∧ (digit_char d).toNat ≠ 43 ∧
      (digit_char d).toNat ≠ 0 := by
  interval_cases d <;> decide

theorem digits_value_append (ds : List Char) (c : Char) :
    digits_value (ds ++ [c]) = 10 * digits_value ds + (c.toNat - 48) := by
  simp [digits_value, List.foldl_append]

theorem nat_digits_spec : ∀ (f n : Nat), n < f →
    nat_digits f n ≠ [] ∧ (∀ c ∈ nat_digits f n, is_digit c = true ∧ c.toNat ≠ 0) ∧
      digits_value (nat_digits f n) = n ∧
      (∀ c, (nat_digits f n).head? = some c → is_space c = false ∧ c.toNat ≠ 45 ∧ c.toNat ≠ 43) := by
  intro f
  induction f with
  | zero => intro n h; omega
  | succ f ih =>
    intro n h
    by_cases hn : n < 10
    · have hd := digit_char_facts n hn
      simp only [nat_digits, hn, if_true]
      refine ⟨by simp, ?_, ?_, ?_⟩
      · intro c hc
        simp only [List.mem_singleton] at hc
        subst hc
        exact ⟨hd.1, hd.2.2.2.2.2⟩
      · simp [digits_value, hd.2.1]
      · intro c hc
        simp only [List.head?_cons, Option.some.injEq] at hc
        subst hc
        exact ⟨hd.2.2.1, hd.2.2.2.1, hd.2.2.2.2.1⟩
    · have hlt : n / 10 < f := by omega
      obtain ⟨h1, h2, h3, h4⟩ := ih (n / 10) hlt
      have hd := digit_char_facts (n % 10) (Nat.mod_lt _ (by norm_num))
      simp only [nat_digits, hn, if_false]
      refine ⟨by simp, ?_, ?_, ?_⟩
      · intro c hc
        rcases List.mem_append.mp hc with hc | hc
        · exact h2 c hc
        · simp only [List.mem_singleton] at hc
          subst hc
          exact ⟨hd.1, hd.2.2.2.2.2⟩
      · rw [digits_value_append, h3, hd.2.1]
        omega
      · intro c hc
        apply h4 c
        cases hnd : nat_digits f (n / 10) with
        | nil => exact absurd hnd h1
        | cons a as => simpa [hnd] using hc

theorem takeWhile_all {α : Type} (p : α → Bool) (l : List α) (h : ∀ x ∈ l, p x = true) :
    l.takeWhile p = l := by
  induction l with
  | nil => rfl
  | cons a l ih =>
    simp only [List.takeWhile_cons, h a (List.mem_cons_self _ _), if_true]
    rw [ih (fun x hx => h x (List.mem_cons_of_mem _ hx))]

theorem dropWhile_head {α : Type} (p : α → Bool) (a : α) (l : List α) (h : p a = false) :
    (a :: l).dropWhile p = a :: l := by
  simp [List.dropWhile_cons, h]

theorem c_str_int_to_string (n : Int) : c_str (int_to_string n) = int_to_string n := by
  have hd := nat_digits_spec (n.natAbs + 1) n.natAbs (by omega)
  simp only [c_str, int_to_string]
  split
  · congr 1
    apply takeWhile_all
    intro c hc
    rcases List.mem_cons.mp hc with hc | hc
    · subst hc; decide
    · simpa using (hd.2.1 c hc).2
  · congr 1
    apply takeWhile_all
    intro c hc
    simpa using (hd.2.1 c hc).2

theorem stoi_int_to_string (n : Int) (h : in_int_range n = true) :
    stoi (int_to_string n) = .ok n := by
  obtain ⟨h1, h2, h3, h4⟩ := nat_digits_spec (n.natAbs + 1) n.natAbs (by omega)
  simp only [in_int_range, decide_eq_true_eq] at h
  have htw : (nat_digits (n.natAbs + 1) n.natAbs).takeWhile is_digit
      = nat_digits (n.natAbs + 1) n.natAbs := takeWhile_all _ _ (fun c hc => (h2 c hc).1)
  cases hnd : nat_digits (n.natAbs + 1) n.natAbs with
  | nil => exact absurd hnd h1
  | cons a as =>
    have ha := h4 a (by simp [hnd])
    rw [hnd] at htw h3
    by_cases hneg : n < 0
    · have hsp : is_space (Char.ofNat 45) = false := by decide
      have h45 : (Char.ofNat 45).toNat = 45 := by decide
      simp only [stoi, int_to_string, hneg, if_true, hnd, dropWhile_head _ _ _ hsp, split_sign,
        h45, htw, h3]
      simp only [reduceCtorEq, if_false, if_true]
      have hle : n.natAbs ≤ 2 ^ 31 := by omega
      simp only [hle, if_true]
      congr 1
      omega
    · simp only [stoi, int_to_string, hneg, if_false, hnd, dropWhile_head _ _ _ ha.1, split_sign,
        ha.2.1, ha.2.2, htw, h3]
      simp only [reduceCtorEq, if_false, Bool.false_eq_true]
      have hlt : n.natAbs < 2 ^ 31 := by omega
      simp only [hlt, if_true]
      congr 1
      omega

theorem Prim.of_int_eq (p : Prim) (n : Int) (h : p.inRange n = true) : p.of_int n = n := by
  cases p <;> simp only [Prim.of_int] <;> try exact Prim.decode_encode _ n h
  simp [Prim.inRange] at h
  split <;> omega


/-! ## Text round trip of the built-in shapes -/

theorem c_str_element : c_str "element" = "element" := by decide

theorem c_str_first : c_str "first" = "first" := by decide

theorem c_str_second : c_str "second" = "second" := by decide

theorem c_str_object : c_str "object" = "object" := by decide

theorem c_str_element_pair : c_str "element_pair" = "element_pair" := by decide

theorem c_str_nul_free (s : String) (h : nul_free s = true) : c_str s = s := by
  simp only [nul_free, List.all_eq_true] at h
  simp only [c_str]
  rw [takeWhile_all _ _ h]

theorem xml_srl.read_xml_child (E : Env) (R : type_info.Registry) (fuel : Nat) (T : Ty) (d : Val)
    (name nm : String) (r : XMLNode) (hT : ∀ c, T ≠ .cls c) :
    xml_srl.read_xml E R fuel T d name (some r) false
      = xml_srl.read_xml E R fuel T d nm (tinyxml2.FirstChildElement r (c_str name)) true := by
  cases T <;> cases d <;> simp [xml_srl.read_xml, locate] at hT ⊢

theorem typed_not_cls (L : Limits) (E : Env) (T : Ty) (v : Val) (h : typed L E T v = true) :
    ∀ c, T ≠ .cls c := by
  intro c hc
  subst hc
  cases v <;> simp [typed] at h

theorem first_child_one (nm name : String) (attrs : List (String × String)) (node : XMLNode)
    (h : tinyxml2.has_tag name node = true) :
    tinyxml2.FirstChildElement (.element nm attrs [node]) name = some node := by
  simp [tinyxml2.FirstChildElement, tinyxml2.children, List.find?, h]

theorem xml_pair (wa wb : Val → String → XMLNode → WXml)
    (ra rb : Val → String → Option XMLNode → Bool → RXml) (x y dx dy : Val)
    (ha : xml_round_trip (wa x) (ra dx) x) (hb : xml_round_trip (wb y) (rb dy) y)
    (hac : ∀ name nm r, ra dx name (some r) false
      = ra dx nm (tinyxml2.FirstChildElement r (c_str name)) true)
    (hbc : ∀ name nm r, rb dy name (some r) false
      = rb dy nm (tinyxml2.FirstChildElement r (c_str name)) true) :
    ∀ name, ∃ node n m, tinyxml2.has_tag (c_str name) node = true ∧
      (∀ root, write_xml_pair wa wb (.pair x y) name root
        = (tinyxml2.InsertEndChild root node, .ok n)) ∧
      read_xml_pair ra rb (.pair dx dy) (some node) = .ok (.pair x y, m) := by
  intro name
  obtain ⟨n1, c1, m1, ht1, hw1, hr1⟩ := ha "first"
  obtain ⟨n2, c2, m2, ht2, hw2, hr2⟩ := hb "second"
  rw [c_str_first] at ht1
  rw [c_str_second] at ht2
  refine ⟨.element (c_str name) [] [n1, n2], to_u32 (to_u32 (1 + c1) + c2),
    to_u32 (to_u32 (1 + m1) + m2), by simp [tinyxml2.has_tag], ?_, ?_⟩
  · intro root
    simp [write_xml_pair, hw1, hw2, tinyxml2.NewElement, tinyxml2.InsertEndChild]
  · have hne : tinyxml2.has_tag "second" n1 = false := by
      cases h : tinyxml2.has_tag "second" n1 with
      | false => rfl
      | true => exact absurd (has_tag_unique _ _ _ ht1 h) (by decide)
    have hf1 : tinyxml2.FirstChildElement (.element (c_str name) [] [n1, n2]) (c_str "first")
        = some n1 := by
      simp [tinyxml2.FirstChildElement, tinyxml2.children, List.find?, c_str_first, ht1]
    have hf2 : tinyxml2.FirstChildElement (.element (c_str name) [] [n1, n2]) (c_str "second")
        = some n2 := by
      simp [tinyxml2.FirstChildElement, tinyxml2.children, List.find?, c_str_second, hne, ht2]
    simp only [read_xml_pair, hac "first" "first", hbc "second" "second", hf1, hf2, hr1, hr2]

theorem xml_wrapper (w : Val → String → XMLNode → WXml) (rd : Val → XMLNode → RXml) (d : Val)
    (ins : Val → List Val → List Val) (tag : String) (xs : List Val)
    (h : ∀ x ∈ xs, ∃ node n m, tinyxml2.has_tag tag node = true ∧
      (∀ e, w x tag e = (tinyxml2.InsertEndChild e node, .ok n)) ∧ rd d node = .ok (x, m))
    (hins : xs.foldl (fun a x => ins x a) [] = xs) :
    ∀ name, ∃ node n m, tinyxml2.has_tag (c_str name) node = true ∧
      (∀ root, write_wrapper w tag xs name root = (tinyxml2.InsertEndChild root node, .ok n)) ∧
      read_wrapper rd tag d ins [] (some node) = .ok (.seq xs, m) := by
  intro name
  obtain ⟨nodes, htags, hws, hrs⟩ := xml_children_each (fun x e => w x tag e) rd d ins
    tag xs h
  obtain ⟨n, hn⟩ := hws (c_str name) [] [] 1
  obtain ⟨m, hm⟩ := hrs [] 1
  refine ⟨.element (c_str name) [] nodes, n, m, by simp [tinyxml2.has_tag], ?_, ?_⟩
  · intro root
    simp only [write_wrapper, tinyxml2.NewElement, hn, List.nil_append]
  · simp only [read_wrapper, element_run_of,
      element_run_all tag _ _ nodes htags, hm, hins]

theorem xml_wrapper_slots (w : Val → String → XMLNode → WXml) (rd : Val → XMLNode → RXml)
    (xs ds : List Val)
    (h : List.Forall₂ (fun x d => ∃ node n m, tinyxml2.has_tag "element" node = true ∧
      (∀ e, w x "element" e = (tinyxml2.InsertEndChild e node, .ok n)) ∧ rd d node = .ok (x, m))
      xs ds) :
    ∀ name, ∃ node n m mc nodes, tinyxml2.has_tag (c_str name) node = true ∧
      (∀ root, write_wrapper w "element" xs name root
        = (tinyxml2.InsertEndChild root node, .ok n)) ∧
      element_run_of (some node) "element" = .ok nodes ∧
      read_xml_slots rd ds nodes 1 = .ok (xs, m) ∧
      read_xml_slots_comma rd ds nodes 1 = .ok (xs, mc) := by
  intro name
  obtain ⟨nodes, htags, hws, hrs, hrc⟩ := xml_children_slots (fun x e => w x "element" e) rd
    "element" xs ds h
  obtain ⟨n, hn⟩ := hws (c_str name) [] [] 1
  obtain ⟨m, hm⟩ := hrs 1
  obtain ⟨m2, hm2⟩ := hrc 1
  refine ⟨.element (c_str name) [] nodes, n, m, m2, nodes, by simp [tinyxml2.has_tag], ?_, ?_, hm, hm2⟩
  · intro root
    simp only [write_wrapper, tinyxml2.NewElement, hn, List.nil_append]
  · simp only [element_run_of, element_run_all "element" _ _ nodes htags]

theorem xml_srl.xml_round_trip_direct (E : Env) (R : type_info.Registry) (fuel : Nat) :
    ∀ (T : Ty) (v d : Val), typed Limits.xml E T v = true → fresh T d = true →
      xml_round_trip (xml_srl.write_xml E R fuel T v) (xml_srl.read_xml E R fuel T d) v := by
  intro T
  induction T with
  | arith p =>
    intro v d hv hd name
    cases v <;> simp only [typed, Bool.false_eq_true] at hv
    cases d <;> simp only [fresh, Bool.false_eq_true] at hd
    rename_i n old
    simp only [Limits.xml, Bool.and_eq_true, Bool.not_eq_true'] at hv
    refine ⟨tinyxml2.SetAttribute (tinyxml2.NewElement (c_str name)) "val"
      (c_str (std_to_string E p n)), 1, 1, by simp [tinyxml2.SetAttribute, tinyxml2.NewElement,
        tinyxml2.has_tag], fun root => by simp only [xml_srl.write_xml], fun nm => ?_⟩
    simp [xml_srl.read_xml, locate, hv.1.1, read_val_int, tinyxml2.SetAttribute,
      tinyxml2.NewElement, tinyxml2.Attribute, tinyxml2.set_attr, List.lookup, std_to_string,
      c_str_int_to_string, stoi_int_to_string n hv.2, Prim.of_int_eq p n hv.1.2]
  | pointer t ih =>
    intro v d hv hd name
    cases v <;> simp only [typed, Bool.false_eq_true] at hv
    rename_i x
    obtain ⟨node, n, m, htag, hw, hr⟩ := ih x (t.value_init E) hv (fresh_init _ E t x hv).2 "object"
    refine ⟨.element (c_str name) [("type", "pointer")] [node], n, m,
      by simp [tinyxml2.has_tag], fun root => ?_, fun nm => ?_⟩
    · simp [xml_srl.write_xml, hw, tinyxml2.SetAttribute, tinyxml2.NewElement,
        tinyxml2.InsertEndChild, tinyxml2.set_attr]
    · simp only [xml_srl.read_xml, locate, if_true,
        xml_srl.read_xml_child E R fuel t _ "object" "object" _ (typed_not_cls _ E t x hv),
        first_child_one _ _ _ node htag, hr]
  | unique_ptr t ih =>
    intro v d hv hd name
    cases v <;> simp only [typed, Bool.false_eq_true] at hv
    rename_i x
    obtain ⟨node, n, m, htag, hw, hr⟩ := ih x (t.value_init E) hv (fresh_init _ E t x hv).2 "object"
    refine ⟨.element (c_str name) [("type", "unique_ptr")] [node], n, m,
      by simp [tinyxml2.has_tag], fun root => ?_, fun nm => ?_⟩
    · simp [xml_srl.write_xml, hw, tinyxml2.SetAttribute, tinyxml2.NewElement,
        tinyxml2.InsertEndChild, tinyxml2.set_attr]
    · simp only [xml_srl.read_xml, locate, if_true,
        xml_srl.read_xml_child E R fuel t _ "object" "object" _ (typed_not_cls _ E t x hv),
        first_child_one _ _ _ node htag, hr]
  | array k t ih =>
    intro v d hv hd name
    cases v <;> simp only [typed, Bool.false_eq_true] at hv
    cases d <;> simp only [fresh, Bool.false_eq_true] at hd
    rename_i xs ds
    simp only [Bool.and_eq_true, decide_eq_true_eq] at hv hd
    obtain ⟨node, n, m, mc, nodes, htag, hw, hrun, hr, -⟩ := xml_wrapper_slots
      (xml_srl.write_xml E R fuel t)
      (fun d c => xml_srl.read_xml E R fuel t d "element" (some c) true) xs ds
      (forall2_of_all _ _ _ xs ds (by omega) hv.2 hd.2 (fun x d hx hd => by
        obtain ⟨node, n, m, htag, hw, hr⟩ := ih x d hx hd "element"
        rw [c_str_element] at htag
        exact ⟨node, n, m, htag, hw, hr "element"⟩)) name
    refine ⟨node, n, m, htag, fun root => ?_, fun nm => ?_⟩
    · simp only [xml_srl.write_xml, hv.1, if_true, hw]
    · simp only [xml_srl.read_xml, hd.1, if_true, locate, hrun, hr]
  | string =>
    intro v d hv hd name
    cases v <;> simp only [typed, Bool.false_eq_true] at hv
    rename_i s
    simp only [Limits.xml, Bool.and_eq_true] at hv
    refine ⟨.element (c_str name) [] [.text s], 1, 1, by simp [tinyxml2.has_tag],
      fun root => ?_, fun nm => ?_⟩
    · simp [xml_srl.write_xml, tinyxml2.NewElement, tinyxml2.NewText, tinyxml2.InsertEndChild,
        c_str_nul_free s hv.2]
    · simp [xml_srl.read_xml, locate, read_text, tinyxml2.GetText, tinyxml2.children]
  | pair a b iha ihb =>
    intro v d hv hd name
    cases v <;> simp only [typed, Bool.false_eq_true] at hv
    cases d <;> simp only [fresh, Bool.false_eq_true] at hd
    rename_i x y dx dy
    simp only [Bool.and_eq_true] at hv hd
    obtain ⟨node, n, m, htag, hw, hr⟩ := xml_pair (xml_srl.write_xml E R fuel a)
      (xml_srl.write_xml E R fuel b) (xml_srl.read_xml E R fuel a) (xml_srl.read_xml E R fuel b)
      x y dx dy (iha x dx hv.1 hd.1) (ihb y dy hv.2 hd.2)
      (fun name nm r => xml_srl.read_xml_child E R fuel a dx name nm r (typed_not_cls _ E a x hv.1))
      (fun name nm r => xml_srl.read_xml_child E R fuel b dy name nm r (typed_not_cls _ E b y hv.2))
      name
    refine ⟨node, n, m, htag, fun root => ?_, fun nm => ?_⟩
    · simp only [xml_srl.write_xml, hw]
    · simp only [xml_srl.read_xml, locate, if_true, hr]
  | seq k t ih =>
    intro v d hv hd name
    cases v <;> simp only [typed, Bool.false_eq_true] at hv
    cases d <;> simp only [fresh, Bool.false_eq_true] at hd
    rename_i xs ds
    simp only [List.isEmpty_iff] at hd
    subst hd
    simp only [Bool.and_eq_true, List.all_eq_true] at hv
    obtain ⟨node, n, m, htag, hw, hr⟩ := xml_wrapper (xml_srl.write_xml E R fuel t)
      (fun d c => xml_srl.read_xml E R fuel t d "element" (some c) true) (t.default_init E)
      push_back "element" xs
      (fun x hx => by
        obtain ⟨node, n, m, htag, hw, hr⟩ :=
          ih x _ (hv.2 x hx) (fresh_init _ E t x (hv.2 x hx)).1 "element"
        rw [c_str_element] at htag
        exact ⟨node, n, m, htag, hw, hr "element"⟩)
      (by simp [foldl_push_back]) name
    refine ⟨node, n, m, htag, fun root => ?_, fun nm => ?_⟩
    · simp only [xml_srl.write_xml, hw]
    · simp only [xml_srl.read_xml, locate, if_true, hr]
  | setc k t ih =>
    intro v d hv hd name
    cases k <;> cases v <;> simp only [typed, Bool.false_eq_true] at hv
    cases d <;> simp only [fresh, Bool.false_eq_true] at hd
    rename_i xs ds
    simp only [List.isEmpty_iff] at hd
    subst hd
    simp only [Bool.and_eq_true, List.all_eq_true] at hv
    obtain ⟨node, n, m, htag, hw, hr⟩ := xml_wrapper (xml_srl.write_xml E R fuel t)
      (fun d c => xml_srl.read_xml E R fuel t d "element" (some c) true) (t.default_init E)
      (set_kind_insert E .set t) "element" xs
      (fun x hx => by
        obtain ⟨node, n, m, htag, hw, hr⟩ :=
          ih x _ (hv.1.2 x hx) (fresh_init _ E t x (hv.1.2 x hx)).1 "element"
        rw [c_str_element] at htag
        exact ⟨node, n, m, htag, hw, hr "element"⟩)
      (by simp [set_kind_insert, foldl_set_insert _ xs [] hv.2]) name
    refine ⟨node, n, m, htag, fun root => ?_, fun nm => ?_⟩
    · simp only [xml_srl.write_xml, hw]
    · simp only [xml_srl.read_xml, locate, if_true, hr]
  | mapc k a b iha ihb =>
    intro v d hv hd name
    cases k <;> cases v <;> simp only [typed, Bool.false_eq_true] at hv
    cases d <;> simp only [fresh, Bool.false_eq_true] at hd
    rename_i xs ds
    simp only [List.isEmpty_iff] at hd
    subst hd
    simp only [Bool.and_eq_true, List.all_eq_true] at hv
    obtain ⟨node, n, m, htag, hw, hr⟩ := xml_wrapper
      (write_xml_pair (xml_srl.write_xml E R fuel a) (xml_srl.write_xml E R fuel b))
      (fun d c => read_xml_pair (xml_srl.read_xml E R fuel a) (xml_srl.read_xml E R fuel b) d
        (some c))
      ((Ty.pair a b).default_init E) (map_kind_insert E .map a b) "element" xs
      (fun x hx => by
        have hx1 := hv.1.2 x hx
        cases x <;> simp only [Bool.false_eq_true] at hx1
        rename_i x y
        simp only [Bool.and_eq_true] at hx1
        obtain ⟨node, n, m, htag, hw, hr⟩ := xml_pair (xml_srl.write_xml E R fuel a)
          (xml_srl.write_xml E R fuel b) (xml_srl.read_xml E R fuel a)
          (xml_srl.read_xml E R fuel b) x y (a.value_init E) (b.value_init E)
          (iha x _ hx1.1 (fresh_init _ E a x hx1.1).2) (ihb y _ hx1.2 (fresh_init _ E b y hx1.2).2)
          (fun name nm r => xml_srl.read_xml_child E R fuel a _ name nm r
            (typed_not_cls _ E a x hx1.1))
          (fun name nm r => xml_srl.read_xml_child E R fuel b _ name nm r
            (typed_not_cls _ E b y hx1.2))
          "element"
        rw [c_str_element] at htag
        exact ⟨node, n, m, htag, hw, by simpa [Ty.default_init] using hr⟩)
      (by simp [map_kind_insert, foldl_set_insert _ xs [] hv.2]) name
    refine ⟨node, n, m, htag, fun root => ?_, fun nm => ?_⟩
    · simp only [xml_srl.write_xml, hw]
    · simp only [xml_srl.read_xml, locate, if_true, hr]
  | adaptor k t _ => intro v d hv; cases v <;> simp [typed] at hv
  | cls n => intro v d hv; cases v <;> simp [typed] at hv
  | enum n => intro v d hv; cases v <;> simp [typed] at hv


/-! ## Text round trip through the registered lambdas -/

namespace type_info

theorem reader_xml_child (E : Env) (R : Registry) (f : Nat) (T : Ty) (d : Val)
    (name nm : String) (r : XMLNode) :
    reader_xml E R f T d name (some r) false
      = reader_xml E R f T d nm (tinyxml2.FirstChildElement r (c_str name)) true := by
  cases f with
  | zero => rfl
  | succ f =>
    by_cases h : T ∈ R.type_reader_xml
    · cases T <;> cases d <;> simp [reader_xml, locate, h]
    · simp [reader_xml, h]

theorem read_xml_members_write (E : Env) (T : Ty) (w : Ty → Val → String → XMLNode → WXml)
    (rd : Ty → Val → String → Option XMLNode → Bool → RXml) (fs : List Val)
    (hrd : ∀ t d name nm r, rd t d name (some r) false
      = rd t d nm (tinyxml2.FirstChildElement r (c_str name)) true) :
    ∀ (ms : List memberPair) (cur : List Val),
      (ms.map (fun m => E.member_index T m.offset m.typenm)).Nodup →
      (ms.map (fun m => c_str m.name)).Nodup →
      (∀ m ∈ ms, ∃ i x d, E.member_index T m.offset m.typenm = some i ∧ fs[i]? = some x ∧
        cur[i]? = some d ∧ xml_round_trip (w m.typenm x) (rd m.typenm d) x) →
      ∃ nodes,
        (∀ nm attrs cs s, ∃ n, write_children (write_xml_member E T w (.obj fs)) ms
          (.element nm attrs cs) s = (.element nm attrs (cs ++ nodes), .ok n)) ∧
        ∀ nm attrs pre s2,
          (∀ c ∈ pre, ∀ m ∈ ms, tinyxml2.has_tag (c_str m.name) c = false) →
          ∃ c, read_xml_members E T rd (some (.element nm attrs (pre ++ nodes))) ms (.obj cur) s2
            = .ok (.obj (ms.foldl (fun acc m => match E.member_index T m.offset m.typenm with
                | some i => acc.set i (fs.getD i .null)
                | none => acc) cur), c) := by
  intro ms
  induction ms with
  | nil =>
    intro cur _ _ _
    exact ⟨[], fun nm attrs cs s => ⟨s, by simp [write_children]⟩,
      fun nm attrs pre s2 _ => ⟨s2, rfl⟩⟩
  | cons m ms ih =>
    intro cur hnd hnn h
    obtain ⟨i, x, d, hi, hx, hd, hrt⟩ := h m (List.mem_cons_self _ _)
    obtain ⟨node, n1, m1, htag, hw, hr⟩ := hrt m.name
    simp only [List.map_cons, List.nodup_cons] at hnd hnn
    have hrest : ∀ m1 ∈ ms, ∃ i1 x1 d1, E.member_index T m1.offset m1.typenm = some i1 ∧
        fs[i1]? = some x1 ∧ (cur.set i x)[i1]? = some d1 ∧
        xml_round_trip (w m1.typenm x1) (rd m1.typenm d1) x1 := by
      intro m1 hm1
      obtain ⟨i1, x1, d1, hi1, hx1, hd1, hrt1⟩ := h m1 (List.mem_cons_of_mem _ hm1)
      have hne : i ≠ i1 := by
        intro heq
        apply hnd.1
        rw [hi, heq, ← hi1]
        exact List.mem_map_of_mem _ hm1
      exact ⟨i1, x1, d1, hi1, hx1, by simp [List.getElem?_set, hne, hd1], hrt1⟩
    obtain ⟨nodes, hws, hrs⟩ := ih (cur.set i x) hnd.2 hnn.2 hrest
    refine ⟨node :: nodes, ?_, ?_⟩
    · intro nm attrs cs s
      obtain ⟨n2, hn2⟩ := hws nm attrs (cs ++ [node]) (to_u32 (s + n1))
      refine ⟨n2, ?_⟩
      simp only [write_children, write_xml_member, member, hi, hx, hw, tinyxml2.InsertEndChild,
        hn2, List.append_assoc, List.singleton_append]
    · intro nm attrs pre s2 hpre
      have hpre2 : ∀ c ∈ pre ++ [node], ∀ m1 ∈ ms, tinyxml2.has_tag (c_str m1.name) c = false := by
        intro c hc m1 hm1
        rcases List.mem_append.mp hc with hc | hc
        · exact hpre c hc m1 (List.mem_cons_of_mem _ hm1)
        · simp only [List.mem_singleton] at hc
          subst hc
          cases hh : tinyxml2.has_tag (c_str m1.name) c with
          | false => rfl
          | true =>
            exfalso
            apply hnn.1
            rw [has_tag_unique _ _ _ htag hh]
            exact List.mem_map_of_mem (fun m => c_str m.name) hm1
      obtain ⟨c2, hc2⟩ := hrs nm attrs (pre ++ [node]) (to_u32 (s2 + m1)) hpre2
      refine ⟨c2, ?_⟩
      have hfind : tinyxml2.FirstChildElement (.element nm attrs (pre ++ node :: nodes))
          (c_str m.name) = some node := by
        simp only [tinyxml2.FirstChildElement, tinyxml2.children]
        exact find_tag_append _ pre nodes node
          (fun c hc => hpre c hc m (List.mem_cons_self _ _)) htag
      have hgd : fs.getD i .null = x := by simp [List.getD, hx]
      simp only [read_xml_members, member, hi, hd, hrd _ _ m.name m.name, hfind, hr,
        Val.set_field, List.foldl_cons, hgd]
      simpa using hc2

theorem xml_round_trip_registered (E : Env) (R : Registry) (K : Nat)
    (hK : ctors_fresh E R K = true) :
    ∀ (n : Nat) (T : Ty) (v : Val), reg_typed Limits.xml E R n T v = true →
      ∀ (k : Nat) (d : Val), reg_fresh E R k T d = true → ∀ f, n ≤ f →
        xml_round_trip (writer_xml E R f T v) (reader_xml E R f T d) v := by
  intro n
  induction n with
  | zero => intro T v h; simp [reg_typed] at h
  | succ n ih =>
    intro T v hv k d hd f hf
    obtain ⟨f, rfl⟩ : ∃ f1, f = f1 + 1 := ⟨f - 1, by omega⟩
    have hf1 : n ≤ f := by omega
    cases k with
    | zero => simp [reg_fresh] at hd
    | succ k =>
    simp only [reg_typed, Bool.and_eq_true] at hv
    obtain ⟨hhas, hv⟩ := hv
    obtain ⟨-, -, hwx, hrx⟩ := (Registry.has_iff R T).mp hhas
    intro name
    cases T <;> cases v <;> (try simp only [Bool.false_eq_true] at hv)
    case arith.num p x =>
      cases d <;> simp only [reg_fresh, Bool.false_eq_true] at hd
      rename_i old
      simp only [Limits.xml, Bool.and_eq_true, Bool.not_eq_true'] at hv
      refine ⟨tinyxml2.SetAttribute (tinyxml2.NewElement (c_str name)) "val"
        (c_str (std_to_string E p x)), 1, 1, by simp [tinyxml2.SetAttribute, tinyxml2.NewElement,
          tinyxml2.has_tag], fun root => by simp [writer_xml, hwx], fun nm => ?_⟩
      simp [reader_xml, hrx, locate, hv.1.1, read_val_int, tinyxml2.SetAttribute,
        tinyxml2.NewElement, tinyxml2.Attribute, tinyxml2.set_attr, List.lookup, std_to_string,
        c_str_int_to_string, stoi_int_to_string x hv.2, Prim.of_int_eq p x hv.1.2]
    case string.str s =>
      cases d <;> simp only [reg_fresh, Bool.false_eq_true] at hd
      simp only [Limits.xml, Bool.and_eq_true] at hv
      refine ⟨.element (c_str name) [] [.text s], 1, 1, by simp [tinyxml2.has_tag],
        fun root => ?_, fun nm => ?_⟩
      · simp [writer_xml, hwx, tinyxml2.NewElement, tinyxml2.NewText, tinyxml2.InsertEndChild,
          c_str_nul_free s hv.2]
      · simp [reader_xml, hrx, locate, read_text, tinyxml2.GetText, tinyxml2.children]
    case unique_ptr.ptr t x =>
      obtain ⟨k1, -, hk1⟩ := reg_fresh_init _ E R K hK n t x hv
      obtain ⟨node, c, m, htag, hw, hr⟩ := ih t x hv k1 _ hk1 f hf1 "object"
      refine ⟨.element (c_str name) [("type", "unique_ptr")] [node], c, m,
        by simp [tinyxml2.has_tag], fun root => ?_, fun nm => ?_⟩
      · simp [writer_xml, hwx, hw, tinyxml2.SetAttribute, tinyxml2.NewElement,
          tinyxml2.InsertEndChild, tinyxml2.set_attr]
      · simp only [reader_xml, hrx, not_true_eq_false, if_false, locate, if_true,
          reader_xml_child E R f t _ "object" "object", first_child_one _ _ _ node htag, hr]
    case array.seq m t xs =>
      cases d <;> simp only [reg_fresh, Bool.false_eq_true] at hd
      rename_i ds
      simp only [Bool.and_eq_true, decide_eq_true_eq] at hv hd
      obtain ⟨node, c, c1, c2, nodes, htag, hw, hrun, -, hr⟩ := xml_wrapper_slots
        (writer_xml E R f t)
        (fun d c => reader_xml E R f t d "element" (some c) true) xs ds
        (forall2_of_all _ _ _ xs ds (by omega) hv.2 hd.2 (fun x d hx hd => by
          obtain ⟨node, n, m, htag, hw, hr⟩ := ih t x hx k d hd f hf1 "element"
          rw [c_str_element] at htag
          exact ⟨node, n, m, htag, hw, hr "element"⟩)) name
      refine ⟨node, c, c2, htag, fun root => ?_, fun nm => ?_⟩
      · simp only [writer_xml, hwx, not_true_eq_false, if_false, hv.1, if_true, hw]
      · simp only [reader_xml, hrx, not_true_eq_false, if_false, hd.1, if_true, locate, hrun, hr]
    case pair.pair a b x y =>
      cases d <;> simp only [reg_fresh, Bool.false_eq_true] at hd
      rename_i dx dy
      simp only [Bool.and_eq_true] at hv hd
      obtain ⟨node, c, m, htag, hw, hr⟩ := xml_pair (writer_xml E R f a)
        (writer_xml E R f b) (reader_xml E R f a) (reader_xml E R f b)
        x y dx dy (ih a x hv.1 k dx hd.1 f hf1) (ih b y hv.2 k dy hd.2 f hf1)
        (fun name nm r => reader_xml_child E R f a dx name nm r)
        (fun name nm r => reader_xml_child E R f b dy name nm r)
        name
      refine ⟨node, c, m, htag, fun root => ?_, fun nm => ?_⟩
      · simp only [writer_xml, hwx, not_true_eq_false, if_false, hw]
      · simp only [reader_xml, hrx, not_true_eq_false, if_false, locate, if_true, hr]
    case seq.seq sk t xs =>
      cases d <;> simp only [reg_fresh, Bool.false_eq_true] at hd
      rename_i ds
      simp only [List.isEmpty_iff] at hd
      subst hd
      simp only [Bool.and_eq_true, List.all_eq_true] at hv
      obtain ⟨node, c, m, htag, hw, hr⟩ := xml_wrapper (writer_xml E R f t)
        (fun d c => reader_xml E R f t d "element" (some c) true) (t.default_init E)
        push_back "element" xs
        (fun x hx => by
          obtain ⟨k1, hk1, -⟩ := reg_fresh_init _ E R K hK n t x (hv.2 x hx)
          obtain ⟨node, n, m, htag, hw, hr⟩ := ih t x (hv.2 x hx) k1 _ hk1 f hf1 "element"
          rw [c_str_element] at htag
          exact ⟨node, n, m, htag, hw, hr "element"⟩)
        (by simp [foldl_push_back]) name
      refine ⟨node, c, m, htag, fun root => ?_, fun nm => ?_⟩
      · simp only [writer_xml, hwx, not_true_eq_false, if_false, hw]
      · simp only [reader_xml, hrx, not_true_eq_false, if_false, locate, if_true, hr]
    case setc.seq sk t xs =>
      cases sk <;> simp only [Bool.false_eq_true] at hv
      cases d <;> simp only [reg_fresh, Bool.false_eq_true] at hd
      rename_i ds
      simp only [List.isEmpty_iff] at hd
      subst hd
      simp only [Bool.and_eq_true, List.all_eq_true] at hv
      obtain ⟨node, c, m, htag, hw, hr⟩ := xml_wrapper (writer_xml E R f t)
        (fun d c => reader_xml E R f t d "element" (some c) true) (t.default_init E)
        (set_kind_insert E .set t) "element" xs
        (fun x hx => by
          obtain ⟨k1, hk1, -⟩ := reg_fresh_init _ E R K hK n t x (hv.1.2 x hx)
          obtain ⟨node, n, m, htag, hw, hr⟩ := ih t x (hv.1.2 x hx) k1 _ hk1 f hf1 "element"
          rw [c_str_element] at htag
          exact ⟨node, n, m, htag, hw, hr "element"⟩)
        (by simp [set_kind_insert, foldl_set_insert _ xs [] hv.2]) name
      refine ⟨node, c, m, htag, fun root => ?_, fun nm => ?_⟩
      · simp only [writer_xml, hwx, not_true_eq_false, if_false, hw]
      · simp only [reader_xml, hrx, not_true_eq_false, if_false, locate, if_true, hr]
    case mapc.seq mk a b xs =>
      cases mk <;> simp only [Bool.false_eq_true] at hv
      cases d <;> simp only [reg_fresh, Bool.false_eq_true] at hd
      rename_i ds
      simp only [List.isEmpty_iff] at hd
      subst hd
      simp only [Bool.and_eq_true, List.all_eq_true] at hv
      obtain ⟨node, c, m, htag, hw, hr⟩ := xml_wrapper (writer_xml E R f (.pair a b))
        (fun d c => reader_xml E R f (.pair a b) d "element_pair" (some c) true)
        ((Ty.pair a b).default_init E) (map_kind_insert E .map a b) "element_pair" xs
        (fun x hx => by
          obtain ⟨k1, hk1, -⟩ := reg_fresh_init _ E R K hK n (.pair a b) x (hv.1.2 x hx)
          obtain ⟨node, n, m, htag, hw, hr⟩ :=
            ih (.pair a b) x (hv.1.2 x hx) k1 _ hk1 f hf1 "element_pair"
          rw [c_str_element_pair] at htag
          exact ⟨node, n, m, htag, hw, hr "element_pair"⟩)
        (by simp [map_kind_insert, foldl_set_insert _ xs [] hv.2]) name
      refine ⟨node, c, m, htag, fun root => ?_, fun nm => ?_⟩
      · simp only [writer_xml, hwx, not_true_eq_false, if_false, hw]
      · simp only [reader_xml, hrx, not_true_eq_false, if_false, locate, if_true, hr]
    case cls.obj c fs =>
      cases d <;> simp only [reg_fresh, Bool.false_eq_true] at hd
      rename_i ds
      simp only [Bool.and_eq_true, decide_eq_true_eq, List.all_eq_true] at hv hd
      obtain ⟨⟨⟨⟨⟨⟨hlen, -⟩, hnm⟩, hnames⟩, hnd⟩, hcov⟩, hmem⟩ := hv
      simp only [Limits.xml, List.map_map, decide_eq_true_eq] at hnames
      have hms : ∀ m ∈ R.members (.cls c), ∃ i x d,
          E.member_index (.cls c) m.offset m.typenm = some i ∧
          fs[i]? = some x ∧ ds[i]? = some d ∧
          xml_round_trip (writer_xml E R f m.typenm x) (reader_xml E R f m.typenm d) x := by
        intro m hm
        have h1 := hmem m hm
        have h2 := hd.2 m hm
        revert h1 h2
        cases E.member_index (.cls c) m.offset m.typenm with
        | none => simp
        | some i =>
          simp only
          cases hfi : fs[i]? with
          | none => simp
          | some x =>
            cases hdi : ds[i]? with
            | none => simp
            | some d0 =>
              intro h1 h2
              exact ⟨i, x, d0, rfl, hfi, hdi, ih m.typenm x h1 k d0 h2 f hf1⟩
      obtain ⟨nodes, hws, hrs⟩ := read_xml_members_write E (.cls c) (writer_xml E R f)
        (reader_xml E R f) fs (fun t d name nm r => reader_xml_child E R f t d name nm r)
        (R.members (.cls c)) ds hnd hnames hms
      obtain ⟨display, hdisp⟩ : ∃ display, R.type_name_map.lookup (.cls c) = some display :=
        Option.isSome_iff_exists.mp hnm
      obtain ⟨c1, hc1⟩ := hws (c_str name) [("type", c_str display)] [] 1
      obtain ⟨c2, hc2⟩ := hrs (c_str name) [("type", c_str display)] [] 1 (by simp)
      refine ⟨.element (c_str name) [("type", c_str display)] nodes, c1, c2,
        by simp [tinyxml2.has_tag], fun root => ?_, fun nm => ?_⟩
      · simp [writer_xml, hwx, GetName, hdisp, tinyxml2.SetAttribute, tinyxml2.NewElement,
          tinyxml2.set_attr, hc1]
      · simp only [reader_xml, hrx, not_true_eq_false, if_false, locate, if_true]
        simp only [List.nil_append] at hc2
        have hcover := set_members_cover
          (fun m => E.member_index (.cls c) m.offset m.typenm) fs (R.members (.cls c)) ds
          (by omega)
          (fun i hi => by
            have := hcov i (List.mem_range.mpr hi)
            simpa [Registry.member_indices] using this)
        rw [hc2]
        exact congrArg (fun l => Except.ok (Val.obj l, c2)) hcover

end type_info


/-! ## The claims -/

theorem first_child_inserted (name : String) (root node : XMLNode)
    (hroot : no_child_tagged name root = true)
    (htag : tinyxml2.has_tag (c_str name) node = true) :
    tinyxml2.FirstChildElement (tinyxml2.InsertEndChild root node) (c_str name) = some node := by
  cases root with
  | text v => simp [no_child_tagged] at hroot
  | element nm attrs cs =>
    simp only [no_child_tagged, Option.isNone_iff_eq_none, List.find?_eq_none] at hroot
    simp only [tinyxml2.InsertEndChild, tinyxml2.FirstChildElement, tinyxml2.children]
    exact find_tag_append _ cs [] node (fun c hc => by simpa using hroot c hc) htag

theorem long_text_decodes_empty (E : Env) (R : type_info.Registry) (T : Ty) (c : String)
    (hT : T = .cls c)
    (hS : T ∈ R.type_writer_bin) (hS2 : T ∈ R.type_reader_bin)
    (hstr : Ty.string ∈ R.type_writer_bin) (hstr2 : Ty.string ∈ R.type_reader_bin)
    (hm : R.members T = [⟨"s", .string, 0⟩])
    (hi : E.member_index T 0 .string = some 0)
    (s : String) (hlen : to_u32 s.length = 0) :
    ∃ bs n, bin_srl.write_bin E R 2 T (.obj [.str s]) = (bs, .ok n) ∧
      bin_srl.read_bin E R 2 T (.obj [.str ""]) (ifstream.mk bs true)
        = .ok (.obj [.str ""], 4, ifstream.mk (bs.drop 4) true) := by
  subst hT
  have henc : le_bytes 4 0 = [0, 0, 0, 0] := by decide
  have hr := fun old => ifstream.read_u32_encode 0 old (s.data.map char_byte) (by norm_num)
  have henc2 : Prim.uint.encode ((0 : Nat) : Int) = [0, 0, 0, 0] := by decide
  simp only [henc2] at hr
  have hil : int_loop_count 0 = 0 := by decide
  refine ⟨[0, 0, 0, 0] ++ s.data.map char_byte, to_u32 (0 + to_u32 (s.length + 4)), ?_, ?_⟩
  · simp only [bin_srl.write_bin, hS, not_true_eq_false, if_false]
    rw [type_info.writer_bin]
    simp only [hS, not_true_eq_false, if_false, hm, write_each, type_info.write_member,
      type_info.member, hi, List.getElem?_cons_zero, WBin.bind, List.append_nil]
    rw [type_info.writer_bin]
    simp only [hstr, not_true_eq_false, if_false, hlen, henc]
  · simp only [bin_srl.read_bin, hS2, not_true_eq_false, if_false]
    rw [type_info.reader_bin]
    simp only [hS2, not_true_eq_false, if_false, hm, type_info.read_members, type_info.member,
      hi, List.getElem?_cons_zero]
    rw [type_info.reader_bin]
    simp only [hstr2, not_true_eq_false, if_false, hr, hil, read_chars, Val.set_field,
      List.set_cons_zero]
    rfl

/-- Counterexample to C2 as stated: a registered struct with one `std::string` member that
holds `2^32` characters is written with the length prefix `0`, so decoding the emitted
bytes into a default-constructed instance yields the empty string, not the member. -/
theorem C2_counterexample :
    (∃ bs n, bin_srl.write_bin main_cpp.E main_cpp.R 2 main_cpp.S
        (.obj [.str ⟨List.replicate 4294967296 (Char.ofNat 0)⟩]) = (bs, .ok n) ∧
      bin_srl.read_bin main_cpp.E main_cpp.R 2 main_cpp.S (.obj [.str ""]) (ifstream.mk bs true)
        = .ok (.obj [.str ""], 4, ifstream.mk (bs.drop 4) true)) ∧
      Val.obj [.str ⟨List.replicate 4294967296 (Char.ofNat 0)⟩] ≠ .obj [.str ""] := by
  refine ⟨long_text_decodes_empty main_cpp.E main_cpp.R main_cpp.S "S" rfl (by decide) (by decide)
    (by decide) (by decide) (by decide) (by decide) _ ?_, ?_⟩
  · show to_u32 (List.replicate 4294967296 (Char.ofNat 0)).length = 0
    rw [List.length_replicate]
    decide
  · intro h
    have h1 := congrArg List.length (congrArg String.data (Val.str.inj (List.cons.inj (Val.obj.inj h)).1))
    rw [List.length_replicate] at h1
    exact absurd h1 (by decide)


/-- Counterexample to C3 as stated: a registered struct whose `std::string` member holds the
non-empty text `a`, NUL, `b` is written as the element text `a`, and decoding the tree
yields the member `a`. -/
theorem C3_counterexample :
    xml_srl.read_xml main_cpp.E main_cpp.R 2 main_cpp.S (.obj [.str ""]) "S"
        (some (xml_srl.write_xml main_cpp.E main_cpp.R 2 main_cpp.S
          (.obj [.str main_cpp.a_nul_b]) "S" main_cpp.root).1) false
      = .ok (.obj [.str "a"], 2) ∧
    (xml_srl.write_xml main_cpp.E main_cpp.R 2 main_cpp.S
          (.obj [.str main_cpp.a_nul_b]) "S" main_cpp.root).2 = .ok 2 ∧
    Val.obj [.str main_cpp.a_nul_b] ≠ .obj [.str "a"] := by
  refine ⟨by rfl, by rfl, ?_⟩
  intro h
  exact absurd (Val.str.inj (List.cons.inj (Val.obj.inj h)).1) (by decide)

/-- C5 (the code at the failing input): the `unsigned int` 3000000000 is written as the
attribute `val="3000000000"`, and reading it back throws `std::out_of_range`, because the
reader converts every integer type with `std::stoi`. -/
theorem C5_unsigned_beyond_int :
    (xml_srl.write_xml main_cpp.E main_cpp.R 0 (.arith .uint) (.num 3000000000) "n"
        main_cpp.root)
      = (.element "serialization" [] [.element "n" [("val", "3000000000")] []], .ok 1) ∧
    Prim.uint.inRange 3000000000 = true ∧
    xml_srl.read_xml main_cpp.E main_cpp.R 0 (.arith .uint) (.num 0) "n"
        (some (.element "serialization" [] [.element "n" [("val", "3000000000")] []])) false
      = .error .out_of_range := by
  refine ⟨by rfl, by decide, by rfl⟩


theorem first_child_text (name : String) (root : XMLNode) (attrs : List (String × String))
    (cs : List XMLNode) (hroot : no_child_tagged name root = true) :
    tinyxml2.FirstChildElement (tinyxml2.InsertEndChild root (.element (c_str name) attrs cs))
      (c_str name) = some (.element (c_str name) attrs cs) :=
  first_child_inserted name root _ hroot (by simp [tinyxml2.has_tag])

/-- C6 (amended): for every string `s` and every parent without an earlier child of the
given name, `xml_srl::write_xml` inserts one element whose text is `s.c_str()` and returns
1, and `xml_srl::read_xml` on the result yields the characters of `s` before its first
NUL; this is exactly `s` when `s` holds no NUL character, the empty string included. -/
theorem C6_text_round_trip_string (E : Env) (R : type_info.Registry) (fuel : Nat)
    (s : String) (d : Val) (name : String) (root : XMLNode)
    (hroot : no_child_tagged name root = true) :
    xml_srl.write_xml E R fuel .string (.str s) name root
      = (tinyxml2.InsertEndChild root (.element (c_str name) [] [.text (c_str s)]), .ok 1) ∧
    xml_srl.read_xml E R fuel .string d name
        (some (xml_srl.write_xml E R fuel .string (.str s) name root).1) false
      = .ok (.str (c_str s), 1) ∧
    (nul_free s = true → c_str s = s) := by
  have hw : xml_srl.write_xml E R fuel .string (.str s) name root
      = (tinyxml2.InsertEndChild root (.element (c_str name) [] [.text (c_str s)]), .ok 1) := by
    simp [xml_srl.write_xml, tinyxml2.NewElement, tinyxml2.NewText, tinyxml2.InsertEndChild]
  refine ⟨hw, ?_, c_str_nul_free s⟩
  rw [hw]
  simp only [xml_srl.read_xml, locate, first_child_text name root [] _ hroot]
  rfl

/-- Witness of C6: the empty string under the fresh root. -/
theorem C6_witness :
    no_child_tagged "string" main_cpp.root = true ∧
    xml_srl.read_xml main_cpp.E main_cpp.R 0 .string (.str "x") "string"
        (some (xml_srl.write_xml main_cpp.E main_cpp.R 0 .string (.str "") "string"
          main_cpp.root).1) false
      = .ok (.str (c_str ""), 1) :=
  ⟨by decide, (C6_text_round_trip_string main_cpp.E main_cpp.R 0 "" (.str "x") "string"
    main_cpp.root (by decide)).2.1⟩

/-- Counterexample to C6 as stated: the string `a`, NUL, `b` is read back as `a`. -/
theorem C6_counterexample :
    xml_srl.read_xml main_cpp.E main_cpp.R 0 .string (.str "") "string"
        (some (xml_srl.write_xml main_cpp.E main_cpp.R 0 .string (.str main_cpp.a_nul_b)
          "string" main_cpp.root).1) false
      = .ok (.str "a", 1) ∧
    Val.str main_cpp.a_nul_b ≠ .str "a" := by
  refine ⟨by rfl, ?_⟩
  intro h
  exact absurd (Val.str.inj h) (by decide)

/-- C7: for every Sequence, Set or Map type, `bin_srl::write_bin` of the empty container
emits its four count bytes and returns 4, `bin_srl::read_bin` of these bytes into an empty
destination leaves it empty and consumes exactly them, and `xml_srl::write_xml` followed by
`xml_srl::read_xml` under a parent without an earlier child of that name leaves an empty
destination empty; no call fails. -/
theorem C7_empty_containers (E : Env) (R : type_info.Registry) (fuel : Nat) (T : Ty)
    (name : String) (root : XMLNode) (rest : List Byte)
    (hT : T.sequence_set_or_map = true) (hroot : no_child_tagged name root = true) :
    bin_srl.write_bin E R fuel T (.seq []) = ([0, 0, 0, 0], .ok 4) ∧
    bin_srl.read_bin E R fuel T (.seq []) (ifstream.mk ([0, 0, 0, 0] ++ rest) true)
      = .ok (.seq [], 4, ifstream.mk rest true) ∧
    xml_srl.write_xml E R fuel T (.seq []) name root
      = (tinyxml2.InsertEndChild root (.element (c_str name) [] []), .ok 1) ∧
    xml_srl.read_xml E R fuel T (.seq []) name
        (some (tinyxml2.InsertEndChild root (.element (c_str name) [] []))) false
      = .ok (.seq [], 1) := by
  have hfc := first_child_text name root [] [] hroot
  have hr : (ifstream.mk ([0, 0, 0, 0] ++ rest) true).read_u32 0 = (0, ifstream.mk rest true) :=
    ifstream.read_u32_encode 0 0 rest (by decide)
  cases T <;> simp [Ty.sequence_set_or_map, my_type_traits.is_sequence_container,
    my_type_traits.is_set, my_type_traits.is_map] at hT
  all_goals
    refine ⟨by rfl, ?_, by rfl, ?_⟩
    · simp only [bin_srl.read_bin, bin_srl.read_container, hr, read_count]
    · simp only [xml_srl.read_xml, locate, hfc]
      rfl

/-- Witness of C7: the empty `std::map<std::string, int>` under the fresh root. -/
theorem C7_witness :
    main_cpp.map_string_int.sequence_set_or_map = true ∧
    no_child_tagged "map" main_cpp.root = true ∧
    bin_srl.read_bin main_cpp.E main_cpp.R 0 main_cpp.map_string_int (.seq [])
        (ifstream.mk ([0, 0, 0, 0] ++ []) true) = .ok (.seq [], 4, ifstream.mk [] true) ∧
    xml_srl.read_xml main_cpp.E main_cpp.R 0 main_cpp.map_string_int (.seq []) "map"
        (some (tinyxml2.InsertEndChild main_cpp.root (.element (c_str "map") [] []))) false
      = .ok (.seq [], 1) :=
  ⟨by decide, by decide,
    (C7_empty_containers main_cpp.E main_cpp.R 0 main_cpp.map_string_int "map" main_cpp.root []
      (by decide) (by decide)).2.1,
    (C7_empty_containers main_cpp.E main_cpp.R 0 main_cpp.map_string_int "map" main_cpp.root []
      (by decide) (by decide)).2.2.2⟩

/-- C10: for every type that reaches the user-defined class branch of the writers and has
no stored writer, `bin_srl::write_bin` throws "type not registered" with no byte written,
and `xml_srl::write_xml` throws "type not registered" with the parent element unchanged. -/
theorem C10_unregistered_type (E : Env) (R : type_info.Registry) (fuel : Nat) (T : Ty)
    (v : Val) (name : String) (root : XMLNode) (hT : T.record_kind = true) :
    (T ∉ R.type_writer_bin →
      bin_srl.write_bin E R fuel T v = ([], .error .type_not_registered)) ∧
    (T ∉ R.type_writer_xml →
      xml_srl.write_xml E R fuel T v name root = (root, .error .type_not_registered)) := by
  cases T <;> simp [Ty.record_kind, Ty.is_arithmetic, Ty.is_pointer, Ty.is_array,
    Ty.is_string, Ty.is_class, my_type_traits.is_unique_ptr, my_type_traits.is_pair,
    my_type_traits.is_container] at hT
  case cls c =>
    constructor
    · intro h
      simp [bin_srl.write_bin, h]
    · intro h
      simp [xml_srl.write_xml, h]
  case adaptor k t =>
    cases k <;> simp [my_type_traits.is_container] at hT
    constructor
    · intro h
      simp [bin_srl.write_bin, h]
    · intro h
      simp [xml_srl.write_xml, h]

/-- Witness of C10: a struct `U` that was never registered, under the tables of main.cpp. -/
theorem C10_witness :
    (Ty.cls "U").record_kind = true ∧ Ty.cls "U" ∉ main_cpp.R.type_writer_bin ∧
    Ty.cls "U" ∉ main_cpp.R.type_writer_xml ∧
    bin_srl.write_bin main_cpp.E main_cpp.R 5 (.cls "U") (.obj [.num 1])
      = ([], .error .type_not_registered) ∧
    xml_srl.write_xml main_cpp.E main_cpp.R 5 (.cls "U") (.obj [.num 1]) "U" main_cpp.root
      = (main_cpp.root, .error .type_not_registered) :=
  ⟨by decide, by decide, by decide,
    (C10_unregistered_type main_cpp.E main_cpp.R 5 (.cls "U") (.obj [.num 1]) "U" main_cpp.root
      (by decide)).1 (by decide),
    (C10_unregistered_type main_cpp.E main_cpp.R 5 (.cls "U") (.obj [.num 1]) "U" main_cpp.root
      (by decide)).2 (by decide)⟩


/-- C11 (the code at the failing input): struct `A` is registered under the display name
`RecordA` with the member list `a`, then again under the same display name with the member
list `c`.  The guard of `RegisterStruct` looks the display name up among the keys of
`typeInfo_map`, which are demangled type names, finds nothing, and the second call replaces
the descriptor of `A`.  Under the display name `A`, which is the demangled name, the second
call leaves the descriptor as it was. -/
theorem C11_second_registration_replaces_descriptor :
    ∃ R1 R2 R3 R4,
      type_info.RegisterStruct_call type_info.Registry.empty "RecordA" main_cpp.A 4096
        [("a", .arith .int, 4096)] = .ok R1 ∧
      type_info.RegisterStruct_call R1 "RecordA" main_cpp.A 4096 [("c", .string, 4112)]
        = .ok R2 ∧
      R1.typeInfo_map.lookup main_cpp.A = some ⟨"RecordA", main_cpp.A, [⟨"a", .arith .int, 0⟩]⟩ ∧
      R2.typeInfo_map.lookup main_cpp.A = some ⟨"RecordA", main_cpp.A, [⟨"c", .string, 16⟩]⟩ ∧
      type_info.RegisterStruct_call type_info.Registry.empty "A" main_cpp.A 4096
        [("a", .arith .int, 4096)] = .ok R3 ∧
      type_info.RegisterStruct_call R3 "A" main_cpp.A 4096 [("c", .string, 4112)] = .ok R4 ∧
      R4.typeInfo_map.lookup main_cpp.A = R3.typeInfo_map.lookup main_cpp.A :=
  ⟨_, _, _, _, rfl, rfl, rfl, rfl, rfl, rfl, rfl⟩

/-- C12 (the code at the failing input): with a struct `Point` registered under its own
name, `RegisterStruct<geo::Point>("Point", p, { {"x", p.x} })` returns at its guard, since
the display name is a key of `typeInfo_map`.  After the call no descriptor and no closure
is stored for `geo::Point`, and `bin_srl::write_bin` and `xml_srl::write_xml` of a
`geo::Point` throw "type not registered". -/
theorem C12_registration_skipped_on_name_clash :
    ∃ R1 R2,
      type_info.RegisterStruct_call type_info.Registry.empty "Point" (.cls "Point") 4096
        [("x", .arith .int, 4096)] = .ok R1 ∧
      type_info.RegisterStruct_call R1 "Point" (.cls "geo::Point") 8192
        [("x", .arith .int, 8192)] = .ok R2 ∧
      R2.typeInfo_map.lookup (.cls "geo::Point") = none ∧
      R2.has (.cls "Point") = true ∧
      Ty.cls "geo::Point" ∉ R2.type_writer_bin ∧ Ty.cls "geo::Point" ∉ R2.type_reader_bin ∧
      Ty.cls "geo::Point" ∉ R2.type_writer_xml ∧ Ty.cls "geo::Point" ∉ R2.type_reader_xml ∧
      bin_srl.write_bin main_cpp.E R2 4 (.cls "geo::Point") (.obj [.num 1])
        = ([], .error .type_not_registered) ∧
      xml_srl.write_xml main_cpp.E R2 4 (.cls "geo::Point") (.obj [.num 1]) "p" main_cpp.root
        = (main_cpp.root, .error .type_not_registered) :=
  ⟨_, _, rfl, rfl, rfl, rfl, by decide, by decide, by decide, by decide, rfl, rfl⟩


theorem write_each_bytes {α : Type} (w : α → WBin) (xs : List α) (bss : List (List Byte))
    (h : List.Forall₂ (fun x b => ∃ n, w x = (b, .ok n)) xs bss) (s : Nat) :
    ∃ n, write_each w xs s = (bss.flatten, .ok n) := by
  induction h generalizing s with
  | nil => exact ⟨s, rfl⟩
  | cons hx _ ih =>
    obtain ⟨n1, h1⟩ := hx
    obtain ⟨n2, h2⟩ := ih (to_u32 (s + n1))
    exact ⟨n2, by simp only [write_each, WBin.bind, h1, h2, List.flatten_cons]⟩

theorem uint_encode_nat (k : Nat) (h : k < 2 ^ 32) : Prim.uint.encode (k : Int) = le_bytes 4 k := by
  rw [uint_encode_eq, Nat.mod_eq_of_lt h]

theorem to_u32_lt (k : Nat) : to_u32 k < 2 ^ 32 := by
  simp only [to_u32]
  omega

/-- C13: for every string `s` of length `len < 2^31`, `bin_srl::write_bin` and the
registered string writer both return normally having emitted the four little-endian bytes
of `len` followed by the `len` bytes of `s` and nothing else, `4 + len` bytes in all. -/
theorem C13_binary_text_grammar (E : Env) (R : type_info.Registry) (fuel : Nat) (s : String)
    (hlen : s.length < 2 ^ 31) :
    (∃ n, bin_srl.write_bin E R fuel .string (.str s)
      = (le_bytes 4 s.length ++ s.data.map char_byte, .ok n)) ∧
    (Ty.string ∈ R.type_writer_bin →
      ∃ n, type_info.writer_bin E R (fuel + 1) .string (.str s)
        = (le_bytes 4 s.length ++ s.data.map char_byte, .ok n)) ∧
    (le_bytes 4 s.length ++ s.data.map char_byte).length = 4 + s.length := by
  have h32 : s.length < 2 ^ 32 := by omega
  refine ⟨?_, ?_, ?_⟩
  · obtain ⟨n, hn⟩ := write_each_chars s.data (to_u32 4)
    refine ⟨n, ?_⟩
    have htake : List.take s.length s.data = s.data := List.take_of_length_le (le_of_eq rfl)
    simp only [bin_srl.write_bin, WBin.bind, to_u32_of_lt _ h32, int_loop_count_of_lt _ hlen,
      uint_encode_nat _ h32, htake, hn]
  · intro hmem
    refine ⟨to_u32 (s.length + 4), ?_⟩
    rw [type_info.writer_bin]
    simp only [hmem, not_true_eq_false, if_false]
    rw [to_u32_of_lt _ h32]
  · rw [List.length_append, le_bytes_length, List.length_map]
    rfl

/-- Witness of C13: the string `Hello world!` and the tables of main.cpp. -/
theorem C13_witness :
    "Hello world!".length < 2 ^ 31 ∧ Ty.string ∈ main_cpp.R.type_writer_bin ∧
    (∃ n, bin_srl.write_bin main_cpp.E main_cpp.R 0 .string (.str "Hello world!")
      = (le_bytes 4 "Hello world!".length ++ "Hello world!".data.map char_byte, .ok n)) ∧
    ∃ n, type_info.writer_bin main_cpp.E main_cpp.R 1 .string (.str "Hello world!")
      = (le_bytes 4 "Hello world!".length ++ "Hello world!".data.map char_byte, .ok n) :=
  ⟨by decide, by decide,
    (C13_binary_text_grammar main_cpp.E main_cpp.R 0 "Hello world!" (by decide)).1,
    (C13_binary_text_grammar main_cpp.E main_cpp.R 0 "Hello world!" (by decide)).2.1
      (by decide)⟩

/-- C14: for every Sequence or Set with the elements `xs` in iteration order, each of
which the element writer encodes as the bytes listed in `bss`, `bin_srl::write_bin` and the
registered container writer both return normally having emitted the four bytes of the
`unsigned int` count `xs.size()` followed by the concatenation of `bss` and nothing else;
for fewer than `2^32` elements these four bytes decode to the number of elements. -/
theorem C14_binary_sequence_set_grammar (E : Env) (R : type_info.Registry) (fuel : Nat)
    (T t : Ty) (xs : List Val) (bss : List (List Byte))
    (hT : (∃ k, T = .seq k t) ∨ (∃ k, T = .setc k t)) :
    (List.Forall₂ (fun x b => ∃ n, bin_srl.write_bin E R fuel t x = (b, .ok n)) xs bss →
      ∃ n, bin_srl.write_bin E R fuel T (.seq xs)
        = (le_bytes 4 (to_u32 xs.length) ++ bss.flatten, .ok n)) ∧
    (T ∈ R.type_writer_bin →
      List.Forall₂ (fun x b => ∃ n, type_info.writer_bin E R fuel t x = (b, .ok n)) xs bss →
      ∃ n, type_info.writer_bin E R (fuel + 1) T (.seq xs)
        = (le_bytes 4 (to_u32 xs.length) ++ bss.flatten, .ok n)) ∧
    (xs.length < 2 ^ 32 → of_le_bytes (le_bytes 4 (to_u32 xs.length)) = xs.length) := by
  refine ⟨?_, ?_, ?_⟩
  · intro h
    obtain ⟨n, hn⟩ := write_each_bytes _ xs bss h (to_u32 4)
    refine ⟨n, ?_⟩
    rcases hT with ⟨k, rfl⟩ | ⟨k, rfl⟩ <;>
      simp only [bin_srl.write_bin, bin_srl.write_container, WBin.bind,
        uint_encode_nat _ (to_u32_lt xs.length), hn]
  · intro hmem h
    obtain ⟨n, hn⟩ := write_each_bytes _ xs bss h 1
    refine ⟨n, ?_⟩
    rcases hT with ⟨k, rfl⟩ | ⟨k, rfl⟩ <;>
    · rw [type_info.writer_bin]
      simp only [hmem, not_true_eq_false, if_false, type_info.write_container, WBin.bind, hn]
  · intro hlen
    rw [to_u32_of_lt _ hlen, of_le_bytes_le_bytes]
    exact Nat.mod_eq_of_lt (by norm_num at hlen ⊢; exact hlen)

/-- Witness of C14: the `std::vector<int>` holding 83, 86, 77. -/
theorem C14_witness :
    ∃ n, bin_srl.write_bin main_cpp.E main_cpp.R 0 (.seq .vector (.arith .int))
        (.seq [.num 83, .num 86, .num 77])
      = (le_bytes 4 (to_u32 [Val.num 83, Val.num 86, Val.num 77].length)
          ++ [[83, 0, 0, 0], [86, 0, 0, 0], [77, 0, 0, 0]].flatten, .ok n) :=
  (C14_binary_sequence_set_grammar main_cpp.E main_cpp.R 0 (.seq .vector (.arith .int))
    (.arith .int) [.num 83, .num 86, .num 77] [[83, 0, 0, 0], [86, 0, 0, 0], [77, 0, 0, 0]]
    (Or.inl ⟨.vector, rfl⟩)).1
    (List.Forall₂.cons ⟨4, rfl⟩ (List.Forall₂.cons ⟨4, rfl⟩ (List.Forall₂.cons ⟨4, rfl⟩
      List.Forall₂.nil)))


theorem forall2_entry_bytes (w wk wv : Val → WBin)
    (hw : ∀ k v kb vb nk nv, wk k = (kb, .ok nk) → wv v = (vb, .ok nv) →
      ∃ n, w (.pair k v) = (kb ++ vb, .ok n))
    (xs : List Val) (parts : List (List Byte × List Byte))
    (h : List.Forall₂ (fun x p => ∃ k v nk nv, x = Val.pair k v ∧ wk k = (p.1, .ok nk) ∧
      wv v = (p.2, .ok nv)) xs parts) :
    List.Forall₂ (fun x b => ∃ n, w x = (b, .ok n)) xs (parts.map (fun p => p.1 ++ p.2)) := by
  induction h with
  | nil => exact List.Forall₂.nil
  | cons hx _ ih =>
    obtain ⟨k, v, nk, nv, rfl, hk, hv⟩ := hx
    exact List.Forall₂.cons (hw k v _ _ nk nv hk hv) ih

theorem write_pair_bytes (wk wv : Val → WBin) (k v : Val) (kb vb : List Byte) (nk nv : Nat)
    (hk : wk k = (kb, .ok nk)) (hv : wv v = (vb, .ok nv)) :
    ∃ n, bin_srl.write_pair wk wv (.pair k v) = (kb ++ vb, .ok n) :=
  ⟨to_u32 (to_u32 nk + nv), by simp only [bin_srl.write_pair, WBin.bind, hk, hv, List.append_nil]⟩

theorem RegisterWriter_typeInfo_map (R R1 : type_info.Registry) (T : Ty)
    (h : type_info.RegisterWriter_ R T = .ok R1) : R1.typeInfo_map = R.typeInfo_map := by
  unfold type_info.RegisterWriter_ at h
  split at h
  · cases h; rfl
  · split at h
    · cases h
    · cases h
    · cases h
    · cases h; rfl

theorem RegisterReader_eq (R : type_info.Registry) (T : Ty) :
    type_info.RegisterReader_ R T = .error .does_not_compile ∨
    type_info.RegisterReader_ R T =
      (if T ∈ R.type_reader_bin then .ok R
       else
         match T with
         | .enum _ => .error .unsupported_type
         | _ => .ok ⟨R.typeInfo_map, R.type_name_map, R.type_writer_bin,
             T :: R.type_reader_bin, R.type_writer_xml, T :: R.type_reader_xml⟩) := by
  cases T <;> simp [type_info.RegisterReader_]

theorem RegisterReader_typeInfo_map (R R1 : type_info.Registry) (T : Ty)
    (h : type_info.RegisterReader_ R T = .ok R1) : R1.typeInfo_map = R.typeInfo_map := by
  rcases RegisterReader_eq R T with he | he
  · rw [he] at h; cases h
  · rw [he] at h
    split at h
    · cases h; rfl
    · split at h
      · cases h
      · cases h; rfl

theorem RegisterBaseType_typeInfo_map (R R1 : type_info.Registry) (T : Ty)
    (h : type_info.RegisterBaseType_ R T = .ok R1) : R1.typeInfo_map = R.typeInfo_map := by
  unfold type_info.RegisterBaseType_ at h
  cases hw : type_info.RegisterWriter_ R T with
  | error e => rw [hw] at h; cases h
  | ok R2 =>
    rw [hw] at h
    simp only at h
    cases hr : type_info.RegisterReader_ R2 T with
    | error e => rw [hr] at h; cases h
    | ok R3 =>
      rw [hr] at h
      have h2 := RegisterWriter_typeInfo_map R R2 T hw
      have h3 := RegisterReader_typeInfo_map R2 R3 T hr
      simp only at h
      split at h
      · cases h
        exact h3.trans h2
      · cases h
        exact h3.trans h2

/-- C15: for every Map with the entries `xs` in iteration order, the key and the value of
each encoded by the key writer and the value writer as the byte pairs listed in `parts`,
`bin_srl::write_bin` and the registered map writer both return normally having emitted the
four bytes of the `unsigned int` count `xs.size()` followed, entry by entry, by the key
bytes and then the value bytes, and nothing else; a Pair alone is written as the bytes of
`first` followed by the bytes of `second`. -/
theorem C15_binary_map_grammar (E : Env) (R : type_info.Registry) (fuel : Nat) (km : MapK)
    (K V : Ty) (xs : List Val) (parts : List (List Byte × List Byte)) :
    (List.Forall₂ (fun x p => ∃ k v nk nv, x = Val.pair k v ∧
        bin_srl.write_bin E R fuel K k = (p.1, .ok nk) ∧
        bin_srl.write_bin E R fuel V v = (p.2, .ok nv)) xs parts →
      ∃ n, bin_srl.write_bin E R fuel (.mapc km K V) (.seq xs)
        = (le_bytes 4 (to_u32 xs.length) ++ (parts.map (fun p => p.1 ++ p.2)).flatten, .ok n)) ∧
    (Ty.mapc km K V ∈ R.type_writer_bin → Ty.pair K V ∈ R.type_writer_bin →
      List.Forall₂ (fun x p => ∃ k v nk nv, x = Val.pair k v ∧
        type_info.writer_bin E R fuel K k = (p.1, .ok nk) ∧
        type_info.writer_bin E R fuel V v = (p.2, .ok nv)) xs parts →
      ∃ n, type_info.writer_bin E R (fuel + 2) (.mapc km K V) (.seq xs)
        = (le_bytes 4 (to_u32 xs.length) ++ (parts.map (fun p => p.1 ++ p.2)).flatten, .ok n)) ∧
    (∀ k v kb vb nk nv, bin_srl.write_bin E R fuel K k = (kb, .ok nk) →
      bin_srl.write_bin E R fuel V v = (vb, .ok nv) →
      ∃ n, bin_srl.write_bin E R fuel (.pair K V) (.pair k v) = (kb ++ vb, .ok n)) := by
  refine ⟨?_, ?_, ?_⟩
  · intro h
    obtain ⟨n, hn⟩ := write_each_bytes _ xs _
      (forall2_entry_bytes _ _ _ (write_pair_bytes _ _) xs parts h) (to_u32 4)
    refine ⟨n, ?_⟩
    simp only [bin_srl.write_bin, bin_srl.write_container, WBin.bind,
      uint_encode_nat _ (to_u32_lt xs.length), hn]
  · intro hmap hpair h
    have hw : ∀ k v kb vb nk nv, type_info.writer_bin E R fuel K k = (kb, .ok nk) →
        type_info.writer_bin E R fuel V v = (vb, .ok nv) →
        ∃ n, type_info.writer_bin E R (fuel + 1) (.pair K V) (.pair k v) = (kb ++ vb, .ok n) := by
      intro k v kb vb nk nv hk hv
      refine ⟨to_u32 ((Ty.pair K V).sizeof E), ?_⟩
      rw [type_info.writer_bin]
      simp only [hpair, not_true_eq_false, if_false, WBin.bind, hk, hv, List.append_nil]
    obtain ⟨n, hn⟩ := write_each_bytes _ xs _ (forall2_entry_bytes _ _ _ hw xs parts h) 4
    refine ⟨n, ?_⟩
    rw [type_info.writer_bin]
    simp only [hmap, not_true_eq_false, if_false, type_info.write_container, WBin.bind, hn]
  · intro k v kb vb nk nv hk hv
    obtain ⟨n, hn⟩ := write_pair_bytes _ _ k v kb vb nk nv hk hv
    exact ⟨n, by simp only [bin_srl.write_bin, hn]⟩

/-- Witness of C15: the map of Scenario B, `{"deux": 2, "un": 1}`. -/
theorem C15_witness :
    ∃ n, bin_srl.write_bin main_cpp.E main_cpp.R 0 (.mapc .map .string (.arith .int)) main_cpp.m
      = (le_bytes 4 (to_u32 2)
          ++ (main_cpp.m_entry_bytes.map (fun p => p.1 ++ p.2)).flatten, .ok n) :=
  (C15_binary_map_grammar main_cpp.E main_cpp.R 0 .map .string (.arith .int)
    [.pair (.str "deux") (.num 2), .pair (.str "un") (.num 1)] main_cpp.m_entry_bytes).1
    (List.Forall₂.cons ⟨_, _, 8, 4, rfl, rfl, rfl⟩
      (List.Forall₂.cons ⟨_, _, 6, 4, rfl, rfl, rfl⟩ List.Forall₂.nil))

/-- C16: for every registered Record, the member list stored at registration is the list
given to `RegisterStruct`, in the order given, with offsets taken relative to the sample
object; and when the writer stored for each member's type encodes the member found at its
offset as the bytes listed in `bss`, `bin_srl::write_bin` returns normally having emitted
exactly the concatenation of `bss`, in the order of the member list, with no type tag and
no length. -/
theorem C16_binary_record_grammar (E : Env) (R : type_info.Registry) (fuel : Nat) (c : String)
    (o : Val) (bss : List (List Byte))
    (hreg : Ty.cls c ∈ R.type_writer_bin)
    (h : List.Forall₂ (fun m b => ∃ i f n, type_info.member E (.cls c) o m = .ok (i, f) ∧
      type_info.writer_bin E R fuel m.typenm f = (b, .ok n)) (R.members (.cls c)) bss) :
    (∃ n, bin_srl.write_bin E R (fuel + 1) (.cls c) o = (bss.flatten, .ok n)) ∧
    (∀ (R0 : type_info.Registry) (name : String) (address : Nat)
        (members : List type_info.memberPair),
      (R0.typeInfo_map.any (fun e => type_info.demangle e.1 = name)) = false →
      type_info.RegisterStruct R0 name (.cls c) address members = .ok R →
      R.members (.cls c) = members.map (fun m =>
        ⟨m.name, m.typenm, type_info.size_t_sub m.offset address⟩)) := by
  constructor
  · have h1 : List.Forall₂ (fun m b => ∃ n,
        type_info.write_member E (.cls c) (type_info.writer_bin E R fuel) o m = (b, .ok n))
        (R.members (.cls c)) bss := by
      refine List.Forall₂.imp ?_ h
      rintro m b ⟨i, f, n, hm, hw⟩
      exact ⟨n, by simp only [type_info.write_member, hm, hw]⟩
    obtain ⟨n, hn⟩ := write_each_bytes _ _ bss h1 0
    refine ⟨n, ?_⟩
    simp only [bin_srl.write_bin, hreg, not_true_eq_false, if_false]
    rw [type_info.writer_bin]
    simp only [hreg, not_true_eq_false, if_false, hn]
  · intro R0 name address members hguard hR
    simp only [type_info.RegisterStruct, hguard, Bool.false_eq_true, if_false] at hR
    have hmap := RegisterBaseType_typeInfo_map _ _ _ hR
    simp only [type_info.Registry.members, hmap, List.lookup_cons, beq_self_eq_true]

/-- Witness of C16: the struct `A` of main.cpp under the tables that its registration
leaves, and the bytes of its eight members. -/
theorem C16_witness :
    Ty.cls "A" ∈ main_cpp.R.type_writer_bin ∧
    ∃ n, bin_srl.write_bin main_cpp.E main_cpp.R 4 (.cls "A") main_cpp.a
      = (main_cpp.a_member_bytes.flatten, .ok n) :=
  ⟨by decide,
    (C16_binary_record_grammar main_cpp.E main_cpp.R 3 "A" main_cpp.a main_cpp.a_member_bytes
      (by decide)
      (List.Forall₂.cons ⟨_, _, _, rfl, rfl⟩ (List.Forall₂.cons ⟨_, _, _, rfl, rfl⟩
        (List.Forall₂.cons ⟨_, _, _, rfl, rfl⟩ (List.Forall₂.cons ⟨_, _, _, rfl, rfl⟩
          (List.Forall₂.cons ⟨_, _, _, rfl, rfl⟩ (List.Forall₂.cons ⟨_, _, _, rfl, rfl⟩
            (List.Forall₂.cons ⟨_, _, _, rfl, rfl⟩ (List.Forall₂.cons ⟨_, _, _, rfl, rfl⟩
              List.Forall₂.nil))))))))).1⟩


/-- C18: for every raw or owning reference to an object `v`, `bin_srl::write_bin` of the
reference is `bin_srl::write_bin` of `v` (the same bytes, the same count, no presence
flag); and `bin_srl::read_bin` of a reference, whatever the reference held before, points
it to a new value-initialised object and decodes into that object. -/
theorem C18_binary_reference_encoding (E : Env) (R : type_info.Registry) (fuel : Nat) (t : Ty)
    (v d : Val) (file : ifstream) :
    bin_srl.write_bin E R fuel (.pointer t) (.ptr v) = bin_srl.write_bin E R fuel t v ∧
    bin_srl.write_bin E R fuel (.unique_ptr t) (.ptr v) = bin_srl.write_bin E R fuel t v ∧
    bin_srl.read_bin E R fuel (.pointer t) d file
      = (bin_srl.read_bin E R fuel t (t.value_init E) file).map
          (fun r => (Val.ptr r.1, r.2.1, r.2.2)) ∧
    bin_srl.read_bin E R fuel (.unique_ptr t) d file
      = (bin_srl.read_bin E R fuel t (t.value_init E) file).map
          (fun r => (Val.ptr r.1, r.2.1, r.2.2)) := by
  refine ⟨by simp only [bin_srl.write_bin], by simp only [bin_srl.write_bin], ?_, ?_⟩
  · simp only [bin_srl.read_bin]
    cases bin_srl.read_bin E R fuel t (t.value_init E) file <;> rfl
  · simp only [bin_srl.read_bin]
    cases bin_srl.read_bin E R fuel t (t.value_init E) file <;> rfl


/-- C19 (the code at the failing input): for the struct `A` of main.cpp, registered as in
`test_bin_srl`, `bin_srl::write_bin` writes 106 bytes and returns 158.  The stored writer
of the `std::vector<int>` member starts its count at 1 instead of 4 and returns 13 for 16
bytes, the writer of a pair returns `sizeof` of the pair, so the map member counts 84 for
26 bytes; the template itself returns 16 for the same vector. -/
theorem C19_record_write_count_differs :
    bin_srl.write_bin main_cpp.E main_cpp.R 4 (.cls "A") main_cpp.a
      = (main_cpp.a_member_bytes.flatten, .ok 158) ∧
    main_cpp.a_member_bytes.flatten.length = 106 ∧
    type_info.writer_bin main_cpp.E main_cpp.R 2 (.seq .vector (.arith .int))
        (.seq [.num 83, .num 86, .num 77])
      = ([3, 0, 0, 0, 83, 0, 0, 0, 86, 0, 0, 0, 77, 0, 0, 0], .ok 13) ∧
    type_info.writer_bin main_cpp.E main_cpp.R 3 main_cpp.map_string_int
        (.seq [.pair (.str "100") (.num 0), .pair (.str "101") (.num 1)])
      = ([2, 0, 0, 0, 3, 0, 0, 0, 49, 48, 48, 0, 0, 0, 0, 3, 0, 0, 0, 49, 48, 49, 1, 0, 0, 0],
         .ok 84) ∧
    bin_srl.write_bin main_cpp.E main_cpp.R 0 (.seq .vector (.arith .int))
        (.seq [.num 83, .num 86, .num 77])
      = ([3, 0, 0, 0, 83, 0, 0, 0, 86, 0, 0, 0, 77, 0, 0, 0], .ok 16) :=
  ⟨rfl, rfl, rfl, rfl, rfl⟩

set_option maxRecDepth 8192 in
/-- C20 (the code at the failing input): `bin_srl::read_bin` of the 106 bytes written for
the struct `A` of main.cpp, into a default-constructed `A`, restores the instance,
consumes the 106 bytes and returns 164, where `bin_srl::write_bin` returned 158: the
stored reader of a pair returns `sizeof` of the pair, so the map member counts 84 for 26
bytes. -/
theorem C20_record_read_count_differs :
    bin_srl.read_bin main_cpp.E main_cpp.R 4 (.cls "A") (main_cpp.E.default_ctor (.cls "A"))
        (ifstream.mk main_cpp.a_member_bytes.flatten true)
      = .ok (main_cpp.a, 164, ifstream.mk [] true) ∧
    main_cpp.a_member_bytes.flatten.length = 106 ∧
    bin_srl.write_bin main_cpp.E main_cpp.R 4 (.cls "A") main_cpp.a
      = (main_cpp.a_member_bytes.flatten, .ok 158) ∧
    type_info.reader_bin main_cpp.E main_cpp.R 3 main_cpp.map_string_int (.seq [])
        (ifstream.mk
          [2, 0, 0, 0, 3, 0, 0, 0, 49, 48, 48, 0, 0, 0, 0, 3, 0, 0, 0, 49, 48, 49, 1, 0, 0, 0]
          true)
      = .ok (.seq [.pair (.str "100") (.num 0), .pair (.str "101") (.num 1)], 84,
          ifstream.mk [] true) :=
  ⟨rfl, rfl, rfl, rfl⟩


theorem std_to_string_int (E : Env) (p : Prim) (n : Int) (hp : p.is_floating_point = false) :
    c_str (std_to_string E p n) = int_to_string n := by
  simp only [std_to_string, hp, Bool.false_eq_true, if_false, c_str_int_to_string]

theorem wrap_child (nm k v : String) (node : XMLNode) :
    tinyxml2.InsertEndChild (tinyxml2.SetAttribute (tinyxml2.NewElement nm) k v) node
      = .element nm [(k, v)] [node] := rfl

theorem write_xml_int_object (E : Env) (R : type_info.Registry) (fuel : Nat) (n : Int)
    (parent : XMLNode) :
    xml_srl.write_xml E R fuel (.arith .int) (.num n) "object" parent
      = (tinyxml2.InsertEndChild parent (.element "object" [("val", int_to_string n)] []),
         .ok 1) := by
  simp only [xml_srl.write_xml, std_to_string_int E .int n rfl, tinyxml2.NewElement,
    tinyxml2.SetAttribute, tinyxml2.set_attr, c_str_object]

/-- C21: for every integer primitive type, every value `n` and every element name,
`xml_srl::write_xml` and the registered arithmetic writer both append to the parent exactly
one element, named by the name (as a C string), without children, whose only attribute is
`val` with the decimal digits of `n` (and a leading minus sign when `n` is negative), and
return 1. -/
theorem C21_text_primitive_encoding (E : Env) (R : type_info.Registry) (fuel : Nat) (p : Prim)
    (n : Int) (name : String) (root : XMLNode) (hp : p.is_floating_point = false) :
    xml_srl.write_xml E R fuel (.arith p) (.num n) name root
      = (tinyxml2.InsertEndChild root (.element (c_str name) [("val", int_to_string n)] []),
         .ok 1) ∧
    (Ty.arith p ∈ R.type_writer_xml →
      type_info.writer_xml E R (fuel + 1) (.arith p) (.num n) name root
        = (tinyxml2.InsertEndChild root (.element (c_str name) [("val", int_to_string n)] []),
           .ok 1)) ∧
    (nul_free name = true → c_str name = name) := by
  refine ⟨?_, ?_, c_str_nul_free name⟩
  · simp only [xml_srl.write_xml, std_to_string_int E p n hp, tinyxml2.NewElement,
      tinyxml2.SetAttribute, tinyxml2.set_attr]
  · intro hmem
    rw [type_info.writer_xml]
    simp only [hmem, not_true_eq_false, if_false, std_to_string_int E p n hp,
      tinyxml2.NewElement, tinyxml2.SetAttribute, tinyxml2.set_attr]

/-- Witness of C21: the `int` 42 written under the name `a` to the fresh root. -/
theorem C21_witness :
    Prim.int.is_floating_point = false ∧
    xml_srl.write_xml main_cpp.E main_cpp.R 0 (.arith .int) (.num 42) "a" main_cpp.root
      = (.element "serialization" [] [.element "a" [("val", "42")] []], .ok 1) :=
  ⟨by decide,
    (C21_text_primitive_encoding main_cpp.E main_cpp.R 0 .int 42 "a" main_cpp.root
      (by decide)).1⟩

/-- C22 (amended): for every raw or owning reference to an object `v`, when the pointee
writer, asked to write `v` under the name `object`, appends the one node `node` to its
parent, `xml_srl::write_xml` and the registered writers append to the parent one wrapper
element, named by the name, whose only attribute is `type`, with the value `pointer` for a
raw reference and `unique_ptr` for an owning one, and whose only child is `node`. -/
theorem C22_text_reference_encoding (E : Env) (R : type_info.Registry) (fuel : Nat) (t : Ty)
    (v : Val) (name : String) (root node : XMLNode) (n : Nat) :
    ((∀ parent, xml_srl.write_xml E R fuel t v "object" parent
        = (tinyxml2.InsertEndChild parent node, .ok n)) →
      xml_srl.write_xml E R fuel (.pointer t) (.ptr v) name root
        = (tinyxml2.InsertEndChild root (.element (c_str name) [("type", "pointer")] [node]),
           .ok n) ∧
      xml_srl.write_xml E R fuel (.unique_ptr t) (.ptr v) name root
        = (tinyxml2.InsertEndChild root (.element (c_str name) [("type", "unique_ptr")] [node]),
           .ok n)) ∧
    ((∀ parent, type_info.writer_xml E R fuel t v "object" parent
        = (tinyxml2.InsertEndChild parent node, .ok n)) →
      (Ty.pointer t ∈ R.type_writer_xml →
        type_info.writer_xml E R (fuel + 1) (.pointer t) (.ptr v) name root
          = (tinyxml2.InsertEndChild root (.element (c_str name) [("type", "pointer")] [node]),
             .ok n)) ∧
      (Ty.unique_ptr t ∈ R.type_writer_xml →
        type_info.writer_xml E R (fuel + 1) (.unique_ptr t) (.ptr v) name root
          = (tinyxml2.InsertEndChild root
              (.element (c_str name) [("type", "unique_ptr")] [node]), .ok n))) := by
  refine ⟨fun hw => ⟨?_, ?_⟩, fun hw => ⟨fun hmem => ?_, fun hmem => ?_⟩⟩
  · simp only [xml_srl.write_xml, hw, wrap_child]
  · simp only [xml_srl.write_xml, hw, wrap_child]
  · rw [type_info.writer_xml]
    simp only [hmem, not_true_eq_false, if_false, hw, wrap_child]
  · rw [type_info.writer_xml]
    simp only [hmem, not_true_eq_false, if_false, hw, wrap_child]

/-- Witness of C22: a raw pointer and a `unique_ptr` to the `int` 10086. -/
theorem C22_witness :
    xml_srl.write_xml main_cpp.E main_cpp.R 0 (.pointer (.arith .int)) (.ptr (.num 10086)) "h"
        main_cpp.root
      = (tinyxml2.InsertEndChild main_cpp.root (.element (c_str "h") [("type", "pointer")]
          [.element "object" [("val", "10086")] []]), .ok 1) ∧
    xml_srl.write_xml main_cpp.E main_cpp.R 0 (.unique_ptr (.arith .int)) (.ptr (.num 10086))
        "h" main_cpp.root
      = (tinyxml2.InsertEndChild main_cpp.root (.element (c_str "h") [("type", "unique_ptr")]
          [.element "object" [("val", "10086")] []]), .ok 1) :=
  (C22_text_reference_encoding main_cpp.E main_cpp.R 0 (.arith .int) (.num 10086) "h"
    main_cpp.root (.element "object" [("val", "10086")] []) 1).1
    (fun parent => write_xml_int_object main_cpp.E main_cpp.R 0 10086 parent)

/-- Counterexample to C22 as stated: the wrapper written for a `std::unique_ptr<int>`
carries `type="unique_ptr"`, not `type="owning"`. -/
theorem C22_counterexample :
    xml_srl.write_xml main_cpp.E main_cpp.R 0 (.unique_ptr (.arith .int)) (.ptr (.num 10086))
        "h" main_cpp.root
      = (.element "serialization" []
          [.element "h" [("type", "unique_ptr")] [.element "object" [("val", "10086")] []]],
         .ok 1) ∧
    tinyxml2.Attribute
        (.element "h" [("type", "unique_ptr")] [.element "object" [("val", "10086")] []])
        "type" = some "unique_ptr" ∧
    (some "unique_ptr" : Option String) ≠ some "owning" :=
  ⟨rfl, rfl, by decide⟩

/-- C23 (the code at the failing input): for the map of Scenario B written at top level,
`xml_srl::write_xml` tags the two entry elements `element`, while the registered map
writer, which writes a map that is a Record field, tags them `element_pair`; and
`xml_srl::read_xml` finds no entry in the wrapper that the registered writer built. -/
theorem C23_top_level_map_entries_tagged_element :
    xml_srl.write_xml main_cpp.E main_cpp.R 0 main_cpp.map_string_int main_cpp.m "map"
        main_cpp.root
      = (.element "serialization" []
          [.element "map" []
            [.element "element" []
               [.element "first" [] [.text "deux"], .element "second" [("val", "2")] []],
             .element "element" []
               [.element "first" [] [.text "un"], .element "second" [("val", "1")] []]]],
         .ok 7) ∧
    type_info.writer_xml main_cpp.E main_cpp.R 3 main_cpp.map_string_int main_cpp.m "map"
        main_cpp.root
      = (.element "serialization" []
          [.element "map" []
            [.element "element_pair" []
               [.element "first" [] [.text "deux"], .element "second" [("val", "2")] []],
             .element "element_pair" []
               [.element "first" [] [.text "un"], .element "second" [("val", "1")] []]]],
         .ok 7) ∧
    xml_srl.read_xml main_cpp.E main_cpp.R 0 main_cpp.map_string_int (.seq []) "map"
        (some (type_info.writer_xml main_cpp.E main_cpp.R 3 main_cpp.map_string_int main_cpp.m
          "map" main_cpp.root).1) false
      = .ok (.seq [], 1) :=
  ⟨rfl, rfl, rfl⟩


theorem write_children_nodes {α : Type} (w : α → XMLNode → WXml) (xs : List α)
    (nodes : List XMLNode)
    (h : List.Forall₂ (fun x node => ∃ n, ∀ parent,
      w x parent = (tinyxml2.InsertEndChild parent node, .ok n)) xs nodes) :
    ∀ nm attrs cs s, ∃ n, write_children w xs (.element nm attrs cs) s
      = (.element nm attrs (cs ++ nodes), .ok n) := by
  induction h with
  | nil => exact fun nm attrs cs s => ⟨s, by simp [write_children]⟩
  | cons hx _ ih =>
    rename_i x node xs1 nodes1 hrest
    intro nm attrs cs s
    obtain ⟨n1, h1⟩ := hx
    obtain ⟨n2, h2⟩ := ih nm attrs (cs ++ [node]) (to_u32 (s + n1))
    exact ⟨n2, by simp only [write_children, h1, tinyxml2.InsertEndChild, h2,
      List.append_assoc, List.singleton_append]⟩

theorem RegisterWriter_type_name_map (R R1 : type_info.Registry) (T : Ty)
    (h : type_info.RegisterWriter_ R T = .ok R1) : R1.type_name_map = R.type_name_map := by
  unfold type_info.RegisterWriter_ at h
  split at h
  · cases h; rfl
  · split at h
    · cases h
    · cases h
    · cases h
    · cases h; rfl

theorem RegisterReader_type_name_map (R R1 : type_info.Registry) (T : Ty)
    (h : type_info.RegisterReader_ R T = .ok R1) : R1.type_name_map = R.type_name_map := by
  rcases RegisterReader_eq R T with he | he
  · rw [he] at h; cases h
  · rw [he] at h
    split at h
    · cases h; rfl
    · split at h
      · cases h
      · cases h; rfl

theorem RegisterBaseType_type_name_map (R R1 : type_info.Registry) (T : Ty) (nm : String)
    (hnm : R.type_name_map.lookup T = some nm)
    (h : type_info.RegisterBaseType_ R T = .ok R1) : R1.type_name_map.lookup T = some nm := by
  unfold type_info.RegisterBaseType_ at h
  cases hw : type_info.RegisterWriter_ R T with
  | error e => rw [hw] at h; cases h
  | ok R2 =>
    rw [hw] at h
    simp only at h
    cases hr : type_info.RegisterReader_ R2 T with
    | error e => rw [hr] at h; cases h
    | ok R3 =>
      rw [hr] at h
      have h2 := RegisterWriter_type_name_map R R2 T hw
      have h3 := RegisterReader_type_name_map R2 R3 T hr
      have h4 : R3.type_name_map.lookup T = some nm := by rw [h3, h2, hnm]
      simp only [h4, Option.isNone_some, Bool.false_eq_true, if_false] at h
      cases h
      exact h4

/-- C24: for every registered Record whose display name is stored, when the writer stored
for each member's type, asked to write the member found at its offset under the member's
name, appends the one node listed for it in `nodes`, `xml_srl::write_xml` appends to the
parent one wrapper element, named by the requested name, whose only attribute is `type`
with the display name, and whose children are exactly `nodes`, in the order of the member
list; and the stored display name and member list are the ones given to the first
`RegisterStruct` call for the type, in the order given. -/
theorem C24_text_record_encoding (E : Env) (R : type_info.Registry) (fuel : Nat) (c : String)
    (o : Val) (name display : String) (root : XMLNode) (nodes : List XMLNode)
    (hreg : Ty.cls c ∈ R.type_writer_xml)
    (hname : R.type_name_map.lookup (.cls c) = some display)
    (h : List.Forall₂ (fun m node => ∃ i f n, type_info.member E (.cls c) o m = .ok (i, f) ∧
      tinyxml2.has_tag (c_str m.name) node = true ∧
      ∀ parent, type_info.writer_xml E R fuel m.typenm f m.name parent
        = (tinyxml2.InsertEndChild parent node, .ok n)) (R.members (.cls c)) nodes) :
    (∃ n, xml_srl.write_xml E R (fuel + 1) (.cls c) o name root
      = (tinyxml2.InsertEndChild root
          (.element (c_str name) [("type", c_str display)] nodes), .ok n)) ∧
    (∀ (R0 : type_info.Registry) (nm : String) (address : Nat)
        (members : List type_info.memberPair),
      (R0.typeInfo_map.any (fun e => type_info.demangle e.1 = nm)) = false →
      R0.type_name_map.lookup (.cls c) = none →
      type_info.RegisterStruct R0 nm (.cls c) address members = .ok R →
      display = nm ∧
      R.members (.cls c) = members.map (fun m =>
        ⟨m.name, m.typenm, type_info.size_t_sub m.offset address⟩)) := by
  constructor
  · have h1 : List.Forall₂ (fun m node => ∃ n, ∀ parent,
        type_info.write_xml_member E (.cls c) (type_info.writer_xml E R fuel) o m parent
          = (tinyxml2.InsertEndChild parent node, .ok n)) (R.members (.cls c)) nodes := by
      refine List.Forall₂.imp ?_ h
      rintro m node ⟨i, f, n, hm, -, hw⟩
      exact ⟨n, fun parent => by simp only [type_info.write_xml_member, hm, hw]⟩
    obtain ⟨n, hn⟩ := write_children_nodes _ _ nodes h1 (c_str name) [("type", c_str display)] [] 1
    refine ⟨n, ?_⟩
    simp only [xml_srl.write_xml, hreg, not_true_eq_false, if_false]
    rw [type_info.writer_xml]
    simp only [hreg, not_true_eq_false, if_false, type_info.GetName, hname]
    have hattr : tinyxml2.SetAttribute (tinyxml2.NewElement (c_str name)) "type" (c_str display)
        = .element (c_str name) [("type", c_str display)] [] := rfl
    rw [hattr, hn, List.nil_append]
  · intro R0 nm address members hguard hnone hR
    simp only [type_info.RegisterStruct, hguard, Bool.false_eq_true, if_false, hnone,
      Option.isNone_none, if_true] at hR
    have hmap := RegisterBaseType_typeInfo_map _ _ _ hR
    have hnm := RegisterBaseType_type_name_map _ _ _ nm
      (by simp only [List.lookup_cons, beq_self_eq_true]) hR
    rw [hname] at hnm
    exact ⟨Option.some.inj hnm,
      by simp only [type_info.Registry.members, hmap, List.lookup_cons, beq_self_eq_true]⟩

/-- Witness of C24: the struct `B`, registered under the display name `B`, and the seven
children of its wrapper. -/
theorem C24_witness :
    Ty.cls "B" ∈ main_cpp.R.type_writer_xml ∧
    main_cpp.R.type_name_map.lookup (.cls "B") = some "B" ∧
    ∃ n, xml_srl.write_xml main_cpp.E main_cpp.R 4 (.cls "B") main_cpp.b "b" main_cpp.root
      = (tinyxml2.InsertEndChild main_cpp.root
          (.element (c_str "b") [("type", c_str "B")] main_cpp.b_member_nodes), .ok n) :=
  ⟨by decide, by decide,
    (C24_text_record_encoding main_cpp.E main_cpp.R 3 "B" main_cpp.b "b" "B" main_cpp.root
      main_cpp.b_member_nodes (by decide) (by decide)
      (List.Forall₂.cons ⟨_, _, _, rfl, rfl, fun _ => rfl⟩
        (List.Forall₂.cons ⟨_, _, _, rfl, rfl, fun _ => rfl⟩
          (List.Forall₂.cons ⟨_, _, _, rfl, rfl, fun _ => rfl⟩
            (List.Forall₂.cons ⟨_, _, _, rfl, rfl, fun _ => rfl⟩
              (List.Forall₂.cons ⟨_, _, _, rfl, rfl, fun _ => rfl⟩
                (List.Forall₂.cons ⟨_, _, _, rfl, rfl, fun _ => rfl⟩
                  (List.Forall₂.cons ⟨_, _, _, rfl, rfl, fun _ => rfl⟩
                    List.Forall₂.nil)))))))).1⟩


/-- C25 (the code at the failing input): a top-level `std::vector<S>` holding one
registered struct `S` is written as a wrapper with one `element` child.  Reading it back,
the sequence branch hands that child to `xml_srl::read_xml` with `itself = 1`, whose class
branch calls the stored reader with `itself = 0`; the stored reader then looks for a child
named `element` inside the child, finds none, and the first member is read through a null
element.  The stored reader called with `itself = 1` on the same child decodes the
struct. -/
theorem C25_itself_dropped_for_records :
    xml_srl.write_xml main_cpp.E main_cpp.R 3 (.seq .vector main_cpp.S)
        (.seq [.obj [.str "x"]]) "v" main_cpp.root
      = (.element "serialization" []
          [.element "v" []
            [.element "element" [("type", "S")] [.element "s" [] [.text "x"]]]], .ok 3) ∧
    xml_srl.read_xml main_cpp.E main_cpp.R 3 (.seq .vector main_cpp.S) (.seq []) "v"
        (some (.element "serialization" []
          [.element "v" []
            [.element "element" [("type", "S")] [.element "s" [] [.text "x"]]]])) false
      = .error .null_dereference ∧
    xml_srl.read_xml main_cpp.E main_cpp.R 3 main_cpp.S (.obj [.str ""]) "element"
        (some (.element "element" [("type", "S")] [.element "s" [] [.text "x"]])) true
      = .error .null_dereference ∧
    type_info.reader_xml main_cpp.E main_cpp.R 3 main_cpp.S (.obj [.str ""]) "element"
        (some (.element "element" [("type", "S")] [.element "s" [] [.text "x"]])) true
      = .ok (.obj [.str "x"], 2) :=
  ⟨rfl, rfl, rfl, rfl⟩


theorem read_xml_null_root (E : Env) (R : type_info.Registry) (fuel : Nat) (T : Ty) (d : Val)
    (nm : String) (hd : shaped T d = true) :
    xml_srl.read_xml E R fuel T d nm none false = .error .null_dereference := by
  cases T <;> cases d <;> simp [shaped] at hd <;>
    simp [xml_srl.read_xml, locate, hd, xml_srl.read_xml.eq_def]

theorem read_xml_null_root_init (E : Env) (R : type_info.Registry) (fuel : Nat) (t : Ty)
    (nm : String) :
    xml_srl.read_xml E R fuel t (t.value_init E) nm none false = .error .null_dereference := by
  cases t <;> simp [Ty.value_init, xml_srl.read_xml, locate]

theorem reader_xml_null_root (E : Env) (R : type_info.Registry) (fuel : Nat) (T : Ty) (d : Val)
    (nm : String) (v : Val) (n : Nat) :
    type_info.reader_xml E R fuel T d nm none false ≠ .ok (v, n) := by
  cases fuel with
  | zero => simp [type_info.reader_xml]
  | succ f =>
    by_cases h : T ∈ R.type_reader_xml
    · cases T <;> cases d <;> simp [type_info.reader_xml, locate, h]
      split <;> simp
    · simp [type_info.reader_xml, h]

theorem read_xml_members_null (E : Env) (R : type_info.Registry) (fuel : Nat) (T : Ty)
    (m : type_info.memberPair) (ms : List type_info.memberPair) (o : Val) (s : Nat) (v : Val)
    (n : Nat) :
    type_info.read_xml_members E T (type_info.reader_xml E R fuel) none (m :: ms) o s
      ≠ .ok (v, n) := by
  simp only [type_info.read_xml_members]
  cases hm : type_info.member E T o m with
  | error e => simp
  | ok r =>
    obtain ⟨i, f⟩ := r
    simp only
    cases hr : type_info.reader_xml E R fuel m.typenm f m.name none false with
    | error e => simp
    | ok r2 => exact absurd hr (reader_xml_null_root E R fuel _ _ _ r2.1 r2.2)

theorem reader_xml_absent (E : Env) (R : type_info.Registry) (fuel : Nat) (T : Ty) (d : Val)
    (nm : String) (e : XMLNode) (v : Val) (n : Nat)
    (hT : ∀ c, T = .cls c → R.members T ≠ [])
    (habs : tinyxml2.FirstChildElement e (c_str nm) = none) :
    type_info.reader_xml E R fuel T d nm (some e) false ≠ .ok (v, n) := by
  cases fuel with
  | zero => simp [type_info.reader_xml]
  | succ f =>
    by_cases h : T ∈ R.type_reader_xml
    · cases T with
      | cls c =>
        have hne := hT c rfl
        cases hms : R.members (.cls c) with
        | nil => exact absurd hms hne
        | cons m ms =>
          rw [type_info.reader_xml]
          simp only [h, not_true_eq_false, if_false, locate, Bool.false_eq_true, habs, hms]
          exact read_xml_members_null E R f _ m ms d 1 v n
      | pointer t =>
        rw [type_info.reader_xml]
        simp only [h, not_true_eq_false, if_false, locate, Bool.false_eq_true, habs]
        cases hr : type_info.reader_xml E R f t (t.value_init E) "object" none false with
        | error e => simp
        | ok r2 => exact absurd hr (reader_xml_null_root E R f _ _ _ r2.1 r2.2)
      | unique_ptr t =>
        rw [type_info.reader_xml]
        simp only [h, not_true_eq_false, if_false, locate, Bool.false_eq_true, habs]
        cases hr : type_info.reader_xml E R f t (t.value_init E) "object" none false with
        | error e => simp
        | ok r2 => exact absurd hr (reader_xml_null_root E R f _ _ _ r2.1 r2.2)
      | pair a b =>
        cases d <;> simp [type_info.reader_xml, h, locate, habs, read_xml_pair]
        rename_i x y
        cases hr : type_info.reader_xml E R f a x "first" none false with
        | error e => simp
        | ok r2 => exact absurd hr (reader_xml_null_root E R f _ _ _ r2.1 r2.2)
      | arith p =>
        cases d <;> simp [type_info.reader_xml, h, locate, habs, read_val_int, read_val_fp]
      | array k t =>
        cases d <;> simp [type_info.reader_xml, h, locate, habs, element_run_of]
        split <;> simp
      | string => cases d <;> simp [type_info.reader_xml, h, locate, habs, read_text]
      | seq k t =>
        cases d <;> simp [type_info.reader_xml, h, locate, habs, read_wrapper, element_run_of]
      | setc k t =>
        cases d <;> simp [type_info.reader_xml, h, locate, habs, read_wrapper, element_run_of]
      | mapc k a b =>
        cases d <;> simp [type_info.reader_xml, h, locate, habs, read_wrapper, element_run_of]
      | adaptor k t =>
        cases d <;> simp [type_info.reader_xml, h, locate, habs, read_wrapper, element_run_of]
      | enum c => cases d <;> simp [type_info.reader_xml, h]
    · simp [type_info.reader_xml, h]

theorem read_xml_absent (E : Env) (R : type_info.Registry) (fuel : Nat) (T : Ty) (d : Val)
    (nm : String) (e : XMLNode) (hc : ∀ c, T ≠ .cls c) (he : ∀ c, T ≠ .enum c)
    (hd : shaped T d = true) (habs : tinyxml2.FirstChildElement e (c_str nm) = none) :
    xml_srl.read_xml E R fuel T d nm (some e) false = .error .null_dereference := by
  cases T with
  | cls c => exact absurd rfl (hc c)
  | enum c => exact absurd rfl (he c)
  | arith p =>
    cases d <;> simp [shaped] at hd
    simp only [xml_srl.read_xml, locate, Bool.false_eq_true, if_false, habs, read_val_int,
      read_val_fp, ite_self]
  | pointer t =>
    simp only [xml_srl.read_xml, locate, Bool.false_eq_true, if_false, habs,
      read_xml_null_root_init]
  | unique_ptr t =>
    simp only [xml_srl.read_xml, locate, Bool.false_eq_true, if_false, habs,
      read_xml_null_root_init]
  | array k t =>
    cases d <;> simp [shaped] at hd
    simp only [xml_srl.read_xml, hd.1, if_true, locate, Bool.false_eq_true, if_false, habs,
      element_run_of]
  | string =>
    simp only [xml_srl.read_xml, locate, Bool.false_eq_true, if_false, habs, read_text]
  | pair a b =>
    cases d <;> simp [shaped] at hd
    simp only [xml_srl.read_xml, locate, Bool.false_eq_true, if_false, habs, read_xml_pair,
      read_xml_null_root E R fuel a _ "first" hd.1]
  | seq k t =>
    cases d <;> simp [shaped] at hd
    simp only [xml_srl.read_xml, locate, Bool.false_eq_true, if_false, habs, read_wrapper,
      element_run_of]
  | setc k t =>
    cases d <;> simp [shaped] at hd
    simp only [xml_srl.read_xml, locate, Bool.false_eq_true, if_false, habs, read_wrapper,
      element_run_of]
  | mapc k a b =>
    cases d <;> simp [shaped] at hd
    simp only [xml_srl.read_xml, locate, Bool.false_eq_true, if_false, habs, read_wrapper,
      element_run_of]
  | adaptor k t =>
    cases d <;> simp [shaped] at hd
    simp only [xml_srl.read_xml, locate, Bool.false_eq_true, if_false, habs, read_wrapper,
      element_run_of]

/-- C26 (amended): when the element has no child with the requested name, (1)
`xml_srl::read_xml` of every built-in Kind, with an object of the type as destination,
dereferences the null element and so does not return; (2) the stored readers, which read
the fields of a Record and their `first`, `second` and `object` children, never return
normally for a type other than a Record without registered fields, and neither does
`xml_srl::read_xml` of a Record with at least one registered field; (3) when the element
of a Primitive is there and has no `val` attribute, the conversion throws
`std::logic_error`.  A Record registered with an empty field list is read normally, its
destination unchanged. -/
theorem C26_missing_element_fails (E : Env) (R : type_info.Registry) (fuel : Nat) (T : Ty)
    (d : Val) (name : String) (e : XMLNode)
    (habs : tinyxml2.FirstChildElement e (c_str name) = none) :
    ((∀ c, T ≠ .cls c) → (∀ c, T ≠ .enum c) → shaped T d = true →
      xml_srl.read_xml E R fuel T d name (some e) false = .error .null_dereference) ∧
    ((∀ c, T = .cls c → R.members T ≠ []) →
      (∀ v n, type_info.reader_xml E R fuel T d name (some e) false ≠ .ok (v, n)) ∧
      ((∃ c, T = .cls c) →
        ∀ v n, xml_srl.read_xml E R fuel T d name (some e) false ≠ .ok (v, n))) ∧
    (∀ p old nm root itself elem, T = .arith p → d = .num old →
      locate nm root itself = .ok (some elem) → tinyxml2.Attribute elem "val" = none →
      xml_srl.read_xml E R fuel T d nm root itself = .error .logic_error ∧
      (T ∈ R.type_reader_xml →
        type_info.reader_xml E R (fuel + 1) T d nm root itself = .error .logic_error)) := by
  refine ⟨fun hc he hd => read_xml_absent E R fuel T d name e hc he hd habs, ?_, ?_⟩
  · intro hT
    refine ⟨fun v n => reader_xml_absent E R fuel T d name e v n hT habs, ?_⟩
    rintro ⟨c, rfl⟩ v n
    simp only [xml_srl.read_xml, locate, Bool.false_eq_true, if_false, habs]
    split
    · simp
    · exact reader_xml_absent E R fuel _ d name e v n hT habs
  · intro p old nm root itself elem hp hold hloc hval
    subst hp hold
    constructor
    · simp only [xml_srl.read_xml, hloc, read_val_int, read_val_fp, hval, ite_self]
    · intro hmem
      rw [type_info.reader_xml]
      simp only [hmem, not_true_eq_false, if_false, hloc, read_val_int, read_val_fp, hval,
        ite_self]

/-- Witness of C26: an `int` read under the name `n` from the fresh root, which has no
child. -/
theorem C26_witness :
    tinyxml2.FirstChildElement main_cpp.root (c_str "n") = none ∧
    shaped (.arith .int) (.num 0) = true ∧
    xml_srl.read_xml main_cpp.E main_cpp.R 0 (.arith .int) (.num 0) "n" (some main_cpp.root)
      false = .error .null_dereference :=
  ⟨rfl, by decide,
    (C26_missing_element_fails main_cpp.E main_cpp.R 0 (.arith .int) (.num 0) "n"
      main_cpp.root rfl).1 (fun c h => Ty.noConfusion h) (fun c h => Ty.noConfusion h)
      (by decide)⟩

/-- Counterexample to C26 as stated: a struct `Z` registered with an empty field list is
read under the name `z` from the fresh root, which has no child `z`: the read returns 1
and the destination is unchanged. -/
theorem C26_counterexample :
    type_info.RegisterStruct_call type_info.Registry.empty "Z" empty_record.Z 4096 []
      = .ok empty_record.R ∧
    tinyxml2.FirstChildElement main_cpp.root (c_str "z") = none ∧
    xml_srl.read_xml main_cpp.E empty_record.R 1 empty_record.Z (.obj []) "z"
      (some main_cpp.root) false = .ok (.obj [], 1) :=
  ⟨rfl, rfl, rfl⟩


/-- C28 (amended): for every type that none of the traits tested by the four dispatches
recognises (not arithmetic, pointer, `unique_ptr`, array, `std::string`, pair, container
or container adaptor): when the type is a class, each of `write_bin`, `read_bin`,
`write_xml` and `read_xml` throws "type not registered" if no closure is stored for it and
otherwise calls the stored closure; when it is not a class (an enumeration), each of them
throws "Unsupported type". -/
theorem C28_unrecognised_types (E : Env) (R : type_info.Registry) (fuel : Nat) (T : Ty)
    (v : Val) (file : ifstream) (name : String) (root : XMLNode) (elem : Option XMLNode)
    (h1 : T.is_arithmetic = false) (h2 : T.is_pointer = false)
    (h3 : my_type_traits.is_unique_ptr T = false) (h4 : T.is_array = false)
    (h5 : T.is_string = false) (h6 : my_type_traits.is_pair T = false)
    (h7 : my_type_traits.is_container T = false)
    (h8 : my_type_traits.is_container_adaptor T = false) :
    (T.is_class = true →
      (T ∉ R.type_writer_bin →
        bin_srl.write_bin E R fuel T v = ([], .error .type_not_registered)) ∧
      (T ∈ R.type_writer_bin →
        bin_srl.write_bin E R fuel T v = type_info.writer_bin E R fuel T v) ∧
      (T ∉ R.type_reader_bin →
        bin_srl.read_bin E R fuel T v file = .error .type_not_registered) ∧
      (T ∈ R.type_reader_bin →
        bin_srl.read_bin E R fuel T v file = type_info.reader_bin E R fuel T v file) ∧
      (T ∉ R.type_writer_xml →
        xml_srl.write_xml E R fuel T v name root = (root, .error .type_not_registered)) ∧
      (T ∈ R.type_writer_xml →
        xml_srl.write_xml E R fuel T v name root = type_info.writer_xml E R fuel T v name root) ∧
      (T ∉ R.type_reader_xml →
        xml_srl.read_xml E R fuel T v name (some root) true = .error .type_not_registered) ∧
      (T ∈ R.type_reader_xml →
        xml_srl.read_xml E R fuel T v name (some root) true
          = type_info.reader_xml E R fuel T v name (some root) false)) ∧
    (T.is_class = false →
      bin_srl.write_bin E R fuel T v = ([], .error .unsupported_type) ∧
      bin_srl.read_bin E R fuel T v file = .error .unsupported_type ∧
      xml_srl.write_xml E R fuel T v name root = (root, .error .unsupported_type) ∧
      xml_srl.read_xml E R fuel T v name elem true = .error .unsupported_type) := by
  cases T <;> simp [Ty.is_arithmetic, Ty.is_pointer, my_type_traits.is_unique_ptr, Ty.is_array,
    Ty.is_string, my_type_traits.is_pair, my_type_traits.is_container,
    my_type_traits.is_container_adaptor] at h1 h2 h3 h4 h5 h6 h7 h8
  case cls c =>
    refine ⟨fun _ => ⟨?_, ?_, ?_, ?_, ?_, ?_, ?_, ?_⟩, fun h => by simp [Ty.is_class] at h⟩ <;>
      intro h <;> simp [bin_srl.write_bin, bin_srl.read_bin, xml_srl.write_xml,
        xml_srl.read_xml, locate, h]
  case enum c =>
    refine ⟨fun h => by simp [Ty.is_class] at h, fun _ => ?_⟩
    simp [bin_srl.write_bin, bin_srl.read_bin, xml_srl.write_xml, xml_srl.read_xml, locate]

/-- Witness of C28: a struct `U` that was never registered. -/
theorem C28_witness :
    (Ty.cls "U").is_class = true ∧ Ty.cls "U" ∉ main_cpp.R.type_writer_bin ∧
    bin_srl.write_bin main_cpp.E main_cpp.R 0 (.cls "U") (.obj [])
      = ([], .error .type_not_registered) :=
  ⟨by decide, by decide,
    ((C28_unrecognised_types main_cpp.E main_cpp.R 0 (.cls "U") (.obj []) (ifstream.mk [] true)
      "u" main_cpp.root none (by decide) (by decide) (by decide) (by decide) (by decide)
      (by decide) (by decide) (by decide)).1 (by decide)).1 (by decide)⟩

/-- Counterexample to C28 as stated: an enumeration `Color` is recognised by none of the
traits and is not a class; `bin_srl::write_bin` and `xml_srl::write_xml` throw "Unsupported
type", which is not the unregistered-type error. -/
theorem C28_counterexample :
    (Ty.enum "Color").is_arithmetic = false ∧ (Ty.enum "Color").is_pointer = false ∧
    my_type_traits.is_unique_ptr (.enum "Color") = false ∧
    (Ty.enum "Color").is_array = false ∧ (Ty.enum "Color").is_string = false ∧
    my_type_traits.is_pair (.enum "Color") = false ∧
    my_type_traits.is_container (.enum "Color") = false ∧
    (Ty.enum "Color").record_kind = false ∧
    bin_srl.write_bin main_cpp.E main_cpp.R 0 (.enum "Color") (.num 1)
      = ([], .error .unsupported_type) ∧
    xml_srl.write_xml main_cpp.E main_cpp.R 0 (.enum "Color") (.num 1) "c" main_cpp.root
      = (main_cpp.root, .error .unsupported_type) ∧
    Err.unsupported_type ≠ Err.type_not_registered :=
  ⟨rfl, rfl, rfl, rfl, rfl, rfl, rfl, rfl, rfl, rfl, by decide⟩


theorem read_xml_each_values (rd : Val → XMLNode → RXml) (fresh : Val)
    (ins : Val → List Val → List Val) (cs : List XMLNode) (vs : List Val)
    (h : List.Forall₂ (fun c v => ∃ n, rd fresh c = .ok (v, n)) cs vs) :
    ∀ obj s, ∃ m, read_xml_each rd fresh ins cs obj s
      = .ok (vs.foldl (fun a v => ins v a) obj, m) := by
  induction h with
  | nil => exact fun obj s => ⟨s, rfl⟩
  | cons hx _ ih =>
    rename_i c v cs1 vs1 hrest
    intro obj s
    obtain ⟨n1, h1⟩ := hx
    obtain ⟨m, hm⟩ := ih (ins v obj) (to_u32 (s + n1))
    exact ⟨m, by simp only [read_xml_each, h1, hm, List.foldl_cons]⟩

theorem element_run_from_first (name nm : String) (attrs : List (String × String))
    (pre post : List XMLNode) (c : XMLNode)
    (hpre : ∀ x ∈ pre, tinyxml2.has_tag name x = false)
    (hc : tinyxml2.has_tag name c = true) :
    tinyxml2.element_run (.element nm attrs (pre ++ c :: post)) name
      = c :: post.filter tinyxml2.is_element := by
  induction pre with
  | nil =>
    simp only [tinyxml2.element_run, tinyxml2.children, List.nil_append, List.dropWhile_cons, hc,
      Bool.not_true, Bool.false_eq_true, if_false]
  | cons x pre ih =>
    have hx := hpre x (List.mem_cons_self _ _)
    have := ih (fun y hy => hpre y (List.mem_cons_of_mem _ hy))
    simp only [tinyxml2.element_run, tinyxml2.children, List.cons_append, List.dropWhile_cons,
      hx, Bool.not_false, if_true] at this ⊢
    exact this

/-- C29 (amended): the text readers for Sequence and Set visit the first child of the
wrapper that is tagged `element` and every element after it, whatever its tag; children
before that first one are skipped.  When each visited element is read without error, a
Sequence receives the values read, in document order, after the elements it held, and a
Set receives them by insertion, so the decoded cardinality of a Sequence read into an
empty destination is the number of visited elements. -/
theorem C29_text_container_children (E : Env) (R : type_info.Registry) (fuel : Nat) (t : Ty)
    (xs vs : List Val) (name : String) (root : Option XMLNode) (itself : Bool) (e : XMLNode)
    (hloc : locate name root itself = .ok (some e)) :
    (List.Forall₂ (fun c v => ∃ n,
        xml_srl.read_xml E R fuel t (t.default_init E) "element" (some c) true = .ok (v, n))
        (tinyxml2.element_run e "element") vs →
      (∀ k, ∃ m, xml_srl.read_xml E R fuel (.seq k t) (.seq xs) name root itself
        = .ok (.seq (xs ++ vs), m)) ∧
      (∀ k, ∃ m, xml_srl.read_xml E R fuel (.setc k t) (.seq xs) name root itself
        = .ok (.seq (vs.foldl (fun a v => set_kind_insert E k t v a) xs), m)) ∧
      vs.length = (tinyxml2.element_run e "element").length) ∧
    (List.Forall₂ (fun c v => ∃ n,
        type_info.reader_xml E R fuel t (t.default_init E) "element" (some c) true = .ok (v, n))
        (tinyxml2.element_run e "element") vs →
      ∀ k, Ty.seq k t ∈ R.type_reader_xml →
        ∃ m, type_info.reader_xml E R (fuel + 1) (.seq k t) (.seq xs) name root itself
          = .ok (.seq (xs ++ vs), m)) ∧
    (∀ nm attrs pre c post, e = .element nm attrs (pre ++ c :: post) →
      (∀ x ∈ pre, tinyxml2.has_tag "element" x = false) →
      tinyxml2.has_tag "element" c = true →
      tinyxml2.element_run e "element" = c :: post.filter tinyxml2.is_element) := by
  refine ⟨fun h => ⟨fun k => ?_, fun k => ?_, h.length_eq.symm⟩, fun h k hmem => ?_, ?_⟩
  · obtain ⟨m, hm⟩ := read_xml_each_values
      (fun d c => xml_srl.read_xml E R fuel t d "element" (some c) true)
      (t.default_init E) push_back _ vs h xs 1
    refine ⟨m, ?_⟩
    simp only [xml_srl.read_xml, hloc, read_wrapper, element_run_of, hm, foldl_push_back]
  · obtain ⟨m, hm⟩ := read_xml_each_values
      (fun d c => xml_srl.read_xml E R fuel t d "element" (some c) true)
      (t.default_init E) (set_kind_insert E k t) _ vs h xs 1
    exact ⟨m, by simp only [xml_srl.read_xml, hloc, read_wrapper, element_run_of, hm]⟩
  · obtain ⟨m, hm⟩ := read_xml_each_values
      (fun d c => type_info.reader_xml E R fuel t d "element" (some c) true)
      (t.default_init E) push_back _ vs h xs 1
    refine ⟨m, ?_⟩
    rw [type_info.reader_xml]
    simp only [hmem, not_true_eq_false, if_false, hloc, read_wrapper, element_run_of, hm,
      foldl_push_back]
  · intro nm attrs pre c post he hpre hc
    rw [he]
    exact element_run_from_first "element" nm attrs pre post c hpre hc

/-- Witness of C29: a `std::vector<int>` read from the wrapper whose four children are all
tagged `element`. -/
theorem C29_witness :
    ∃ m, xml_srl.read_xml main_cpp.E main_cpp.R 0 (.seq .vector (.arith .int)) (.seq [])
        "array" (some main_cpp.four_elements) true
      = .ok (.seq ([] ++ [.num 1, .num 2, .num 3, .num 4]), m) :=
  ((C29_text_container_children main_cpp.E main_cpp.R 0 (.arith .int) []
    [.num 1, .num 2, .num 3, .num 4] "array" (some main_cpp.four_elements) true
    main_cpp.four_elements rfl).1
    (List.Forall₂.cons ⟨1, rfl⟩ (List.Forall₂.cons ⟨1, rfl⟩ (List.Forall₂.cons ⟨1, rfl⟩
      (List.Forall₂.cons ⟨1, rfl⟩ List.Forall₂.nil))))).1 .vector

/-- Counterexample to C29 as stated: from a wrapper whose children are tagged `other`,
`element`, `other`, `element` (values 9, 1, 2, 3), `xml_srl::read_xml` decodes the
`std::vector<int>` 1, 2, 3: the `other` child between the two `element` children is
decoded, and the cardinality is 3 where two children are tagged `element`. -/
theorem C29_counterexample :
    xml_srl.read_xml main_cpp.E main_cpp.R 0 (.seq .vector (.arith .int)) (.seq []) "v"
        (some main_cpp.mixed_children) true
      = .ok (.seq [.num 1, .num 2, .num 3], 4) ∧
    ((tinyxml2.children main_cpp.mixed_children).filter (tinyxml2.has_tag "element")).length
      = 2 ∧
    [Val.num 1, Val.num 2, Val.num 3].length ≠ 2 :=
  ⟨rfl, rfl, by decide⟩

/-- C30 (the code at the failing input): a struct `P` with the one field `int *p`.  The
stored readers of a raw pointer name `std::remove_pointer<T>::type` inside `typeid` without
`typename` (type_info.h lines 307 and 314), so `RegisterReader_` cannot be instantiated for
any pointer type and the call `RegisterStruct<P>("P", x, { {"p", x.p} })` does not compile:
no Record with a raw-reference field is ever registered, and no registered reader decodes
one.  The same struct with a `std::unique_ptr<int>` field is registered, and the template
`bin_srl::read_bin` on an `int *` does set the pointer to a new pointee holding 7. -/
theorem C30_raw_pointer_field_not_registered :
    (∀ (R : type_info.Registry) (t : Ty),
      type_info.RegisterReader_ R (.pointer t) = .error .does_not_compile) ∧
    (∀ (R : type_info.Registry) (t : Ty),
      type_info.RegisterBaseType_ R (.pointer t) = .error .does_not_compile) ∧
    type_info.RegisterStruct_call type_info.Registry.empty "P" raw_pointer_record.P 4096
        [("p", .pointer (.arith .int), 4096)] = .error .does_not_compile ∧
    (∃ R1, type_info.RegisterStruct_call type_info.Registry.empty "P" raw_pointer_record.P 4096
        [("p", .unique_ptr (.arith .int), 4096)] = .ok R1 ∧
      R1.has (.unique_ptr (.arith .int)) = true ∧ R1.has raw_pointer_record.P = true) ∧
    bin_srl.read_bin main_cpp.E main_cpp.R 3 (.pointer (.arith .int)) .null
        (ifstream.mk [7, 0, 0, 0] true)
      = .ok (.ptr (.num 7), 4, ifstream.mk [] true) :=
  ⟨fun _ _ => rfl,
   fun R t => by
     by_cases h : Ty.pointer t ∈ R.type_writer_bin <;>
       simp [type_info.RegisterBaseType_, type_info.RegisterWriter_,
         type_info.RegisterReader_, h],
   rfl, ⟨_, rfl, rfl, rfl⟩, rfl⟩

/-- C38 (code defect): the writers and the readers classify every type alike except
`std::priority_queue`, for which `write_bin` and `write_xml` take the user-defined class
branch (`is_container` has no specialisation for it) while `read_bin` and `read_xml` take
the container adaptor branch; for `std::queue` and `std::stack` the writers take the
container branch, whose range-based `for` does not compile for them.  So a
`priority_queue<int>` is refused by `write_bin` as an unregistered class, and `read_bin`
decodes a count and the elements into it. -/
theorem C38_priority_queue_classified_differently :
    (∀ T : Ty, (∃ t, T = .adaptor .priority_queue t) ∨
      ((bin_srl.read_branch T).encoding = bin_srl.write_branch T ∧
       (xml_srl.read_branch T).encoding = xml_srl.write_branch T)) ∧
    (∀ t, bin_srl.write_branch (.adaptor .priority_queue t) = .user_class ∧
      bin_srl.read_branch (.adaptor .priority_queue t) = .container_adaptor ∧
      xml_srl.write_branch (.adaptor .priority_queue t) = .user_class ∧
      xml_srl.read_branch (.adaptor .priority_queue t) = .container_adaptor ∧
      (Ty.adaptor .priority_queue t).record_kind = true) ∧
    (∀ t, bin_srl.write_branch (.adaptor .queue t) = .container ∧
      bin_srl.read_branch (.adaptor .queue t) = .container_adaptor ∧
      bin_srl.write_branch (.adaptor .stack t) = .container ∧
      bin_srl.read_branch (.adaptor .stack t) = .container_adaptor) ∧
    bin_srl.write_bin main_cpp.E type_info.Registry.empty 1
        (.adaptor .priority_queue (.arith .int)) (.seq [.num 5])
      = ([], .error .type_not_registered) ∧
    bin_srl.read_bin main_cpp.E type_info.Registry.empty 1
        (.adaptor .priority_queue (.arith .int)) (.seq [])
        (ifstream.mk [1, 0, 0, 0, 5, 0, 0, 0] true)
      = .ok (.seq [.num 5], 8, ifstream.mk [] true) ∧
    xml_srl.write_xml main_cpp.E type_info.Registry.empty 1
        (.adaptor .priority_queue (.arith .int)) (.seq [.num 5]) "q" main_cpp.root
      = (main_cpp.root, .error .type_not_registered) ∧
    xml_srl.read_xml main_cpp.E type_info.Registry.empty 1
        (.adaptor .priority_queue (.arith .int)) (.seq []) "q"
        (some (tinyxml2.InsertEndChild main_cpp.root
          (tinyxml2.InsertEndChild (tinyxml2.NewElement "q")
            (tinyxml2.SetAttribute (tinyxml2.NewElement "element") "val" "5")))) false
      = .ok (.seq [.num 5], 2) ∧
    bin_srl.write_bin main_cpp.E type_info.Registry.empty 1
        (.adaptor .queue (.arith .int)) (.seq [.num 5])
      = ([], .error .does_not_compile) := by
  refine ⟨?_, ?_, ?_, rfl, rfl, rfl, rfl, rfl⟩
  · intro T
    cases T with
    | adaptor k t =>
      cases k
      · exact Or.inr ⟨rfl, rfl⟩
      · exact Or.inr ⟨rfl, rfl⟩
      · exact Or.inl ⟨t, rfl⟩
    | arith p =>
      refine Or.inr ⟨rfl, ?_⟩
      cases p <;> rfl
    | _ => exact Or.inr ⟨rfl, rfl⟩
  · intro t; exact ⟨rfl, rfl, rfl, rfl, rfl⟩
  · intro t; exact ⟨rfl, rfl, rfl, rfl⟩

theorem read_xml_slots_long (rd : Val → XMLNode → RXml) :
    ∀ (ds : List Val) (cs : List XMLNode) (vs : List Val) (size : Nat), ds.length < cs.length →
      List.Forall₂ (fun dc v => ∃ n, rd dc.1 dc.2 = .ok (v, n)) (ds.zip cs) vs →
      (∃ size1, read_xml_slots rd ds cs size = .ok (vs, size1)) ∧
        read_xml_slots_comma rd ds cs size = .error .out_of_bounds := by
  intro ds
  induction ds with
  | nil =>
    intro cs vs size hlen h
    rw [List.zip_nil_left] at h
    cases h
    cases cs with
    | nil => simp at hlen
    | cons c cs => exact ⟨⟨size, rfl⟩, rfl⟩
  | cons d ds ih =>
    intro cs vs size hlen h
    cases cs with
    | nil => simp at hlen
    | cons c cs =>
      rw [List.zip_cons_cons] at h
      cases h with
      | cons hv hvs =>
        obtain ⟨n, hn⟩ := hv
        obtain ⟨⟨size1, h1⟩, h2⟩ := ih cs _ (to_u32 (size + n)) (by simpa using hlen) hvs
        refine ⟨⟨size1, ?_⟩, ?_⟩
        · simp only [read_xml_slots, hn, h1]
        · simp only [read_xml_slots_comma, hn, h2]

/-- C35 (code defect): when the wrapper element located by a text reader of a
FixedArray(N) presents more than `N` elements from its first child tagged `element` on, and
each of the first `N` is read without error into the slot of its position, the template
`xml_srl::read_xml` stops after slot `N-1` and returns the `N` values read, but the stored
lambda of `RegisterReader_` goes on to slot `N`, past the end of the array: its loop
condition `i < N, elit != nullptr` is a comma expression that tests the element only. -/
theorem C35_registered_array_reader_overruns (E : Env) (R : type_info.Registry)
    (fuel N : Nat) (t : Ty) (ds : List Val) (cs : List XMLNode) (name : String)
    (root : Option XMLNode) (itself : Bool) (elem : XMLNode)
    (hN : ds.length = N) (hloc : locate name root itself = .ok (some elem))
    (hrun : tinyxml2.element_run elem "element" = cs) (hk : N < cs.length) :
    (∀ vs, List.Forall₂ (fun dc v => ∃ n,
          xml_srl.read_xml E R fuel t dc.1 "element" (some dc.2) true = .ok (v, n))
        (ds.zip cs) vs →
      vs.length = N ∧
      ∃ size, xml_srl.read_xml E R fuel (.array N t) (.seq ds) name root itself
        = .ok (.seq vs, size)) ∧
    (Ty.array N t ∈ R.type_reader_xml →
      ∀ vs, List.Forall₂ (fun dc v => ∃ n,
          type_info.reader_xml E R fuel t dc.1 "element" (some dc.2) true = .ok (v, n))
        (ds.zip cs) vs →
      type_info.reader_xml E R (fuel + 1) (.array N t) (.seq ds) name root itself
        = .error .out_of_bounds) := by
  constructor
  · intro vs h
    obtain ⟨⟨size, h1⟩, -⟩ := read_xml_slots_long
      (fun d c => xml_srl.read_xml E R fuel t d "element" (some c) true) ds cs vs 1 (by omega) h
    refine ⟨?_, size, by simp only [xml_srl.read_xml, hN, if_true, hloc, element_run_of, hrun, h1]⟩
    have := h.length_eq
    rw [List.length_zip] at this
    omega
  · intro hmem vs h
    obtain ⟨-, h2⟩ := read_xml_slots_long
      (fun d c => type_info.reader_xml E R fuel t d "element" (some c) true) ds cs vs 1
      (by omega) h
    rw [type_info.reader_xml]
    simp only [hmem, not_true_eq_false, if_false, hN, if_true, hloc, element_run_of, hrun, h2]

/-- Witness of C35: `N = 2`: an `int[2]` holding 10, 20 and a wrapper with the four
elements 1, 2, 3, 4.  The template reader leaves 1, 2; the reader stored for the member
`int arr[2]` of a registered struct writes past the array. -/
theorem C35_witness :
    Ty.array 2 (.arith .int) ∈ array_record.R.type_reader_xml ∧
    (tinyxml2.element_run main_cpp.four_elements "element").length = 4 ∧
    (∃ size, xml_srl.read_xml main_cpp.E array_record.R 1 (.array 2 (.arith .int))
        (.seq [.num 10, .num 20]) "array" (some main_cpp.four_elements) true
      = .ok (.seq [.num 1, .num 2], size)) ∧
    type_info.reader_xml main_cpp.E array_record.R 2 (.array 2 (.arith .int))
        (.seq [.num 10, .num 20]) "array" (some main_cpp.four_elements) true
      = .error .out_of_bounds :=
  ⟨by decide, by decide,
    (((C35_registered_array_reader_overruns main_cpp.E array_record.R 1 2 (.arith .int)
      [.num 10, .num 20] (tinyxml2.element_run main_cpp.four_elements "element") "array"
      (some main_cpp.four_elements) true main_cpp.four_elements (by decide) rfl rfl
      (by decide)).1
      [.num 1, .num 2]
      (List.Forall₂.cons ⟨1, rfl⟩ (List.Forall₂.cons ⟨1, rfl⟩ List.Forall₂.nil))).2),
    (C35_registered_array_reader_overruns main_cpp.E array_record.R 1 2 (.arith .int)
      [.num 10, .num 20] (tinyxml2.element_run main_cpp.four_elements "element") "array"
      (some main_cpp.four_elements) true main_cpp.four_elements (by decide) rfl rfl
      (by decide)).2 (by decide)
      [.num 1, .num 2]
      (List.Forall₂.cons ⟨1, rfl⟩ (List.Forall₂.cons ⟨1, rfl⟩ List.Forall₂.nil))⟩

theorem RegisterType_typeInfo_map :
    ∀ (T : Ty) (R R1 : type_info.Registry),
      type_info.RegisterType_ R T = .ok R1 → R1.typeInfo_map = R.typeInfo_map := by
  have one : ∀ (t T : Ty) (R R1 : type_info.Registry),
      (∀ R R1, type_info.RegisterType_ R t = .ok R1 → R1.typeInfo_map = R.typeInfo_map) →
      (match type_info.RegisterType_ R t with
        | .error e => (Except.error e : Except Err type_info.Registry)
        | .ok R2 => type_info.RegisterBaseType_ R2 T) = .ok R1 →
      R1.typeInfo_map = R.typeInfo_map := by
    intro t T R R1 ih h
    cases ht : type_info.RegisterType_ R t with
    | error e => rw [ht] at h; cases h
    | ok R2 =>
      rw [ht] at h
      exact (RegisterBaseType_typeInfo_map _ _ _ h).trans (ih _ _ ht)
  have two : ∀ (a b T : Ty) (R R1 : type_info.Registry),
      (∀ R R1, type_info.RegisterType_ R a = .ok R1 → R1.typeInfo_map = R.typeInfo_map) →
      (∀ R R1, type_info.RegisterType_ R b = .ok R1 → R1.typeInfo_map = R.typeInfo_map) →
      (match type_info.RegisterType_ R a with
        | .error e => (Except.error e : Except Err type_info.Registry)
        | .ok R2 =>
          match type_info.RegisterType_ R2 b with
          | .error e => (Except.error e : Except Err type_info.Registry)
          | .ok R3 => type_info.RegisterBaseType_ R3 T) = .ok R1 →
      R1.typeInfo_map = R.typeInfo_map := by
    intro a b T R R1 iha ihb h
    cases ha : type_info.RegisterType_ R a with
    | error e => rw [ha] at h; cases h
    | ok R2 =>
      rw [ha] at h
      exact (one b T R2 R1 ihb h).trans (iha _ _ ha)
  intro T
  induction T with
  | arith p =>
    intro R R1 h
    simp only [type_info.RegisterType_] at h
    split at h
    · cases h; rfl
    · exact RegisterBaseType_typeInfo_map _ _ _ h
  | string =>
    intro R R1 h
    simp only [type_info.RegisterType_] at h
    split at h
    · cases h; rfl
    · exact RegisterBaseType_typeInfo_map _ _ _ h
  | pointer t ih =>
    intro R R1 h
    simp only [type_info.RegisterType_] at h
    split at h
    · cases h; rfl
    · exact one t _ R R1 ih h
  | unique_ptr t ih =>
    intro R R1 h
    simp only [type_info.RegisterType_] at h
    split at h
    · cases h; rfl
    · exact one t _ R R1 ih h
  | array n t ih =>
    intro R R1 h
    simp only [type_info.RegisterType_] at h
    split at h
    · cases h; rfl
    · exact one t _ R R1 ih h
  | pair a b iha ihb =>
    intro R R1 h
    simp only [type_info.RegisterType_] at h
    split at h
    · cases h; rfl
    · exact two a b _ R R1 iha ihb h
  | seq k t ih =>
    intro R R1 h
    simp only [type_info.RegisterType_] at h
    split at h
    · cases h; rfl
    · exact one t _ R R1 ih h
  | setc k t ih =>
    intro R R1 h
    simp only [type_info.RegisterType_] at h
    split at h
    · cases h; rfl
    · exact one t _ R R1 ih h
  | mapc k key val ihk ihv =>
    intro R R1 h
    simp only [type_info.RegisterType_] at h
    split at h
    · cases h; rfl
    · split at h
      · exact RegisterBaseType_typeInfo_map _ _ _ h
      · cases hk : type_info.RegisterType_ R key with
        | error e => rw [hk] at h; cases h
        | ok R2 =>
          rw [hk] at h
          simp only at h
          cases hv : type_info.RegisterType_ R2 val with
          | error e => rw [hv] at h; cases h
          | ok R3 =>
            rw [hv] at h
            simp only at h
            cases hp : type_info.RegisterBaseType_ R3 (.pair key val) with
            | error e => rw [hp] at h; cases h
            | ok R4 =>
              rw [hp] at h
              exact (RegisterBaseType_typeInfo_map _ _ _ h).trans
                ((RegisterBaseType_typeInfo_map _ _ _ hp).trans ((ihv _ _ hv).trans (ihk _ _ hk)))
  | adaptor k t ih =>
    intro R R1 h
    cases k with
    | priority_queue =>
      simp only [type_info.RegisterType_] at h
      split at h
      · cases h; rfl
      · cases h
    | queue =>
      simp only [type_info.RegisterType_] at h
      split at h
      · cases h; rfl
      · exact one t _ R R1 ih h
    | stack =>
      simp only [type_info.RegisterType_] at h
      split at h
      · cases h; rfl
      · exact one t _ R R1 ih h
  | cls n =>
    intro R R1 h
    simp only [type_info.RegisterType_] at h
    split at h
    · cases h; rfl
    · cases h
  | enum n =>
    intro R R1 h
    simp only [type_info.RegisterType_] at h
    split at h
    · cases h; rfl
    · cases h

theorem member_list_typeInfo_map :
    ∀ (fields : List (String × Ty × Nat)) (R R1 : type_info.Registry)
      (ms : List type_info.memberPair),
      type_info.member_list R fields = .ok (R1, ms) →
      R1.typeInfo_map = R.typeInfo_map ∧ ms = fields.map (fun f => ⟨f.1, f.2.1, f.2.2⟩) := by
  intro fields
  induction fields with
  | nil =>
    intro R R1 ms h
    simp only [type_info.member_list] at h
    cases h
    exact ⟨rfl, rfl⟩
  | cons f rest ih =>
    intro R R1 ms h
    obtain ⟨name, T, address⟩ := f
    simp only [type_info.member_list, type_info.memberPair.of_ref] at h
    cases ht : type_info.RegisterType_ R T with
    | error e => rw [ht] at h; cases h
    | ok R2 =>
      rw [ht] at h
      simp only at h
      cases hr : type_info.member_list R2 rest with
      | error e => rw [hr] at h; cases h
      | ok p =>
        obtain ⟨R3, ms1⟩ := p
        rw [hr] at h
        simp only at h
        cases h
        obtain ⟨h1, h2⟩ := ih _ _ _ hr
        exact ⟨h1.trans (RegisterType_typeInfo_map _ _ _ ht), by rw [h2]; rfl⟩

/-- C32 (code defect): when the display name is not the demangled name of a type that has
a descriptor, a `RegisterStruct` call that returns leaves for its type a descriptor with
the display name, the type name and one entry per field of the list, in the order of the
list, entry `i` holding the name, the type and the address of the field minus the address
of the sample.  When the display name is such a name, the guard of `RegisterStruct` returns
before anything is stored: with a struct `Point` registered, the first call
`RegisterStruct<geo::Point>("Point", q, { {"x", q.x}, {"y", q.y} })` leaves no descriptor
for `geo::Point`, and its member list reads as empty. -/
theorem C32_descriptor_not_stored_on_name_clash :
    (∀ (R0 R : type_info.Registry) (name : String) (T : Ty) (address : Nat)
        (fields : List (String × Ty × Nat)),
      R0.typeInfo_map.any (fun e => type_info.demangle e.1 = name) = false →
      type_info.RegisterStruct_call R0 name T address fields = .ok R →
      R.typeInfo_map.lookup T = some ⟨name, T, fields.map (fun f =>
        ⟨f.1, f.2.1, type_info.size_t_sub f.2.2 address⟩)⟩) ∧
    (∃ R1 R2,
      type_info.RegisterStruct_call type_info.Registry.empty "Point" (.cls "Point") 4096
        [("x", .arith .int, 4096), ("y", .arith .int, 4100)] = .ok R1 ∧
      R1.typeInfo_map.lookup (.cls "geo::Point") = none ∧
      type_info.RegisterStruct_call R1 "Point" (.cls "geo::Point") 8192
        [("x", .arith .int, 8192), ("y", .arith .int, 8196)] = .ok R2 ∧
      R2.typeInfo_map.lookup (.cls "geo::Point") = none ∧
      R2.members (.cls "geo::Point") = [] ∧
      R2 = R1) := by
  refine ⟨?_, _, _, rfl, rfl, rfl, rfl, rfl, rfl⟩
  intro R0 R name T address fields hguard h
  simp only [type_info.RegisterStruct_call] at h
  cases hm : type_info.member_list R0 fields with
  | error e => rw [hm] at h; cases h
  | ok p =>
    obtain ⟨R1, ms⟩ := p
    rw [hm] at h
    simp only at h
    obtain ⟨h1, h2⟩ := member_list_typeInfo_map _ _ _ _ hm
    simp only [type_info.RegisterStruct, h1, hguard, Bool.false_eq_true, if_false] at h
    have hmap := RegisterBaseType_typeInfo_map _ _ _ h
    simp only [hmap, List.lookup_cons, beq_self_eq_true, h2, List.map_map]
    rfl

/-- Witness of C32: a struct `Point` with the members `x` at offset 0 and `y` at offset 4,
registered on the empty tables. -/
theorem C32_witness :
    ∃ R, type_info.RegisterStruct_call type_info.Registry.empty "Point" (.cls "Point") 4096
        [("x", .arith .int, 4096), ("y", .arith .int, 4100)] = .ok R ∧
      R.typeInfo_map.lookup (.cls "Point")
        = some ⟨"Point", .cls "Point", [⟨"x", .arith .int, 0⟩, ⟨"y", .arith .int, 4⟩]⟩ :=
  ⟨_, rfl, C32_descriptor_not_stored_on_name_clash.1 type_info.Registry.empty _ "Point"
    (.cls "Point") 4096 [("x", .arith .int, 4096), ("y", .arith .int, 4100)] rfl rfl⟩

theorem find_eq_head_filter {α : Type} (p : α → Bool) :
    ∀ l : List α, l.find? p = (l.filter p).head? := by
  intro l
  induction l with
  | nil => rfl
  | cons a l ih =>
    by_cases h : p a = true
    · simp only [List.find?_cons, h, List.filter_cons, if_true, List.head?_cons]
    · simp only [Bool.not_eq_true] at h
      simp only [List.find?_cons, h, List.filter_cons, Bool.false_eq_true, if_false, ih]

theorem find_perm {α : Type} (p : α → Bool) (l1 l2 : List α) (hp : l1.Perm l2)
    (h1 : (l1.filter p).length ≤ 1) : l1.find? p = l2.find? p := by
  rw [find_eq_head_filter, find_eq_head_filter]
  have hf : (l1.filter p).Perm (l2.filter p) := hp.filter p
  cases hl : l1.filter p with
  | nil =>
    rw [hl] at hf
    rw [hf.nil_eq]
  | cons a rest =>
    rw [hl] at hf h1
    cases rest with
    | nil =>
      rw [List.perm_comm, List.perm_singleton] at hf
      rw [hf]
    | cons b rest => simp at h1

theorem read_xml_members_congr (E : Env) (T : Ty)
    (rd : Ty → Val → String → Option XMLNode → Bool → RXml) (e1 e2 : Option XMLNode) :
    ∀ (ms : List type_info.memberPair) (obj : Val) (size : Nat),
      (∀ m ∈ ms, ∀ f, rd m.typenm f m.name e1 false = rd m.typenm f m.name e2 false) →
      type_info.read_xml_members E T rd e1 ms obj size
        = type_info.read_xml_members E T rd e2 ms obj size := by
  intro ms
  induction ms with
  | nil => intro obj size _; rfl
  | cons m ms ih =>
    intro obj size h
    simp only [type_info.read_xml_members]
    cases hm : type_info.member E T obj m with
    | error e => rfl
    | ok p =>
      obtain ⟨i, f⟩ := p
      simp only
      rw [h m (List.mem_cons_self _ _) f]
      cases hr : rd m.typenm f m.name e2 false with
      | error e => rfl
      | ok q =>
        obtain ⟨v, n⟩ := q
        simp only
        exact ih _ _ (fun m1 hm1 => h m1 (List.mem_cons_of_mem _ hm1))

/-- C36 (amended): for every registered Record with pairwise distinct field names and
every record element in which at most one child carries the tag of each field, permuting
the order of the element's children does not change the outcome of the registered text
reader (the value decoded and the count, or the failure), because each field is read from
the first child that carries its name. -/
theorem C36_record_child_order (E : Env) (R : type_info.Registry) (fuel : Nat) (c : String)
    (obj : Val) (name : String) (root root1 : Option XMLNode) (itself : Bool)
    (tag : String) (attrs : List (String × String)) (cs cs1 : List XMLNode)
    (_hnames : ((R.members (.cls c)).map (fun m => m.name)).Nodup)
    (hloc : locate name root itself = .ok (some (.element tag attrs cs)))
    (hloc1 : locate name root1 itself = .ok (some (.element tag attrs cs1)))
    (hperm : cs.Perm cs1)
    (huniq : (R.members (.cls c)).all (fun m =>
      decide ((cs.filter (tinyxml2.has_tag (c_str m.name))).length ≤ 1)) = true) :
    type_info.reader_xml E R fuel (.cls c) obj name root itself
      = type_info.reader_xml E R fuel (.cls c) obj name root1 itself := by
  cases fuel with
  | zero => rfl
  | succ fuel =>
    rw [type_info.reader_xml, type_info.reader_xml]
    by_cases hmem : Ty.cls c ∈ R.type_reader_xml
    · simp only [hmem, not_true_eq_false, if_false, hloc, hloc1]
      apply read_xml_members_congr
      intro m hm f
      rw [type_info.reader_xml_child E R fuel m.typenm f m.name m.name,
        type_info.reader_xml_child E R fuel m.typenm f m.name m.name]
      have hu := List.all_eq_true.mp huniq m hm
      simp only [decide_eq_true_eq] at hu
      simp only [tinyxml2.FirstChildElement, tinyxml2.children]
      rw [find_perm _ cs cs1 hperm hu]
    · simp only [hmem, not_false_eq_true, if_true]

/-- Witness of C36: the element of an instance of the struct `B` of main.cpp and the
element with its seven children in reverse order decode alike. -/
theorem C36_witness :
    type_info.reader_xml main_cpp.E main_cpp.R 4 (.cls "B")
        (main_cpp.E.default_ctor (.cls "B")) "B"
        (some (.element "B" [("type", "B")] main_cpp.b_member_nodes)) true
      = type_info.reader_xml main_cpp.E main_cpp.R 4 (.cls "B")
        (main_cpp.E.default_ctor (.cls "B")) "B"
        (some (.element "B" [("type", "B")] main_cpp.b_member_nodes.reverse)) true :=
  C36_record_child_order main_cpp.E main_cpp.R 4 "B" (main_cpp.E.default_ctor (.cls "B")) "B"
    (some (.element "B" [("type", "B")] main_cpp.b_member_nodes))
    (some (.element "B" [("type", "B")] main_cpp.b_member_nodes.reverse)) true
    "B" [("type", "B")] main_cpp.b_member_nodes main_cpp.b_member_nodes.reverse
    (by decide) rfl rfl (List.reverse_perm _).symm (by decide)

/-- Counterexample to C36 as stated: the registered struct `S` has the one field `s`; an
element with the children `<s>x</s><s>y</s>` decodes to `x`, and the element with the two
children exchanged decodes to `y`. -/
theorem C36_counterexample :
    ((main_cpp.R.members main_cpp.S).map (fun m => m.name)).Nodup ∧
    List.Perm [XMLNode.element "s" [] [.text "x"], XMLNode.element "s" [] [.text "y"]]
      [XMLNode.element "s" [] [.text "y"], XMLNode.element "s" [] [.text "x"]] ∧
    type_info.reader_xml main_cpp.E main_cpp.R 3 main_cpp.S (.obj [.str ""]) "S"
        (some (.element "S" [("type", "S")]
          [.element "s" [] [.text "x"], .element "s" [] [.text "y"]])) true
      = .ok (.obj [.str "x"], 2) ∧
    type_info.reader_xml main_cpp.E main_cpp.R 3 main_cpp.S (.obj [.str ""]) "S"
        (some (.element "S" [("type", "S")]
          [.element "s" [] [.text "y"], .element "s" [] [.text "x"]])) true
      = .ok (.obj [.str "y"], 2) ∧
    Val.obj [.str "x"] ≠ Val.obj [.str "y"] := by
  refine ⟨by decide, List.Perm.swap _ _ _, rfl, rfl, ?_⟩
  intro h
  have h1 := Val.obj.inj h
  have h2 := (List.cons.inj h1).1
  exact absurd (Val.str.inj h2) (by decide)

theorem bin_append_container (w : Val → WBin) (rd : Val → ifstream → RBin) (d : Val)
    (xs : List Val) (hlen : xs.length < 2 ^ 32)
    (h : ∀ x ∈ xs, bin_round_trip (w x) (rd d) x) :
    ∃ bs n, bin_srl.write_container w xs = (bs, .ok n) ∧
      ∀ rest acc, ∃ m, bin_srl.read_container rd d push_back acc (ifstream.mk (bs ++ rest) true)
        = .ok (.seq (acc ++ xs), m, ifstream.mk rest true) := by
  obtain ⟨bs, n, hw, hr⟩ := read_count_write_each w rd d push_back xs h (to_u32 4)
  refine ⟨Prim.uint.encode (to_u32 xs.length) ++ bs, n, ?_, ?_⟩
  · simp [bin_srl.write_container, WBin.bind, hw]
  · intro rest acc
    obtain ⟨m, hm⟩ := hr rest acc 4
    refine ⟨m, ?_⟩
    simp only [bin_srl.read_container, List.append_assoc, to_u32_of_lt _ hlen,
      ifstream.read_u32_encode _ _ _ hlen, hm, foldl_push_back]

theorem bin_append_container_int (w : Val → WBin) (rd : Val → ifstream → RBin) (d : Val)
    (xs : List Val) (init : Nat) (hlen : xs.length < 2 ^ 31)
    (h : ∀ x ∈ xs, bin_round_trip (w x) (rd d) x) :
    ∃ bs n, type_info.write_container w xs init = (bs, .ok n) ∧
      ∀ rest acc, ∃ m,
        type_info.read_container rd d push_back acc (ifstream.mk (bs ++ rest) true)
          = .ok (.seq (acc ++ xs), m, ifstream.mk rest true) := by
  obtain ⟨bs, n, hw, hr⟩ := read_count_write_each w rd d push_back xs h init
  have hlen2 : xs.length < 2 ^ 32 := by omega
  refine ⟨Prim.uint.encode (xs.length : Int) ++ bs, n, ?_, ?_⟩
  · simp only [type_info.write_container, WBin.bind, hw, to_u32_of_lt _ hlen2, uint_encode_eq]
    rw [Nat.mod_eq_of_lt hlen2]
  · intro rest acc
    obtain ⟨m, hm⟩ := hr rest acc 4
    refine ⟨m, ?_⟩
    simp only [type_info.read_container, List.append_assoc,
      ifstream.read_u32_encode _ _ _ hlen2, int_loop_count_of_lt _ hlen, hm, foldl_push_back]

theorem xml_append_wrapper (w : Val → String → XMLNode → WXml) (rd : Val → XMLNode → RXml)
    (d : Val) (tag : String) (xs : List Val)
    (h : ∀ x ∈ xs, ∃ node n m, tinyxml2.has_tag tag node = true ∧
      (∀ e, w x tag e = (tinyxml2.InsertEndChild e node, .ok n)) ∧ rd d node = .ok (x, m)) :
    ∀ name, ∃ node n, tinyxml2.has_tag (c_str name) node = true ∧
      (∀ root, write_wrapper w tag xs name root = (tinyxml2.InsertEndChild root node, .ok n)) ∧
      ∀ acc, ∃ m, read_wrapper rd tag d push_back acc (some node) = .ok (.seq (acc ++ xs), m) := by
  intro name
  obtain ⟨nodes, htags, hws, hrs⟩ := xml_children_each (fun x e => w x tag e) rd d push_back
    tag xs h
  obtain ⟨n, hn⟩ := hws (c_str name) [] [] 1
  refine ⟨.element (c_str name) [] nodes, n, by simp [tinyxml2.has_tag], ?_, ?_⟩
  · intro root
    simp only [write_wrapper, tinyxml2.NewElement, hn, List.nil_append]
  · intro acc
    obtain ⟨m, hm⟩ := hrs acc 1
    exact ⟨m, by simp only [read_wrapper, element_run_of,
      element_run_all tag _ _ nodes htags, hm, foldl_push_back]⟩

/-- C33: for every Sequence destination holding the elements `d` and every sequence of
elements `e`, the template `bin_srl::read_bin` and the stored sequence reader of
`RegisterReader_` on the bytes written for `e`, and the template `xml_srl::read_xml` on the
element written for `e`, leave the destination holding `d` followed by `e`; for a Text
destination holding `old`, `bin_srl::read_bin` and `xml_srl::read_xml` on the encoding of
a string `s` leave the destination holding `s` alone. -/
theorem C33_sequence_appends_text_replaces (E : Env) (R : type_info.Registry)
    (fuel K n : Nat) (k : SeqK) (t : Ty) (d e : List Val) (s old : String) :
    (typed Limits.bin E (.seq k t) (.seq e) = true →
      ∃ bs c, bin_srl.write_bin E R fuel (.seq k t) (.seq e) = (bs, .ok c) ∧
        ∀ rest, ∃ m, bin_srl.read_bin E R fuel (.seq k t) (.seq d) (ifstream.mk (bs ++ rest) true)
          = .ok (.seq (d ++ e), m, ifstream.mk rest true)) ∧
    (typed Limits.xml E (.seq k t) (.seq e) = true →
      ∀ name, ∃ node c, tinyxml2.has_tag (c_str name) node = true ∧
        (∀ root, xml_srl.write_xml E R fuel (.seq k t) (.seq e) name root
          = (tinyxml2.InsertEndChild root node, .ok c)) ∧
        ∃ m, ∀ nm, xml_srl.read_xml E R fuel (.seq k t) (.seq d) nm (some node) true
          = .ok (.seq (d ++ e), m)) ∧
    (type_info.ctors_fresh E R K = true →
      type_info.reg_typed Limits.bin_registered E R n (.seq k t) (.seq e) = true → n ≤ fuel →
      ∃ bs c, type_info.writer_bin E R fuel (.seq k t) (.seq e) = (bs, .ok c) ∧
        ∀ rest, ∃ m,
          type_info.reader_bin E R fuel (.seq k t) (.seq d) (ifstream.mk (bs ++ rest) true)
            = .ok (.seq (d ++ e), m, ifstream.mk rest true)) ∧
    (typed Limits.bin E .string (.str s) = true →
      ∃ bs c, bin_srl.write_bin E R fuel .string (.str s) = (bs, .ok c) ∧
        ∀ rest, ∃ m, bin_srl.read_bin E R fuel .string (.str old) (ifstream.mk (bs ++ rest) true)
          = .ok (.str s, m, ifstream.mk rest true)) ∧
    (typed Limits.xml E .string (.str s) = true →
      ∀ name, ∃ node c, tinyxml2.has_tag (c_str name) node = true ∧
        (∀ root, xml_srl.write_xml E R fuel .string (.str s) name root
          = (tinyxml2.InsertEndChild root node, .ok c)) ∧
        ∃ m, ∀ nm, xml_srl.read_xml E R fuel .string (.str old) nm (some node) true
          = .ok (.str s, m)) := by
  refine ⟨?_, ?_, ?_, ?_, ?_⟩
  · intro hv
    simp only [typed, Limits.bin, Bool.and_eq_true, decide_eq_true_eq, List.all_eq_true] at hv
    obtain ⟨bs, c, hw, hr⟩ := bin_append_container (bin_srl.write_bin E R fuel t)
      (bin_srl.read_bin E R fuel t) (t.default_init E) e hv.1
      (fun x hx => bin_srl.bin_round_trip_direct E R fuel t x _ (hv.2 x hx)
        (fresh_init _ E t x (hv.2 x hx)).1)
    refine ⟨bs, c, by simp only [bin_srl.write_bin, hw], fun rest => ?_⟩
    obtain ⟨m, hm⟩ := hr rest d
    exact ⟨m, by simp only [bin_srl.read_bin, hm]⟩
  · intro hv name
    simp only [typed, Bool.and_eq_true, List.all_eq_true] at hv
    obtain ⟨node, c, htag, hw, hr⟩ := xml_append_wrapper (xml_srl.write_xml E R fuel t)
      (fun d c => xml_srl.read_xml E R fuel t d "element" (some c) true) (t.default_init E)
      "element" e
      (fun x hx => by
        obtain ⟨node, n, m, htag, hw, hr⟩ :=
          xml_srl.xml_round_trip_direct E R fuel t x _ (hv.2 x hx)
            (fresh_init _ E t x (hv.2 x hx)).1 "element"
        rw [c_str_element] at htag
        exact ⟨node, n, m, htag, hw, hr "element"⟩) name
    obtain ⟨m, hm⟩ := hr d
    refine ⟨node, c, htag, fun root => ?_, m, fun nm => ?_⟩
    · simp only [xml_srl.write_xml, hw]
    · simp only [xml_srl.read_xml, locate, if_true, hm]
  · intro hK hv hf
    cases n with
    | zero => simp [type_info.reg_typed] at hv
    | succ n =>
      obtain ⟨f, rfl⟩ : ∃ f1, fuel = f1 + 1 := ⟨fuel - 1, by omega⟩
      have hf1 : n ≤ f := by omega
      simp only [type_info.reg_typed, Bool.and_eq_true] at hv
      obtain ⟨hhas, hv⟩ := hv
      obtain ⟨hwb, hrb, -, -⟩ := (type_info.Registry.has_iff R _).mp hhas
      simp only [Limits.bin_registered, decide_eq_true_eq, List.all_eq_true] at hv
      obtain ⟨bs, c, hw, hr⟩ := bin_append_container_int (type_info.writer_bin E R f t)
        (type_info.reader_bin E R f t) (t.default_init E) e 1 hv.1
        (fun x hx => by
          obtain ⟨k1, hk1, -⟩ := type_info.reg_fresh_init _ E R K hK n t x (hv.2 x hx)
          exact type_info.bin_round_trip_registered E R K hK n t x (hv.2 x hx) k1 _ hk1 f hf1)
      refine ⟨bs, c, by simp [type_info.writer_bin, hwb, hw], fun rest => ?_⟩
      obtain ⟨m, hm⟩ := hr rest d
      exact ⟨m, by simp [type_info.reader_bin, hrb, hm]⟩
  · intro hv
    exact bin_srl.bin_round_trip_direct E R fuel .string (.str s) (.str old) hv rfl
  · intro hv name
    obtain ⟨node, c, m, htag, hw, hr⟩ :=
      xml_srl.xml_round_trip_direct E R fuel .string (.str s) (.str old) hv rfl name
    exact ⟨node, c, htag, hw, m, hr⟩

/-- Witness of C33: the vector 83, 86, 77 of main.cpp read into a vector that holds 1, 2,
and the string `Hello` read into a string that holds `old`. -/
theorem C33_witness :
    typed Limits.bin main_cpp.E (.seq .vector (.arith .int)) (.seq [.num 83, .num 86, .num 77])
      = true ∧
    (∃ bs c, bin_srl.write_bin main_cpp.E main_cpp.R 4 (.seq .vector (.arith .int))
        (.seq [.num 83, .num 86, .num 77]) = (bs, .ok c) ∧
      ∀ rest, ∃ m, bin_srl.read_bin main_cpp.E main_cpp.R 4 (.seq .vector (.arith .int))
          (.seq [.num 1, .num 2]) (ifstream.mk (bs ++ rest) true)
        = .ok (.seq ([.num 1, .num 2] ++ [.num 83, .num 86, .num 77]), m,
            ifstream.mk rest true)) ∧
    (∀ name, ∃ node c, tinyxml2.has_tag (c_str name) node = true ∧
      (∀ root, xml_srl.write_xml main_cpp.E main_cpp.R 4 (.seq .vector (.arith .int))
          (.seq [.num 83, .num 86, .num 77]) name root
        = (tinyxml2.InsertEndChild root node, .ok c)) ∧
      ∃ m, ∀ nm, xml_srl.read_xml main_cpp.E main_cpp.R 4 (.seq .vector (.arith .int))
          (.seq [.num 1, .num 2]) nm (some node) true
        = .ok (.seq ([.num 1, .num 2] ++ [.num 83, .num 86, .num 77]), m)) ∧
    (∃ bs c, type_info.writer_bin main_cpp.E main_cpp.R 4 (.seq .vector (.arith .int))
        (.seq [.num 83, .num 86, .num 77]) = (bs, .ok c) ∧
      ∀ rest, ∃ m, type_info.reader_bin main_cpp.E main_cpp.R 4 (.seq .vector (.arith .int))
          (.seq [.num 1, .num 2]) (ifstream.mk (bs ++ rest) true)
        = .ok (.seq ([.num 1, .num 2] ++ [.num 83, .num 86, .num 77]), m,
            ifstream.mk rest true)) ∧
    (∃ bs c, bin_srl.write_bin main_cpp.E main_cpp.R 4 .string (.str "Hello") = (bs, .ok c) ∧
      ∀ rest, ∃ m, bin_srl.read_bin main_cpp.E main_cpp.R 4 .string (.str "old")
          (ifstream.mk (bs ++ rest) true)
        = .ok (.str "Hello", m, ifstream.mk rest true)) ∧
    (∀ name, ∃ node c, tinyxml2.has_tag (c_str name) node = true ∧
      (∀ root, xml_srl.write_xml main_cpp.E main_cpp.R 4 .string (.str "Hello") name root
        = (tinyxml2.InsertEndChild root node, .ok c)) ∧
      ∃ m, ∀ nm, xml_srl.read_xml main_cpp.E main_cpp.R 4 .string (.str "old") nm (some node)
          true = .ok (.str "Hello", m)) :=
  ⟨by decide,
    (C33_sequence_appends_text_replaces main_cpp.E main_cpp.R 4 3 2 .vector (.arith .int)
      [.num 1, .num 2] [.num 83, .num 86, .num 77] "Hello" "old").1 (by decide),
    (C33_sequence_appends_text_replaces main_cpp.E main_cpp.R 4 3 2 .vector (.arith .int)
      [.num 1, .num 2] [.num 83, .num 86, .num 77] "Hello" "old").2.1 (by decide),
    (C33_sequence_appends_text_replaces main_cpp.E main_cpp.R 4 3 2 .vector (.arith .int)
      [.num 1, .num 2] [.num 83, .num 86, .num 77] "Hello" "old").2.2.1 (by decide) (by decide)
      (by decide),
    (C33_sequence_appends_text_replaces main_cpp.E main_cpp.R 4 3 2 .vector (.arith .int)
      [.num 1, .num 2] [.num 83, .num 86, .num 77] "Hello" "old").2.2.2.1 (by decide),
    (C33_sequence_appends_text_replaces main_cpp.E main_cpp.R 4 3 2 .vector (.arith .int)
      [.num 1, .num 2] [.num 83, .num 86, .num 77] "Hello" "old").2.2.2.2 (by decide)⟩

theorem write_each_same (w1 w2 : Val → WBin) (xs : List Val)
    (h : ∀ x ∈ xs, ∃ bs n m, w1 x = (bs, .ok n) ∧ w2 x = (bs, .ok m)) :
    ∀ s1 s2, ∃ bs n m, write_each w1 xs s1 = (bs, .ok n) ∧ write_each w2 xs s2 = (bs, .ok m) := by
  induction xs with
  | nil => exact fun s1 s2 => ⟨[], s1, s2, rfl, rfl⟩
  | cons x xs ih =>
    intro s1 s2
    obtain ⟨b, n, m, h1, h2⟩ := h x (List.mem_cons_self _ _)
    obtain ⟨bs, n1, m1, h3, h4⟩ :=
      ih (fun y hy => h y (List.mem_cons_of_mem _ hy)) (to_u32 (s1 + n)) (to_u32 (s2 + m))
    exact ⟨b ++ bs, n1, m1, by simp only [write_each, WBin.bind, h1, h3],
      by simp only [write_each, WBin.bind, h2, h4]⟩

theorem write_container_same (w1 w2 : Val → WBin) (xs : List Val) (init : Nat)
    (hlen : xs.length < 2 ^ 31)
    (h : ∀ x ∈ xs, ∃ bs n m, w1 x = (bs, .ok n) ∧ w2 x = (bs, .ok m)) :
    ∃ bs n m, bin_srl.write_container w1 xs = (bs, .ok n) ∧
      type_info.write_container w2 xs init = (bs, .ok m) := by
  obtain ⟨bs, n, m, h1, h2⟩ := write_each_same w1 w2 xs h (to_u32 4) init
  have hlen2 : xs.length < 2 ^ 32 := by omega
  refine ⟨le_bytes 4 xs.length ++ bs, n, m, ?_, ?_⟩
  · simp only [bin_srl.write_container, WBin.bind, h1, to_u32_of_lt _ hlen2,
      uint_encode_nat _ hlen2]
  · simp only [type_info.write_container, WBin.bind, h2, to_u32_of_lt _ hlen2]

theorem writers_same_bytes (E : Env) (R : type_info.Registry) (fuel : Nat) :
    ∀ (n : Nat) (T : Ty) (v : Val), type_info.writable R n T v = true → ∀ f, n ≤ f →
      ∃ bs c1 c2, bin_srl.write_bin E R fuel T v = (bs, .ok c1) ∧
        type_info.writer_bin E R f T v = (bs, .ok c2) := by
  intro n
  induction n with
  | zero => intro T v h; simp [type_info.writable] at h
  | succ n ih =>
    intro T v hv f hf
    obtain ⟨f, rfl⟩ : ∃ f1, f = f1 + 1 := ⟨f - 1, by omega⟩
    have hf1 : n ≤ f := by omega
    simp only [type_info.writable, Bool.and_eq_true, decide_eq_true_eq] at hv
    obtain ⟨hmem, hv⟩ := hv
    cases T <;> cases v <;> (try simp only [Bool.false_eq_true] at hv)
    case arith.num p x =>
      exact ⟨p.encode x, p.size, p.size, by simp only [bin_srl.write_bin],
        by simp [type_info.writer_bin, hmem]⟩
    case string.str s =>
      simp only [decide_eq_true_eq] at hv
      have hlen : s.length < 2 ^ 32 := by omega
      have hdata : s.data.length = s.length := rfl
      obtain ⟨c, hc⟩ := write_each_chars s.data (to_u32 4)
      refine ⟨le_bytes 4 s.length ++ s.data.map char_byte, c, to_u32 (s.length + 4), ?_, ?_⟩
      · simp only [bin_srl.write_bin, WBin.bind, to_u32_of_lt _ hlen,
          int_loop_count_of_lt _ hv, uint_encode_nat _ hlen]
        rw [← hdata, List.take_length, hc]
      · simp only [type_info.writer_bin, hmem, not_true_eq_false, if_false,
          to_u32_of_lt _ hlen]
    case pointer.ptr t x =>
      obtain ⟨bs, c1, c2, h1, h2⟩ := ih t x hv f hf1
      exact ⟨bs, c1, c2, by simp only [bin_srl.write_bin, h1],
        by simp [type_info.writer_bin, hmem, h2]⟩
    case unique_ptr.ptr t x =>
      obtain ⟨bs, c1, c2, h1, h2⟩ := ih t x hv f hf1
      exact ⟨bs, c1, c2, by simp only [bin_srl.write_bin, h1],
        by simp [type_info.writer_bin, hmem, h2]⟩
    case array.seq k t xs =>
      simp only [Bool.and_eq_true, decide_eq_true_eq, List.all_eq_true] at hv
      obtain ⟨bs, c1, c2, h1, h2⟩ := write_each_same (bin_srl.write_bin E R fuel t)
        (type_info.writer_bin E R f t) xs (fun x hx => ih t x (hv.2 x hx) f hf1) 0 0
      exact ⟨bs, c1, to_u32 ((Ty.array k t).sizeof E),
        by simp only [bin_srl.write_bin, hv.1, if_true, h1],
        by simp [type_info.writer_bin, hmem, hv.1, WBin.bind, h2]⟩
    case pair.pair a b x y =>
      simp only [Bool.and_eq_true] at hv
      obtain ⟨bs1, n1, m1, h1, h2⟩ := ih a x hv.1 f hf1
      obtain ⟨bs2, n2, m2, h3, h4⟩ := ih b y hv.2 f hf1
      exact ⟨bs1 ++ bs2, to_u32 (to_u32 n1 + n2), to_u32 ((Ty.pair a b).sizeof E),
        by simp only [bin_srl.write_bin, bin_srl.write_pair, WBin.bind, h1, h3, List.append_nil],
        by simp [type_info.writer_bin, hmem, WBin.bind, h2, h4]⟩
    case seq.seq k t xs =>
      simp only [Bool.and_eq_true, decide_eq_true_eq, List.all_eq_true] at hv
      obtain ⟨bs, c1, c2, h1, h2⟩ := write_container_same (bin_srl.write_bin E R fuel t)
        (type_info.writer_bin E R f t) xs 1 hv.1 (fun x hx => ih t x (hv.2 x hx) f hf1)
      exact ⟨bs, c1, c2, by simp only [bin_srl.write_bin, h1],
        by simp [type_info.writer_bin, hmem, h2]⟩
    case setc.seq k t xs =>
      simp only [Bool.and_eq_true, decide_eq_true_eq, List.all_eq_true] at hv
      obtain ⟨bs, c1, c2, h1, h2⟩ := write_container_same (bin_srl.write_bin E R fuel t)
        (type_info.writer_bin E R f t) xs 1 hv.1 (fun x hx => ih t x (hv.2 x hx) f hf1)
      exact ⟨bs, c1, c2, by simp only [bin_srl.write_bin, h1],
        by simp [type_info.writer_bin, hmem, h2]⟩
    case mapc.seq k a b xs =>
      simp only [Bool.and_eq_true, decide_eq_true_eq, List.all_eq_true] at hv
      obtain ⟨bs, c1, c2, h1, h2⟩ := write_container_same
        (bin_srl.write_pair (bin_srl.write_bin E R fuel a) (bin_srl.write_bin E R fuel b))
        (type_info.writer_bin E R f (.pair a b)) xs 4 hv.1
        (fun x hx => by
          obtain ⟨bs, c1, c2, h1, h2⟩ := ih (.pair a b) x (hv.2 x hx) f hf1
          refine ⟨bs, c1, c2, ?_, h2⟩
          simpa only [bin_srl.write_bin] using h1)
      exact ⟨bs, c1, c2, by simp only [bin_srl.write_bin, h1],
        by simp [type_info.writer_bin, hmem, h2]⟩

/-- C34: for every object `v` of a built-in type (Primitive, Text, Pair, FixedArray,
Sequence, Set, Map, a raw or owning reference that refers to an object, nested to any
depth) whose strings and containers are shorter than `2^31` and for whose type and
component types a writer is stored, `bin_srl::write_bin` and the stored closure of
`RegisterWriter_` both return normally and emit the same bytes. -/
theorem C34_direct_and_registered_writers_agree (E : Env) (R : type_info.Registry)
    (fuel n f : Nat) (T : Ty) (v : Val)
    (hv : type_info.writable R n T v = true) (hf : n ≤ f) :
    ∃ bs c1 c2, bin_srl.write_bin E R fuel T v = (bs, .ok c1) ∧
      type_info.writer_bin E R f T v = (bs, .ok c2) :=
  writers_same_bytes E R fuel n T v hv f hf

/-- Witness of C34: the map of main.cpp, `std::map<std::string, int>` with the entries
`deux` and `un`, under the tables that the registrations of main.cpp leave. -/
theorem C34_witness :
    type_info.writable main_cpp.R 3 (.mapc .map .string (.arith .int)) main_cpp.m = true ∧
    ∃ bs c1 c2,
      bin_srl.write_bin main_cpp.E main_cpp.R 0 (.mapc .map .string (.arith .int)) main_cpp.m
        = (bs, .ok c1) ∧
      type_info.writer_bin main_cpp.E main_cpp.R 3 (.mapc .map .string (.arith .int)) main_cpp.m
        = (bs, .ok c2) :=
  ⟨by decide,
    C34_direct_and_registered_writers_agree main_cpp.E main_cpp.R 0 3 3
      (.mapc .map .string (.arith .int)) main_cpp.m (by decide) (Nat.le_refl 3)⟩

/-! ## The closure invariant of the tables -/

namespace type_info

theorem closed_iff (R : Registry) :
    R.closed = true ↔
      (∀ T, (T ∈ R.type_writer_bin ∨ T ∈ R.type_reader_bin ∨ T ∈ R.type_writer_xml ∨
          T ∈ R.type_reader_xml) →
        R.has T = true ∧ (∀ u ∈ R.lookups T, R.has u = true) ∧
          (R.type_name_map.lookup T).isSome = true) ∧
      (∀ e ∈ R.typeInfo_map, ∀ m ∈ e.2.members, R.has m.typenm = true) := by
  simp only [Registry.closed, Bool.and_eq_true, List.all_eq_true, List.mem_append, or_assoc,
    and_assoc]

theorem lookups_congr (R R1 : Registry) (h : R1.typeInfo_map = R.typeInfo_map) (T : Ty) :
    R1.lookups T = R.lookups T := by
  cases T <;> try rfl
  case adaptor k t => cases k <;> simp only [Registry.lookups, Registry.members, h]
  case cls c => simp only [Registry.lookups, Registry.members, h]

theorem closed_extend (R R1 : Registry) (T : Ty) (hR : R.closed = true)
    (hwb : R1.type_writer_bin = T :: R.type_writer_bin)
    (hrb : R1.type_reader_bin = T :: R.type_reader_bin)
    (hwx : R1.type_writer_xml = T :: R.type_writer_xml)
    (hrx : R1.type_reader_xml = T :: R.type_reader_xml)
    (hmap : R1.typeInfo_map = R.typeInfo_map)
    (hnames : ∀ U, (R.type_name_map.lookup U).isSome = true →
      (R1.type_name_map.lookup U).isSome = true)
    (hnameT : (R1.type_name_map.lookup T).isSome = true)
    (hlook : ∀ u ∈ R.lookups T, R.has u = true) :
    R1.closed = true ∧ R1.has T = true ∧ (∀ U, R.has U = true → R1.has U = true) := by
  have hmono : ∀ U, R.has U = true → R1.has U = true := by
    intro U hU
    rw [Registry.has_iff] at hU ⊢
    rw [hwb, hrb, hwx, hrx]
    exact ⟨List.mem_cons_of_mem _ hU.1, List.mem_cons_of_mem _ hU.2.1,
      List.mem_cons_of_mem _ hU.2.2.1, List.mem_cons_of_mem _ hU.2.2.2⟩
  have hT : R1.has T = true := by
    rw [Registry.has_iff, hwb, hrb, hwx, hrx]
    exact ⟨List.mem_cons_self _ _, List.mem_cons_self _ _, List.mem_cons_self _ _,
      List.mem_cons_self _ _⟩
  refine ⟨?_, hT, hmono⟩
  obtain ⟨h1, h2⟩ := (closed_iff R).mp hR
  rw [closed_iff]
  refine ⟨?_, ?_⟩
  · intro U hU
    rw [hwb, hrb, hwx, hrx] at hU
    simp only [List.mem_cons] at hU
    by_cases hUT : U = T
    · subst hUT
      refine ⟨hT, fun u hu => ?_, hnameT⟩
      rw [lookups_congr R R1 hmap] at hu
      exact hmono u (hlook u hu)
    · have hU1 : U ∈ R.type_writer_bin ∨ U ∈ R.type_reader_bin ∨ U ∈ R.type_writer_xml ∨
          U ∈ R.type_reader_xml := by
        rcases hU with (h | h) | (h | h) | (h | h) | (h | h)
        · exact absurd h hUT
        · exact Or.inl h
        · exact absurd h hUT
        · exact Or.inr (Or.inl h)
        · exact absurd h hUT
        · exact Or.inr (Or.inr (Or.inl h))
        · exact absurd h hUT
        · exact Or.inr (Or.inr (Or.inr h))
      obtain ⟨ha, hb, hc⟩ := h1 U hU1
      refine ⟨hmono U ha, fun u hu => ?_, hnames U hc⟩
      rw [lookups_congr R R1 hmap] at hu
      exact hmono u (hb u hu)
  · intro e he m hm
    rw [hmap] at he
    exact hmono _ (h2 e he m hm)

theorem closed_base (R R1 : Registry) (T : Ty) (hR : R.closed = true)
    (hlook : ∀ u ∈ R.lookups T, R.has u = true)
    (h : RegisterBaseType_ R T = .ok R1) :
    R1.closed = true ∧ R1.has T = true ∧ (∀ U, R.has U = true → R1.has U = true) ∧
      R1.typeInfo_map = R.typeInfo_map := by
  obtain ⟨h1, -⟩ := (closed_iff R).mp hR
  by_cases hmem : T ∈ R.type_writer_bin
  · obtain ⟨ha, -, hc⟩ := h1 T (Or.inl hmem)
    obtain ⟨-, hrb, -, -⟩ := (Registry.has_iff R T).mp ha
    simp only [RegisterBaseType_, RegisterWriter_, hmem, if_true] at h
    rcases RegisterReader_eq R T with he | he
    · rw [he] at h; cases h
    rw [he] at h
    simp only [hrb, if_true, hc, Bool.not_true, Option.isNone_iff_eq_none] at h
    cases hl : R.type_name_map.lookup T with
    | none => rw [hl] at hc; simp at hc
    | some nm =>
      rw [hl] at h
      simp only [reduceCtorEq, if_false] at h
      cases h
      exact ⟨hR, ha, fun U hU => hU, rfl⟩
  · have hrb : T ∉ R.type_reader_bin := by
      intro hx
      exact hmem ((Registry.has_iff R T).mp (h1 T (Or.inr (Or.inl hx))).1).1
    unfold RegisterBaseType_ at h
    cases hw : RegisterWriter_ R T with
    | error e => rw [hw] at h; cases h
    | ok R2 =>
      rw [hw] at h
      simp only at h
      have hR2 : R2 = ⟨R.typeInfo_map, R.type_name_map, T :: R.type_writer_bin,
          R.type_reader_bin, T :: R.type_writer_xml, R.type_reader_xml⟩ := by
        unfold RegisterWriter_ at hw
        simp only [hmem, if_false] at hw
        split at hw
        · cases hw
        · cases hw
        · cases hw
        · cases hw; rfl
      subst hR2
      cases hr : RegisterReader_ _ T with
      | error e => rw [hr] at h; cases h
      | ok R3 =>
        rw [hr] at h
        simp only at h
        have hR3 : R3 = ⟨R.typeInfo_map, R.type_name_map, T :: R.type_writer_bin,
            T :: R.type_reader_bin, T :: R.type_writer_xml, T :: R.type_reader_xml⟩ := by
          rcases RegisterReader_eq _ T with he | he
          · rw [he] at hr; cases hr
          rw [he] at hr
          simp only [hrb, if_false] at hr
          split at hr
          · cases hr
          · cases hr; rfl
        subst hR3
        simp only at h
        split at h
        · cases h
          obtain ⟨c1, c2, c3⟩ := closed_extend R
            ⟨R.typeInfo_map, (T, demangle T) :: R.type_name_map, T :: R.type_writer_bin,
              T :: R.type_reader_bin, T :: R.type_writer_xml, T :: R.type_reader_xml⟩
            T hR rfl rfl rfl rfl rfl
            (fun U hU => by
              show (List.lookup U ((T, demangle T) :: R.type_name_map)).isSome = true
              rw [List.lookup_cons]
              cases hb : (U == T)
              · exact hU
              · rfl)
            (by
              show (List.lookup T ((T, demangle T) :: R.type_name_map)).isSome = true
              rw [List.lookup_cons, beq_self_eq_true]
              rfl) hlook
          exact ⟨c1, c2, c3, rfl⟩
        · rename_i hnone
          cases h
          obtain ⟨c1, c2, c3⟩ := closed_extend R
            ⟨R.typeInfo_map, R.type_name_map, T :: R.type_writer_bin,
              T :: R.type_reader_bin, T :: R.type_writer_xml, T :: R.type_reader_xml⟩
            T hR rfl rfl rfl rfl rfl
            (fun U hU => hU)
            (by
              show (List.lookup T R.type_name_map).isSome = true
              cases hl : R.type_name_map.lookup T with
              | none => simp [hl] at hnone
              | some nm => rfl) hlook
          exact ⟨c1, c2, c3, rfl⟩

theorem closed_stored (R : Registry) (T : Ty) (hR : R.closed = true)
    (h : T ∈ R.type_writer_bin) :
    R.closed = true ∧ R.has T = true ∧ (∀ U, R.has U = true → R.has U = true) ∧
      R.typeInfo_map = R.typeInfo_map :=
  ⟨hR, (((closed_iff R).mp hR).1 T (Or.inl h)).1, fun _ hU => hU, rfl⟩

theorem closed_RegisterType :
    ∀ (T : Ty) (R R1 : Registry), R.closed = true → RegisterType_ R T = .ok R1 →
      R1.closed = true ∧ R1.has T = true ∧ (∀ U, R.has U = true → R1.has U = true) ∧
        R1.typeInfo_map = R.typeInfo_map := by
  have one : ∀ (t T : Ty) (R R1 : Registry),
      (∀ R R1, R.closed = true → RegisterType_ R t = .ok R1 →
        R1.closed = true ∧ R1.has t = true ∧ (∀ U, R.has U = true → R1.has U = true) ∧
          R1.typeInfo_map = R.typeInfo_map) →
      (∀ R2 : Registry, R2.lookups T = [t]) → R.closed = true →
      (match RegisterType_ R t with
        | .error e => (Except.error e : Except Err Registry)
        | .ok R2 => RegisterBaseType_ R2 T) = .ok R1 →
      R1.closed = true ∧ R1.has T = true ∧ (∀ U, R.has U = true → R1.has U = true) ∧
        R1.typeInfo_map = R.typeInfo_map := by
    intro t T R R1 ih hl hR h
    cases ht : RegisterType_ R t with
    | error e => rw [ht] at h; cases h
    | ok R2 =>
      rw [ht] at h
      obtain ⟨c1, c2, c3, c4⟩ := ih _ _ hR ht
      obtain ⟨d1, d2, d3, d4⟩ := closed_base R2 R1 T c1
        (fun u hu => by
          rw [hl, List.mem_singleton] at hu
          rw [hu]; exact c2) h
      exact ⟨d1, d2, fun U hU => d3 U (c3 U hU), d4.trans c4⟩
  intro T
  induction T with
  | arith p =>
    intro R R1 hR h
    simp only [RegisterType_] at h
    split at h
    · rename_i hm; cases h; exact closed_stored R _ hR hm
    · exact closed_base R R1 _ hR (fun u hu => by simp [Registry.lookups] at hu) h
  | string =>
    intro R R1 hR h
    simp only [RegisterType_] at h
    split at h
    · rename_i hm; cases h; exact closed_stored R _ hR hm
    · exact closed_base R R1 _ hR (fun u hu => by simp [Registry.lookups] at hu) h
  | pointer t ih =>
    intro R R1 hR h
    simp only [RegisterType_] at h
    split at h
    · rename_i hm; cases h; exact closed_stored R _ hR hm
    · exact one t _ R R1 ih (fun _ => rfl) hR h
  | unique_ptr t ih =>
    intro R R1 hR h
    simp only [RegisterType_] at h
    split at h
    · rename_i hm; cases h; exact closed_stored R _ hR hm
    · exact one t _ R R1 ih (fun _ => rfl) hR h
  | array n t ih =>
    intro R R1 hR h
    simp only [RegisterType_] at h
    split at h
    · rename_i hm; cases h; exact closed_stored R _ hR hm
    · exact one t _ R R1 ih (fun _ => rfl) hR h
  | pair a b iha ihb =>
    intro R R1 hR h
    simp only [RegisterType_] at h
    split at h
    · rename_i hm; cases h; exact closed_stored R _ hR hm
    · cases ha : RegisterType_ R a with
      | error e => rw [ha] at h; cases h
      | ok R2 =>
        rw [ha] at h
        simp only at h
        obtain ⟨c1, c2, c3, c4⟩ := iha _ _ hR ha
        cases hb : RegisterType_ R2 b with
        | error e => rw [hb] at h; cases h
        | ok R3 =>
          rw [hb] at h
          simp only at h
          obtain ⟨d1, d2, d3, d4⟩ := ihb _ _ c1 hb
          obtain ⟨e1, e2, e3, e4⟩ := closed_base R3 R1 (.pair a b) d1
            (fun u hu => by
              simp only [Registry.lookups, List.mem_cons, List.mem_singleton, List.mem_nil_iff,
                or_false] at hu
              rcases hu with hu | hu
              · rw [hu]; exact d3 a c2
              · rw [hu]; exact d2) h
          exact ⟨e1, e2, fun U hU => e3 U (d3 U (c3 U hU)), e4.trans (d4.trans c4)⟩
  | seq k t ih =>
    intro R R1 hR h
    simp only [RegisterType_] at h
    split at h
    · rename_i hm; cases h; exact closed_stored R _ hR hm
    · exact one t _ R R1 ih (fun _ => rfl) hR h
  | setc k t ih =>
    intro R R1 hR h
    simp only [RegisterType_] at h
    split at h
    · rename_i hm; cases h; exact closed_stored R _ hR hm
    · exact one t _ R R1 ih (fun _ => rfl) hR h
  | mapc k key val ihk ihv =>
    intro R R1 hR h
    simp only [RegisterType_] at h
    split at h
    · rename_i hm; cases h; exact closed_stored R _ hR hm
    · split at h
      · rename_i hp
        have hpair := (((closed_iff R).mp hR).1 _ (Or.inl hp)).1
        exact closed_base R R1 _ hR
          (fun u hu => by
            simp only [Registry.lookups, List.mem_singleton] at hu
            rw [hu]; exact hpair) h
      · cases hk : RegisterType_ R key with
        | error e => rw [hk] at h; cases h
        | ok R2 =>
          rw [hk] at h
          simp only at h
          obtain ⟨c1, c2, c3, c4⟩ := ihk _ _ hR hk
          cases hv : RegisterType_ R2 val with
          | error e => rw [hv] at h; cases h
          | ok R3 =>
            rw [hv] at h
            simp only at h
            obtain ⟨d1, d2, d3, d4⟩ := ihv _ _ c1 hv
            cases hp : RegisterBaseType_ R3 (.pair key val) with
            | error e => rw [hp] at h; cases h
            | ok R4 =>
              rw [hp] at h
              simp only at h
              obtain ⟨e1, e2, e3, e4⟩ := closed_base R3 R4 (.pair key val) d1
                (fun u hu => by
                  simp only [Registry.lookups, List.mem_cons, List.mem_singleton,
                    List.mem_nil_iff, or_false] at hu
                  rcases hu with hu | hu
                  · rw [hu]; exact d3 key c2
                  · rw [hu]; exact d2) hp
              obtain ⟨f1, f2, f3, f4⟩ := closed_base R4 R1 (.mapc k key val) e1
                (fun u hu => by
                  simp only [Registry.lookups, List.mem_singleton] at hu
                  rw [hu]; exact e2) h
              exact ⟨f1, f2, fun U hU => f3 U (e3 U (d3 U (c3 U hU))),
                f4.trans (e4.trans (d4.trans c4))⟩
  | adaptor k t ih =>
    intro R R1 hR h
    cases k with
    | priority_queue =>
      simp only [RegisterType_] at h
      split at h
      · rename_i hm; cases h; exact closed_stored R _ hR hm
      · cases h
    | queue =>
      simp only [RegisterType_] at h
      split at h
      · rename_i hm; cases h; exact closed_stored R _ hR hm
      · exact one t _ R R1 ih (fun _ => rfl) hR h
    | stack =>
      simp only [RegisterType_] at h
      split at h
      · rename_i hm; cases h; exact closed_stored R _ hR hm
      · exact one t _ R R1 ih (fun _ => rfl) hR h
  | cls n =>
    intro R R1 hR h
    simp only [RegisterType_] at h
    split at h
    · rename_i hm; cases h; exact closed_stored R _ hR hm
    · cases h
  | enum n =>
    intro R R1 hR h
    simp only [RegisterType_] at h
    split at h
    · rename_i hm; cases h; exact closed_stored R _ hR hm
    · cases h

theorem closed_member_list :
    ∀ (fields : List (String × Ty × Nat)) (R R1 : Registry) (ms : List memberPair),
      R.closed = true → member_list R fields = .ok (R1, ms) →
      R1.closed = true ∧ (∀ U, R.has U = true → R1.has U = true) ∧
        (∀ m ∈ ms, R1.has m.typenm = true) ∧ R1.typeInfo_map = R.typeInfo_map := by
  intro fields
  induction fields with
  | nil =>
    intro R R1 ms hR h
    simp only [member_list] at h
    cases h
    exact ⟨hR, fun _ hU => hU, fun m hm => by simp at hm, rfl⟩
  | cons f rest ih =>
    intro R R1 ms hR h
    obtain ⟨name, T, address⟩ := f
    simp only [member_list, memberPair.of_ref] at h
    cases ht : RegisterType_ R T with
    | error e => rw [ht] at h; cases h
    | ok R2 =>
      rw [ht] at h
      simp only at h
      obtain ⟨c1, c2, c3, c4⟩ := closed_RegisterType T R R2 hR ht
      cases hr : member_list R2 rest with
      | error e => rw [hr] at h; cases h
      | ok p =>
        obtain ⟨R3, ms1⟩ := p
        rw [hr] at h
        simp only at h
        cases h
        obtain ⟨d1, d2, d3, d4⟩ := ih _ _ _ c1 hr
        refine ⟨d1, fun U hU => d2 U (c3 U hU), fun m hm => ?_, d4.trans c4⟩
        rcases List.mem_cons.mp hm with hm | hm
        · rw [hm]; exact d2 T c2
        · exact d3 m hm

theorem lookups_cons (R R1 : Registry) (K : Ty) (info : typeInfo)
    (h : R1.typeInfo_map = (K, info) :: R.typeInfo_map) (U : Ty) (hU : U ≠ K) :
    R1.lookups U = R.lookups U := by
  have hm : R1.members U = R.members U := by
    have hb : (U == K) = false := by simpa using hU
    simp only [Registry.members, h, List.lookup_cons, hb]
  cases U <;> try rfl
  case adaptor k t => cases k <;> simp only [Registry.lookups, hm]
  case cls c => simp only [Registry.lookups, hm]

theorem closed_RegisterStruct (R R1 : Registry) (name c : String) (address : Nat)
    (members : List memberPair) (hR : R.closed = true)
    (hms : ∀ m ∈ members, R.has m.typenm = true)
    (h : RegisterStruct R name (.cls c) address members = .ok R1) : R1.closed = true := by
  unfold RegisterStruct at h
  split at h
  · cases h; exact hR
  · obtain ⟨h1, h2⟩ := (closed_iff R).mp hR
    have hnew : (Registry.mk
        ((Ty.cls c, ⟨name, .cls c, members.map (fun m =>
          ⟨m.name, m.typenm, size_t_sub m.offset address⟩)⟩) :: R.typeInfo_map)
        (if (R.type_name_map.lookup (.cls c)).isNone then (.cls c, name) :: R.type_name_map
          else R.type_name_map)
        R.type_writer_bin R.type_reader_bin R.type_writer_xml R.type_reader_xml).closed
          = true := by
      rw [closed_iff]
      refine ⟨fun U hU => ?_, fun e he m hm => ?_⟩
      · obtain ⟨ha, hb, hc⟩ := h1 U hU
        refine ⟨ha, fun u hu => ?_, ?_⟩
        · by_cases hUc : U = .cls c
          · subst hUc
            simp only [Registry.lookups, Registry.members, List.lookup_cons, beq_self_eq_true,
              List.map_map, List.mem_map, Function.comp] at hu
            obtain ⟨m, hm, rfl⟩ := hu
            exact hms m hm
          · rw [lookups_cons R _ (.cls c) _ rfl U hUc] at hu
            exact hb u hu
        · show (List.lookup U (if (R.type_name_map.lookup (.cls c)).isNone
              then (Ty.cls c, name) :: R.type_name_map else R.type_name_map)).isSome = true
          split
          · rw [List.lookup_cons]
            cases hbq : (U == Ty.cls c)
            · exact hc
            · rfl
          · exact hc
      · rcases List.mem_cons.mp he with he | he
        · subst he
          simp only [List.mem_map] at hm
          obtain ⟨m1, hm1, rfl⟩ := hm
          exact hms m1 hm1
        · exact h2 e he m hm
    exact (closed_base _ R1 (.cls c) hnew
      (fun u hu => by
        simp only [Registry.lookups, Registry.members, List.lookup_cons, beq_self_eq_true,
          List.map_map, List.mem_map, Function.comp] at hu
        obtain ⟨m, hm, rfl⟩ := hu
        exact hms m hm) h).1

theorem closed_RegisterStruct_call (R R1 : Registry) (name c : String) (address : Nat)
    (fields : List (String × Ty × Nat)) (hR : R.closed = true)
    (h : RegisterStruct_call R name (.cls c) address fields = .ok R1) : R1.closed = true := by
  simp only [RegisterStruct_call] at h
  cases hm : member_list R fields with
  | error e => rw [hm] at h; cases h
  | ok p =>
    obtain ⟨R2, ms⟩ := p
    rw [hm] at h
    simp only at h
    obtain ⟨c1, -, c3, -⟩ := closed_member_list _ _ _ _ hR hm
    exact closed_RegisterStruct R2 R1 name c address ms c1 c3 h

theorem closed_register_all :
    ∀ (calls : List Call) (R R1 : Registry), R.closed = true →
      calls.all Call.declared_class = true → register_all R calls = .ok R1 →
      R1.closed = true := by
  intro calls
  induction calls with
  | nil =>
    intro R R1 hR _ h
    simp only [register_all] at h
    cases h
    exact hR
  | cons c cs ih =>
    intro R R1 hR hc h
    simp only [List.all_cons, Bool.and_eq_true] at hc
    simp only [register_all] at h
    cases hs : RegisterStruct_call R c.name c.T c.address c.fields with
    | error e => rw [hs] at h; cases h
    | ok R2 =>
      rw [hs] at h
      simp only at h
      have hcl := hc.1
      simp only [Call.declared_class] at hcl
      cases hT : c.T <;> rw [hT] at hcl <;> simp only [Bool.false_eq_true] at hcl
      rw [hT] at hs
      exact ih R2 R1 (closed_RegisterStruct_call R R2 _ _ _ _ hR hs) hc.2 h

end type_info

/-! ## No stored closure looks up an absent entry -/

namespace type_info

theorem bind_ne (a : WBin) (f : Nat → WBin) (e0 : Err) (ha : a.2 ≠ .error e0)
    (hf : ∀ n, (f n).2 ≠ .error e0) : (a.bind f).2 ≠ .error e0 := by
  obtain ⟨bs, r⟩ := a
  cases r with
  | error e => exact ha
  | ok n => exact hf n

theorem write_each_ne {α : Type} (w : α → WBin) (e0 : Err) (xs : List α)
    (h : ∀ x ∈ xs, (w x).2 ≠ .error e0) : ∀ s, (write_each w xs s).2 ≠ .error e0 := by
  induction xs with
  | nil => intro s; simp [write_each]
  | cons x xs ih =>
    intro s
    simp only [write_each]
    exact bind_ne _ _ e0 (h x (List.mem_cons_self _ _))
      (fun n => ih (fun y hy => h y (List.mem_cons_of_mem _ hy)) _)

theorem member_ne (E : Env) (T : Ty) (o : Val) (m : memberPair) :
    member E T o m ≠ .error .bad_function_call := by
  unfold member
  split
  · simp
  · split <;> simp
  · simp

theorem write_member_ne (E : Env) (T : Ty) (w : Ty → Val → WBin) (o : Val) (m : memberPair)
    (h : ∀ f, (w m.typenm f).2 ≠ .error .bad_function_call) :
    (write_member E T w o m).2 ≠ .error .bad_function_call := by
  unfold write_member
  cases hm : member E T o m with
  | error e =>
    simp only
    intro he
    have := Except.error.inj he
    subst this
    exact member_ne E T o m hm
  | ok p => exact h p.2

theorem writer_bin_lookups (E : Env) (R : Registry) (hR : R.closed = true) :
    ∀ (fuel : Nat) (T : Ty) (v : Val), R.has T = true →
      (writer_bin E R fuel T v).2 ≠ .error .bad_function_call := by
  intro fuel
  induction fuel with
  | zero => intro T v _; simp [writer_bin]
  | succ f ih =>
    intro T v hT
    obtain ⟨hwb, -, -, -⟩ := (Registry.has_iff R T).mp hT
    have hlook := (((closed_iff R).mp hR).1 T (Or.inl hwb)).2.1
    cases T with
    | arith p => cases v <;> simp [writer_bin, hwb]
    | string => cases v <;> simp [writer_bin, hwb]
    | enum n => cases v <;> simp [writer_bin, hwb]
    | pointer t =>
      have ht := hlook t (by simp [Registry.lookups])
      cases v with
      | ptr x =>
        simp only [writer_bin, hwb, not_true_eq_false, if_false]
        exact ih t x ht
      | _ => simp [writer_bin, hwb]
    | unique_ptr t =>
      have ht := hlook t (by simp [Registry.lookups])
      cases v with
      | ptr x =>
        simp only [writer_bin, hwb, not_true_eq_false, if_false]
        exact ih t x ht
      | _ => simp [writer_bin, hwb]
    | array n t =>
      have ht := hlook t (by simp [Registry.lookups])
      cases v with
      | seq xs =>
        simp only [writer_bin, hwb, not_true_eq_false, if_false]
        split
        · exact bind_ne _ _ _ (write_each_ne _ _ xs (fun x _ => ih t x ht) 0) (fun _ => by simp)
        · simp
      | _ => simp [writer_bin, hwb]
    | pair a b =>
      have ha := hlook a (by simp [Registry.lookups])
      have hb := hlook b (by simp [Registry.lookups])
      cases v with
      | pair x y =>
        simp only [writer_bin, hwb, not_true_eq_false, if_false]
        exact bind_ne _ _ _ (ih a x ha) (fun _ => bind_ne _ _ _ (ih b y hb) (fun _ => by simp))
      | _ => simp [writer_bin, hwb]
    | seq k t =>
      have ht := hlook t (by simp [Registry.lookups])
      cases v with
      | seq xs =>
        simp only [writer_bin, hwb, not_true_eq_false, if_false, write_container]
        exact bind_ne _ _ _ (by simp) (fun _ => write_each_ne _ _ xs (fun x _ => ih t x ht) _)
      | _ => simp [writer_bin, hwb]
    | setc k t =>
      have ht := hlook t (by simp [Registry.lookups])
      cases v with
      | seq xs =>
        simp only [writer_bin, hwb, not_true_eq_false, if_false, write_container]
        exact bind_ne _ _ _ (by simp) (fun _ => write_each_ne _ _ xs (fun x _ => ih t x ht) _)
      | _ => simp [writer_bin, hwb]
    | mapc k a b =>
      have ht := hlook (.pair a b) (by simp [Registry.lookups])
      cases v with
      | seq xs =>
        simp only [writer_bin, hwb, not_true_eq_false, if_false, write_container]
        exact bind_ne _ _ _ (by simp) (fun _ => write_each_ne _ _ xs (fun x _ => ih _ x ht) _)
      | _ => simp [writer_bin, hwb]
    | adaptor k t =>
      cases k with
      | queue => cases v <;> simp [writer_bin, hwb]
      | stack => cases v <;> simp [writer_bin, hwb]
      | priority_queue =>
        have hms : ∀ m ∈ R.members (.adaptor .priority_queue t), R.has m.typenm = true :=
          fun m hm => hlook m.typenm (by
            simp only [Registry.lookups, List.mem_cons, List.mem_map]
            exact Or.inr ⟨m, hm, rfl⟩)
        cases v <;> simp only [writer_bin, hwb, not_true_eq_false, if_false] <;>
          exact write_each_ne _ _ _
            (fun m hm => write_member_ne E _ _ _ m (fun f => ih _ f (hms m hm))) 0
    | cls c =>
      have hms : ∀ m ∈ R.members (.cls c), R.has m.typenm = true :=
        fun m hm => hlook m.typenm (by
          simp only [Registry.lookups, List.mem_map]
          exact ⟨m, hm, rfl⟩)
      cases v <;> simp only [writer_bin, hwb, not_true_eq_false, if_false] <;>
        exact write_each_ne _ _ _
          (fun m hm => write_member_ne E _ _ _ m (fun f => ih _ f (hms m hm))) 0

theorem read_slots_ne (rd : Val → ifstream → RBin) (e0 : Err)
    (h : ∀ d file, rd d file ≠ .error e0) :
    ∀ ds file s, read_slots rd ds file s ≠ .error e0 := by
  intro ds
  induction ds with
  | nil => intro file s; simp [read_slots]
  | cons d ds ih =>
    intro file s
    simp only [read_slots]
    cases hr : rd d file with
    | error e =>
      simp only
      intro he
      exact h d file (by rw [Except.error.inj he] at hr; exact hr)
    | ok p =>
      obtain ⟨v, n, file1⟩ := p
      simp only
      cases hs : read_slots rd ds file1 (to_u32 (s + n)) with
      | error e =>
        simp only
        intro he
        exact ih file1 _ (by rw [Except.error.inj he] at hs; exact hs)
      | ok q => simp

theorem read_count_ne (rd : Val → ifstream → RBin) (fresh : Val)
    (ins : Val → List Val → List Val) (e0 : Err) (h : ∀ file, rd fresh file ≠ .error e0) :
    ∀ cnt obj file s, read_count rd fresh ins cnt obj file s ≠ .error e0 := by
  intro cnt
  induction cnt with
  | zero => intro obj file s; simp [read_count]
  | succ cnt ih =>
    intro obj file s
    simp only [read_count]
    cases hr : rd fresh file with
    | error e =>
      simp only
      intro he
      exact h file (by rw [Except.error.inj he] at hr; exact hr)
    | ok p =>
      obtain ⟨v, n, file1⟩ := p
      exact ih _ _ _

theorem read_container_ne (rd : Val → ifstream → RBin) (fresh : Val)
    (ins : Val → List Val → List Val) (e0 : Err) (h : ∀ file, rd fresh file ≠ .error e0)
    (xs : List Val) (file : ifstream) : read_container rd fresh ins xs file ≠ .error e0 := by
  simp only [read_container]
  cases hc : read_count rd fresh ins (int_loop_count (file.read_u32 0).1) xs
      (file.read_u32 0).2 4 with
  | error e =>
    simp only
    intro he
    exact read_count_ne rd fresh ins e0 h _ _ _ _ (by rw [Except.error.inj he] at hc; exact hc)
  | ok p => simp

theorem read_members_ne (E : Env) (T : Ty) (rd : Ty → Val → ifstream → RBin) :
    ∀ (ms : List memberPair),
      (∀ m ∈ ms, ∀ f file, rd m.typenm f file ≠ .error .bad_function_call) →
      ∀ obj file s, read_members E T rd ms obj file s ≠ .error .bad_function_call := by
  intro ms
  induction ms with
  | nil => intro _ obj file s; simp [read_members]
  | cons m ms ih =>
    intro h obj file s
    simp only [read_members]
    cases hm : member E T obj m with
    | error e =>
      simp only
      intro he
      exact member_ne E T obj m (by rw [Except.error.inj he] at hm; exact hm)
    | ok p =>
      obtain ⟨i, f⟩ := p
      simp only
      cases hr : rd m.typenm f file with
      | error e =>
        simp only
        intro he
        exact h m (List.mem_cons_self _ _) f file (by rw [Except.error.inj he] at hr; exact hr)
      | ok q =>
        obtain ⟨v, n, file1⟩ := q
        exact ih (fun m1 hm1 => h m1 (List.mem_cons_of_mem _ hm1)) _ _ _

theorem reader_bin_lookups (E : Env) (R : Registry) (hR : R.closed = true) :
    ∀ (fuel : Nat) (T : Ty) (v : Val) (file : ifstream), R.has T = true →
      reader_bin E R fuel T v file ≠ .error .bad_function_call := by
  intro fuel
  induction fuel with
  | zero => intro T v file _; simp [reader_bin]
  | succ f ih =>
    intro T v file hT
    obtain ⟨hwb, hrb, -, -⟩ := (Registry.has_iff R T).mp hT
    have hlook := (((closed_iff R).mp hR).1 T (Or.inl hwb)).2.1
    cases T with
    | arith p => cases v <;> simp [reader_bin, hrb]
    | string => cases v <;> simp [reader_bin, hrb]
    | enum n => cases v <;> simp [reader_bin, hrb]
    | pointer t =>
      have ht := hlook t (by simp [Registry.lookups])
      cases v <;> simp only [reader_bin, hrb, not_true_eq_false, if_false] <;>
        (cases hr : reader_bin E R f t (t.value_init E) file with
          | error e =>
            simp only
            intro he
            exact ih t _ file ht (by rw [Except.error.inj he] at hr; exact hr)
          | ok p => simp)
    | unique_ptr t =>
      have ht := hlook t (by simp [Registry.lookups])
      cases v <;> simp only [reader_bin, hrb, not_true_eq_false, if_false] <;>
        (cases hr : reader_bin E R f t (t.value_init E) file with
          | error e =>
            simp only
            intro he
            exact ih t _ file ht (by rw [Except.error.inj he] at hr; exact hr)
          | ok p => simp)
    | array n t =>
      have ht := hlook t (by simp [Registry.lookups])
      cases v with
      | seq ds =>
        simp only [reader_bin, hrb, not_true_eq_false, if_false]
        split
        · cases hs : read_slots (reader_bin E R f t) ds file 0 with
          | error e =>
            simp only
            intro he
            exact read_slots_ne _ _ (fun d fl => ih t d fl ht) ds file 0 (by rw [Except.error.inj he] at hs; exact hs)
          | ok p => simp
        · simp
      | _ => simp [reader_bin, hrb]
    | pair a b =>
      have ha := hlook a (by simp [Registry.lookups])
      have hb := hlook b (by simp [Registry.lookups])
      cases v with
      | pair x y =>
        simp only [reader_bin, hrb, not_true_eq_false, if_false]
        cases h1 : reader_bin E R f a x file with
        | error e =>
          simp only
          intro he
          exact ih a x file ha (by rw [Except.error.inj he] at h1; exact h1)
        | ok p =>
          obtain ⟨x1, n1, file1⟩ := p
          simp only
          cases h2 : reader_bin E R f b y file1 with
          | error e =>
            simp only
            intro he
            exact ih b y file1 hb (by rw [Except.error.inj he] at h2; exact h2)
          | ok q => simp
      | _ => simp [reader_bin, hrb]
    | seq k t =>
      have ht := hlook t (by simp [Registry.lookups])
      cases v with
      | seq xs =>
        simp only [reader_bin, hrb, not_true_eq_false, if_false]
        exact read_container_ne _ _ _ _ (fun fl => ih t _ fl ht) xs file
      | _ => simp [reader_bin, hrb]
    | setc k t =>
      have ht := hlook t (by simp [Registry.lookups])
      cases v with
      | seq xs =>
        simp only [reader_bin, hrb, not_true_eq_false, if_false]
        exact read_container_ne _ _ _ _ (fun fl => ih t _ fl ht) xs file
      | _ => simp [reader_bin, hrb]
    | mapc k a b =>
      have ht := hlook (.pair a b) (by simp [Registry.lookups])
      cases v with
      | seq xs =>
        simp only [reader_bin, hrb, not_true_eq_false, if_false]
        exact read_container_ne _ _ _ _ (fun fl => ih _ _ fl ht) xs file
      | _ => simp [reader_bin, hrb]
    | adaptor k t =>
      have ht : R.has t = true := by
        cases k <;> exact hlook t (by simp [Registry.lookups])
      cases v with
      | seq xs =>
        simp only [reader_bin, hrb, not_true_eq_false, if_false]
        exact read_container_ne _ _ _ _ (fun fl => ih t _ fl ht) xs file
      | _ => simp [reader_bin, hrb]
    | cls c =>
      have hms : ∀ m ∈ R.members (.cls c), R.has m.typenm = true :=
        fun m hm => hlook m.typenm (by
          simp only [Registry.lookups, List.mem_map]
          exact ⟨m, hm, rfl⟩)
      cases v <;> simp only [reader_bin, hrb, not_true_eq_false, if_false] <;>
        exact read_members_ne E _ _ _ (fun m hm g fl => ih _ g fl (hms m hm)) _ _ _

theorem write_children_ne {α : Type} (w : α → XMLNode → WXml) (e0 : Err) (xs : List α)
    (h : ∀ x ∈ xs, ∀ elem, (w x elem).2 ≠ .error e0) :
    ∀ elem s, (write_children w xs elem s).2 ≠ .error e0 := by
  induction xs with
  | nil => intro elem s; simp [write_children]
  | cons x xs ih =>
    intro elem s
    simp only [write_children]
    have hx := h x (List.mem_cons_self _ _) elem
    cases hw : w x elem with
    | mk elem1 r =>
      rw [hw] at hx
      cases r with
      | error e => exact hx
      | ok n => exact ih (fun y hy => h y (List.mem_cons_of_mem _ hy)) _ _

theorem write_xml_pair_ne (wa wb : Val → String → XMLNode → WXml) (e0 : Err) (x y : Val)
    (name : String) (root : XMLNode)
    (ha : ∀ nm elem, (wa x nm elem).2 ≠ .error e0)
    (hb : ∀ nm elem, (wb y nm elem).2 ≠ .error e0) :
    (write_xml_pair wa wb (.pair x y) name root).2 ≠ .error e0 := by
  simp only [write_xml_pair]
  have h1 := ha "first" (tinyxml2.NewElement (c_str name))
  cases hw : wa x "first" (tinyxml2.NewElement (c_str name)) with
  | mk elem1 r =>
    rw [hw] at h1
    cases r with
    | error e => exact h1
    | ok n1 =>
      simp only
      have h2 := hb "second" elem1
      cases hw2 : wb y "second" elem1 with
      | mk elem2 r2 =>
        rw [hw2] at h2
        cases r2 with
        | error e => exact h2
        | ok n2 => simp

theorem write_xml_member_ne (E : Env) (T : Ty) (w : Ty → Val → String → XMLNode → WXml)
    (o : Val) (m : memberPair) (elem : XMLNode) (e0 : Err)
    (h1 : e0 ≠ .bad_member_access) (h2 : e0 ≠ .ill_typed)
    (h : ∀ f nm el, (w m.typenm f nm el).2 ≠ .error e0) :
    (write_xml_member E T w o m elem).2 ≠ .error e0 := by
  unfold write_xml_member
  cases hm : member E T o m with
  | error e =>
    simp only
    intro he
    have he1 := Except.error.inj he
    subst he1
    unfold member at hm
    split at hm
    · exact h1 (Except.error.inj hm).symm
    · split at hm
      · cases hm
      · exact h2 (Except.error.inj hm).symm
    · exact h2 (Except.error.inj hm).symm
  | ok p => exact h p.2 _ _

theorem writer_xml_lookups (E : Env) (R : Registry) (hR : R.closed = true) (e0 : Err)
    (he0 : e0 = .bad_function_call ∨ e0 = .dangling_pointer) :
    ∀ (fuel : Nat) (T : Ty) (v : Val) (name : String) (root : XMLNode), R.has T = true →
      (writer_xml E R fuel T v name root).2 ≠ .error e0 := by
  intro fuel
  induction fuel with
  | zero => intro T v name root _; rcases he0 with rfl | rfl <;> simp [writer_xml]
  | succ f ih =>
    intro T v name root hT
    obtain ⟨hwb, -, hwx, -⟩ := (Registry.has_iff R T).mp hT
    have hlook := (((closed_iff R).mp hR).1 T (Or.inl hwb)).2.1
    have hname := (((closed_iff R).mp hR).1 T (Or.inl hwb)).2.2
    have hmember : ∀ (T1 : Ty) (o : Val), (∀ m ∈ R.members T1, R.has m.typenm = true) →
        ∀ m ∈ R.members T1, ∀ elem,
          (write_xml_member E T1 (writer_xml E R f) o m elem).2 ≠ .error e0 :=
      fun T1 o hms m hm elem => write_xml_member_ne E T1 _ o m elem e0
        (by rcases he0 with rfl | rfl <;> simp) (by rcases he0 with rfl | rfl <;> simp)
        (fun g nm el => ih _ g nm el (hms m hm))
    cases T with
    | arith p => cases v <;> rcases he0 with rfl | rfl <;> simp [writer_xml, hwx]
    | string => cases v <;> rcases he0 with rfl | rfl <;> simp [writer_xml, hwx]
    | enum n => cases v <;> rcases he0 with rfl | rfl <;> simp [writer_xml, hwx]
    | pointer t =>
      have ht := hlook t (by simp [Registry.lookups])
      cases v with
      | ptr x =>
        simp only [writer_xml, hwx, not_true_eq_false, if_false]
        exact ih t x _ _ ht
      | _ => rcases he0 with rfl | rfl <;> simp [writer_xml, hwx]
    | unique_ptr t =>
      have ht := hlook t (by simp [Registry.lookups])
      cases v with
      | ptr x =>
        simp only [writer_xml, hwx, not_true_eq_false, if_false]
        exact ih t x _ _ ht
      | _ => rcases he0 with rfl | rfl <;> simp [writer_xml, hwx]
    | array n t =>
      have ht := hlook t (by simp [Registry.lookups])
      cases v with
      | seq xs =>
        simp only [writer_xml, hwx, not_true_eq_false, if_false]
        split
        · exact write_children_ne _ e0 xs (fun x _ elem => ih t x _ elem ht) _ _
        · rcases he0 with rfl | rfl <;> simp
      | _ => rcases he0 with rfl | rfl <;> simp [writer_xml, hwx]
    | pair a b =>
      have ha := hlook a (by simp [Registry.lookups])
      have hb := hlook b (by simp [Registry.lookups])
      cases v with
      | pair x y =>
        simp only [writer_xml, hwx, not_true_eq_false, if_false]
        exact write_xml_pair_ne _ _ e0 x y name root (fun nm el => ih a x nm el ha)
          (fun nm el => ih b y nm el hb)
      | _ => rcases he0 with rfl | rfl <;> simp [writer_xml, hwx]
    | seq k t =>
      have ht := hlook t (by simp [Registry.lookups])
      cases v with
      | seq xs =>
        simp only [writer_xml, hwx, not_true_eq_false, if_false]
        exact write_children_ne _ e0 xs (fun x _ elem => ih t x _ elem ht) _ _
      | _ => rcases he0 with rfl | rfl <;> simp [writer_xml, hwx]
    | setc k t =>
      have ht := hlook t (by simp [Registry.lookups])
      cases v with
      | seq xs =>
        simp only [writer_xml, hwx, not_true_eq_false, if_false]
        exact write_children_ne _ e0 xs (fun x _ elem => ih t x _ elem ht) _ _
      | _ => rcases he0 with rfl | rfl <;> simp [writer_xml, hwx]
    | mapc k a b =>
      have ht := hlook (.pair a b) (by simp [Registry.lookups])
      cases v with
      | seq xs =>
        simp only [writer_xml, hwx, not_true_eq_false, if_false]
        exact write_children_ne _ e0 xs (fun x _ elem => ih _ x _ elem ht) _ _
      | _ => rcases he0 with rfl | rfl <;> simp [writer_xml, hwx]
    | adaptor k t =>
      cases k with
      | queue => cases v <;> rcases he0 with rfl | rfl <;> simp [writer_xml, hwx]
      | stack => cases v <;> rcases he0 with rfl | rfl <;> simp [writer_xml, hwx]
      | priority_queue =>
        have hms : ∀ m ∈ R.members (.adaptor .priority_queue t), R.has m.typenm = true :=
          fun m hm => hlook m.typenm (by
            simp only [Registry.lookups, List.mem_cons, List.mem_map]
            exact Or.inr ⟨m, hm, rfl⟩)
        cases hl : R.type_name_map.lookup (.adaptor .priority_queue t) with
        | none => rw [hl] at hname; simp at hname
        | some nm =>
          cases v <;> simp only [writer_xml, hwx, not_true_eq_false, if_false, GetName, hl] <;>
            exact write_children_ne _ e0 _ (hmember _ _ hms) _ _
    | cls c =>
      have hms : ∀ m ∈ R.members (.cls c), R.has m.typenm = true :=
        fun m hm => hlook m.typenm (by
          simp only [Registry.lookups, List.mem_map]
          exact ⟨m, hm, rfl⟩)
      cases hl : R.type_name_map.lookup (.cls c) with
      | none => rw [hl] at hname; simp at hname
      | some nm =>
        cases v <;> simp only [writer_xml, hwx, not_true_eq_false, if_false, GetName, hl] <;>
          exact write_children_ne _ e0 _ (hmember _ _ hms) _ _

theorem read_val_int_ne (p : Prim) (elem : Option XMLNode) :
    read_val_int p elem ≠ .error .bad_function_call := by
  unfold read_val_int
  split
  · simp
  · split
    · simp
    · rename_i s _
      cases hs : stoi s with
      | error e =>
        simp only
        intro he
        have he1 := Except.error.inj he
        subst he1
        unfold stoi at hs
        split at hs
        · cases hs
        · split at hs
          · split at hs <;> cases hs
          · split at hs <;> cases hs
      | ok n => simp

theorem read_val_fp_ne (E : Env) (p : Prim) (elem : Option XMLNode)
    (hstod : ∀ q s, E.stod q s ≠ .error .bad_function_call) :
    read_val_fp E p elem ≠ .error .bad_function_call := by
  unfold read_val_fp
  split
  · simp
  · split
    · simp
    · rename_i s _
      cases hs : E.stod p s with
      | error e =>
        simp only
        intro he
        have he1 := Except.error.inj he
        subst he1
        exact hstod p s hs
      | ok n => simp

theorem read_text_ne (elem : Option XMLNode) : read_text elem ≠ .error .bad_function_call := by
  unfold read_text
  split
  · simp
  · split <;> simp

theorem read_xml_each_ne (rd : Val → XMLNode → RXml) (fresh : Val)
    (ins : Val → List Val → List Val) (h : ∀ c, rd fresh c ≠ .error .bad_function_call) :
    ∀ cs obj s, read_xml_each rd fresh ins cs obj s ≠ .error .bad_function_call := by
  intro cs
  induction cs with
  | nil => intro obj s; simp [read_xml_each]
  | cons c cs ih =>
    intro obj s
    simp only [read_xml_each]
    cases hr : rd fresh c with
    | error e =>
      simp only
      intro he
      exact h c (by rw [Except.error.inj he] at hr; exact hr)
    | ok p => exact ih _ _

theorem read_wrapper_ne (rd : Val → XMLNode → RXml) (tag : String) (fresh : Val)
    (ins : Val → List Val → List Val) (xs : List Val) (elem : Option XMLNode)
    (h : ∀ c, rd fresh c ≠ .error .bad_function_call) :
    read_wrapper rd tag fresh ins xs elem ≠ .error .bad_function_call := by
  unfold read_wrapper
  cases elem with
  | none => simp [element_run_of]
  | some e =>
    simp only [element_run_of]
    cases hr : read_xml_each rd fresh ins (tinyxml2.element_run e tag) xs 1 with
    | error e1 =>
      simp only
      intro he
      exact read_xml_each_ne rd fresh ins h _ _ _
        (by rw [Except.error.inj he] at hr; exact hr)
    | ok p => simp

theorem read_xml_slots_comma_ne (rd : Val → XMLNode → RXml)
    (h : ∀ d c, rd d c ≠ .error .bad_function_call) :
    ∀ ds cs s, read_xml_slots_comma rd ds cs s ≠ .error .bad_function_call := by
  intro ds
  induction ds with
  | nil =>
    intro cs s
    cases cs <;> simp [read_xml_slots_comma]
  | cons d ds ih =>
    intro cs s
    cases cs with
    | nil => simp [read_xml_slots_comma]
    | cons c cs =>
      simp only [read_xml_slots_comma]
      cases hr : rd d c with
      | error e =>
        simp only
        intro he
        exact h d c (by rw [Except.error.inj he] at hr; exact hr)
      | ok p =>
        obtain ⟨v, n⟩ := p
        simp only
        cases hs : read_xml_slots_comma rd ds cs (to_u32 (s + n)) with
        | error e =>
          simp only
          intro he
          exact ih cs _ (by rw [Except.error.inj he] at hs; exact hs)
        | ok q => simp

theorem read_xml_pair_ne (ra rb : Val → String → Option XMLNode → Bool → RXml) (x y : Val)
    (elem : Option XMLNode)
    (ha : ∀ nm el it, ra x nm el it ≠ .error .bad_function_call)
    (hb : ∀ nm el it, rb y nm el it ≠ .error .bad_function_call) :
    read_xml_pair ra rb (.pair x y) elem ≠ .error .bad_function_call := by
  simp only [read_xml_pair]
  cases h1 : ra x "first" elem false with
  | error e =>
    simp only
    intro he
    exact ha _ _ _ (by rw [Except.error.inj he] at h1; exact h1)
  | ok p =>
    obtain ⟨x1, n1⟩ := p
    simp only
    cases h2 : rb y "second" elem false with
    | error e =>
      simp only
      intro he
      exact hb _ _ _ (by rw [Except.error.inj he] at h2; exact h2)
    | ok q => simp

theorem read_xml_members_ne (E : Env) (T : Ty)
    (rd : Ty → Val → String → Option XMLNode → Bool → RXml) (elem : Option XMLNode) :
    ∀ (ms : List memberPair),
      (∀ m ∈ ms, ∀ f nm el it, rd m.typenm f nm el it ≠ .error .bad_function_call) →
      ∀ obj s, read_xml_members E T rd elem ms obj s ≠ .error .bad_function_call := by
  intro ms
  induction ms with
  | nil => intro _ obj s; simp [read_xml_members]
  | cons m ms ih =>
    intro h obj s
    simp only [read_xml_members]
    cases hm : member E T obj m with
    | error e =>
      simp only
      intro he
      exact member_ne E T obj m (by rw [Except.error.inj he] at hm; exact hm)
    | ok p =>
      obtain ⟨i, f⟩ := p
      simp only
      cases hr : rd m.typenm f m.name elem false with
      | error e =>
        simp only
        intro he
        exact h m (List.mem_cons_self _ _) f _ _ _
          (by rw [Except.error.inj he] at hr; exact hr)
      | ok q =>
        obtain ⟨v, n⟩ := q
        exact ih (fun m1 hm1 => h m1 (List.mem_cons_of_mem _ hm1)) _ _

theorem reader_xml_lookups (E : Env) (R : Registry) (hR : R.closed = true)
    (hstod : ∀ q s, E.stod q s ≠ .error .bad_function_call) :
    ∀ (fuel : Nat) (T : Ty) (v : Val) (name : String) (root : Option XMLNode) (itself : Bool),
      R.has T = true →
      reader_xml E R fuel T v name root itself ≠ .error .bad_function_call := by
  intro fuel
  induction fuel with
  | zero => intro T v name root itself _; simp [reader_xml]
  | succ f ih =>
    intro T v name root itself hT
    obtain ⟨hwb, -, -, hrx⟩ := (Registry.has_iff R T).mp hT
    have hlook := (((closed_iff R).mp hR).1 T (Or.inl hwb)).2.1
    cases hloc : locate name root itself with
    | error e =>
      have hne : e ≠ .bad_function_call := by
        unfold locate at hloc
        split at hloc
        · cases hloc
        · split at hloc
          · cases hloc; simp
          · cases hloc
      cases T with
      | adaptor k t =>
        cases k <;> cases v <;> simp [reader_xml, hrx, hloc, hne]
      | array n t =>
        cases v <;> simp [reader_xml, hrx, hloc, hne]
        split <;> simp [hne]
      | _ => cases v <;> simp [reader_xml, hrx, hloc, hne]
    | ok elem =>
      cases T with
      | arith p =>
        cases v with
        | num n =>
          simp only [reader_xml, hrx, not_true_eq_false, if_false, hloc]
          split
          · exact read_val_fp_ne E p elem hstod
          · exact read_val_int_ne p elem
        | _ => simp [reader_xml, hrx]
      | string =>
        cases v with
        | str s =>
          simp only [reader_xml, hrx, not_true_eq_false, if_false, hloc]
          exact read_text_ne elem
        | _ => simp [reader_xml, hrx]
      | enum n => cases v <;> simp [reader_xml, hrx]
      | pointer t =>
        have ht := hlook t (by simp [Registry.lookups])
        cases v <;> simp only [reader_xml, hrx, not_true_eq_false, if_false, hloc] <;>
          (cases hr : reader_xml E R f t (t.value_init E) "object" elem false with
            | error e =>
              simp only
              intro he
              exact ih t _ _ _ _ ht (by rw [Except.error.inj he] at hr; exact hr)
            | ok p => simp)
      | unique_ptr t =>
        have ht := hlook t (by simp [Registry.lookups])
        cases v <;> simp only [reader_xml, hrx, not_true_eq_false, if_false, hloc] <;>
          (cases hr : reader_xml E R f t (t.value_init E) "object" elem false with
            | error e =>
              simp only
              intro he
              exact ih t _ _ _ _ ht (by rw [Except.error.inj he] at hr; exact hr)
            | ok p => simp)
      | array n t =>
        have ht := hlook t (by simp [Registry.lookups])
        cases v with
        | seq ds =>
          simp only [reader_xml, hrx, not_true_eq_false, if_false, hloc]
          split
          · cases elem with
            | none => simp [element_run_of]
            | some e =>
              simp only [element_run_of]
              cases hs : read_xml_slots_comma
                  (fun d c => reader_xml E R f t d "element" (some c) true) ds
                  (tinyxml2.element_run e "element") 1 with
              | error e1 =>
                simp only
                intro he
                exact read_xml_slots_comma_ne _ (fun d c => ih t d _ _ _ ht) _ _ _
                  (by rw [Except.error.inj he] at hs; exact hs)
              | ok p => simp
          · simp
        | _ => simp [reader_xml, hrx]
      | pair a b =>
        have ha := hlook a (by simp [Registry.lookups])
        have hb := hlook b (by simp [Registry.lookups])
        cases v with
        | pair x y =>
          simp only [reader_xml, hrx, not_true_eq_false, if_false, hloc]
          exact read_xml_pair_ne _ _ x y elem (fun nm el it => ih a x nm el it ha)
            (fun nm el it => ih b y nm el it hb)
        | _ => simp [reader_xml, hrx]
      | seq k t =>
        have ht := hlook t (by simp [Registry.lookups])
        cases v with
        | seq xs =>
          simp only [reader_xml, hrx, not_true_eq_false, if_false, hloc]
          exact read_wrapper_ne _ _ _ _ xs elem (fun c => ih t _ _ _ _ ht)
        | _ => simp [reader_xml, hrx]
      | setc k t =>
        have ht := hlook t (by simp [Registry.lookups])
        cases v with
        | seq xs =>
          simp only [reader_xml, hrx, not_true_eq_false, if_false, hloc]
          exact read_wrapper_ne _ _ _ _ xs elem (fun c => ih t _ _ _ _ ht)
        | _ => simp [reader_xml, hrx]
      | mapc k a b =>
        have ht := hlook (.pair a b) (by simp [Registry.lookups])
        cases v with
        | seq xs =>
          simp only [reader_xml, hrx, not_true_eq_false, if_false, hloc]
          exact read_wrapper_ne _ _ _ _ xs elem (fun c => ih _ _ _ _ _ ht)
        | _ => simp [reader_xml, hrx]
      | adaptor k t =>
        have ht : R.has t = true := by
          cases k <;> exact hlook t (by simp [Registry.lookups])
        cases v with
        | seq xs =>
          simp only [reader_xml, hrx, not_true_eq_false, if_false, hloc]
          exact read_wrapper_ne _ _ _ _ xs elem (fun c => ih t _ _ _ _ ht)
        | _ => simp [reader_xml, hrx]
      | cls c =>
        have hms : ∀ m ∈ R.members (.cls c), R.has m.typenm = true :=
          fun m hm => hlook m.typenm (by
            simp only [Registry.lookups, List.mem_map]
            exact ⟨m, hm, rfl⟩)
        cases v <;> simp only [reader_xml, hrx, not_true_eq_false, if_false, hloc] <;>
          exact read_xml_members_ne E _ _ elem _
            (fun m hm g nm el it => ih _ g nm el it (hms m hm)) _ _

end type_info

/-- C37 (amended): in every state of the tables reached from the empty tables by a sequence
of `RegisterStruct` calls that each register a class or struct declared by the program and
each return normally, the tables are closed: a type with a closure in one closure table
has a closure in all four and a display name; every type that its closures look up (field
types, element types, the pair type of a map, pointee types) has the four closures; and so
has the type of every member of every descriptor.  Hence no stored closure called for a
type that has its closures ever calls an absent table entry (`std::bad_function_call`), and
no stored text writer reads the display name of a type that has none. -/
theorem C37_registry_closed (E : Env) (calls : List type_info.Call) (R : type_info.Registry)
    (hcls : calls.all type_info.Call.declared_class = true)
    (h : type_info.register_all type_info.Registry.empty calls = .ok R) :
    R.closed = true ∧
    (∀ T, (T ∈ R.type_writer_bin ∨ T ∈ R.type_reader_bin ∨ T ∈ R.type_writer_xml ∨
        T ∈ R.type_reader_xml) →
      R.has T = true ∧ (∀ u ∈ R.lookups T, R.has u = true) ∧
        (R.type_name_map.lookup T).isSome = true) ∧
    (∀ e ∈ R.typeInfo_map, ∀ m ∈ e.2.members, R.has m.typenm = true) ∧
    (∀ fuel T v, R.has T = true →
      (type_info.writer_bin E R fuel T v).2 ≠ .error .bad_function_call) ∧
    (∀ fuel T v file, R.has T = true →
      type_info.reader_bin E R fuel T v file ≠ .error .bad_function_call) ∧
    (∀ fuel T v name root, R.has T = true →
      (type_info.writer_xml E R fuel T v name root).2 ≠ .error .bad_function_call ∧
      (type_info.writer_xml E R fuel T v name root).2 ≠ .error .dangling_pointer) ∧
    ((∀ q s, E.stod q s ≠ .error .bad_function_call) →
      ∀ fuel T v name root itself, R.has T = true →
        type_info.reader_xml E R fuel T v name root itself ≠ .error .bad_function_call) := by
  have hR : R.closed = true :=
    type_info.closed_register_all calls _ R (by decide) hcls h
  obtain ⟨h1, h2⟩ := (type_info.closed_iff R).mp hR
  exact ⟨hR, h1, h2,
    fun fuel T v hT => type_info.writer_bin_lookups E R hR fuel T v hT,
    fun fuel T v file hT => type_info.reader_bin_lookups E R hR fuel T v file hT,
    fun fuel T v name root hT =>
      ⟨type_info.writer_xml_lookups E R hR _ (Or.inl rfl) fuel T v name root hT,
       type_info.writer_xml_lookups E R hR _ (Or.inr rfl) fuel T v name root hT⟩,
    fun hstod fuel T v name root itself hT =>
      type_info.reader_xml_lookups E R hR hstod fuel T v name root itself hT⟩

/-- Witness of C37: the three `RegisterStruct` calls of main.cpp, for the structs `A`, `B`
and `S`, and the tables they leave. -/
theorem C37_witness :
    main_cpp.calls.all type_info.Call.declared_class = true ∧
    type_info.register_all type_info.Registry.empty main_cpp.calls = .ok main_cpp.R ∧
    main_cpp.R.closed = true ∧
    (∀ fuel T v, main_cpp.R.has T = true →
      (type_info.writer_bin main_cpp.E main_cpp.R fuel T v).2 ≠ .error .bad_function_call) :=
  ⟨by decide, rfl,
    (C37_registry_closed main_cpp.E main_cpp.calls main_cpp.R (by decide) rfl).1,
    (C37_registry_closed main_cpp.E main_cpp.calls main_cpp.R (by decide) rfl).2.2.2.1⟩

/-- Counterexample to C37 as stated: the call `RegisterStruct<std::vector<int>>("v", v, {})`
on the empty tables returns normally and stores the four closures of `std::vector<int>`;
these look up the closures of `int`, of which none is stored, so the tables are not closed
and the stored writer of the vector fails with `std::bad_function_call` at its first
element. -/
theorem C37_counterexample :
    ∃ R, type_info.register_all type_info.Registry.empty
        [⟨"v", .seq .vector (.arith .int), 4096, []⟩] = .ok R ∧
      R.has (.seq .vector (.arith .int)) = true ∧
      Ty.arith .int ∈ R.lookups (.seq .vector (.arith .int)) ∧
      R.has (.arith .int) = false ∧
      Ty.arith .int ∉ R.type_writer_bin ∧ Ty.arith .int ∉ R.type_reader_bin ∧
      Ty.arith .int ∉ R.type_writer_xml ∧ Ty.arith .int ∉ R.type_reader_xml ∧
      R.closed = false ∧
      type_info.writer_bin main_cpp.E R 2 (.seq .vector (.arith .int)) (.seq [.num 1])
        = ([1, 0, 0, 0], .error .bad_function_call) ∧
      type_info.reader_bin main_cpp.E R 2 (.seq .vector (.arith .int)) (.seq [])
          (ifstream.mk [1, 0, 0, 0, 1, 0, 0, 0] true)
        = .error .bad_function_call :=
  ⟨_, rfl, rfl, by decide, rfl, by decide, by decide, by decide, by decide, rfl, rfl, rfl⟩

/-! ## Counts of the text codec -/

theorem reference_count_list_eq (xs : List Val) :
    Val.reference_count_list xs = (xs.map Val.reference_count).sum := by
  induction xs with
  | nil => rfl
  | cons x xs ih => simp only [Val.reference_count_list, List.map_cons, List.sum_cons, ih]

/-! ## Counts of the stored text closures -/

namespace type_info

theorem range_getD_sum (g : Val → Nat) (d : Val) : ∀ fs : List Val,
    ((List.range fs.length).map (fun i => g (fs.getD i d))).sum = (fs.map g).sum := by
  intro fs
  induction fs with
  | nil => rfl
  | cons x xs ih =>
    rw [List.length_cons, List.range_succ_eq_map, List.map_cons, List.map_map, List.sum_cons,
      List.map_cons, List.sum_cons, ← ih]
    rfl

theorem members_sum (idx : memberPair → Option Nat) (ms : List memberPair) (fs : List Val)
    (g : Val → Nat) (hnd : (ms.map idx).Nodup)
    (hcov : ∀ i, i < fs.length → some i ∈ ms.map idx)
    (hin : ∀ m ∈ ms, ∃ i, idx m = some i ∧ i < fs.length) :
    (ms.map (fun m => match idx m with
      | some i => g (fs.getD i .null)
      | none => 0)).sum = (fs.map g).sum := by
  have hperm : (ms.map idx).Perm ((List.range fs.length).map some) := by
    rw [List.perm_ext_iff_of_nodup hnd
      ((List.nodup_range _).map (Option.some_injective _))]
    intro a
    constructor
    · intro ha
      obtain ⟨m, hm, rfl⟩ := List.mem_map.mp ha
      obtain ⟨i, hi, hlt⟩ := hin m hm
      rw [hi]
      exact List.mem_map.mpr ⟨i, List.mem_range.mpr hlt, rfl⟩
    · intro ha
      obtain ⟨i, hi, rfl⟩ := List.mem_map.mp ha
      exact hcov i (List.mem_range.mp hi)
  have h1 : (ms.map (fun m => match idx m with
      | some i => g (fs.getD i .null)
      | none => 0))
      = (ms.map idx).map (fun oi => match oi with
        | some i => g (fs.getD i .null)
        | none => 0) := by
    rw [List.map_map]
    rfl
  rw [h1, (hperm.map _).sum_eq, List.map_map, ← range_getD_sum g .null fs]
  rfl

end type_info

/-- Counterexample to C31 as stated: for a `unique_ptr<int>` that refers to 7,
`xml_srl::write_xml` inserts the wrapper element `p` and its child `object`, two element
nodes, and returns 1; `xml_srl::read_xml` on that tree returns 1 as well. -/
theorem C31_counterexample :
    xml_srl.write_xml main_cpp.E main_cpp.R 0 (.unique_ptr (.arith .int)) (.ptr (.num 7)) "p"
        main_cpp.root
      = (tinyxml2.InsertEndChild main_cpp.root
          (.element "p" [("type", "unique_ptr")] [.element "object" [("val", "7")] []]),
         .ok 1) ∧
    (XMLNode.element "p" [("type", "unique_ptr")]
      [.element "object" [("val", "7")] []]).element_count = 2 ∧
    xml_srl.read_xml main_cpp.E main_cpp.R 0 (.unique_ptr (.arith .int)) .null "p"
        (some (tinyxml2.InsertEndChild main_cpp.root
          (.element "p" [("type", "unique_ptr")] [.element "object" [("val", "7")] []])))
        false
      = .ok (.ptr (.num 7), 1) ∧
    (1 : Nat) ≠ 2 :=
  ⟨rfl, rfl, rfl, by decide⟩

/-! ## Equality of objects that hold unordered containers -/

mutual
theorem Val.beq_refl : ∀ (v : Val), Val.beq v v = true
  | .num a => by simp [Val.beq]
  | .str a => by simp [Val.beq]
  | .null => by simp [Val.beq]
  | .ptr a => by simp [Val.beq, Val.beq_refl a]
  | .pair a b => by simp [Val.beq, Val.beq_refl a, Val.beq_refl b]
  | .seq xs => by simp [Val.beq, Val.beq_list_refl xs]
  | .obj xs => by simp [Val.beq, Val.beq_list_refl xs]
theorem Val.beq_list_refl : ∀ (xs : List Val), Val.beq_list xs xs = true
  | [] => by simp [Val.beq_list]
  | x :: xs => by simp [Val.beq_list, Val.beq_refl x, Val.beq_list_refl xs]
end

theorem same_objects_iff (E : Env) (t : Ty) (xs ys : List Val) :
    same_objects E t xs ys ↔ List.Forall₂ (same_object E t) xs ys := by
  induction xs generalizing ys with
  | nil =>
    simp only [same_objects]
    constructor
    · intro h; rw [h]; exact List.Forall₂.nil
    · intro h; cases h; rfl
  | cons x xs ih =>
    cases ys with
    | nil =>
      simp only [same_objects]
      constructor
      · intro h; exact h.elim
      · intro h; cases h
    | cons y ys =>
      simp only [same_objects, ih, List.forall₂_cons]

theorem ordered_only_all_iff (E : Env) (t : Ty) (xs : List Val) :
    ordered_only_all E t xs = true ↔ ∀ x ∈ xs, ordered_only E t x = true := by
  induction xs with
  | nil => simp [ordered_only_all]
  | cons x xs ih => simp [ordered_only_all, ih]

mutual
theorem same_eq (E : Env) : ∀ (v : Val) (T : Ty) (y : Val),
    ordered_only E T v = true → same_object E T v y → y = v
  | .num n, T, y, _, h => by
    simp only [same_object] at h
    exact h.symm
  | .str s, T, y, _, h => by
    simp only [same_object] at h
    exact h.symm
  | .null, T, y, _, h => by
    simp only [same_object] at h
    exact h.symm
  | .ptr x, T, y, ho, h => by
    cases T <;> cases y <;> simp only [same_object, ordered_only] at h ho <;>
      first
      | exact h.symm
      | rw [same_eq E x _ _ ho h]
  | .pair a b, T, y, ho, h => by
    cases T <;> cases y <;> simp only [same_object, ordered_only, Bool.and_eq_true] at h ho <;>
      first
      | exact h.symm
      | rw [same_eq E a _ _ ho.1 h.1, same_eq E b _ _ ho.2 h.2]
  | .seq xs, T, y, ho, h => by
    cases T with
    | array n t =>
      cases y <;> simp only [same_object, ordered_only] at h ho <;> first
        | exact h.symm
        | rw [same_objects_eq E xs _ _ ho h]
    | seq k t =>
      cases y <;> simp only [same_object, ordered_only] at h ho <;> first
        | exact h.symm
        | rw [same_objects_eq E xs _ _ ho h]
    | adaptor k t =>
      cases y <;> simp only [same_object, ordered_only] at h ho <;> first
        | exact h.symm
        | rw [same_objects_eq E xs _ _ ho h]
    | setc k t =>
      cases k <;> cases y <;> simp only [same_object, ordered_only, Bool.false_eq_true] at h ho <;>
        first
        | exact h.symm
        | rw [same_objects_eq E xs _ _ ho h]
    | mapc k a b =>
      cases k <;> cases y <;> simp only [same_object, ordered_only, Bool.false_eq_true] at h ho <;>
        first
        | exact h.symm
        | rw [same_objects_eq E xs _ _ ho h]
    | _ =>
      simp only [same_object] at h
      exact h.symm
  | .obj fs, T, y, ho, h => by
    cases T <;> cases y <;> simp only [same_object, ordered_only] at h ho <;>
      first
      | exact h.symm
      | rw [same_fields_eq E fs _ _ ho h]
theorem same_objects_eq (E : Env) : ∀ (xs : List Val) (t : Ty) (ys : List Val),
    ordered_only_all E t xs = true → same_objects E t xs ys → ys = xs
  | [], t, ys, _, h => by
    simp only [same_objects] at h
    exact h
  | x :: xs, t, ys, ho, h => by
    cases ys with
    | nil => simp only [same_objects] at h
    | cons y ys =>
      simp only [same_objects, ordered_only_all, Bool.and_eq_true] at h ho
      rw [same_eq E x t y ho.1 h.1, same_objects_eq E xs t ys ho.2 h.2]
theorem same_fields_eq (E : Env) : ∀ (xs : List Val) (ts : List Ty) (ys : List Val),
    ordered_only_fields E ts xs = true → same_fields E ts xs ys → ys = xs
  | [], ts, ys, _, h => by
    simp only [same_fields] at h
    exact h
  | x :: xs, ts, ys, ho, h => by
    cases ts with
    | nil => simp only [ordered_only_fields, Bool.false_eq_true] at ho
    | cons t ts =>
      cases ys with
      | nil => simp only [same_fields] at h
      | cons y ys =>
        simp only [same_fields, ordered_only_fields, Bool.and_eq_true] at h ho
        rw [same_eq E x t y ho.1 h.1, same_fields_eq E xs ts ys ho.2 h.2]
end

theorem same_objects_eq_of_all (E : Env) (t : Ty) (xs ys : List Val)
    (ho : ∀ x ∈ xs, ordered_only E t x = true)
    (h : List.Forall₂ (same_object E t) xs ys) : ys = xs :=
  same_objects_eq E xs t ys ((ordered_only_all_iff E t xs).mpr ho)
    ((same_objects_iff E t xs ys).mpr h)

theorem multiset_insert_last (lt : Val → Val → Bool) (x : Val) (acc : List Val)
    (h : ∀ a ∈ acc, lt x a = false) : multiset_insert lt x acc = acc ++ [x] := by
  induction acc with
  | nil => rfl
  | cons a acc ih =>
    simp only [multiset_insert, h a (List.mem_cons_self _ _), Bool.false_eq_true, if_false,
      List.cons_append]
    rw [ih (fun b hb => h b (List.mem_cons_of_mem _ hb))]

theorem foldl_multiset_insert (lt : Val → Val → Bool) (xs acc : List Val)
    (hs : sorted_multi lt xs = true) (ha : ∀ a ∈ acc, ∀ x ∈ xs, lt x a = false) :
    xs.foldl (fun a x => multiset_insert lt x a) acc = acc ++ xs := by
  induction xs generalizing acc with
  | nil => simp
  | cons x xs ih =>
    simp only [sorted_multi, Bool.and_eq_true, List.all_eq_true, Bool.not_eq_true'] at hs
    simp only [List.foldl_cons]
    rw [multiset_insert_last lt x acc (fun a h => ha a h x (List.mem_cons_self _ _))]
    rw [ih (acc ++ [x]) hs.2]
    · simp
    · intro a h y hy
      rcases List.mem_append.mp h with h | h
      · exact ha a h y (List.mem_cons_of_mem _ hy)
      · simp only [List.mem_singleton] at h
        subst h
        exact hs.1 y hy

theorem sorted_by_map (lt : Val → Val → Bool) (f : Val → Val) (xs : List Val) :
    sorted_by (fun a b => lt (f a) (f b)) xs = sorted_by lt (xs.map f) := by
  induction xs with
  | nil => rfl
  | cons x xs ih => simp only [sorted_by, List.map_cons, ih, List.all_map]; rfl

theorem sorted_multi_map (lt : Val → Val → Bool) (f : Val → Val) (xs : List Val) :
    sorted_multi (fun a b => lt (f a) (f b)) xs = sorted_multi lt (xs.map f) := by
  induction xs with
  | nil => rfl
  | cons x xs ih => simp only [sorted_multi, List.map_cons, ih, List.all_map]; rfl

theorem distinct_cons (x : Val) (xs : List Val) (h : distinct (x :: xs) = true) :
    (∀ y ∈ xs, y ≠ x) ∧ distinct xs = true := by
  simp only [distinct, Bool.and_eq_true, List.all_eq_true, Bool.not_eq_true'] at h
  refine ⟨fun y hy heq => ?_, h.2⟩
  have := h.1 y hy
  rw [heq, Val.beq_refl] at this
  exact absurd this (by decide)

theorem foldl_insert_perm (f : Val → Val) (ins : Val → List Val → List Val)
    (hins : ∀ x xs, (∀ y ∈ xs, f y ≠ f x) → (ins x xs).Perm (x :: xs)) :
    ∀ (xs acc : List Val), distinct (xs.map f) = true → (∀ a ∈ acc, ∀ x ∈ xs, f a ≠ f x) →
      (xs.foldl (fun a x => ins x a) acc).Perm (acc ++ xs) := by
  intro xs
  induction xs with
  | nil => intro acc _ _; simp
  | cons x xs ih =>
    intro acc hd ha
    simp only [List.map_cons] at hd
    obtain ⟨hx, hd1⟩ := distinct_cons _ _ hd
    have hp := hins x acc (fun y hy => ha y hy x (List.mem_cons_self _ _))
    simp only [List.foldl_cons]
    refine (ih (ins x acc) hd1 ?_).trans ?_
    · intro a hmem z hz
      rcases List.mem_cons.mp (hp.mem_iff.mp hmem) with h | h
      · rw [h]
        exact fun heq => hx (f z) (List.mem_map_of_mem f hz) heq.symm
      · exact ha a h z (List.mem_cons_of_mem _ hz)
    · exact (hp.append_right xs).trans (List.perm_middle.symm)

theorem same_set_kind (E : Env) (hE : E.unordered_sound) (k : SetK) (t : Ty) (xs ys : List Val)
    (ho : ∀ x ∈ xs, ordered_only E t x = true) (hord : set_order E k t xs = true)
    (h : List.Forall₂ (same_object E t) xs ys) :
    same_object E (.setc k t) (.seq xs)
      (.seq (ys.foldl (fun a x => set_kind_insert E k t x a) [])) := by
  have hys := same_objects_eq_of_all E t xs ys ho h
  subst hys
  have hso := (same_objects_iff E t ys ys).mpr h
  cases k with
  | set =>
    simp only [set_order] at hord
    have := foldl_set_insert (t.less E) ys [] hord (by simp)
    simp only [set_kind_insert, this, List.nil_append, same_object]
    exact hso
  | multiset =>
    simp only [set_order] at hord
    have := foldl_multiset_insert (t.less E) ys [] hord (by simp)
    simp only [set_kind_insert, this, List.nil_append, same_object]
    exact hso
  | unordered_set =>
    simp only [set_order] at hord
    have := foldl_insert_perm id (fun x a => E.unordered_insert (.setc .unordered_set t) x a)
      (fun x xs hx => hE.1 t x xs hx) ys [] (by simpa using hord) (by simp)
    simp only [set_kind_insert, same_object]
    exact ⟨ys, hso, by simpa using this.symm⟩

theorem same_pair_key (E : Env) (a b : Ty) (x y : Val)
    (ho : ordered_only E a x.key = true) (h : same_object E (.pair a b) x y) :
    y.key = x.key := by
  cases x with
  | pair p q =>
    cases y with
    | pair p1 q1 =>
      simp only [same_object] at h
      simp only [Val.key] at ho ⊢
      exact same_eq E p a p1 ho h.1
    | _ => simp only [same_object, reduceCtorEq] at h
  | _ =>
    simp only [same_object] at h
    rw [← h]

theorem same_keys (E : Env) (a b : Ty) (xs ys : List Val)
    (ho : ∀ x ∈ xs, ordered_only E a x.key = true)
    (h : List.Forall₂ (same_object E (.pair a b)) xs ys) : ys.map Val.key = xs.map Val.key := by
  induction h with
  | nil => rfl
  | cons hx _ ih =>
    simp only [List.map_cons]
    rw [same_pair_key E a b _ _ (ho _ (List.mem_cons_self _ _)) hx,
      ih (fun x hx => ho x (List.mem_cons_of_mem _ hx))]

theorem same_map_kind (E : Env) (hE : E.unordered_sound) (k : MapK) (a b : Ty)
    (xs ys : List Val) (ho : ∀ x ∈ xs, ordered_only E a x.key = true)
    (hord : map_order E k a xs = true)
    (h : List.Forall₂ (same_object E (.pair a b)) xs ys) :
    same_object E (.mapc k a b) (.seq xs)
      (.seq (ys.foldl (fun acc x => map_kind_insert E k a b x acc) [])) := by
  have hkeys := same_keys E a b xs ys ho h
  have hso := (same_objects_iff E (.pair a b) xs ys).mpr h
  cases k with
  | map =>
    simp only [map_order, sorted_by_map] at hord
    rw [← hkeys, ← sorted_by_map] at hord
    have := foldl_set_insert (fun x y => a.less E x.key y.key) ys [] hord (by simp)
    simp only [map_kind_insert, this, List.nil_append, same_object]
    exact hso
  | multimap =>
    simp only [map_order, sorted_multi_map] at hord
    rw [← hkeys, ← sorted_multi_map] at hord
    have := foldl_multiset_insert (fun x y => a.less E x.key y.key) ys [] hord (by simp)
    simp only [map_kind_insert, this, List.nil_append, same_object]
    exact hso
  | unordered_map =>
    simp only [map_order] at hord
    rw [← hkeys] at hord
    have := foldl_insert_perm Val.key
      (fun x acc => E.unordered_insert (.mapc .unordered_map a b) x acc)
      (fun x xs hx => hE.2 a b x xs hx) ys [] hord (by simp)
    simp only [map_kind_insert, same_object]
    exact ⟨ys, hso, by simpa using this.symm⟩

mutual
theorem same_common (E : Env) : ∀ (v : Val) (T : Ty) (a b : Val),
    same_object E T v a → same_object E T v b → same_object E T a b
  | .num n, T, a, b, h1, h2 => by
    simp only [same_object] at h1 h2
    subst h1
    subst h2
    simp only [same_object]
  | .str s, T, a, b, h1, h2 => by
    simp only [same_object] at h1 h2
    subst h1
    subst h2
    simp only [same_object]
  | .null, T, a, b, h1, h2 => by
    simp only [same_object] at h1 h2
    subst h1
    subst h2
    simp only [same_object]
  | .ptr x, T, a, b, h1, h2 => by
    cases T with
    | pointer t =>
      cases a with
      | ptr a1 =>
        cases b with
        | ptr b1 =>
          simp only [same_object] at h1 h2 ⊢
          exact same_common E x t a1 b1 h1 h2
        | _ => simp only [same_object, reduceCtorEq] at h2
      | _ => simp only [same_object, reduceCtorEq] at h1
    | unique_ptr t =>
      cases a with
      | ptr a1 =>
        cases b with
        | ptr b1 =>
          simp only [same_object] at h1 h2 ⊢
          exact same_common E x t a1 b1 h1 h2
        | _ => simp only [same_object, reduceCtorEq] at h2
      | _ => simp only [same_object, reduceCtorEq] at h1
    | _ =>
      simp only [same_object] at h1 h2
      subst h1
      subst h2
      simp only [same_object]
  | .pair x y, T, a, b, h1, h2 => by
    cases T with
    | pair s t =>
      cases a with
      | pair a1 a2 =>
        cases b with
        | pair b1 b2 =>
          simp only [same_object] at h1 h2 ⊢
          exact ⟨same_common E x s a1 b1 h1.1 h2.1, same_common E y t a2 b2 h1.2 h2.2⟩
        | _ => simp only [same_object, reduceCtorEq] at h2
      | _ => simp only [same_object, reduceCtorEq] at h1
    | _ =>
      simp only [same_object] at h1 h2
      subst h1
      subst h2
      simp only [same_object]
  | .seq xs, T, a, b, h1, h2 => by
    cases T with
    | array n t =>
      cases a with
      | seq as =>
        cases b with
        | seq bs =>
          simp only [same_object] at h1 h2 ⊢
          exact same_objects_common E xs t as bs h1 h2
        | _ => simp only [same_object, reduceCtorEq] at h2
      | _ => simp only [same_object, reduceCtorEq] at h1
    | seq k t =>
      cases a with
      | seq as =>
        cases b with
        | seq bs =>
          simp only [same_object] at h1 h2 ⊢
          exact same_objects_common E xs t as bs h1 h2
        | _ => simp only [same_object, reduceCtorEq] at h2
      | _ => simp only [same_object, reduceCtorEq] at h1
    | adaptor k t =>
      cases a with
      | seq as =>
        cases b with
        | seq bs =>
          simp only [same_object] at h1 h2 ⊢
          exact same_objects_common E xs t as bs h1 h2
        | _ => simp only [same_object, reduceCtorEq] at h2
      | _ => simp only [same_object, reduceCtorEq] at h1
    | setc k t =>
      cases a with
      | seq as =>
        cases b with
        | seq bs =>
          cases k with
          | unordered_set =>
            simp only [same_object] at h1 h2 ⊢
            obtain ⟨z1, hz1, hp1⟩ := h1
            obtain ⟨z2, hz2, hp2⟩ := h2
            have hz := (same_objects_iff E t z1 z2).mp (same_objects_common E xs t z1 z2 hz1 hz2)
            obtain ⟨us, hu1, hu2⟩ := List.perm_comp_forall₂ hp1.symm hz
            exact ⟨us, (same_objects_iff E t as us).mpr hu1, hu2.trans hp2⟩
          | set =>
            simp only [same_object] at h1 h2 ⊢
            exact same_objects_common E xs t as bs h1 h2
          | multiset =>
            simp only [same_object] at h1 h2 ⊢
            exact same_objects_common E xs t as bs h1 h2
        | _ => cases k <;> simp only [same_object, reduceCtorEq] at h2
      | _ => cases k <;> simp only [same_object, reduceCtorEq] at h1
    | mapc k s t =>
      cases a with
      | seq as =>
        cases b with
        | seq bs =>
          cases k with
          | unordered_map =>
            simp only [same_object] at h1 h2 ⊢
            obtain ⟨z1, hz1, hp1⟩ := h1
            obtain ⟨z2, hz2, hp2⟩ := h2
            have hz := (same_objects_iff E (.pair s t) z1 z2).mp
              (same_objects_common E xs (.pair s t) z1 z2 hz1 hz2)
            obtain ⟨us, hu1, hu2⟩ := List.perm_comp_forall₂ hp1.symm hz
            exact ⟨us, (same_objects_iff E (.pair s t) as us).mpr hu1, hu2.trans hp2⟩
          | map =>
            simp only [same_object] at h1 h2 ⊢
            exact same_objects_common E xs (.pair s t) as bs h1 h2
          | multimap =>
            simp only [same_object] at h1 h2 ⊢
            exact same_objects_common E xs (.pair s t) as bs h1 h2
        | _ => cases k <;> simp only [same_object, reduceCtorEq] at h2
      | _ => cases k <;> simp only [same_object, reduceCtorEq] at h1
    | _ =>
      simp only [same_object] at h1 h2
      subst h1
      subst h2
      simp only [same_object]
  | .obj fs, T, a, b, h1, h2 => by
    cases T with
    | cls c =>
      cases a with
      | obj as =>
        cases b with
        | obj bs =>
          simp only [same_object] at h1 h2 ⊢
          exact same_fields_common E fs _ as bs h1 h2
        | _ => simp only [same_object, reduceCtorEq] at h2
      | _ => simp only [same_object, reduceCtorEq] at h1
    | _ =>
      simp only [same_object] at h1 h2
      subst h1
      subst h2
      simp only [same_object]
theorem same_objects_common (E : Env) : ∀ (xs : List Val) (t : Ty) (as bs : List Val),
    same_objects E t xs as → same_objects E t xs bs → same_objects E t as bs
  | [], t, as, bs, h1, h2 => by
    simp only [same_objects] at h1 h2
    subst h1
    subst h2
    simp only [same_objects]
  | x :: xs, t, as, bs, h1, h2 => by
    cases as with
    | nil => simp only [same_objects] at h1
    | cons a as =>
      cases bs with
      | nil => simp only [same_objects] at h2
      | cons b bs =>
        simp only [same_objects] at h1 h2 ⊢
        exact ⟨same_common E x t a b h1.1 h2.1, same_objects_common E xs t as bs h1.2 h2.2⟩
theorem same_fields_common (E : Env) : ∀ (xs : List Val) (ts : List Ty) (as bs : List Val),
    same_fields E ts xs as → same_fields E ts xs bs → same_fields E ts as bs
  | [], ts, as, bs, h1, h2 => by
    simp only [same_fields] at h1 h2
    subst h1
    subst h2
    simp only [same_fields]
  | x :: xs, ts, as, bs, h1, h2 => by
    cases ts with
    | nil => simp only [same_fields] at h1
    | cons t ts =>
      cases as with
      | nil => simp only [same_fields] at h1
      | cons a as =>
        cases bs with
        | nil => simp only [same_fields] at h2
        | cons b bs =>
          simp only [same_fields] at h1 h2 ⊢
          exact ⟨same_common E x t a b h1.1 h2.1, same_fields_common E xs ts as bs h1.2 h2.2⟩
end

/-! ## Binary decoding up to equality of objects -/

theorem read_count_decoded (w : Val → WBin) (rd : Val → ifstream → RBin) (d : Val)
    (ins : Val → List Val → List Val) (Q : Val → Val → Prop) (xs : List Val)
    (h : ∀ x ∈ xs, bin_decoded (w x) (rd d) (Q x)) (s : Nat) :
    ∃ bs n, write_each w xs s = (bs, .ok n) ∧
      ∀ rest acc s2, ∃ ys m, List.Forall₂ Q xs ys ∧
        read_count rd d ins xs.length acc (ifstream.mk (bs ++ rest) true) s2
          = .ok (ys.foldl (fun a x => ins x a) acc, m, ifstream.mk rest true) := by
  induction xs generalizing s with
  | nil => exact ⟨[], s, rfl, fun rest acc s2 => ⟨[], s2, List.Forall₂.nil, rfl⟩⟩
  | cons x xs ih =>
    obtain ⟨bs1, n1, hw, hr⟩ := h x (List.mem_cons_self _ _)
    obtain ⟨bs2, n2, hw2, hr2⟩ := ih (fun y hy => h y (List.mem_cons_of_mem _ hy)) (to_u32 (s + n1))
    refine ⟨bs1 ++ bs2, n2, ?_, ?_⟩
    · simp [write_each, WBin.bind, hw, hw2]
    · intro rest acc s2
      obtain ⟨y, m1, hm1, hq⟩ := hr (bs2 ++ rest)
      obtain ⟨ys, m2, hf, hm2⟩ := hr2 rest (ins y acc) (to_u32 (s2 + m1))
      refine ⟨y :: ys, m2, List.Forall₂.cons hq hf, ?_⟩
      simp only [List.length_cons, read_count, List.append_assoc, hm1, List.foldl_cons]
      exact hm2

theorem read_slots_decoded (w : Val → WBin) (rd : Val → ifstream → RBin)
    (Q : Val → Val → Prop) (xs ds : List Val)
    (h : List.Forall₂ (fun x d => bin_decoded (w x) (rd d) (Q x)) xs ds) (s : Nat) :
    ∃ bs n, write_each w xs s = (bs, .ok n) ∧
      ∀ rest s2, ∃ ys m, List.Forall₂ Q xs ys ∧
        read_slots rd ds (ifstream.mk (bs ++ rest) true) s2
          = .ok (ys, m, ifstream.mk rest true) := by
  induction h generalizing s with
  | nil => exact ⟨[], s, rfl, fun rest s2 => ⟨[], s2, List.Forall₂.nil, rfl⟩⟩
  | cons hx _ ih =>
    obtain ⟨bs1, n1, hw, hr⟩ := hx
    obtain ⟨bs2, n2, hw2, hr2⟩ := ih (to_u32 (s + n1))
    refine ⟨bs1 ++ bs2, n2, ?_, ?_⟩
    · simp [write_each, WBin.bind, hw, hw2]
    · intro rest s2
      obtain ⟨y, m1, hm1, hq⟩ := hr (bs2 ++ rest)
      obtain ⟨ys, m2, hf, hm2⟩ := hr2 rest (to_u32 (s2 + m1))
      refine ⟨y :: ys, m2, List.Forall₂.cons hq hf, ?_⟩
      simp only [read_slots, List.append_assoc, hm1, hm2]

theorem encodable_fresh_init (L : Limits) (E : Env) : ∀ (T : Ty) (v : Val),
    encodable L E T v = true →
    fresh T (T.default_init E) = true ∧ fresh T (T.value_init E) = true := by
  intro T
  induction T with
  | arith p => intro v _; simp [Ty.default_init, Ty.value_init, fresh]
  | pointer t _ => intro v _; simp [fresh]
  | unique_ptr t _ => intro v _; simp [fresh]
  | array n t ih =>
    intro v hv
    cases v <;> simp only [encodable, Bool.false_eq_true] at hv
    rename_i xs
    simp only [Bool.and_eq_true, decide_eq_true_eq, List.all_eq_true] at hv
    cases xs with
    | nil =>
      simp only [List.length_nil] at hv
      simp [Ty.default_init, Ty.value_init, fresh, ← hv.1]
    | cons x xs =>
      have := ih x (hv.2 x (List.mem_cons_self _ _))
      simp [Ty.default_init, Ty.value_init, fresh, this.1, this.2]
  | string => intro v _; simp [fresh]
  | pair a b iha ihb =>
    intro v hv
    cases v <;> simp only [encodable, Bool.false_eq_true] at hv
    rename_i x y
    simp only [Bool.and_eq_true] at hv
    simp [Ty.default_init, Ty.value_init, fresh, (iha x hv.1).2, (ihb y hv.2).2]
  | seq k t _ => intro v _; simp [Ty.default_init, Ty.value_init, fresh]
  | setc k t _ => intro v _; simp [Ty.default_init, Ty.value_init, fresh]
  | mapc k a b _ _ => intro v _; simp [Ty.default_init, Ty.value_init, fresh]
  | adaptor k t _ => intro v hv; cases v <;> simp [encodable] at hv
  | cls n => intro v hv; cases v <;> simp [encodable] at hv
  | enum n => intro v hv; cases v <;> simp [encodable] at hv

namespace type_info

theorem member_index_layout (E : Env) (T : Ty) (off : Nat) (ty : Ty) (i : Nat)
    (h : E.member_index T off ty = some i) : (E.layout T)[i]? = some (off, ty) := by
  unfold Env.member_index List.indexOf? at h
  have := List.findIdx?_of_eq_some h
  cases hx : (E.layout T)[i]? with
  | none => rw [hx] at this; simp at this
  | some a =>
    rw [hx] at this
    simp only [beq_iff_eq] at this
    rw [this]

theorem same_fields_of_getElem (E : Env) : ∀ (fs : List Val) (ts : List Ty) (gs : List Val),
    ts.length = fs.length → gs.length = fs.length →
    (∀ (i : Nat) t x y, ts[i]? = some t → fs[i]? = some x → gs[i]? = some y →
      same_object E t x y) →
    same_fields E ts fs gs := by
  intro fs
  induction fs with
  | nil =>
    intro ts gs _ hg _
    simp only [same_fields]
    exact List.length_eq_zero.mp hg
  | cons x fs ih =>
    intro ts gs ht hg h
    cases ts with
    | nil => simp at ht
    | cons t ts =>
      cases gs with
      | nil => simp at hg
      | cons y gs =>
        simp only [same_fields]
        refine ⟨h 0 t x y (by simp) (by simp) (by simp),
          ih ts gs (by simpa using ht) (by simpa using hg) ?_⟩
        intro i t1 x1 y1 h1 h2 h3
        exact h (i + 1) t1 x1 y1 (by simpa using h1) (by simpa using h2) (by simpa using h3)

theorem reg_encodable_has (L : Limits) (E : Env) (R : Registry) (n : Nat) (T : Ty) (v : Val)
    (h : reg_encodable L E R n T v = true) :
    1 ≤ n ∧ T ∈ R.type_writer_bin ∧ T ∈ R.type_reader_bin ∧ T ∈ R.type_writer_xml ∧
      T ∈ R.type_reader_xml := by
  cases n with
  | zero => simp [reg_encodable] at h
  | succ n =>
    simp only [reg_encodable, Bool.and_eq_true] at h
    exact ⟨by omega, (Registry.has_iff R T).mp h.1⟩

theorem reg_encodable_fresh_init (L : Limits) (E : Env) (R : Registry) (K : Nat)
    (hK : ctors_fresh E R K = true) :
    ∀ (n : Nat) (T : Ty) (v : Val), reg_encodable L E R n T v = true →
      ∃ k, reg_fresh E R k T (T.default_init E) = true ∧ reg_fresh E R k T (T.value_init E) = true := by
  intro n
  induction n with
  | zero => intro T v h; simp [reg_encodable] at h
  | succ n ih =>
    intro T v h
    simp only [reg_encodable, Bool.and_eq_true] at h
    obtain ⟨hhas, h⟩ := h
    cases T <;> cases v <;> (try simp only [Bool.false_eq_true] at h)
    case arith.num p x => exact ⟨1, by simp [reg_fresh, Ty.default_init, Ty.value_init]⟩
    case string.str s => exact ⟨1, by simp [reg_fresh, Ty.default_init, Ty.value_init]⟩
    case unique_ptr.ptr t x => exact ⟨1, by simp [reg_fresh, Ty.default_init, Ty.value_init]⟩
    case array.seq m t xs =>
      simp only [Bool.and_eq_true, decide_eq_true_eq, List.all_eq_true] at h
      cases xs with
      | nil =>
        simp only [List.length_nil] at h
        exact ⟨1, by simp [reg_fresh, Ty.default_init, Ty.value_init, ← h.1]⟩
      | cons x xs =>
        obtain ⟨k, hk1, hk2⟩ := ih t x (h.2 x (List.mem_cons_self _ _))
        exact ⟨k + 1, by simp [reg_fresh, Ty.default_init, Ty.value_init, hk1, hk2]⟩
    case pair.pair a b x y =>
      simp only [Bool.and_eq_true] at h
      obtain ⟨ka, _, hka⟩ := ih a x h.1
      obtain ⟨kb, _, hkb⟩ := ih b y h.2
      refine ⟨max ka kb + 1, ?_⟩
      simp only [reg_fresh, Ty.default_init, Ty.value_init, Bool.and_eq_true, and_self]
      exact ⟨reg_fresh_le E R ka _ (le_max_left _ _) a _ hka,
        reg_fresh_le E R kb _ (le_max_right _ _) b _ hkb⟩
    case seq.seq => exact ⟨1, by simp [reg_fresh, Ty.default_init, Ty.value_init]⟩
    case setc.seq => exact ⟨1, by simp [reg_fresh, Ty.default_init, Ty.value_init]⟩
    case mapc.seq => exact ⟨1, by simp [reg_fresh, Ty.default_init, Ty.value_init]⟩
    case cls.obj c fs =>
      simp only [Bool.and_eq_true] at h
      obtain ⟨e, he, hec⟩ := lookup_mem R.typeInfo_map (.cls c) h.1.1.1.1.1.2
      simp only [ctors_fresh, List.all_eq_true, Bool.and_eq_true] at hK
      have := hK e he
      rw [hec] at this
      exact ⟨K, by simpa [Ty.default_init, Ty.value_init] using this⟩

theorem read_members_decoded (E : Env) (T : Ty) (w : Ty → Val → WBin)
    (rd : Ty → Val → ifstream → RBin) (Q : Ty → Val → Val → Prop) (D : Ty → Val → Prop)
    (fs : List Val) :
    ∀ (ms : List memberPair),
      (ms.map (fun m => E.member_index T m.offset m.typenm)).Nodup →
      (∀ m ∈ ms, ∃ i x, E.member_index T m.offset m.typenm = some i ∧ fs[i]? = some x ∧
        ∀ d, D m.typenm d → bin_decoded (w m.typenm x) (rd m.typenm d) (Q m.typenm x)) →
      ∀ (cur : List Val),
      (∀ m ∈ ms, ∀ i, E.member_index T m.offset m.typenm = some i →
        ∃ d, cur[i]? = some d ∧ D m.typenm d) →
      ∀ s, ∃ bs n, write_each (write_member E T w (.obj fs)) ms s = (bs, .ok n) ∧
        ∀ rest s2, ∃ gs c, read_members E T rd ms (.obj cur) (ifstream.mk (bs ++ rest) true) s2
            = .ok (.obj gs, c, ifstream.mk rest true) ∧
          gs.length = cur.length ∧
          (∀ m ∈ ms, ∀ i, E.member_index T m.offset m.typenm = some i →
            ∃ x y, fs[i]? = some x ∧ gs[i]? = some y ∧ Q m.typenm x y) ∧
          (∀ j, some j ∉ ms.map (fun m => E.member_index T m.offset m.typenm) →
            gs[j]? = cur[j]?) := by
  intro ms
  induction ms with
  | nil =>
    intro _ _ cur _ s
    exact ⟨[], s, rfl, fun rest s2 => ⟨cur, s2, rfl, rfl, by simp, fun j _ => rfl⟩⟩
  | cons m ms ih =>
    intro hnd h cur hcur s
    obtain ⟨i, x, hi, hx, hdec⟩ := h m (List.mem_cons_self _ _)
    obtain ⟨d, hd, hD⟩ := hcur m (List.mem_cons_self _ _) i hi
    obtain ⟨bs1, n1, hw, hr⟩ := hdec d hD
    simp only [List.map_cons, List.nodup_cons] at hnd
    have htail := fun m1 hm1 => h m1 (List.mem_cons_of_mem _ hm1)
    have hcur_tail : ∀ (y : Val), ∀ m1 ∈ ms, ∀ i1,
        E.member_index T m1.offset m1.typenm = some i1 →
        ∃ d1, (cur.set i y)[i1]? = some d1 ∧ D m1.typenm d1 := by
      intro y m1 hm1 i1 hi1
      obtain ⟨d1, hd1, hD1⟩ := hcur m1 (List.mem_cons_of_mem _ hm1) i1 hi1
      have hne : i ≠ i1 := by
        intro heq
        apply hnd.1
        rw [hi, heq, ← hi1]
        exact List.mem_map_of_mem _ hm1
      exact ⟨d1, by simp [List.getElem?_set, hne, hd1], hD1⟩
    obtain ⟨bs2, n2, hw2, -⟩ := ih hnd.2 htail (cur.set i x) (hcur_tail x) (to_u32 (s + n1))
    refine ⟨bs1 ++ bs2, n2, ?_, ?_⟩
    · simp [write_each, write_member, member, hi, hx, WBin.bind, hw, hw2]
    · intro rest s2
      obtain ⟨y, c1, hc1, hq⟩ := hr (bs2 ++ rest)
      obtain ⟨bs3, n3, hw3, hr3⟩ := ih hnd.2 htail (cur.set i y) (hcur_tail y) (to_u32 (s + n1))
      have hbs : bs3 = bs2 := by
        rw [hw2] at hw3
        exact (Prod.mk.inj hw3).1.symm
      subst hbs
      obtain ⟨gs, c2, hc2, hlen, hmem, hout⟩ := hr3 rest (to_u32 (s2 + c1))
      have hilt : i < cur.length := by
        rcases Nat.lt_or_ge i cur.length with hlt | hge
        · exact hlt
        · rw [List.getElem?_eq_none hge] at hd
          cases hd
      refine ⟨gs, c2, ?_, by simpa using hlen, ?_, ?_⟩
      · simp only [read_members, member, hi, hd, List.append_assoc, hc1, Val.set_field]
        exact hc2
      · intro m1 hm1 i1 hi1
        rcases List.mem_cons.mp hm1 with heq | hm1
        · rw [heq] at hi1
          rw [hi] at hi1
          cases hi1
          refine ⟨x, y, hx, ?_, by rw [heq]; exact hq⟩
          rw [hout i (by rw [← hi]; exact hnd.1)]
          simp [List.getElem?_set, hilt]
        · exact hmem m1 hm1 i1 hi1
      · intro j hj
        simp only [List.map_cons, List.mem_cons, not_or] at hj
        rw [hout j hj.2]
        have : i ≠ j := fun heq => hj.1 (by rw [hi, heq])
        simp [List.getElem?_set, this]

theorem bin_decoded_container_int (w : Val → WBin) (rd : Val → ifstream → RBin) (d : Val)
    (ins : Val → List Val → List Val) (Q : Val → Val → Prop) (P : Val → Prop)
    (xs : List Val) (init : Nat) (hlen : xs.length < 2 ^ 31)
    (h : ∀ x ∈ xs, bin_decoded (w x) (rd d) (Q x))
    (hP : ∀ ys, List.Forall₂ Q xs ys → P (.seq (ys.foldl (fun a x => ins x a) []))) :
    bin_decoded (write_container w xs init) (read_container rd d ins []) P := by
  obtain ⟨bs, n, hw, hr⟩ := read_count_decoded w rd d ins Q xs h init
  have hlen2 : xs.length < 2 ^ 32 := by omega
  refine ⟨Prim.uint.encode (xs.length : Int) ++ bs, n, ?_, ?_⟩
  · simp only [write_container, WBin.bind, hw, to_u32_of_lt _ hlen2, uint_encode_eq]
    rw [Nat.mod_eq_of_lt hlen2]
  · intro rest
    obtain ⟨ys, m, hf, hm⟩ := hr rest [] 4
    refine ⟨_, m, ?_, hP ys hf⟩
    simp only [read_container, List.append_assoc, ifstream.read_u32_encode _ _ _ hlen2,
      int_loop_count_of_lt _ hlen, hm]

theorem bin_decoded_registered (E : Env) (hE : E.unordered_sound) (R : Registry) (K : Nat)
    (hK : ctors_fresh E R K = true) :
    ∀ (n : Nat) (T : Ty) (v : Val), reg_encodable Limits.bin_registered E R n T v = true →
      ∀ (k : Nat) (d : Val), reg_fresh E R k T d = true → ∀ f, n ≤ f →
        bin_decoded (writer_bin E R f T v) (reader_bin E R f T d) (same_object E T v) := by
  intro n
  induction n with
  | zero => intro T v h; simp [reg_encodable] at h
  | succ n ih =>
    intro T v hv k d hd f hf
    obtain ⟨f, rfl⟩ : ∃ f1, f = f1 + 1 := ⟨f - 1, by omega⟩
    have hf1 : n ≤ f := by omega
    cases k with
    | zero => simp [reg_fresh] at hd
    | succ k =>
    simp only [reg_encodable, Bool.and_eq_true] at hv
    obtain ⟨hhas, hv⟩ := hv
    obtain ⟨hwb, hrb, -, -⟩ := (Registry.has_iff R T).mp hhas
    cases T <;> cases v <;> (try simp only [Bool.false_eq_true] at hv)
    case arith.num p x =>
      cases d <;> simp only [reg_fresh, Bool.false_eq_true] at hd
      rename_i old
      refine ⟨p.encode x, p.size, by simp [writer_bin, hwb],
        fun rest => ⟨.num x, p.size, ?_, by simp only [same_object]⟩⟩
      simp [reader_bin, hrb, ifstream.read_prim_encode p x old rest hv]
    case string.str s =>
      cases d <;> simp only [reg_fresh, Bool.false_eq_true] at hd
      rename_i old
      simp only [Limits.bin_registered, byte_string, Bool.and_eq_true, List.all_eq_true,
        decide_eq_true_eq] at hv
      have hlen : s.length < 2 ^ 32 := by omega
      have hdata : s.data.length = s.length := rfl
      refine ⟨Prim.uint.encode (s.length : Int) ++ s.data.map char_byte, to_u32 (s.length + 4),
        ?_, fun rest => ⟨.str s, to_u32 (s.length + 4), ?_, by simp only [same_object]⟩⟩
      · simp only [writer_bin, hwb, not_true_eq_false, if_false, to_u32_of_lt _ hlen,
          uint_encode_eq]
        rw [Nat.mod_eq_of_lt hlen]
      · simp only [reader_bin, hrb, not_true_eq_false, if_false, List.append_assoc,
          ifstream.read_u32_encode _ _ _ hlen, int_loop_count_of_lt _ hv.2]
        rw [← hdata, read_chars_map _ s.data [] rest hv.1]
        simp
    case unique_ptr.ptr t x =>
      obtain ⟨k1, -, hk1⟩ := reg_encodable_fresh_init _ E R K hK n t x hv
      obtain ⟨bs, c, hw, hr⟩ := ih t x hv k1 _ hk1 f hf1
      refine ⟨bs, c, by simp [writer_bin, hwb, hw], fun rest => ?_⟩
      obtain ⟨y, m, hm, hs⟩ := hr rest
      exact ⟨.ptr y, m, by simp [reader_bin, hrb, hm], by simpa only [same_object] using hs⟩
    case array.seq m t xs =>
      cases d <;> simp only [reg_fresh, Bool.false_eq_true] at hd
      rename_i ds
      simp only [Bool.and_eq_true, decide_eq_true_eq] at hv hd
      obtain ⟨bs, c, hw, hr⟩ := read_slots_decoded (writer_bin E R f t)
        (reader_bin E R f t) (same_object E t) xs ds
        (forall2_of_all _ _ _ xs ds (by omega) hv.2 hd.2 (fun x d hx hd => ih t x hx k d hd f hf1)) 0
      refine ⟨bs, to_u32 ((Ty.array m t).sizeof E),
        by simp [writer_bin, hwb, hv.1, WBin.bind, hw], fun rest => ?_⟩
      obtain ⟨ys, c1, hfa, hc1⟩ := hr rest 0
      refine ⟨.seq ys, to_u32 ((Ty.array m t).sizeof E), by simp [reader_bin, hrb, hd.1, hc1], ?_⟩
      simp only [same_object]
      exact (same_objects_iff E t xs ys).mpr hfa
    case pair.pair a b x y =>
      cases d <;> simp only [reg_fresh, Bool.false_eq_true] at hd
      rename_i dx dy
      simp only [Bool.and_eq_true] at hv hd
      obtain ⟨bs1, n1, hw1, hr1⟩ := ih a x hv.1 k dx hd.1 f hf1
      obtain ⟨bs2, n2, hw2, hr2⟩ := ih b y hv.2 k dy hd.2 f hf1
      refine ⟨bs1 ++ bs2, to_u32 ((Ty.pair a b).sizeof E),
        by simp [writer_bin, hwb, WBin.bind, hw1, hw2], fun rest => ?_⟩
      obtain ⟨x1, m1, hm1, hs1⟩ := hr1 (bs2 ++ rest)
      obtain ⟨y1, m2, hm2, hs2⟩ := hr2 rest
      refine ⟨.pair x1 y1, to_u32 ((Ty.pair a b).sizeof E),
        by simp [reader_bin, hrb, hm1, hm2], ?_⟩
      simp only [same_object]
      exact ⟨hs1, hs2⟩
    case seq.seq sk t xs =>
      cases d <;> simp only [reg_fresh, Bool.false_eq_true] at hd
      rename_i ds
      simp only [List.isEmpty_iff] at hd
      subst hd
      simp only [Limits.bin_registered, Bool.and_eq_true, decide_eq_true_eq, List.all_eq_true] at hv
      have hrt := bin_decoded_container_int (writer_bin E R f t) (reader_bin E R f t)
        (t.default_init E) push_back (same_object E t)
        (same_object E (.seq sk t) (.seq xs)) xs 1 hv.1
        (fun x hx => by
          obtain ⟨k1, hk1, -⟩ := reg_encodable_fresh_init _ E R K hK n t x (hv.2 x hx)
          exact ih t x (hv.2 x hx) k1 _ hk1 f hf1)
        (fun ys hfa => by
          simp only [foldl_push_back, List.nil_append, same_object]
          exact (same_objects_iff E t xs ys).mpr hfa)
      obtain ⟨bs, c, hw, hr⟩ := hrt
      refine ⟨bs, c, by simp [writer_bin, hwb, hw], fun rest => ?_⟩
      obtain ⟨y, m, hm, hs⟩ := hr rest
      exact ⟨y, m, by simp [reader_bin, hrb, hm], hs⟩
    case setc.seq sk t xs =>
      cases d <;> simp only [reg_fresh, Bool.false_eq_true] at hd
      rename_i ds
      simp only [List.isEmpty_iff] at hd
      subst hd
      simp only [Limits.bin_registered, Bool.and_eq_true, decide_eq_true_eq, List.all_eq_true] at hv
      have hrt := bin_decoded_container_int (writer_bin E R f t) (reader_bin E R f t)
        (t.default_init E) (set_kind_insert E sk t) (same_object E t)
        (same_object E (.setc sk t) (.seq xs)) xs 1 hv.1.1.1
        (fun x hx => by
          obtain ⟨k1, hk1, -⟩ := reg_encodable_fresh_init _ E R K hK n t x (hv.1.1.2 x hx)
          exact ih t x (hv.1.1.2 x hx) k1 _ hk1 f hf1)
        (fun ys hfa => same_set_kind E hE sk t xs ys hv.1.2 hv.2 hfa)
      obtain ⟨bs, c, hw, hr⟩ := hrt
      refine ⟨bs, c, by simp [writer_bin, hwb, hw], fun rest => ?_⟩
      obtain ⟨y, m, hm, hs⟩ := hr rest
      exact ⟨y, m, by simp [reader_bin, hrb, hm], hs⟩
    case mapc.seq mk a b xs =>
      cases d <;> simp only [reg_fresh, Bool.false_eq_true] at hd
      rename_i ds
      simp only [List.isEmpty_iff] at hd
      subst hd
      simp only [Limits.bin_registered, Bool.and_eq_true, decide_eq_true_eq, List.all_eq_true] at hv
      have hrt := bin_decoded_container_int (writer_bin E R f (.pair a b))
        (reader_bin E R f (.pair a b))
        ((Ty.pair a b).default_init E) (map_kind_insert E mk a b) (same_object E (.pair a b))
        (same_object E (.mapc mk a b) (.seq xs)) xs 4 hv.1.1.1
        (fun x hx => by
          obtain ⟨k1, hk1, -⟩ := reg_encodable_fresh_init _ E R K hK n (.pair a b) x (hv.1.1.2 x hx)
          exact ih (.pair a b) x (hv.1.1.2 x hx) k1 _ hk1 f hf1)
        (fun ys hfa => same_map_kind E hE mk a b xs ys hv.1.2 hv.2 hfa)
      obtain ⟨bs, c, hw, hr⟩ := hrt
      refine ⟨bs, c, by simp [writer_bin, hwb, hw], fun rest => ?_⟩
      obtain ⟨y, m, hm, hs⟩ := hr rest
      exact ⟨y, m, by simp [reader_bin, hrb, hm], hs⟩
    case cls.obj c fs =>
      cases d <;> simp only [reg_fresh, Bool.false_eq_true] at hd
      rename_i ds
      simp only [Bool.and_eq_true, decide_eq_true_eq, List.all_eq_true] at hv hd
      obtain ⟨⟨⟨⟨⟨⟨hlen, -⟩, -⟩, -⟩, hnd⟩, hcov⟩, hmem⟩ := hv
      have hms : ∀ m ∈ R.members (.cls c), ∃ i x,
          E.member_index (.cls c) m.offset m.typenm = some i ∧ fs[i]? = some x ∧
          ∀ d, reg_fresh E R k m.typenm d = true →
            bin_decoded (writer_bin E R f m.typenm x) (reader_bin E R f m.typenm d)
              (same_object E m.typenm x) := by
        intro m hm
        have h1 := hmem m hm
        revert h1
        cases E.member_index (.cls c) m.offset m.typenm with
        | none => simp
        | some i =>
          simp only
          cases hfi : fs[i]? with
          | none => simp
          | some x =>
            intro h1
            exact ⟨i, x, rfl, hfi, fun d0 h2 => ih m.typenm x h1 k d0 h2 f hf1⟩
      have hcur : ∀ m ∈ R.members (.cls c), ∀ i,
          E.member_index (.cls c) m.offset m.typenm = some i →
          ∃ d, ds[i]? = some d ∧ reg_fresh E R k m.typenm d = true := by
        intro m hm i hi
        have h2 := hd.2 m hm
        rw [hi] at h2
        revert h2
        simp only
        cases hdi : ds[i]? with
        | none => simp
        | some d0 => intro h2; exact ⟨d0, rfl, h2⟩
      obtain ⟨bs, c1, hw, hr⟩ := read_members_decoded E (.cls c) (writer_bin E R f)
        (reader_bin E R f) (same_object E) (fun t d => reg_fresh E R k t d = true) fs
        (R.members (.cls c)) hnd hms ds hcur 0
      refine ⟨bs, c1, by simp [writer_bin, hwb, hw], fun rest => ?_⟩
      obtain ⟨gs, c2, hc2, hglen, hgmem, -⟩ := hr rest 0
      refine ⟨.obj gs, c2, by simp only [reader_bin, hrb, not_true_eq_false, if_false, hc2], ?_⟩
      simp only [same_object]
      refine same_fields_of_getElem E fs _ gs (by simp [hlen]) (by omega) ?_
      intro i t x y ht hx hy
      have hi : i < fs.length := by
        rcases Nat.lt_or_ge i fs.length with hlt | hge
        · exact hlt
        · rw [List.getElem?_eq_none hge] at hx
          cases hx
      have hin := hcov i (List.mem_range.mpr hi)
      simp only [Registry.member_indices, List.mem_map] at hin
      obtain ⟨m, hm, hmi⟩ := hin
      obtain ⟨x1, y1, hx1, hy1, hq⟩ := hgmem m hm i hmi
      rw [hx] at hx1
      rw [hy] at hy1
      cases hx1
      cases hy1
      have hl := member_index_layout E (.cls c) m.offset m.typenm i hmi
      simp only [List.getElem?_map, hl, Option.map_some', Option.some.injEq] at ht
      rw [← ht]
      exact hq

end type_info

/-! ## Text decoding up to equality of objects, with the node count -/

theorem xml_children_decoded (w : Val → XMLNode → WXml) (rd : Val → XMLNode → RXml) (d : Val)
    (ins : Val → List Val → List Val) (tag : String) (refs : Val → Nat)
    (Q : Val → Val → Prop) (xs : List Val)
    (h : ∀ x ∈ xs, ∃ node n y, tinyxml2.has_tag tag node = true ∧
      (∀ e, w x e = (tinyxml2.InsertEndChild e node, .ok n)) ∧ rd d node = .ok (y, n) ∧ Q x y ∧
      (node.element_count < 2 ^ 32 → n + refs x = node.element_count)) :
    ∃ nodes ys, (∀ c ∈ nodes, tinyxml2.has_tag tag c = true) ∧ List.Forall₂ Q xs ys ∧
      ∀ s, ∃ c,
        (∀ nm attrs cs, write_children w xs (.element nm attrs cs) s
          = (.element nm attrs (cs ++ nodes), .ok c)) ∧
        (∀ acc, read_xml_each rd d ins nodes acc s
          = .ok (ys.foldl (fun a x => ins x a) acc, c)) ∧
        (s + XMLNode.element_count_list nodes < 2 ^ 32 →
          c + (xs.map refs).sum = s + XMLNode.element_count_list nodes) := by
  induction xs with
  | nil =>
    exact ⟨[], [], by simp, List.Forall₂.nil, fun s => ⟨s, fun nm attrs cs => by
      simp [write_children], fun acc => rfl, fun _ => by simp [XMLNode.element_count_list]⟩⟩
  | cons x xs ih =>
    obtain ⟨node, n1, y, htag, hw, hr, hq, hc⟩ := h x (List.mem_cons_self _ _)
    obtain ⟨nodes, ys, htags, hfa, hrest⟩ := ih (fun y hy => h y (List.mem_cons_of_mem _ hy))
    refine ⟨node :: nodes, y :: ys, ?_, List.Forall₂.cons hq hfa, ?_⟩
    · intro c hc
      rcases List.mem_cons.mp hc with hc | hc
      · rw [hc]; exact htag
      · exact htags c hc
    · intro s
      obtain ⟨c, hws, hrs, hcs⟩ := hrest (to_u32 (s + n1))
      refine ⟨c, ?_, ?_, ?_⟩
      · intro nm attrs cs
        simp only [write_children, hw, tinyxml2.InsertEndChild, hws nm attrs (cs ++ [node]),
          List.append_assoc, List.singleton_append]
      · intro acc
        simp only [read_xml_each, hr, List.foldl_cons, hrs]
      · intro hlt
        simp only [XMLNode.element_count_list] at hlt ⊢
        have h1 := hc (by omega)
        have h2 : to_u32 (s + n1) = s + n1 := to_u32_of_lt _ (by omega)
        rw [h2] at hcs
        have h3 := hcs (by omega)
        simp only [List.map_cons, List.sum_cons]
        omega

theorem xml_slots_decoded (w : Val → XMLNode → WXml) (rd : Val → XMLNode → RXml)
    (tag : String) (refs : Val → Nat) (Q : Val → Val → Prop) (xs ds : List Val)
    (h : List.Forall₂ (fun x d => ∃ node n y, tinyxml2.has_tag tag node = true ∧
      (∀ e, w x e = (tinyxml2.InsertEndChild e node, .ok n)) ∧ rd d node = .ok (y, n) ∧ Q x y ∧
      (node.element_count < 2 ^ 32 → n + refs x = node.element_count)) xs ds) :
    ∃ nodes ys, (∀ c ∈ nodes, tinyxml2.has_tag tag c = true) ∧ List.Forall₂ Q xs ys ∧
      ∀ s, ∃ c,
        (∀ nm attrs cs, write_children w xs (.element nm attrs cs) s
          = (.element nm attrs (cs ++ nodes), .ok c)) ∧
        read_xml_slots rd ds nodes s = .ok (ys, c) ∧
        read_xml_slots_comma rd ds nodes s = .ok (ys, c) ∧
        (s + XMLNode.element_count_list nodes < 2 ^ 32 →
          c + (xs.map refs).sum = s + XMLNode.element_count_list nodes) := by
  induction h with
  | nil =>
    exact ⟨[], [], by simp, List.Forall₂.nil, fun s => ⟨s, fun nm attrs cs => by
      simp [write_children], rfl, rfl, fun _ => by simp [XMLNode.element_count_list]⟩⟩
  | cons hx _ ih =>
    obtain ⟨node, n1, y, htag, hw, hr, hq, hc⟩ := hx
    obtain ⟨nodes, ys, htags, hfa, hrest⟩ := ih
    refine ⟨node :: nodes, y :: ys, ?_, List.Forall₂.cons hq hfa, ?_⟩
    · intro c hc
      rcases List.mem_cons.mp hc with hc | hc
      · rw [hc]; exact htag
      · exact htags c hc
    · intro s
      obtain ⟨c, hws, hrs, hrc, hcs⟩ := hrest (to_u32 (s + n1))
      refine ⟨c, ?_, ?_, ?_, ?_⟩
      · intro nm attrs cs
        simp only [write_children, hw, tinyxml2.InsertEndChild, hws nm attrs (cs ++ [node]),
          List.append_assoc, List.singleton_append]
      · simp only [read_xml_slots, hr, hrs]
      · simp only [read_xml_slots_comma, hr, hrc]
      · intro hlt
        simp only [XMLNode.element_count_list] at hlt ⊢
        have h1 := hc (by omega)
        have h2 : to_u32 (s + n1) = s + n1 := to_u32_of_lt _ (by omega)
        rw [h2] at hcs
        have h3 := hcs (by omega)
        simp only [List.map_cons, List.sum_cons]
        omega

theorem xml_pair_decoded (wa wb : Val → String → XMLNode → WXml)
    (ra rb : Val → String → Option XMLNode → Bool → RXml) (x y dx dy : Val) (r1 r2 : Nat)
    (Pa Pb : Val → Prop)
    (ha : xml_decoded (wa x) (ra dx) Pa r1) (hb : xml_decoded (wb y) (rb dy) Pb r2)
    (hac : ∀ name nm r, ra dx name (some r) false
      = ra dx nm (tinyxml2.FirstChildElement r (c_str name)) true)
    (hbc : ∀ name nm r, rb dy name (some r) false
      = rb dy nm (tinyxml2.FirstChildElement r (c_str name)) true) :
    ∀ name, ∃ node n x1 y1, tinyxml2.has_tag (c_str name) node = true ∧
      (∀ root, write_xml_pair wa wb (.pair x y) name root
        = (tinyxml2.InsertEndChild root node, .ok n)) ∧
      read_xml_pair ra rb (.pair dx dy) (some node) = .ok (.pair x1 y1, n) ∧ Pa x1 ∧ Pb y1 ∧
      (node.element_count < 2 ^ 32 → n + (r1 + r2) = node.element_count) := by
  intro name
  obtain ⟨n1, c1, x1, ht1, hw1, hr1, hp1, hc1⟩ := ha "first"
  obtain ⟨n2, c2, y1, ht2, hw2, hr2, hp2, hc2⟩ := hb "second"
  rw [c_str_first] at ht1
  rw [c_str_second] at ht2
  refine ⟨.element (c_str name) [] [n1, n2], to_u32 (to_u32 (1 + c1) + c2), x1, y1,
    by simp [tinyxml2.has_tag], ?_, ?_, hp1, hp2, ?_⟩
  · intro root
    simp [write_xml_pair, hw1, hw2, tinyxml2.NewElement, tinyxml2.InsertEndChild]
  · have hne : tinyxml2.has_tag "second" n1 = false := by
      cases h : tinyxml2.has_tag "second" n1 with
      | false => rfl
      | true => exact absurd (has_tag_unique _ _ _ ht1 h) (by decide)
    have hf1 : tinyxml2.FirstChildElement (.element (c_str name) [] [n1, n2]) (c_str "first")
        = some n1 := by
      simp [tinyxml2.FirstChildElement, tinyxml2.children, List.find?, c_str_first, ht1]
    have hf2 : tinyxml2.FirstChildElement (.element (c_str name) [] [n1, n2]) (c_str "second")
        = some n2 := by
      simp [tinyxml2.FirstChildElement, tinyxml2.children, List.find?, c_str_second, hne, ht2]
    simp only [read_xml_pair, hac "first" "first", hbc "second" "second", hf1, hf2, hr1, hr2]
  · intro hlt
    simp only [XMLNode.element_count, XMLNode.element_count_list] at hlt ⊢
    have h1 := hc1 (by omega)
    have h2 := hc2 (by omega)
    rw [to_u32_of_lt (1 + c1) (by omega), to_u32_of_lt _ (by omega)]
    omega

theorem xml_wrapper_decoded (w : Val → String → XMLNode → WXml) (rd : Val → XMLNode → RXml)
    (d : Val) (ins : Val → List Val → List Val) (tag : String) (refs : Val → Nat)
    (Q : Val → Val → Prop) (xs : List Val)
    (h : ∀ x ∈ xs, ∃ node n y, tinyxml2.has_tag tag node = true ∧
      (∀ e, w x tag e = (tinyxml2.InsertEndChild e node, .ok n)) ∧ rd d node = .ok (y, n) ∧
      Q x y ∧ (node.element_count < 2 ^ 32 → n + refs x = node.element_count))
    (acc : List Val) :
    ∀ name, ∃ node n ys, tinyxml2.has_tag (c_str name) node = true ∧
      (∀ root, write_wrapper w tag xs name root = (tinyxml2.InsertEndChild root node, .ok n)) ∧
      read_wrapper rd tag d ins acc (some node)
        = .ok (.seq (ys.foldl (fun a x => ins x a) acc), n) ∧
      List.Forall₂ Q xs ys ∧
      (node.element_count < 2 ^ 32 → n + (xs.map refs).sum = node.element_count) := by
  intro name
  obtain ⟨nodes, ys, htags, hfa, hrest⟩ := xml_children_decoded (fun x e => w x tag e) rd d ins
    tag refs Q xs h
  obtain ⟨n, hw, hr, hc⟩ := hrest 1
  refine ⟨.element (c_str name) [] nodes, n, ys, by simp [tinyxml2.has_tag], ?_, ?_, hfa, ?_⟩
  · intro root
    simp only [write_wrapper, tinyxml2.NewElement, hw (c_str name) [] [], List.nil_append]
  · simp only [read_wrapper, element_run_of, element_run_all tag _ _ nodes htags, hr]
  · intro hlt
    simp only [XMLNode.element_count] at hlt ⊢
    exact hc hlt

theorem xml_wrapper_slots_decoded (w : Val → String → XMLNode → WXml)
    (rd : Val → XMLNode → RXml) (refs : Val → Nat) (Q : Val → Val → Prop) (xs ds : List Val)
    (h : List.Forall₂ (fun x d => ∃ node n y, tinyxml2.has_tag "element" node = true ∧
      (∀ e, w x "element" e = (tinyxml2.InsertEndChild e node, .ok n)) ∧
      rd d node = .ok (y, n) ∧ Q x y ∧
      (node.element_count < 2 ^ 32 → n + refs x = node.element_count)) xs ds) :
    ∀ name, ∃ node n nodes ys, tinyxml2.has_tag (c_str name) node = true ∧
      (∀ root, write_wrapper w "element" xs name root
        = (tinyxml2.InsertEndChild root node, .ok n)) ∧
      element_run_of (some node) "element" = .ok nodes ∧
      read_xml_slots rd ds nodes 1 = .ok (ys, n) ∧
      read_xml_slots_comma rd ds nodes 1 = .ok (ys, n) ∧
      List.Forall₂ Q xs ys ∧
      (node.element_count < 2 ^ 32 → n + (xs.map refs).sum = node.element_count) := by
  intro name
  obtain ⟨nodes, ys, htags, hfa, hrest⟩ := xml_slots_decoded (fun x e => w x "element" e) rd
    "element" refs Q xs ds h
  obtain ⟨n, hw, hr, hrc, hc⟩ := hrest 1
  refine ⟨.element (c_str name) [] nodes, n, nodes, ys, by simp [tinyxml2.has_tag], ?_, ?_, hr,
    hrc, hfa, ?_⟩
  · intro root
    simp only [write_wrapper, tinyxml2.NewElement, hw (c_str name) [] [], List.nil_append]
  · simp only [element_run_of, element_run_all "element" _ _ nodes htags]
  · intro hlt
    simp only [XMLNode.element_count] at hlt ⊢
    exact hc hlt

theorem fresh_destination : ∀ (T : Ty) (d : Val), fresh T d = true → destination T d = true := by
  intro T
  induction T with
  | array n t ih =>
    intro d h
    cases d <;> simp only [fresh, Bool.false_eq_true] at h
    simp only [Bool.and_eq_true, decide_eq_true_eq, List.all_eq_true] at h
    simp only [destination, Bool.and_eq_true, decide_eq_true_eq, List.all_eq_true]
    exact ⟨h.1, fun x hx => ih x (h.2 x hx)⟩
  | pair a b iha ihb =>
    intro d h
    cases d <;> simp only [fresh, Bool.false_eq_true] at h
    simp only [Bool.and_eq_true] at h
    simp only [destination, Bool.and_eq_true]
    exact ⟨iha _ h.1, ihb _ h.2⟩
  | _ => intro d h; cases d <;> simp [fresh] at h <;> simp [destination]

theorem encodable_not_cls (L : Limits) (E : Env) (T : Ty) (v : Val)
    (h : encodable L E T v = true) : ∀ c, T ≠ .cls c := by
  intro c hc
  subst hc
  cases v <;> simp [encodable] at h

theorem Limits.xml_leaves (E : Env) :
    (∀ (p : Prim) (n : Int) (nm : String), Limits.xml.arith p n = true →
      ∃ y, (if p.is_floating_point then
          read_val_fp E p (some (tinyxml2.SetAttribute (tinyxml2.NewElement nm) "val"
            (c_str (std_to_string E p n))))
        else
          read_val_int p (some (tinyxml2.SetAttribute (tinyxml2.NewElement nm) "val"
            (c_str (std_to_string E p n))))) = .ok (.num y, 1) ∧ (true = true → y = n)) ∧
    (∀ s, Limits.xml.text s = true → true = true → c_str s = s) ∧
    (∀ ns, Limits.xml.names ns = true → (ns.map c_str).Nodup) := by
  refine ⟨fun p n nm hv => ⟨n, ?_, fun _ => rfl⟩, fun s hs _ => ?_, fun ns hn => ?_⟩
  · simp only [Limits.xml, Bool.and_eq_true, Bool.not_eq_true'] at hv
    simp [hv.1.1, read_val_int, tinyxml2.SetAttribute,
      tinyxml2.NewElement, tinyxml2.Attribute, tinyxml2.set_attr, List.lookup, std_to_string,
      c_str_int_to_string, stoi_int_to_string n hv.2, Prim.of_int_eq p n hv.1.2]
  · simp only [Limits.xml, Bool.and_eq_true] at hs
    exact c_str_nul_free s hs.2
  · simpa [Limits.xml] using hn

theorem Limits.xml_count_leaves (E : Env) :
    (∀ (p : Prim) (n : Int) (nm : String), (Limits.xml_count E).arith p n = true →
      ∃ y, (if p.is_floating_point then
          read_val_fp E p (some (tinyxml2.SetAttribute (tinyxml2.NewElement nm) "val"
            (c_str (std_to_string E p n))))
        else
          read_val_int p (some (tinyxml2.SetAttribute (tinyxml2.NewElement nm) "val"
            (c_str (std_to_string E p n))))) = .ok (.num y, 1) ∧ (false = true → y = n)) ∧
    (∀ s, (Limits.xml_count E).text s = true → false = true → c_str s = s) ∧
    (∀ ns, (Limits.xml_count E).names ns = true → (ns.map c_str).Nodup) := by
  refine ⟨fun p n nm hv => ?_, fun s _ h => Bool.noConfusion h, fun ns hn => ?_⟩
  · simp only [Limits.xml_count, Bool.and_eq_true] at hv
    cases hp : p.is_floating_point with
    | true =>
      rw [hp] at hv
      simp only [if_true] at hv
      cases hs : E.stod p (c_str (E.to_string_fp p n)) with
      | error e => rw [hs] at hv; simp at hv
      | ok y =>
        refine ⟨y, ?_, fun h => Bool.noConfusion h⟩
        simp [read_val_fp, tinyxml2.SetAttribute, tinyxml2.NewElement, tinyxml2.Attribute,
          tinyxml2.set_attr, List.lookup, std_to_string, hp, hs]
    | false =>
      rw [hp] at hv
      simp only [Bool.false_eq_true, if_false] at hv
      refine ⟨p.of_int n, ?_, fun h => Bool.noConfusion h⟩
      simp [read_val_int, tinyxml2.SetAttribute, tinyxml2.NewElement,
        tinyxml2.Attribute, tinyxml2.set_attr, List.lookup, std_to_string, hp,
        c_str_int_to_string, stoi_int_to_string n hv.2]
  · simpa [Limits.xml_count] using hn

theorem xml_srl.xml_decoded_direct (E : Env)
    (R : type_info.Registry) (fuel : Nat) (L : Limits) (exact : Bool)
    (hE : exact = true → E.unordered_sound)
    (hnum : ∀ (p : Prim) (n : Int) (nm : String), L.arith p n = true →
      ∃ y, (if p.is_floating_point then
          read_val_fp E p (some (tinyxml2.SetAttribute (tinyxml2.NewElement nm) "val"
            (c_str (std_to_string E p n))))
        else
          read_val_int p (some (tinyxml2.SetAttribute (tinyxml2.NewElement nm) "val"
            (c_str (std_to_string E p n))))) = .ok (.num y, 1) ∧ (exact = true → y = n))
    (htext : ∀ s, L.text s = true → exact = true → c_str s = s) :
    ∀ (T : Ty) (v d : Val), encodable L E T v = true → destination T d = true →
      (exact = true → fresh T d = true) →
      xml_decoded (xml_srl.write_xml E R fuel T v) (xml_srl.read_xml E R fuel T d)
        (fun y => exact = true → same_object E T v y) v.reference_count := by
  intro T
  induction T with
  | arith p =>
    intro v d hv hd hdx name
    cases v <;> simp only [encodable, Bool.false_eq_true] at hv
    cases d <;> simp only [destination, Bool.false_eq_true] at hd
    rename_i n old
    obtain ⟨y, hy, hex⟩ := hnum p n (c_str name) hv
    refine ⟨tinyxml2.SetAttribute (tinyxml2.NewElement (c_str name)) "val"
      (c_str (std_to_string E p n)), 1, .num y, by simp [tinyxml2.SetAttribute,
        tinyxml2.NewElement, tinyxml2.has_tag], fun root => by simp only [xml_srl.write_xml],
      fun nm => ?_, fun hx => ?_, fun _ => rfl⟩
    · simp only [xml_srl.read_xml, locate, if_true]
      exact hy
    · rw [hex hx]
      simp only [same_object]
  | pointer t ih =>
    intro v d hv hd hdx name
    cases v <;> simp only [encodable, Bool.false_eq_true] at hv
    rename_i x
    obtain ⟨node, n, y, htag, hw, hr, hs, hc⟩ :=
      ih x (t.value_init E) hv (fresh_destination _ _ (encodable_fresh_init _ E t x hv).2)
        (fun _ => (encodable_fresh_init _ E t x hv).2) "object"
    refine ⟨.element (c_str name) [("type", "pointer")] [node], n, .ptr y,
      by simp [tinyxml2.has_tag], fun root => ?_, fun nm => ?_, fun hx => ?_, fun hlt => ?_⟩
    · simp [xml_srl.write_xml, hw, tinyxml2.SetAttribute, tinyxml2.NewElement,
        tinyxml2.InsertEndChild, tinyxml2.set_attr]
    · simp only [xml_srl.read_xml, locate, if_true,
        xml_srl.read_xml_child E R fuel t _ "object" "object" _ (encodable_not_cls _ E t x hv),
        first_child_one _ _ _ node htag, hr]
    · simp only [same_object]
      exact hs hx
    · simp only [XMLNode.element_count, XMLNode.element_count_list, Val.reference_count] at hlt ⊢
      have := hc (by omega)
      omega
  | unique_ptr t ih =>
    intro v d hv hd hdx name
    cases v <;> simp only [encodable, Bool.false_eq_true] at hv
    rename_i x
    obtain ⟨node, n, y, htag, hw, hr, hs, hc⟩ :=
      ih x (t.value_init E) hv (fresh_destination _ _ (encodable_fresh_init _ E t x hv).2)
        (fun _ => (encodable_fresh_init _ E t x hv).2) "object"
    refine ⟨.element (c_str name) [("type", "unique_ptr")] [node], n, .ptr y,
      by simp [tinyxml2.has_tag], fun root => ?_, fun nm => ?_, fun hx => ?_, fun hlt => ?_⟩
    · simp [xml_srl.write_xml, hw, tinyxml2.SetAttribute, tinyxml2.NewElement,
        tinyxml2.InsertEndChild, tinyxml2.set_attr]
    · simp only [xml_srl.read_xml, locate, if_true,
        xml_srl.read_xml_child E R fuel t _ "object" "object" _ (encodable_not_cls _ E t x hv),
        first_child_one _ _ _ node htag, hr]
    · simp only [same_object]
      exact hs hx
    · simp only [XMLNode.element_count, XMLNode.element_count_list, Val.reference_count] at hlt ⊢
      have := hc (by omega)
      omega
  | array k t ih =>
    intro v d hv hd hdx name
    cases v <;> simp only [encodable, Bool.false_eq_true] at hv
    cases d <;> simp only [destination, Bool.false_eq_true] at hd
    rename_i xs ds
    simp only [Bool.and_eq_true, decide_eq_true_eq] at hv hd
    obtain ⟨node, n, nodes, ys, htag, hw, hrun, hr, -, hfa, hc⟩ := xml_wrapper_slots_decoded
      (xml_srl.write_xml E R fuel t)
      (fun d c => xml_srl.read_xml E R fuel t d "element" (some c) true)
      Val.reference_count (fun x y => exact = true → same_object E t x y) xs ds
      (forall2_of_all _ (encodable L E t)
        (fun d => destination t d && (!exact || fresh t d)) xs ds (by omega) hv.2
        (by
          simp only [List.all_eq_true, Bool.and_eq_true, Bool.or_eq_true,
            Bool.not_eq_true'] at hd ⊢
          intro d0 hd0
          refine ⟨hd.2 d0 hd0, ?_⟩
          cases hex : exact with
          | false => exact Or.inl rfl
          | true =>
            have hfr := hdx hex
            simp only [fresh, Bool.and_eq_true, List.all_eq_true] at hfr
            exact Or.inr (hfr.2 d0 hd0))
        (fun x d hx hd => by
          simp only [Bool.and_eq_true, Bool.or_eq_true, Bool.not_eq_true'] at hd
          obtain ⟨node, n, y, htag, hw, hr, hs, hc⟩ := ih x d hx hd.1
            (fun hex => by
              rcases hd.2 with h | h
              · rw [hex] at h; cases h
              · exact h) "element"
          rw [c_str_element] at htag
          exact ⟨node, n, y, htag, hw, hr "element", hs, hc⟩)) name
    refine ⟨node, n, .seq ys, htag, fun root => ?_, fun nm => ?_, fun hx => ?_, fun hlt => ?_⟩
    · simp only [xml_srl.write_xml, hv.1, if_true, hw]
    · simp only [xml_srl.read_xml, hd.1, if_true, locate, hrun, hr]
    · simp only [same_object]
      exact (same_objects_iff E t xs ys).mpr (hfa.imp (fun _ _ h => h hx))
    · simp only [Val.reference_count, reference_count_list_eq]
      exact hc hlt
  | string =>
    intro v d hv hd hdx name
    cases v <;> simp only [encodable, Bool.false_eq_true] at hv
    rename_i s
    refine ⟨.element (c_str name) [] [.text (c_str s)], 1, .str (c_str s),
      by simp [tinyxml2.has_tag], fun root => ?_, fun nm => ?_, fun hx => ?_, fun _ => rfl⟩
    · simp [xml_srl.write_xml, tinyxml2.NewElement, tinyxml2.NewText, tinyxml2.InsertEndChild]
    · simp [xml_srl.read_xml, locate, read_text, tinyxml2.GetText, tinyxml2.children]
    · rw [htext s hv hx]
      simp only [same_object]
  | pair a b iha ihb =>
    intro v d hv hd hdx name
    cases v <;> simp only [encodable, Bool.false_eq_true] at hv
    cases d <;> simp only [destination, Bool.false_eq_true] at hd
    rename_i x y dx dy
    simp only [Bool.and_eq_true] at hv hd
    obtain ⟨node, n, x1, y1, htag, hw, hr, hp1, hp2, hc⟩ := xml_pair_decoded
      (xml_srl.write_xml E R fuel a)
      (xml_srl.write_xml E R fuel b) (xml_srl.read_xml E R fuel a) (xml_srl.read_xml E R fuel b)
      x y dx dy _ _ _ _
      (iha x dx hv.1 hd.1 (fun hex => by
        have := hdx hex
        simp only [fresh, Bool.and_eq_true] at this
        exact this.1))
      (ihb y dy hv.2 hd.2 (fun hex => by
        have := hdx hex
        simp only [fresh, Bool.and_eq_true] at this
        exact this.2))
      (fun name nm r => xml_srl.read_xml_child E R fuel a dx name nm r
        (encodable_not_cls _ E a x hv.1))
      (fun name nm r => xml_srl.read_xml_child E R fuel b dy name nm r
        (encodable_not_cls _ E b y hv.2))
      name
    refine ⟨node, n, .pair x1 y1, htag, fun root => ?_, fun nm => ?_, fun hx => ?_,
      fun hlt => ?_⟩
    · simp only [xml_srl.write_xml, hw]
    · simp only [xml_srl.read_xml, locate, if_true, hr]
    · simp only [same_object]
      exact ⟨hp1 hx, hp2 hx⟩
    · simp only [Val.reference_count, reference_count_list_eq]
      exact hc hlt
  | seq k t ih =>
    intro v d hv hd hdx name
    cases v <;> simp only [encodable, Bool.false_eq_true] at hv
    cases d <;> simp only [destination, Bool.false_eq_true] at hd
    rename_i xs ds
    simp only [Bool.and_eq_true, List.all_eq_true] at hv
    have hempty : exact = true → ds = [] := fun hex => by
      have := hdx hex
      simp only [fresh, List.isEmpty_iff] at this
      exact this
    obtain ⟨node, n, ys, htag, hw, hr, hfa, hc⟩ := xml_wrapper_decoded
      (xml_srl.write_xml E R fuel t)
      (fun d c => xml_srl.read_xml E R fuel t d "element" (some c) true) (t.default_init E)
      push_back "element" Val.reference_count
      (fun x y => exact = true → same_object E t x y) xs
      (fun x hx => by
        obtain ⟨node, n, y, htag, hw, hr, hs, hc⟩ :=
          ih x _ (hv.2 x hx)
            (fresh_destination _ _ (encodable_fresh_init _ E t x (hv.2 x hx)).1)
            (fun _ => (encodable_fresh_init _ E t x (hv.2 x hx)).1) "element"
        rw [c_str_element] at htag
        exact ⟨node, n, y, htag, hw, hr "element", hs, hc⟩) ds name
    refine ⟨node, n, .seq (ys.foldl (fun a x => push_back x a) ds), htag, fun root => ?_, fun nm => ?_,
      fun hx => ?_, fun hlt => ?_⟩
    · simp only [xml_srl.write_xml, hw]
    · simp only [xml_srl.read_xml, locate, if_true, hr]
    · rw [hempty hx]
      simp only [foldl_push_back, List.nil_append, same_object]
      exact (same_objects_iff E t xs ys).mpr (hfa.imp (fun _ _ h => h hx))
    · simp only [Val.reference_count, reference_count_list_eq]
      exact hc hlt
  | setc k t ih =>
    intro v d hv hd hdx name
    cases v <;> simp only [encodable, Bool.false_eq_true] at hv
    cases d <;> simp only [destination, Bool.false_eq_true] at hd
    rename_i xs ds
    simp only [Bool.and_eq_true, List.all_eq_true] at hv
    have hempty : exact = true → ds = [] := fun hex => by
      have := hdx hex
      simp only [fresh, List.isEmpty_iff] at this
      exact this
    obtain ⟨node, n, ys, htag, hw, hr, hfa, hc⟩ := xml_wrapper_decoded
      (xml_srl.write_xml E R fuel t)
      (fun d c => xml_srl.read_xml E R fuel t d "element" (some c) true) (t.default_init E)
      (set_kind_insert E k t) "element" Val.reference_count
      (fun x y => exact = true → same_object E t x y) xs
      (fun x hx => by
        obtain ⟨node, n, y, htag, hw, hr, hs, hc⟩ :=
          ih x _ (hv.1.1.2 x hx)
            (fresh_destination _ _ (encodable_fresh_init _ E t x (hv.1.1.2 x hx)).1)
            (fun _ => (encodable_fresh_init _ E t x (hv.1.1.2 x hx)).1) "element"
        rw [c_str_element] at htag
        exact ⟨node, n, y, htag, hw, hr "element", hs, hc⟩) ds name
    refine ⟨node, n, .seq (ys.foldl (fun a x => set_kind_insert E k t x a) ds), htag, fun root => ?_, fun nm => ?_,
      fun hx => ?_, fun hlt => ?_⟩
    · simp only [xml_srl.write_xml, hw]
    · simp only [xml_srl.read_xml, locate, if_true, hr]
    · rw [hempty hx]
      exact same_set_kind E (hE hx) k t xs ys hv.1.2 hv.2 (hfa.imp (fun _ _ h => h hx))
    · simp only [Val.reference_count, reference_count_list_eq]
      exact hc hlt
  | mapc k a b iha ihb =>
    intro v d hv hd hdx name
    cases v <;> simp only [encodable, Bool.false_eq_true] at hv
    cases d <;> simp only [destination, Bool.false_eq_true] at hd
    rename_i xs ds
    simp only [Bool.and_eq_true, List.all_eq_true] at hv
    have hempty : exact = true → ds = [] := fun hex => by
      have := hdx hex
      simp only [fresh, List.isEmpty_iff] at this
      exact this
    obtain ⟨node, n, ys, htag, hw, hr, hfa, hc⟩ := xml_wrapper_decoded
      (write_xml_pair (xml_srl.write_xml E R fuel a) (xml_srl.write_xml E R fuel b))
      (fun d c => read_xml_pair (xml_srl.read_xml E R fuel a) (xml_srl.read_xml E R fuel b) d
        (some c))
      ((Ty.pair a b).default_init E) (map_kind_insert E k a b) "element"
      Val.reference_count (fun x y => exact = true → same_object E (.pair a b) x y) xs
      (fun x hx => by
        have hx1 := hv.1.2 x hx
        cases x <;> simp only [Bool.false_eq_true] at hx1
        rename_i x y
        simp only [Bool.and_eq_true] at hx1
        obtain ⟨node, n, x1, y1, htag, hw, hr, hp1, hp2, hc⟩ := xml_pair_decoded
          (xml_srl.write_xml E R fuel a)
          (xml_srl.write_xml E R fuel b) (xml_srl.read_xml E R fuel a)
          (xml_srl.read_xml E R fuel b) x y (a.value_init E) (b.value_init E) _ _ _ _
          (iha x _ hx1.1.1 (fresh_destination _ _ (encodable_fresh_init _ E a x hx1.1.1).2)
            (fun _ => (encodable_fresh_init _ E a x hx1.1.1).2))
          (ihb y _ hx1.1.2 (fresh_destination _ _ (encodable_fresh_init _ E b y hx1.1.2).2)
            (fun _ => (encodable_fresh_init _ E b y hx1.1.2).2))
          (fun name nm r => xml_srl.read_xml_child E R fuel a _ name nm r
            (encodable_not_cls _ E a x hx1.1.1))
          (fun name nm r => xml_srl.read_xml_child E R fuel b _ name nm r
            (encodable_not_cls _ E b y hx1.1.2))
          "element"
        rw [c_str_element] at htag
        refine ⟨node, n, .pair x1 y1, htag, hw, by simpa [Ty.default_init] using hr,
          fun hx => ?_, by simpa only [Val.reference_count] using hc⟩
        simp only [same_object]
        exact ⟨hp1 hx, hp2 hx⟩) ds name
    refine ⟨node, n, .seq (ys.foldl (fun acc x => map_kind_insert E k a b x acc) ds), htag, fun root => ?_, fun nm => ?_,
      fun hx => ?_, fun hlt => ?_⟩
    · simp only [xml_srl.write_xml, hw]
    · simp only [xml_srl.read_xml, locate, if_true, hr]
    · rw [hempty hx]
      refine same_map_kind E (hE hx) k a b xs ys (fun x hxm => ?_) hv.2
        (hfa.imp (fun _ _ h => h hx))
      have hx1 := hv.1.2 x hxm
      cases x <;> simp only [Bool.false_eq_true] at hx1
      simp only [Bool.and_eq_true] at hx1
      exact hx1.2
    · simp only [Val.reference_count, reference_count_list_eq]
      exact hc hlt
  | adaptor k t _ => intro v d hv; cases v <;> simp [encodable] at hv
  | cls n => intro v d hv; cases v <;> simp [encodable] at hv
  | enum n => intro v d hv; cases v <;> simp [encodable] at hv

/-! ## Text decoding through the stored closures, up to equality of objects -/

namespace type_info

theorem read_xml_members_decoded (E : Env) (T : Ty)
    (w : Ty → Val → String → XMLNode → WXml)
    (rd : Ty → Val → String → Option XMLNode → Bool → RXml) (Q : Ty → Val → Val → Prop)
    (fs : List Val)
    (hrd : ∀ t d name nm r, rd t d name (some r) false
      = rd t d nm (tinyxml2.FirstChildElement r (c_str name)) true) :
    ∀ (ms : List memberPair) (cur : List Val),
      (ms.map (fun m => E.member_index T m.offset m.typenm)).Nodup →
      (ms.map (fun m => c_str m.name)).Nodup →
      (∀ m ∈ ms, ∃ i x d, E.member_index T m.offset m.typenm = some i ∧ fs[i]? = some x ∧
        cur[i]? = some d ∧
        xml_decoded (w m.typenm x) (rd m.typenm d) (Q m.typenm x) x.reference_count) →
      ∃ nodes gs, gs.length = cur.length ∧
        (∀ m ∈ ms, ∀ i, E.member_index T m.offset m.typenm = some i →
          ∃ x y, fs[i]? = some x ∧ gs[i]? = some y ∧ Q m.typenm x y) ∧
        (∀ j, some j ∉ ms.map (fun m => E.member_index T m.offset m.typenm) →
          gs[j]? = cur[j]?) ∧
        ∀ s, ∃ c,
        (∀ nm attrs cs, write_children (write_xml_member E T w (.obj fs)) ms
          (.element nm attrs cs) s = (.element nm attrs (cs ++ nodes), .ok c)) ∧
        (∀ nm attrs pre,
          (∀ c ∈ pre, ∀ m ∈ ms, tinyxml2.has_tag (c_str m.name) c = false) →
          read_xml_members E T rd (some (.element nm attrs (pre ++ nodes))) ms (.obj cur) s
            = .ok (.obj gs, c)) ∧
        (s + XMLNode.element_count_list nodes < 2 ^ 32 →
          c + (ms.map (fun m => match E.member_index T m.offset m.typenm with
              | some i => (fs.getD i .null).reference_count
              | none => 0)).sum = s + XMLNode.element_count_list nodes) := by
  intro ms
  induction ms with
  | nil =>
    intro cur _ _ _
    exact ⟨[], cur, rfl, by simp, fun j _ => rfl, fun s => ⟨s, fun nm attrs cs => by
      simp [write_children], fun nm attrs pre _ => rfl,
      fun _ => by simp [XMLNode.element_count_list]⟩⟩
  | cons m ms ih =>
    intro cur hnd hnn h
    obtain ⟨i, x, d, hi, hx, hd, hrt⟩ := h m (List.mem_cons_self _ _)
    obtain ⟨node, n1, y, htag, hw, hr, hq, hcnt⟩ := hrt m.name
    simp only [List.map_cons, List.nodup_cons] at hnd hnn
    have hrest : ∀ m1 ∈ ms, ∃ i1 x1 d1, E.member_index T m1.offset m1.typenm = some i1 ∧
        fs[i1]? = some x1 ∧ (cur.set i y)[i1]? = some d1 ∧
        xml_decoded (w m1.typenm x1) (rd m1.typenm d1) (Q m1.typenm x1) x1.reference_count := by
      intro m1 hm1
      obtain ⟨i1, x1, d1, hi1, hx1, hd1, hrt1⟩ := h m1 (List.mem_cons_of_mem _ hm1)
      have hne : i ≠ i1 := by
        intro heq
        apply hnd.1
        rw [hi, heq, ← hi1]
        exact List.mem_map_of_mem _ hm1
      exact ⟨i1, x1, d1, hi1, hx1, by simp [List.getElem?_set, hne, hd1], hrt1⟩
    obtain ⟨nodes, gs, hlen, hmem, hout, hall⟩ := ih (cur.set i y) hnd.2 hnn.2 hrest
    have hilt : i < cur.length := by
      rcases Nat.lt_or_ge i cur.length with hlt | hge
      · exact hlt
      · rw [List.getElem?_eq_none hge] at hd
        cases hd
    refine ⟨node :: nodes, gs, by simpa using hlen, ?_, ?_, fun s => ?_⟩
    · intro m1 hm1 i1 hi1
      rcases List.mem_cons.mp hm1 with heq | hm1
      · rw [heq] at hi1
        rw [hi] at hi1
        cases hi1
        refine ⟨x, y, hx, ?_, by rw [heq]; exact hq⟩
        rw [hout i (by rw [← hi]; exact hnd.1)]
        simp [List.getElem?_set, hilt]
      · exact hmem m1 hm1 i1 hi1
    · intro j hj
      simp only [List.map_cons, List.mem_cons, not_or] at hj
      rw [hout j hj.2]
      have : i ≠ j := fun heq => hj.1 (by rw [hi, heq])
      simp [List.getElem?_set, this]
    obtain ⟨c, hws, hrs, hcs⟩ := hall (to_u32 (s + n1))
    have hgd : fs.getD i .null = x := by simp [List.getD, hx]
    refine ⟨c, ?_, ?_, ?_⟩
    · intro nm attrs cs
      simp only [write_children, write_xml_member, member, hi, hx, hw, tinyxml2.InsertEndChild,
        hws nm attrs (cs ++ [node]), List.append_assoc, List.singleton_append]
    · intro nm attrs pre hpre
      have hpre2 : ∀ c ∈ pre ++ [node], ∀ m1 ∈ ms, tinyxml2.has_tag (c_str m1.name) c = false := by
        intro c hc m1 hm1
        rcases List.mem_append.mp hc with hc | hc
        · exact hpre c hc m1 (List.mem_cons_of_mem _ hm1)
        · simp only [List.mem_singleton] at hc
          subst hc
          cases hh : tinyxml2.has_tag (c_str m1.name) c with
          | false => rfl
          | true =>
            exfalso
            apply hnn.1
            rw [has_tag_unique _ _ _ htag hh]
            exact List.mem_map_of_mem (fun m => c_str m.name) hm1
      have hc2 := hrs nm attrs (pre ++ [node]) hpre2
      have hfind : tinyxml2.FirstChildElement (.element nm attrs (pre ++ node :: nodes))
          (c_str m.name) = some node := by
        simp only [tinyxml2.FirstChildElement, tinyxml2.children]
        exact find_tag_append _ pre nodes node
          (fun c hc => hpre c hc m (List.mem_cons_self _ _)) htag
      simp only [read_xml_members, member, hi, hd, hrd _ _ m.name m.name, hfind, hr,
        Val.set_field]
      simpa using hc2
    · intro hlt
      simp only [XMLNode.element_count_list] at hlt ⊢
      have h1 := hcnt (by omega)
      have h2 : to_u32 (s + n1) = s + n1 := to_u32_of_lt _ (by omega)
      rw [h2] at hcs
      have h3 := hcs (by omega)
      simp only [List.map_cons, List.sum_cons, hi, hgd]
      omega

theorem reg_fresh_destination (E : Env) (R : Registry) :
    ∀ (k : Nat) (T : Ty) (d : Val), reg_fresh E R k T d = true →
      reg_destination E R k T d = true := by
  intro k
  induction k with
  | zero => intro T d h; simp [reg_fresh] at h
  | succ k ih =>
    intro T d h
    cases T <;> cases d <;> simp only [reg_fresh, Bool.false_eq_true] at h <;>
      simp only [reg_destination]
    case array.seq n t ds =>
      simp only [Bool.and_eq_true, List.all_eq_true] at h ⊢
      exact ⟨h.1, fun x hx => ih t x (h.2 x hx)⟩
    case pair.pair a b x y =>
      simp only [Bool.and_eq_true] at h ⊢
      exact ⟨ih a x h.1, ih b y h.2⟩
    case cls.obj c ds =>
      simp only [Bool.and_eq_true, List.all_eq_true] at h ⊢
      refine ⟨h.1, fun m hm => ?_⟩
      have := h.2 m hm
      revert this
      cases E.member_index (Ty.cls c) m.offset m.typenm with
      | none => simp
      | some i =>
        simp only
        cases ds[i]? with
        | none => simp
        | some f => exact ih m.typenm f

theorem xml_decoded_registered (E : Env) (R : Registry) (K : Nat)
    (hK : ctors_fresh E R K = true) (L : Limits) (exact : Bool)
    (hE : exact = true → E.unordered_sound)
    (hnum : ∀ (p : Prim) (n : Int) (nm : String), L.arith p n = true →
      ∃ y, (if p.is_floating_point then
          read_val_fp E p (some (tinyxml2.SetAttribute (tinyxml2.NewElement nm) "val"
            (c_str (std_to_string E p n))))
        else
          read_val_int p (some (tinyxml2.SetAttribute (tinyxml2.NewElement nm) "val"
            (c_str (std_to_string E p n))))) = .ok (.num y, 1) ∧ (exact = true → y = n))
    (htext : ∀ s, L.text s = true → exact = true → c_str s = s)
    (hnames : ∀ ns, L.names ns = true → (ns.map c_str).Nodup) :
    ∀ (n : Nat) (T : Ty) (v : Val), reg_encodable L E R n T v = true →
      ∀ (k : Nat) (d : Val), reg_destination E R k T d = true →
        (exact = true → reg_fresh E R k T d = true) → ∀ f, n ≤ f →
        xml_decoded (writer_xml E R f T v) (reader_xml E R f T d)
          (fun y => exact = true → same_object E T v y) v.reference_count := by
  intro n
  induction n with
  | zero => intro T v h; simp [reg_encodable] at h
  | succ n ih =>
    intro T v hv k d hd hdx f hf
    obtain ⟨f, rfl⟩ : ∃ f1, f = f1 + 1 := ⟨f - 1, by omega⟩
    have hf1 : n ≤ f := by omega
    cases k with
    | zero => simp [reg_destination] at hd
    | succ k =>
    simp only [reg_encodable, Bool.and_eq_true] at hv
    obtain ⟨hhas, hv⟩ := hv
    obtain ⟨-, -, hwx, hrx⟩ := (Registry.has_iff R T).mp hhas
    intro name
    cases T <;> cases v <;> (try simp only [Bool.false_eq_true] at hv)
    case arith.num p x =>
      cases d <;> simp only [reg_destination, Bool.false_eq_true] at hd
      rename_i old
      obtain ⟨y, hy, hex⟩ := hnum p x (c_str name) hv
      refine ⟨tinyxml2.SetAttribute (tinyxml2.NewElement (c_str name)) "val"
        (c_str (std_to_string E p x)), 1, .num y, by simp [tinyxml2.SetAttribute,
          tinyxml2.NewElement, tinyxml2.has_tag], fun root => by simp [writer_xml, hwx],
        fun nm => ?_, fun hx => ?_, fun _ => rfl⟩
      · simp only [reader_xml, hrx, not_true_eq_false, if_false, locate, if_true]
        exact hy
      · rw [hex hx]
        simp only [same_object]
    case string.str s =>
      cases d <;> simp only [reg_destination, Bool.false_eq_true] at hd
      refine ⟨.element (c_str name) [] [.text (c_str s)], 1, .str (c_str s),
        by simp [tinyxml2.has_tag], fun root => ?_, fun nm => ?_, fun hx => ?_, fun _ => rfl⟩
      · simp [writer_xml, hwx, tinyxml2.NewElement, tinyxml2.NewText, tinyxml2.InsertEndChild]
      · simp [reader_xml, hrx, locate, read_text, tinyxml2.GetText, tinyxml2.children]
      · rw [htext s hv hx]
        simp only [same_object]
    case unique_ptr.ptr t x =>
      obtain ⟨k1, -, hk1⟩ := reg_encodable_fresh_init _ E R K hK n t x hv
      obtain ⟨node, c, y, htag, hw, hr, hs, hc⟩ :=
        ih t x hv k1 _ (reg_fresh_destination E R k1 _ _ hk1) (fun _ => hk1) f hf1 "object"
      refine ⟨.element (c_str name) [("type", "unique_ptr")] [node], c, .ptr y,
        by simp [tinyxml2.has_tag], fun root => ?_, fun nm => ?_, fun hx => ?_, fun hlt => ?_⟩
      · simp [writer_xml, hwx, hw, tinyxml2.SetAttribute, tinyxml2.NewElement,
          tinyxml2.InsertEndChild, tinyxml2.set_attr]
      · simp only [reader_xml, hrx, not_true_eq_false, if_false, locate, if_true,
          reader_xml_child E R f t _ "object" "object", first_child_one _ _ _ node htag, hr]
      · simp only [same_object]
        exact hs hx
      · simp only [XMLNode.element_count, XMLNode.element_count_list, Val.reference_count]
          at hlt ⊢
        have := hc (by omega)
        omega
    case array.seq m t xs =>
      cases d <;> simp only [reg_destination, Bool.false_eq_true] at hd
      rename_i ds
      simp only [Bool.and_eq_true, decide_eq_true_eq] at hv hd
      obtain ⟨node, c, nodes, ys, htag, hw, hrun, -, hr, hfa, hc⟩ := xml_wrapper_slots_decoded
        (writer_xml E R f t)
        (fun d c => reader_xml E R f t d "element" (some c) true) Val.reference_count
        (fun x y => exact = true → same_object E t x y) xs ds
        (forall2_of_all _ (reg_encodable L E R n t)
          (fun d => reg_destination E R k t d && (!exact || reg_fresh E R k t d)) xs ds
          (by omega) hv.2
          (by
            simp only [List.all_eq_true, Bool.and_eq_true, Bool.or_eq_true,
              Bool.not_eq_true'] at hd ⊢
            intro d0 hd0
            refine ⟨hd.2 d0 hd0, ?_⟩
            cases hex : exact with
            | false => exact Or.inl rfl
            | true =>
              have hfr := hdx hex
              simp only [reg_fresh, Bool.and_eq_true, List.all_eq_true] at hfr
              exact Or.inr (hfr.2 d0 hd0))
          (fun x d hx hd => by
            simp only [Bool.and_eq_true, Bool.or_eq_true, Bool.not_eq_true'] at hd
            obtain ⟨node, n, y, htag, hw, hr, hs, hc⟩ := ih t x hx k d hd.1
              (fun hex => by
                rcases hd.2 with h | h
                · rw [hex] at h; cases h
                · exact h) f hf1 "element"
            rw [c_str_element] at htag
            exact ⟨node, n, y, htag, hw, hr "element", hs, hc⟩)) name
      refine ⟨node, c, .seq ys, htag, fun root => ?_, fun nm => ?_, fun hx => ?_, fun hlt => ?_⟩
      · simp only [writer_xml, hwx, not_true_eq_false, if_false, hv.1, if_true, hw]
      · simp only [reader_xml, hrx, not_true_eq_false, if_false, hd.1, if_true, locate, hrun, hr]
      · simp only [same_object]
        exact (same_objects_iff E t xs ys).mpr (hfa.imp (fun _ _ h => h hx))
      · simp only [Val.reference_count, reference_count_list_eq]
        exact hc hlt
    case pair.pair a b x y =>
      cases d <;> simp only [reg_destination, Bool.false_eq_true] at hd
      rename_i dx dy
      simp only [Bool.and_eq_true] at hv hd
      obtain ⟨node, c, x1, y1, htag, hw, hr, hp1, hp2, hc⟩ := xml_pair_decoded
        (writer_xml E R f a)
        (writer_xml E R f b) (reader_xml E R f a) (reader_xml E R f b)
        x y dx dy _ _ _ _
        (ih a x hv.1 k dx hd.1 (fun hex => by
          have := hdx hex
          simp only [reg_fresh, Bool.and_eq_true] at this
          exact this.1) f hf1)
        (ih b y hv.2 k dy hd.2 (fun hex => by
          have := hdx hex
          simp only [reg_fresh, Bool.and_eq_true] at this
          exact this.2) f hf1)
        (fun name nm r => reader_xml_child E R f a dx name nm r)
        (fun name nm r => reader_xml_child E R f b dy name nm r)
        name
      refine ⟨node, c, .pair x1 y1, htag, fun root => ?_, fun nm => ?_, fun hx => ?_,
        fun hlt => ?_⟩
      · simp only [writer_xml, hwx, not_true_eq_false, if_false, hw]
      · simp only [reader_xml, hrx, not_true_eq_false, if_false, locate, if_true, hr]
      · simp only [same_object]
        exact ⟨hp1 hx, hp2 hx⟩
      · simp only [Val.reference_count]
        exact hc hlt
    case seq.seq sk t xs =>
      cases d <;> simp only [reg_destination, Bool.false_eq_true] at hd
      rename_i ds
      simp only [Bool.and_eq_true, List.all_eq_true] at hv
      have hempty : exact = true → ds = [] := fun hex => by
        have := hdx hex
        simp only [reg_fresh, List.isEmpty_iff] at this
        exact this
      obtain ⟨node, c, ys, htag, hw, hr, hfa, hc⟩ := xml_wrapper_decoded (writer_xml E R f t)
        (fun d c => reader_xml E R f t d "element" (some c) true) (t.default_init E)
        push_back "element" Val.reference_count
        (fun x y => exact = true → same_object E t x y) xs
        (fun x hx => by
          obtain ⟨k1, hk1, -⟩ := reg_encodable_fresh_init _ E R K hK n t x (hv.2 x hx)
          obtain ⟨node, n, y, htag, hw, hr, hs, hc⟩ := ih t x (hv.2 x hx) k1 _
            (reg_fresh_destination E R k1 _ _ hk1) (fun _ => hk1) f hf1 "element"
          rw [c_str_element] at htag
          exact ⟨node, n, y, htag, hw, hr "element", hs, hc⟩) ds name
      refine ⟨node, c, .seq (ys.foldl (fun a x => push_back x a) ds), htag, fun root => ?_,
        fun nm => ?_, fun hx => ?_, fun hlt => ?_⟩
      · simp only [writer_xml, hwx, not_true_eq_false, if_false, hw]
      · simp only [reader_xml, hrx, not_true_eq_false, if_false, locate, if_true, hr]
      · rw [hempty hx]
        simp only [foldl_push_back, List.nil_append, same_object]
        exact (same_objects_iff E t xs ys).mpr (hfa.imp (fun _ _ h => h hx))
      · simp only [Val.reference_count, reference_count_list_eq]
        exact hc hlt
    case setc.seq sk t xs =>
      cases d <;> simp only [reg_destination, Bool.false_eq_true] at hd
      rename_i ds
      simp only [Bool.and_eq_true, List.all_eq_true] at hv
      have hempty : exact = true → ds = [] := fun hex => by
        have := hdx hex
        simp only [reg_fresh, List.isEmpty_iff] at this
        exact this
      obtain ⟨node, c, ys, htag, hw, hr, hfa, hc⟩ := xml_wrapper_decoded (writer_xml E R f t)
        (fun d c => reader_xml E R f t d "element" (some c) true) (t.default_init E)
        (set_kind_insert E sk t) "element" Val.reference_count
        (fun x y => exact = true → same_object E t x y) xs
        (fun x hx => by
          obtain ⟨k1, hk1, -⟩ := reg_encodable_fresh_init _ E R K hK n t x (hv.1.1.2 x hx)
          obtain ⟨node, n, y, htag, hw, hr, hs, hc⟩ :=
            ih t x (hv.1.1.2 x hx) k1 _ (reg_fresh_destination E R k1 _ _ hk1) (fun _ => hk1)
              f hf1 "element"
          rw [c_str_element] at htag
          exact ⟨node, n, y, htag, hw, hr "element", hs, hc⟩) ds name
      refine ⟨node, c, .seq (ys.foldl (fun a x => set_kind_insert E sk t x a) ds), htag,
        fun root => ?_, fun nm => ?_, fun hx => ?_, fun hlt => ?_⟩
      · simp only [writer_xml, hwx, not_true_eq_false, if_false, hw]
      · simp only [reader_xml, hrx, not_true_eq_false, if_false, locate, if_true, hr]
      · rw [hempty hx]
        exact same_set_kind E (hE hx) sk t xs ys hv.1.2 hv.2 (hfa.imp (fun _ _ h => h hx))
      · simp only [Val.reference_count, reference_count_list_eq]
        exact hc hlt
    case mapc.seq mk a b xs =>
      cases d <;> simp only [reg_destination, Bool.false_eq_true] at hd
      rename_i ds
      simp only [Bool.and_eq_true, List.all_eq_true] at hv
      have hempty : exact = true → ds = [] := fun hex => by
        have := hdx hex
        simp only [reg_fresh, List.isEmpty_iff] at this
        exact this
      obtain ⟨node, c, ys, htag, hw, hr, hfa, hc⟩ := xml_wrapper_decoded
        (writer_xml E R f (.pair a b))
        (fun d c => reader_xml E R f (.pair a b) d "element_pair" (some c) true)
        ((Ty.pair a b).default_init E) (map_kind_insert E mk a b) "element_pair"
        Val.reference_count (fun x y => exact = true → same_object E (.pair a b) x y) xs
        (fun x hx => by
          obtain ⟨k1, hk1, -⟩ :=
            reg_encodable_fresh_init _ E R K hK n (.pair a b) x (hv.1.1.2 x hx)
          obtain ⟨node, n, y, htag, hw, hr, hs, hc⟩ :=
            ih (.pair a b) x (hv.1.1.2 x hx) k1 _ (reg_fresh_destination E R k1 _ _ hk1)
              (fun _ => hk1) f hf1 "element_pair"
          rw [c_str_element_pair] at htag
          exact ⟨node, n, y, htag, hw, hr "element_pair", hs, hc⟩) ds name
      refine ⟨node, c, .seq (ys.foldl (fun acc x => map_kind_insert E mk a b x acc) ds), htag,
        fun root => ?_, fun nm => ?_, fun hx => ?_, fun hlt => ?_⟩
      · simp only [writer_xml, hwx, not_true_eq_false, if_false, hw]
      · simp only [reader_xml, hrx, not_true_eq_false, if_false, locate, if_true, hr]
      · rw [hempty hx]
        exact same_map_kind E (hE hx) mk a b xs ys hv.1.2 hv.2 (hfa.imp (fun _ _ h => h hx))
      · simp only [Val.reference_count, reference_count_list_eq]
        exact hc hlt
    case cls.obj c fs =>
      cases d <;> simp only [reg_destination, Bool.false_eq_true] at hd
      rename_i ds
      simp only [Bool.and_eq_true, decide_eq_true_eq, List.all_eq_true] at hv hd
      obtain ⟨⟨⟨⟨⟨⟨hlen, -⟩, hnm⟩, hnames1⟩, hnd⟩, hcov⟩, hmem⟩ := hv
      have hnames2 := hnames _ hnames1
      simp only [List.map_map] at hnames2
      have hms : ∀ m ∈ R.members (.cls c), ∃ i x d,
          E.member_index (.cls c) m.offset m.typenm = some i ∧
          fs[i]? = some x ∧ ds[i]? = some d ∧
          xml_decoded (writer_xml E R f m.typenm x) (reader_xml E R f m.typenm d)
            (fun y => exact = true → same_object E m.typenm x y) x.reference_count := by
        intro m hm
        have h1 := hmem m hm
        have h2 := hd.2 m hm
        revert h1 h2
        cases hmi : E.member_index (.cls c) m.offset m.typenm with
        | none => simp
        | some i =>
          simp only
          cases hfi : fs[i]? with
          | none => simp
          | some x =>
            cases hdi : ds[i]? with
            | none => simp
            | some d0 =>
              intro h1 h2
              refine ⟨i, x, d0, rfl, hfi, hdi, ih m.typenm x h1 k d0 h2 (fun hex => ?_) f hf1⟩
              have hfr := hdx hex
              simp only [reg_fresh, Bool.and_eq_true, List.all_eq_true] at hfr
              have h3 := hfr.2 m hm
              rw [hmi] at h3
              simp only [hdi] at h3
              exact h3
      obtain ⟨nodes, gs, hglen, hgmem, -, hall⟩ := read_xml_members_decoded E (.cls c)
        (writer_xml E R f) (reader_xml E R f)
        (fun t x y => exact = true → same_object E t x y) fs
        (fun t d name nm r => reader_xml_child E R f t d name nm r)
        (R.members (.cls c)) ds hnd hnames2 hms
      obtain ⟨display, hdisp⟩ : ∃ display, R.type_name_map.lookup (.cls c) = some display :=
        Option.isSome_iff_exists.mp hnm
      obtain ⟨c1, hws, hrs, hcs⟩ := hall 1
      have hc2 := hrs (c_str name) [("type", c_str display)] [] (by simp)
      refine ⟨.element (c_str name) [("type", c_str display)] nodes, c1, .obj gs,
        by simp [tinyxml2.has_tag], fun root => ?_, fun nm => ?_, fun hx => ?_, fun hlt => ?_⟩
      · simp [writer_xml, hwx, GetName, hdisp, tinyxml2.SetAttribute, tinyxml2.NewElement,
          tinyxml2.set_attr, hws (c_str name) [("type", c_str display)] []]
      · simp only [reader_xml, hrx, not_true_eq_false, if_false, locate, if_true]
        simp only [List.nil_append] at hc2
        rw [hc2]
      · simp only [same_object]
        refine same_fields_of_getElem E fs _ gs (by simp [hlen]) (by omega) ?_
        intro i t x y ht hxi hy
        have hi : i < fs.length := by
          rcases Nat.lt_or_ge i fs.length with hlt | hge
          · exact hlt
          · rw [List.getElem?_eq_none hge] at hxi
            cases hxi
        have hin := hcov i (List.mem_range.mpr hi)
        simp only [Registry.member_indices, List.mem_map] at hin
        obtain ⟨m, hm, hmi⟩ := hin
        obtain ⟨x1, y1, hx1, hy1, hq⟩ := hgmem m hm i hmi
        rw [hxi] at hx1
        rw [hy] at hy1
        cases hx1
        cases hy1
        have hl := member_index_layout E (.cls c) m.offset m.typenm i hmi
        simp only [List.getElem?_map, hl, Option.map_some', Option.some.injEq] at ht
        rw [← ht]
        exact hq hx
      · simp only [XMLNode.element_count] at hlt ⊢
        have hsum := members_sum (fun m => E.member_index (.cls c) m.offset m.typenm)
          (R.members (.cls c)) fs Val.reference_count hnd
          (fun i hi => by
            have := hcov i (List.mem_range.mpr hi)
            simpa [Registry.member_indices] using this)
          (fun m hm => by
            obtain ⟨i, x, d0, hi, hx, -, -⟩ := hms m hm
            refine ⟨i, hi, ?_⟩
            by_contra hge
            rw [List.getElem?_eq_none (by omega)] at hx
            cases hx)
        have h3 := hcs hlt
        simp only [Val.reference_count, reference_count_list_eq]
        rw [← hsum]
        exact h3

end type_info

/-! ## Round trips over every container kind, and the node count -/

theorem main_cpp_unordered_sound : main_cpp.E.unordered_sound :=
  ⟨fun _ _ _ _ => List.Perm.refl _, fun _ _ _ _ _ => List.Perm.refl _⟩

theorem xml_decoded_by_name (w : String → XMLNode → WXml)
    (rd : String → Option XMLNode → Bool → RXml) (P : Val → Prop) (refs : Nat)
    (h : xml_decoded w rd P refs)
    (hc : ∀ name nm r, rd name (some r) false
      = rd nm (tinyxml2.FirstChildElement r (c_str name)) true)
    (name : String) (root : XMLNode) (hroot : no_child_tagged name root = true) :
    ∃ node n y, w name root = (tinyxml2.InsertEndChild root node, .ok n) ∧
      rd name (some (tinyxml2.InsertEndChild root node)) false = .ok (y, n) ∧ P y ∧
      (node.element_count < 2 ^ 32 → n + refs = node.element_count) := by
  obtain ⟨node, n, y, htag, hw, hr, hp, hcnt⟩ := h name
  refine ⟨node, n, y, hw root, ?_, hp, hcnt⟩
  rw [hc name name, first_child_inserted name root node hroot htag, hr]

/-- C2 (amended): for every Record type registered with `RegisterStruct`, whose member list
names each data member once, and every instance `r` built from arithmetic primitives, Text
shorter than `2^31`, FixedArray, owning references to an object, previously registered
Records, and Sequence, Set and Map of every kind with fewer than `2^31` elements each,
`bin_srl::write_bin` returns normally and `bin_srl::read_bin`, run on the emitted bytes
into a default-constructed instance (one whose containers are empty), yields an instance
whose every field equals the corresponding field of `r` (the elements of an unordered
container in any order), identical to `r` when `r` holds no unordered container. -/
theorem C2_binary_round_trip_records (E : Env) (R : type_info.Registry) (K n k fuel : Nat)
    (c : String) (r d : Val) (rest : List Byte) (hE : E.unordered_sound)
    (hK : type_info.ctors_fresh E R K = true)
    (hr : type_info.reg_encodable Limits.bin_registered E R n (.cls c) r = true)
    (hd : type_info.reg_fresh E R k (.cls c) d = true) (hf : n ≤ fuel) :
    ∃ bs cw w cr, bin_srl.write_bin E R fuel (.cls c) r = (bs, .ok cw) ∧
      bin_srl.read_bin E R fuel (.cls c) d (ifstream.mk (bs ++ rest) true)
        = .ok (w, cr, ifstream.mk rest true) ∧
      same_object E (.cls c) r w ∧ (ordered_only E (.cls c) r = true → w = r) := by
  obtain ⟨-, hwb, hrb, -, -⟩ := type_info.reg_encodable_has _ E R n _ r hr
  obtain ⟨bs, cw, hw, hrd⟩ :=
    type_info.bin_decoded_registered E hE R K hK n _ r hr k d hd fuel hf
  obtain ⟨w, cr, hcr, hs⟩ := hrd rest
  exact ⟨bs, cw, w, cr, by simp only [bin_srl.write_bin, hwb, not_true_eq_false, if_false, hw],
    by simp only [bin_srl.read_bin, hrb, not_true_eq_false, if_false, hcr], hs,
    fun ho => same_eq E r _ w ho hs⟩

/-- Witness of C2: the struct `A` of main.cpp, registered as in `test_bin_srl`, and an
instance shaped as `setStruct` fills it (Scenario A). -/
theorem C2_witness :
    main_cpp.E.unordered_sound ∧
    type_info.ctors_fresh main_cpp.E main_cpp.R 3 = true ∧
    type_info.reg_encodable Limits.bin_registered main_cpp.E main_cpp.R 4 (.cls "A") main_cpp.a
      = true ∧
    type_info.reg_fresh main_cpp.E main_cpp.R 3 (.cls "A") (main_cpp.E.default_ctor (.cls "A"))
      = true ∧
    ∃ bs cw w cr, bin_srl.write_bin main_cpp.E main_cpp.R 4 (.cls "A") main_cpp.a = (bs, .ok cw) ∧
      bin_srl.read_bin main_cpp.E main_cpp.R 4 (.cls "A") (main_cpp.E.default_ctor (.cls "A"))
        (ifstream.mk (bs ++ []) true) = .ok (w, cr, ifstream.mk [] true) ∧
      same_object main_cpp.E (.cls "A") main_cpp.a w ∧
      (ordered_only main_cpp.E (.cls "A") main_cpp.a = true → w = main_cpp.a) :=
  ⟨main_cpp_unordered_sound, by decide, by decide, by decide,
    C2_binary_round_trip_records main_cpp.E main_cpp.R 3 4 3 4 "A" main_cpp.a
      (main_cpp.E.default_ctor (.cls "A")) [] main_cpp_unordered_sound
      (by decide) (by decide) (by decide) (by decide)⟩

/-- C3 (amended): for every Record type registered with `RegisterStruct`, whose member list
names each data member once under names that differ as C strings, and every instance `r`
built from integer primitives that fit an `int`, Text without a NUL character (the empty
string included), Sequence, Set and Map of every kind, FixedArray, owning references to an
object and previously registered Records, `xml_srl::write_xml` returns normally and
`xml_srl::read_xml`, run with the same name on the tree it built (under a parent with no
earlier child of that name) into a default-constructed instance, yields an instance whose
every field equals the corresponding field of `r` (the elements of an unordered container
in any order), identical to `r` when `r` holds no unordered container. -/
theorem C3_text_round_trip_records (E : Env) (R : type_info.Registry) (K n k fuel : Nat)
    (c : String) (r d : Val) (name : String) (root : XMLNode) (hE : E.unordered_sound)
    (hK : type_info.ctors_fresh E R K = true)
    (hr : type_info.reg_encodable Limits.xml E R n (.cls c) r = true)
    (hd : type_info.reg_fresh E R k (.cls c) d = true) (hf : n ≤ fuel)
    (hroot : no_child_tagged name root = true) :
    ∃ root1 cw w cr, xml_srl.write_xml E R fuel (.cls c) r name root = (root1, .ok cw) ∧
      xml_srl.read_xml E R fuel (.cls c) d name (some root1) false = .ok (w, cr) ∧
      same_object E (.cls c) r w ∧ (ordered_only E (.cls c) r = true → w = r) := by
  obtain ⟨-, -, -, hwx, hrx⟩ := type_info.reg_encodable_has _ E R n _ r hr
  obtain ⟨node, cw, w, hw, hrd, hs, -⟩ := xml_decoded_by_name _ _ _ _
    (type_info.xml_decoded_registered E R K hK Limits.xml true (fun _ => hE)
      (Limits.xml_leaves E).1 (Limits.xml_leaves E).2.1 (Limits.xml_leaves E).2.2
      n _ r hr k d (type_info.reg_fresh_destination E R k _ d hd) (fun _ => hd) fuel hf)
    (fun name nm r => type_info.reader_xml_child E R fuel _ d name nm r) name root hroot
  exact ⟨tinyxml2.InsertEndChild root node, cw, w, cw,
    by simp only [xml_srl.write_xml, hwx, not_true_eq_false, if_false, hw],
    by simp only [xml_srl.read_xml, locate, hrx, not_true_eq_false, if_false, hrd]; rfl,
    hs rfl, fun ho => same_eq E r _ w ho (hs rfl)⟩

/-- Witness of C3: the struct `B` (the members of `A` of main.cpp other than the `double`),
registered like `A` in `test_xml_srl`, and an instance shaped as `setStruct` fills it. -/
theorem C3_witness :
    main_cpp.E.unordered_sound ∧
    type_info.ctors_fresh main_cpp.E main_cpp.R 3 = true ∧
    type_info.reg_encodable Limits.xml main_cpp.E main_cpp.R 4 (.cls "B") main_cpp.b = true ∧
    type_info.reg_fresh main_cpp.E main_cpp.R 3 (.cls "B") (main_cpp.E.default_ctor (.cls "B"))
      = true ∧
    no_child_tagged "B" main_cpp.root = true ∧
    ∃ root1 cw w cr,
      xml_srl.write_xml main_cpp.E main_cpp.R 4 (.cls "B") main_cpp.b "B" main_cpp.root
        = (root1, .ok cw) ∧
      xml_srl.read_xml main_cpp.E main_cpp.R 4 (.cls "B") (main_cpp.E.default_ctor (.cls "B")) "B"
        (some root1) false = .ok (w, cr) ∧
      same_object main_cpp.E (.cls "B") main_cpp.b w ∧
      (ordered_only main_cpp.E (.cls "B") main_cpp.b = true → w = main_cpp.b) :=
  ⟨main_cpp_unordered_sound, by decide, by decide, by decide, by decide,
    C3_text_round_trip_records main_cpp.E main_cpp.R 3 4 3 4 "B" main_cpp.b
      (main_cpp.E.default_ctor (.cls "B")) "B" main_cpp.root main_cpp_unordered_sound
      (by decide) (by decide) (by decide) (by decide) (by decide)⟩

/-- C31 (amended): for every value `v` of a class-free shape (arithmetic primitives, Text,
Pair, FixedArray, raw and owning references to an object, Sequence, Set and Map of every
kind) or instance of a registered Record of such members (owning references only, the
member list naming each data member once under names that differ as C strings), whose
integer primitives fit an `int` and whose floating-point primitives are printed as a text
that `std::stod` accepts, `xml_srl::write_xml(v, name, parent)` under a parent without a
child of that name inserts one element and returns a number, `xml_srl::read_xml` on that
tree, into any object of the type of `v`, returns the same number, and when fewer than
`2^32` element nodes were inserted the
number returned is the number of element nodes inserted (the value's own node, every
wrapper node and every descendant element) less one for each raw or owning reference in
`v`: the wrapper element of a reference is not counted. -/
theorem C31_text_node_count (E : Env) (R : type_info.Registry) (K n k fuel : Nat)
    (T : Ty) (v d : Val) (name : String) (root : XMLNode)
    (hroot : no_child_tagged name root = true)
    (h : (encodable (Limits.xml_count E) E T v = true ∧ destination T d = true) ∨
      ((∃ c, T = .cls c) ∧ type_info.ctors_fresh E R K = true ∧
        type_info.reg_encodable (Limits.xml_count E) E R n T v = true ∧
        type_info.reg_destination E R k T d = true ∧ n ≤ fuel)) :
    ∃ node cnt w,
      xml_srl.write_xml E R fuel T v name root = (tinyxml2.InsertEndChild root node, .ok cnt) ∧
      xml_srl.read_xml E R fuel T d name (some (tinyxml2.InsertEndChild root node)) false
        = .ok (w, cnt) ∧
      (node.element_count < 2 ^ 32 → cnt + v.reference_count = node.element_count) := by
  rcases h with ⟨hv, hd⟩ | ⟨⟨c, hc⟩, hK, hv, hd, hf⟩
  · obtain ⟨node, cnt, w, hw, hr, -, hcnt⟩ := xml_decoded_by_name _ _ _ _
      (xml_srl.xml_decoded_direct E R fuel (Limits.xml_count E) false
        (fun h => Bool.noConfusion h)
        (Limits.xml_count_leaves E).1 (Limits.xml_count_leaves E).2.1 T v d hv hd
        (fun h => Bool.noConfusion h))
      (fun name nm r => xml_srl.read_xml_child E R fuel T d name nm r
        (encodable_not_cls _ E T v hv))
      name root hroot
    exact ⟨node, cnt, w, hw, hr, hcnt⟩
  · subst hc
    obtain ⟨-, -, -, hwx, hrx⟩ := type_info.reg_encodable_has _ E R n _ v hv
    obtain ⟨node, cnt, w, hw, hr, -, hcnt⟩ := xml_decoded_by_name _ _ _ _
      (type_info.xml_decoded_registered E R K hK (Limits.xml_count E) false
        (fun h => Bool.noConfusion h)
        (Limits.xml_count_leaves E).1 (Limits.xml_count_leaves E).2.1
        (Limits.xml_count_leaves E).2.2 n _ v hv k d hd (fun h => Bool.noConfusion h) fuel hf)
      (fun name nm r => type_info.reader_xml_child E R fuel _ d name nm r) name root hroot
    refine ⟨node, cnt, w, ?_, ?_, hcnt⟩
    · simp only [xml_srl.write_xml, hwx, not_true_eq_false, if_false, hw]
    · simp only [xml_srl.read_xml, locate, hrx, not_true_eq_false, if_false, hr]
      rfl

/-- Witness of C31: the struct `A` of main.cpp with an instance shaped as `setStruct` fills
it, whose member `b` is the `double` 3.14159 and whose member `h` is a `unique_ptr<int>`. -/
theorem C31_witness :
    no_child_tagged "A" main_cpp.root = true ∧
    type_info.ctors_fresh main_cpp.E main_cpp.R 3 = true ∧
    type_info.reg_encodable (Limits.xml_count main_cpp.E) main_cpp.E main_cpp.R 4 (.cls "A")
      main_cpp.a = true ∧
    type_info.reg_destination main_cpp.E main_cpp.R 3 (.cls "A")
      (main_cpp.E.default_ctor (.cls "A")) = true ∧
    main_cpp.a.reference_count = 1 ∧
    ∃ node cnt w,
      xml_srl.write_xml main_cpp.E main_cpp.R 4 (.cls "A") main_cpp.a "A" main_cpp.root
        = (tinyxml2.InsertEndChild main_cpp.root node, .ok cnt) ∧
      xml_srl.read_xml main_cpp.E main_cpp.R 4 (.cls "A") (main_cpp.E.default_ctor (.cls "A"))
          "A" (some (tinyxml2.InsertEndChild main_cpp.root node)) false
        = .ok (w, cnt) ∧
      (node.element_count < 2 ^ 32 → cnt + main_cpp.a.reference_count = node.element_count) :=
  ⟨by decide, by decide, by decide, by decide, by decide,
    C31_text_node_count main_cpp.E main_cpp.R 3 4 3 4 (.cls "A") main_cpp.a
      (main_cpp.E.default_ctor (.cls "A")) "A" main_cpp.root (by decide)
      (Or.inr ⟨⟨"A", rfl⟩, by decide, by decide, by decide, by decide⟩)⟩
